import Mathlib

/-!
# Clixon: YANG min/max-elements and unique validation, defaults, CLI prompt

A shallow embedding of `lib/src/clixon_validate_minmax.c`, of `lib/src/clixon_xml_default.c`
and of `cli_prompt_get` of `apps/cli/cli_plugin.c`.

* The XML tree (`cxobj`) and the YANG schema tree (`yang_stmt`) are finite trees.
  A `yang_stmt` carries its address `ys_addr`; the pointer comparisons of the C
  code (`y == yprev`, `y == xml_spec(x)`, `ych != ye`) are comparisons of addresses.
* Loops over `xml_child_each(xt, x, CX_ELMNT)` are recursions over the child vector
  of `xt` that skip the children that are not elements.
* The three-valued `retval` (1, 0, -1) together with the error tree stored in `*xret`
  is the type `Res`.
* Memory allocation never fails in the model (the `calloc`/`realloc`/`cvec_new` error
  exits and the failure of the error-tree builders are left out).
* A function that changes a tree in place returns the tree as the call leaves it; `none`
  is the error return -1 or, where a recursion is bounded by `fuel`, the end of the fuel.
* Functions of other modules whose source is not at hand are parameters (`Collaborators`,
  `DefaultsEnv`, `GlobalDefaultsEnv`, `PromptEnv`).
-/

namespace Clixon

/-! ## Data model -/

/-- YANG statement keywords (`enum rfc_6020`), the ones the validation and defaults
code looks at; every other keyword is `Y_UNKNOWN`. -/
inductive rfc_6020 where
  | Y_CASE
  | Y_CHOICE
  | Y_CONFIG
  | Y_CONTAINER
  | Y_DEFAULT
  | Y_INPUT
  | Y_KEY
  | Y_LEAF
  | Y_LEAF_LIST
  | Y_LIST
  | Y_MAX_ELEMENTS
  | Y_MIN_ELEMENTS
  | Y_MODULE
  | Y_ORDERED_BY
  | Y_OUTPUT
  | Y_PRESENCE
  | Y_SPEC
  | Y_SUBMODULE
  | Y_UNIQUE
  | Y_WHEN
  | Y_UNKNOWN
  deriving DecidableEq, Repr

/-- CLIgen variable (`cg_var`), seen through its accessors: the `V_UNSET` flag, the
value read by `cv_uint32_get`, by `cv_bool_get`, and the string form (`cv2str_dup`). -/
structure cg_var where
  v_unset : Bool
  var_uint32 : Nat
  var_bool : Bool
  var_string : String
  deriving DecidableEq, Repr

/-- YANG statement (`yang_stmt`): address, keyword, argument, compiled value (`ys_cv`),
vector of names (`ys_cvec`: the key names of a list, the arguments of a `unique`) and
the ordered child statements. -/
inductive yang_stmt where
  | mk (ys_addr : Nat) (ys_keyword : rfc_6020) (ys_argument : String)
      (ys_cv : Option cg_var) (ys_cvec : List String) (ys_stmt : List yang_stmt)

/-- Kind of an XML node (`enum cxobj_type`). -/
inductive cxobj_type where
  | CX_ELMNT
  | CX_ATTR
  | CX_BODY
  deriving DecidableEq, Repr

/-- XML node (`cxobj`): name, kind, flag bitset, bound YANG statement (`xml_spec`),
value (of a body or an attribute) and the child vector (elements, attributes and bodies
in document order). -/
inductive cxobj where
  | mk (x_name : String) (x_type : cxobj_type) (x_flags : Nat)
      (x_spec : Option yang_stmt) (x_value : Option String) (x_childvec : List cxobj)

/-- Error tree stored in `*xret`: the arguments the NETCONF error builder was called with.
`data_not_unique x cvk` is `netconf_data_not_unique_xml(xret, x, cvk)`;
`minmax_elements xp name max` is `netconf_minmax_elements_xml(xret, xp, name, max)`
(`max = false`: too-few-elements, `max = true`: too-many-elements). -/
inductive ErrXml where
  | data_not_unique (x : cxobj) (cvk : List String)
  | minmax_elements (xp : cxobj) (name : String) (max : Bool)

/-- Result of a validation function. `ok` is `retval = 1`; `fail xret mark` is
`retval = 0`, with the error tree stored in `*xret` (if any) and, when the function
flagged a node with `mark` before failing, the index of that node among the element
children counted from the first entry of the run; `error` is `retval = -1`. -/
inductive Res where
  | ok
  | fail (xret : Option ErrXml) (marked : Option Nat)
  | error

/-- The integer the C function returns. -/
def Res.retval : Res → Int
  | .ok => 1
  | .fail _ _ => 0
  | .error => -1

/-- The error tree left in `*xret`. -/
def Res.xret : Res → Option ErrXml
  | .fail e _ => e
  | _ => none

/-- Functions of other Clixon modules that the validation code calls and whose source
is not part of this development: they are parameters.
* `yang_choice y`: the upward choice of `y`, if any;
* `xpath2canonical yu y xpath0`: `xml_nsctx_yang` followed by `xpath2canonical`;
  `none` is the error return, `some none` is return value 0, `some (some xpath1)` is 1;
* `xpath_vec x xpath`: the nodes selected by `xpath` from `x`; `none` is the error return. -/
structure Collaborators where
  yang_choice : yang_stmt → Option yang_stmt
  xpath2canonical : yang_stmt → yang_stmt → String → Option (Option String)
  xpath_vec : cxobj → String → Option (List cxobj)

/-! ## Accessors -/

def yang_addr : yang_stmt → Nat
  | .mk a _ _ _ _ _ => a

def yang_keyword_get : yang_stmt → rfc_6020
  | .mk _ k _ _ _ _ => k

def yang_argument_get : yang_stmt → String
  | .mk _ _ a _ _ _ => a

def yang_cv_get : yang_stmt → Option cg_var
  | .mk _ _ _ cv _ _ => cv

def yang_cvec_get : yang_stmt → List String
  | .mk _ _ _ _ cvk _ => cvk

/-- Child statements, in order (what `yn_iter` and `yn_each` enumerate). -/
def yang_children : yang_stmt → List yang_stmt
  | .mk _ _ _ _ _ ys => ys

/-- Pointer equality of two non-NULL statements. -/
def yang_same (y1 y2 : yang_stmt) : Bool :=
  yang_addr y1 == yang_addr y2

/-- Pointer equality where either side may be NULL. -/
def yang_ptr_eq : Option yang_stmt → Option yang_stmt → Bool
  | none, none => true
  | some y1, some y2 => yang_same y1 y2
  | _, _ => false

/-- Model of `yang_find(yn, keyword, argument)`: the first child statement with that
keyword and, when `argument` is given, that argument. -/
def yang_find (yn : yang_stmt) (keyword : rfc_6020) (argument : Option String) :
    Option yang_stmt :=
  (yang_children yn).find? fun ys =>
    yang_keyword_get ys == keyword &&
      (match argument with
       | none => true
       | some a => yang_argument_get ys == a)

/-- Model of `cv_uint32_get`. -/
def cv_uint32_get : Option cg_var → Nat
  | some cv => cv.var_uint32
  | none => 0

/-- Model of `yang_config(ys)`: the value of the `config` substatement of `ys` itself,
true when there is none. -/
def yang_config (ys : yang_stmt) : Bool :=
  match yang_find ys .Y_CONFIG none with
  | some ym =>
    match yang_cv_get ym with
    | some cv => cv.var_bool
    | none => true
  | none => true

def xml_name : cxobj → String
  | .mk n _ _ _ _ _ => n

def xml_type : cxobj → cxobj_type
  | .mk _ t _ _ _ _ => t

def xml_flags : cxobj → Nat
  | .mk _ _ f _ _ _ => f

def xml_spec : cxobj → Option yang_stmt
  | .mk _ _ _ s _ _ => s

def xml_value : cxobj → Option String
  | .mk _ _ _ _ v _ => v

/-- The whole child vector (`xml_child_each(x, _, -1)`). -/
def xml_childvec : cxobj → List cxobj
  | .mk _ _ _ _ _ cs => cs

/-- Whether `xml_child_each(_, _, CX_ELMNT)` stops at this child. -/
def is_elmnt (x : cxobj) : Bool :=
  xml_type x == .CX_ELMNT

/-- Model of `xml_find(x_up, name)`: the first child, of any kind, with that name; NULL
when `x_up` is not an element. -/
def xml_find (x_up : cxobj) (name : String) : Option cxobj :=
  if xml_type x_up != .CX_ELMNT then none
  else (xml_childvec x_up).find? fun x => xml_name x == name

/-- Model of `xml_body(xn)`: the value of the first body child; NULL when `xn` is not an
element. -/
def xml_body (xn : cxobj) : Option String :=
  if xml_type xn != .CX_ELMNT then none
  else
    match (xml_childvec xn).find? fun xb => xml_type xb == .CX_BODY with
    | some xb => xml_value xb
    | none => none

/-- The element that `xml_child_each(xt, x, CX_ELMNT)` returns, given the children that
follow `x` in the child vector, together with the children that follow it. -/
def xml_child_each_elmnt : List cxobj → Option (cxobj × List cxobj)
  | [] => none
  | x :: rest => if is_elmnt x then some (x, rest) else xml_child_each_elmnt rest

/-- The test `index(str, '/') != NULL`. -/
def has_slash (str : String) : Bool :=
  str.data.contains '/'

/-- Whether the keyword is that of a list or a leaf-list. -/
def is_list_kw (k : rfc_6020) : Bool :=
  k == .Y_LIST || k == .Y_LEAF_LIST

/-- Outcome of one iteration of a loop: go on with a new loop state, or leave the
function with a result. -/
inductive Step (σ : Type) where
  | next (s : σ)
  | stop (r : Res)

/-! ## Duplicate detection in a vector of tuples -/

/-- The matrix `vec` of `check_unique_list_direct`: row `i` holds the tuple of entry `i`;
`vec[i*vlen+v]` is column `v` of row `i`, NULL where nothing was stored. -/
abbrev TupleVec := List (List (Option String))

/-- Entry `vec[i*vlen+v]`. -/
def vec_at (vec : TupleVec) (i v : Nat) : Option String :=
  (vec.getD i []).getD v none

/-- The loop `for (v=0; v<vlen; v++)` of `check_insert_duplicate` ran through: every
`vec[i*vlen+v]` is non-NULL and equal (`strcmp`) to `vec[i1*vlen+v]`. -/
def tuple_equal (vec : TupleVec) (i i1 vlen : Nat) : Bool :=
  (List.range vlen).all fun v =>
    match vec_at vec i v with
    | none => false
    | some b => vec_at vec i1 v == some b

/-- `check_insert_duplicate(vec, i1, vlen, sorted, &dupl)`: `none` is return value 0
(the entry is unique), `some dupl` is return value -1 with `*dupl` set. -/
def check_insert_duplicate (vec : TupleVec) (i1 vlen : Nat) (sorted : Bool) : Option Nat :=
  if sorted then
    if i1 = 0 then none
    else if tuple_equal vec (i1 - 1) i1 vlen then some (i1 - 1) else none
  else
    (List.range i1).find? fun i => tuple_equal vec i i1 vlen

/-! ## check_unique_list_direct -/

/-- The loop `while ((cvi = cvec_each(cvk, cvi)) != NULL)` of `check_unique_list_direct`
for one entry `x`. `none`: a name contains `/` (error). `some (row, complete)`: the
bodies stored in the row, and whether the loop ended with `cvi == NULL`. -/
def collect_tuple (x : cxobj) : List String → Option (List (Option String) × Bool)
  | [] => some ([], true)
  | str :: cvk =>
    if has_slash str then none
    else
      match xml_find x str with
      | none => some ([], false)
      | some xi =>
        match xml_body xi with
        | none => some ([], false)
        | some bi =>
          match collect_tuple x cvk with
          | none => none
          | some (row, complete) => some (some bi :: row, complete)

/-- The flag operation `if (mark) xml_flag_set(xvec[dupl], mark)` as recorded in the
result. -/
def marked_of (mark dupl : Nat) : Option Nat :=
  if mark ≠ 0 then some dupl else none

/-- One iteration of the `do` loop of `check_unique_list_direct` on entry `x`, which is
entry number `vec.length`. -/
def check_unique_list_direct_step (cvk : List String) (sorted : Bool) (mark : Nat)
    (vec : TupleVec) (x : cxobj) : Step TupleVec :=
  match collect_tuple x cvk with
  | none => .stop .error
  | some (row, complete) =>
    if complete then
      match check_insert_duplicate (vec ++ [row]) vec.length cvk.length sorted with
      | some dupl => .stop (.fail (some (.data_not_unique x cvk)) (marked_of mark dupl))
      | none => .next (vec ++ [row])
    else .next (vec ++ [row])

/-- The rest of the `do` loop of `check_unique_list_direct`: `x = xml_child_each(xt, x,
CX_ELMNT); i++` and `while (x && y == xml_spec(x))`, over the children that follow. -/
def check_unique_list_direct_scan (y : yang_stmt) (cvk : List String) (sorted : Bool)
    (mark : Nat) : TupleVec → List cxobj → Res
  | _, [] => .ok
  | vec, x :: rest =>
    if !is_elmnt x then check_unique_list_direct_scan y cvk sorted mark vec rest
    else if !yang_ptr_eq (some y) (xml_spec x) then .ok
    else
      match check_unique_list_direct_step cvk sorted mark vec x with
      | .stop r => r
      | .next vec1 => check_unique_list_direct_scan y cvk sorted mark vec1 rest

/-- `check_unique_list_direct(x, xt, y, yu, mark, xret)`; `rest` is the part of the child
vector of `xt` that follows `x`. -/
def check_unique_list_direct (x : cxobj) (rest : List cxobj) (y yu : yang_stmt)
    (mark : Nat) : Res :=
  let sorted := yang_keyword_get yu == .Y_LIST &&
    (yang_find y .Y_ORDERED_BY (some "user")).isNone
  let cvk := yang_cvec_get yu
  if cvk.length = 0 then .ok
  else
    match check_unique_list_direct_step cvk sorted mark [] x with
    | .stop r => r
    | .next vec => check_unique_list_direct_scan y cvk sorted mark vec rest

/-! ## check_unique_list (XPath mode) -/

/-- The loop `for (i=0; i<xveclen; i++)` of `unique_search_xpath` over the search
results: `none` is `goto fail`, `some svec` is the vector after the loop. -/
def unique_search_xpath_loop : List cxobj → List String → Option (List String)
  | [], svec => some svec
  | xi :: xvec, svec =>
    match xml_body xi with
    | none => some svec
    | some bi =>
      if svec.contains bi then none
      else unique_search_xpath_loop xvec (svec ++ [bi])

/-- `unique_search_xpath(x, xpath, nsc, &svec, &slen)`: `.stop .error` is -1,
`.stop (.fail ..)` is 0 and `.next svec` is 1 with the extended vector. -/
def unique_search_xpath (c : Collaborators) (x : cxobj) (xpath : String)
    (svec : List String) : Step (List String) :=
  match c.xpath_vec x xpath with
  | none => .stop .error
  | some xvec =>
    match unique_search_xpath_loop xvec svec with
    | none => .stop (.fail none none)
    | some svec1 => .next svec1

/-- One iteration of the `do` loop of `check_unique_list` on entry `x`. -/
def check_unique_list_step (c : Collaborators) (cvk : List String) (xpath1 : String)
    (svec : List String) (x : cxobj) : Step (List String) :=
  match unique_search_xpath c x xpath1 svec with
  | .stop .error => .stop .error
  | .stop _ => .stop (.fail (some (.data_not_unique x cvk)) none)
  | .next svec1 => .next svec1

/-- The rest of the `do` loop of `check_unique_list`. -/
def check_unique_list_scan (c : Collaborators) (y : yang_stmt) (cvk : List String)
    (xpath1 : String) : List String → List cxobj → Res
  | _, [] => .ok
  | svec, x :: rest =>
    if !is_elmnt x then check_unique_list_scan c y cvk xpath1 svec rest
    else if !yang_ptr_eq (some y) (xml_spec x) then .ok
    else
      match check_unique_list_step c cvk xpath1 svec x with
      | .stop r => r
      | .next svec1 => check_unique_list_scan c y cvk xpath1 svec1 rest

/-- `check_unique_list(x, xt, y, yu, mark, xret)`; `rest` is the part of the child
vector of `xt` that follows `x`. -/
def check_unique_list (c : Collaborators) (x : cxobj) (rest : List cxobj)
    (y yu : yang_stmt) (mark : Nat) : Res :=
  let cvk := yang_cvec_get yu
  if cvk.length > 1 then check_unique_list_direct x rest y yu mark
  else
    match cvk.head? with
    | none => .error
    | some xpath0 =>
      if !has_slash xpath0 then check_unique_list_direct x rest y yu mark
      else
        match c.xpath2canonical yu y xpath0 with
        | none => .error
        | some none => .fail none none
        | some (some xpath1) =>
          match check_unique_list_step c cvk xpath1 [] x with
          | .stop r => r
          | .next svec => check_unique_list_scan c y cvk xpath1 svec rest

/-! ## min-elements and max-elements -/

/-- `check_minmax(xp, y, nr, xret)`. The count `nr` is never negative in the callers and
is a natural number here. -/
def check_minmax (xp : cxobj) (y : yang_stmt) (nr : Nat) : Res :=
  match
    (match yang_find y .Y_MIN_ELEMENTS none with
     | some ymin => decide (nr < cv_uint32_get (yang_cv_get ymin))
     | none => false) with
  | true => .fail (some (.minmax_elements xp (yang_argument_get y) false)) none
  | false =>
    match
      (match yang_find y .Y_MAX_ELEMENTS none with
       | some ymax => decide (cv_uint32_get (yang_cv_get ymax) > 0) &&
           decide (nr > cv_uint32_get (yang_cv_get ymax))
       | none => false) with
    | true => .fail (some (.minmax_elements xp (yang_argument_get y) true)) none
    | false => .ok

mutual
/-- `check_empty_list_minmax(xt, ye, xret)`. -/
def check_empty_list_minmax (xt : cxobj) : yang_stmt → Res
  | .mk a k arg cv cvk ys =>
    if yang_config (.mk a k arg cv cvk ys) then
      if k == .Y_CONTAINER && (yang_find (.mk a k arg cv cvk ys) .Y_PRESENCE none).isNone then
        check_empty_list_minmax_iter xt ys
      else if k == .Y_LIST || k == .Y_LEAF_LIST then
        check_minmax xt (.mk a k arg cv cvk ys) 0
      else .ok
    else .ok
/-- The loop `while ((yprev = yn_iter(ye, &inext)) != NULL)` of `check_empty_list_minmax`,
which is also the loop that ends `xml_yang_validate_minmax`. -/
def check_empty_list_minmax_iter (xt : cxobj) : List yang_stmt → Res
  | [] => .ok
  | y :: ys =>
    match check_empty_list_minmax xt y with
    | .ok => check_empty_list_minmax_iter xt ys
    | r => r
end

/-! ## New list, new leaf-list -/

/-- The loop `while ((yu = yn_iter(y, &inext)) != NULL)` of `xml_yang_minmax_new_list`. -/
def xml_yang_minmax_new_list_iter (c : Collaborators) (x : cxobj) (rest : List cxobj)
    (y : yang_stmt) : List yang_stmt → Res
  | [] => .ok
  | yu :: ys =>
    if yang_keyword_get yu != .Y_UNIQUE then xml_yang_minmax_new_list_iter c x rest y ys
    else
      match check_unique_list c x rest y yu 0 with
      | .ok => xml_yang_minmax_new_list_iter c x rest y ys
      | r => r

/-- `xml_yang_minmax_new_list(x, xt, y, mark, xret)`; `rest` is the part of the child
vector of `xt` that follows `x`. -/
def xml_yang_minmax_new_list (c : Collaborators) (x : cxobj) (rest : List cxobj)
    (y : yang_stmt) (mark : Nat) : Res :=
  match check_unique_list_direct x rest y y mark with
  | .ok => xml_yang_minmax_new_list_iter c x rest y (yang_children y)
  | r => r

/-- The inner loop `while ((xj = xml_child_each(xt, xj, CX_ELMNT)) != NULL &&
xml_spec(xj) == y0)` of `xml_yang_minmax_new_leaf_list`: whether it reaches an entry whose
body equals `bi`. -/
def leaf_list_search (y0 : yang_stmt) (bi : String) : List cxobj → Bool
  | [] => false
  | xj :: rest =>
    if !is_elmnt xj then leaf_list_search y0 bi rest
    else if !yang_ptr_eq (xml_spec xj) (some y0) then false
    else
      match xml_body xj with
      | none => leaf_list_search y0 bi rest
      | some bj => if bi == bj then true else leaf_list_search y0 bi rest

/-- Body of the outer `do` loop of `xml_yang_minmax_new_leaf_list` on entry `xi`, which
is element number `i` of the run: the failure, if any. -/
def xml_yang_minmax_new_leaf_list_step (y0 : yang_stmt) (mark i : Nat) (xi : cxobj)
    (rest : List cxobj) : Option Res :=
  match xml_body xi with
  | none => none
  | some bi =>
    if leaf_list_search y0 bi rest then
      some (.fail (some (.data_not_unique xi [bi])) (marked_of mark i))
    else none

/-- The rest of the outer `do` loop of `xml_yang_minmax_new_leaf_list`. -/
def xml_yang_minmax_new_leaf_list_scan (y0 : yang_stmt) (mark : Nat) :
    Nat → List cxobj → Res
  | _, [] => .ok
  | i, xi :: rest =>
    if !is_elmnt xi then xml_yang_minmax_new_leaf_list_scan y0 mark i rest
    else if !yang_ptr_eq (xml_spec xi) (some y0) then .ok
    else
      match xml_yang_minmax_new_leaf_list_step y0 mark i xi rest with
      | some r => r
      | none => xml_yang_minmax_new_leaf_list_scan y0 mark (i + 1) rest

/-- `xml_yang_minmax_new_leaf_list(x0, xt, y0, mark, xret)`; `rest` is the part of the
child vector of `xt` that follows `x0`. -/
def xml_yang_minmax_new_leaf_list (x0 : cxobj) (rest : List cxobj) (y0 : yang_stmt)
    (mark : Nat) : Res :=
  match xml_yang_minmax_new_leaf_list_step y0 mark 0 x0 rest with
  | some r => r
  | none => xml_yang_minmax_new_leaf_list_scan y0 mark 1 rest

/-! ## Gap analysis -/

/-- What `xml_yang_minmax_gap_analysis` leaves behind: the return value, `*yep` and the
schema children that `yn_iter(yt, inext)` has not returned yet. -/
structure GapRes where
  ret : Res
  ye : Option yang_stmt
  inext : List yang_stmt

/-- The `do` loop of `xml_yang_minmax_gap_analysis`, entered with `ye` and the schema
children that follow it. -/
def xml_yang_minmax_gap_analysis_loop (xt : cxobj) (ych : Option yang_stmt) :
    yang_stmt → List yang_stmt → GapRes
  | ye, [] =>
    match check_empty_list_minmax xt ye with
    | .ok => ⟨.ok, none, []⟩
    | r => ⟨r, some ye, []⟩
  | ye, ye1 :: inext =>
    match check_empty_list_minmax xt ye with
    | .ok =>
      if yang_ptr_eq (some ye1) ych then ⟨.ok, some ye1, inext⟩
      else xml_yang_minmax_gap_analysis_loop xt ych ye1 inext
    | r => ⟨r, some ye, ye1 :: inext⟩

/-- The statement `ych` of `xml_yang_minmax_gap_analysis`:
`if (y && (ych = yang_choice(y)) == NULL) ych = y;`. -/
def gap_analysis_ych (c : Collaborators) : Option yang_stmt → Option yang_stmt
  | none => none
  | some y =>
    match c.yang_choice y with
    | none => some y
    | some yc => some yc

/-- `xml_yang_minmax_gap_analysis(xt, y, yt, inext, yep, xret)`. -/
def xml_yang_minmax_gap_analysis (c : Collaborators) (xt : cxobj) (y yt : Option yang_stmt)
    (inext : List yang_stmt) (ye : Option yang_stmt) : GapRes :=
  if yt.isSome && !yang_ptr_eq (gap_analysis_ych c y) ye then
    match inext with
    | [] => ⟨.ok, none, []⟩
    | ye1 :: inext1 =>
      if !yang_ptr_eq (gap_analysis_ych c y) (some ye1) then
        xml_yang_minmax_gap_analysis_loop xt (gap_analysis_ych c y) ye1 inext1
      else ⟨.ok, some ye1, inext1⟩
  else ⟨.ok, ye, inext⟩

/-! ## xml_yang_validate_minmax -/

/-- The test `yprev && (yang_keyword_get(yprev) == Y_LIST || yang_keyword_get(yprev) ==
Y_LEAF_LIST)` made inside the traversal. -/
def yprev_is_list : Option yang_stmt → Bool
  | some yprev => yang_keyword_get yprev == .Y_LIST || yang_keyword_get yprev == .Y_LEAF_LIST
  | none => false

/-- The test `yprev && (yang_keyword_get(yprev) == Y_LEAF || yang_keyword_get(yprev) ==
Y_LEAF_LIST)` made after the traversal. -/
def yprev_is_leaf_or_leaf_list : Option yang_stmt → Bool
  | some yprev => yang_keyword_get yprev == .Y_LEAF || yang_keyword_get yprev == .Y_LEAF_LIST
  | none => false

/-- The checks of `xml_yang_validate_minmax` after the traversal: the remaining schema
children, then the min/max check of the last run. -/
def xml_yang_validate_minmax_after (xt : cxobj) (yprev : Option yang_stmt) (nr : Nat)
    (inext : List yang_stmt) : Res :=
  match check_empty_list_minmax_iter xt inext with
  | .ok =>
    match yprev with
    | some yp =>
      if yprev_is_leaf_or_leaf_list (some yp) then check_minmax xt yp nr else .ok
    | none => .ok
  | r => r

/-- The check `if (ret && yprev && ...) ret = check_minmax(xt, yprev, nr, xret)`. -/
def check_minmax_prev (xt : cxobj) (ret : Res) (yprev : Option yang_stmt) (nr : Nat) : Res :=
  match ret, yprev with
  | .ok, some yp => if yprev_is_list (some yp) then check_minmax xt yp nr else .ok
  | r, _ => r

/-- The local variables of `xml_yang_validate_minmax` that live across the traversal:
`yprev`, `ye`, `nr`, and the schema children of `yt` that `yn_iter(yt, &inext)` has not
returned yet. -/
structure MinmaxState where
  yprev : Option yang_stmt
  ye : Option yang_stmt
  nr : Nat
  inext : List yang_stmt

/-- The state `xml_yang_validate_minmax` starts the traversal with. -/
def minmax_init (yt : Option yang_stmt) : MinmaxState :=
  ⟨none, none, 0,
    match yt with
    | some y => yang_children y
    | none => []⟩

/-- One pass through the body of the traversal of `xml_yang_validate_minmax`, for the
child `x` of `xt` followed by the children `rest`. A child that is not an element is not
returned by `xml_child_each` and leaves the state as it is. `sub` is the value of the
recursive call `xml_yang_validate_minmax(x, presence, xret)`, which the body makes for a
non-presence container when `presence` is set. -/
def xml_yang_validate_minmax_step (c : Collaborators) (presence : Bool) (xt : cxobj)
    (yt : Option yang_stmt) (sub : Res) (st : MinmaxState) (x : cxobj)
    (rest : List cxobj) : Step MinmaxState :=
  if !is_elmnt x then .next st
  else
    match xml_spec x with
    | none => .next st
    | some y =>
      if is_list_kw (yang_keyword_get y) then
        if yang_ptr_eq (some y) st.yprev then .next ⟨st.yprev, st.ye, st.nr + 1, st.inext⟩
        else
          let g := xml_yang_minmax_gap_analysis c xt (some y) yt st.inext st.ye
          match check_minmax_prev xt g.ret st.yprev st.nr with
          | .ok =>
            match (if yang_keyword_get y == .Y_LIST then
                     xml_yang_minmax_new_list c x rest y 0 else .ok) with
            | .ok => .next ⟨some y, g.ye, 1, g.inext⟩
            | r => .stop r
          | r => .stop r
      else
        if yang_ptr_eq (some y) st.yprev then
          .stop (.fail (some (.minmax_elements xt (xml_name x) true)) none)
        else
          let g := xml_yang_minmax_gap_analysis c xt (some y) yt st.inext st.ye
          match check_minmax_prev xt g.ret st.yprev st.nr with
          | .ok =>
            let nr1 := if yprev_is_list st.yprev then 0 else st.nr
            if presence && yang_keyword_get y == .Y_CONTAINER &&
                (yang_find y .Y_PRESENCE none).isNone then
              match sub with
              | .ok => .next ⟨some y, g.ye, nr1, g.inext⟩
              | r => .stop r
            else .next ⟨some y, g.ye, nr1, g.inext⟩
          | r => .stop r

mutual
/-- `xml_yang_validate_minmax(xt, presence, xret)`. -/
def xml_yang_validate_minmax (c : Collaborators) (presence : Bool) : cxobj → Res
  | .mk n t f yt v cs =>
    xml_yang_validate_minmax_loop c presence (.mk n t f yt v cs) yt (minmax_init yt) cs
/-- The traversal `while ((x = xml_child_each(xt, x, CX_ELMNT)) != NULL)` of
`xml_yang_validate_minmax` over the children not yet visited, followed by the checks
after the traversal. -/
def xml_yang_validate_minmax_loop (c : Collaborators) (presence : Bool) (xt : cxobj)
    (yt : Option yang_stmt) : MinmaxState → List cxobj → Res
  | st, [] => xml_yang_validate_minmax_after xt st.yprev st.nr st.inext
  | st, x :: rest =>
    match xml_yang_validate_minmax_step c presence xt yt
        (xml_yang_validate_minmax c presence x) st x rest with
    | .stop r => r
    | .next st1 => xml_yang_validate_minmax_loop c presence xt yt st1 rest
end

/-! ## xml_yang_validate_unique -/

/-- One pass through the body of the traversal of `xml_yang_validate_unique`, for the
child `x` followed by the children `rest`; the state is `yprev`. -/
def xml_yang_validate_unique_step (c : Collaborators) (yprev : Option yang_stmt)
    (x : cxobj) (rest : List cxobj) : Step (Option yang_stmt) :=
  if !is_elmnt x then .next yprev
  else
    match xml_spec x with
    | none => .next yprev
    | some y =>
      if is_list_kw (yang_keyword_get y) then
        if yang_ptr_eq (some y) yprev then .next yprev
        else
          match (if yang_keyword_get y == .Y_LIST then xml_yang_minmax_new_list c x rest y 0
                 else xml_yang_minmax_new_leaf_list x rest y 0) with
          | .ok => .next (some y)
          | r => .stop r
      else .next yprev

/-- The traversal of `xml_yang_validate_unique` over the children not yet visited. -/
def xml_yang_validate_unique_loop (c : Collaborators) :
    Option yang_stmt → List cxobj → Res
  | _, [] => .ok
  | yprev, x :: rest =>
    match xml_yang_validate_unique_step c yprev x rest with
    | .stop r => r
    | .next yprev1 => xml_yang_validate_unique_loop c yprev1 rest

/-- `xml_yang_validate_unique(xt, xret)`. -/
def xml_yang_validate_unique (c : Collaborators) (xt : cxobj) : Res :=
  xml_yang_validate_unique_loop c none (xml_childvec xt)

/-! ## Definitions used in the statements -/

/-- Value of the `min-elements` substatement of `y`, if there is one. -/
def yang_min_elements (y : yang_stmt) : Option Nat :=
  (yang_find y .Y_MIN_ELEMENTS none).map fun ymin => cv_uint32_get (yang_cv_get ymin)

/-- Value of the `max-elements` substatement of `y`, if there is one. -/
def yang_max_elements (y : yang_stmt) : Option Nat :=
  (yang_find y .Y_MAX_ELEMENTS none).map fun ymax => cv_uint32_get (yang_cv_get ymax)

/-- `gap_reachable ys L`: the statement `L` is one of `ys`, or is reached from one of `ys`
through a chain of config-true containers without `presence`. -/
inductive gap_reachable : List yang_stmt → yang_stmt → Prop where
  | child {ys : List yang_stmt} {L : yang_stmt} : L ∈ ys → gap_reachable ys L
  | descend {ys : List yang_stmt} {yc L : yang_stmt} : yc ∈ ys → yang_config yc = true →
      yang_keyword_get yc = .Y_CONTAINER → yang_find yc .Y_PRESENCE none = none →
      gap_reachable (yang_children yc) L → gap_reachable ys L

/-- A config-true list or leaf-list with `min-elements` at least 1. -/
def missing_min_list (L : yang_stmt) : Prop :=
  is_list_kw (yang_keyword_get L) = true ∧ yang_config L = true ∧
    ∃ n, yang_min_elements L = some n ∧ 1 ≤ n

/-- What the gap check over the statements `ys` returns: 1 when no config-true list with
`min-elements` at least 1 is reachable from `ys`, else 0 with too-few-elements for such a
list, reported against `xt`. -/
def GapSpec (xt : cxobj) (ys : List yang_stmt) (r : Res) : Prop :=
  (r = .ok ∧ ¬ ∃ L, gap_reachable ys L ∧ missing_min_list L) ∨
  (∃ L, gap_reachable ys L ∧ missing_min_list L ∧
    r = .fail (some (.minmax_elements xt (yang_argument_get L) false)) none)

/-- The traversal of `xml_yang_validate_minmax` over the children `pre` of `xt`, which are
followed by the children `post`: the state with which the traversal arrives at `post`, or
the result with which the function returns before that. -/
def xml_yang_validate_minmax_run (c : Collaborators) (presence : Bool) (xt : cxobj)
    (yt : Option yang_stmt) : MinmaxState → List cxobj → List cxobj → Step MinmaxState
  | st, [], _ => .next st
  | st, x :: pre, post =>
    match xml_yang_validate_minmax_step c presence xt yt
        (xml_yang_validate_minmax c presence x) st x (pre ++ post) with
    | .stop r => .stop r
    | .next st1 => xml_yang_validate_minmax_run c presence xt yt st1 pre post

/-- The traversal of `xml_yang_validate_unique` over the children `pre`, which are followed
by the children `post`: the value of `yprev` with which the traversal arrives at `post`, or
the result with which the function returns before that. -/
def xml_yang_validate_unique_run (c : Collaborators) :
    Option yang_stmt → List cxobj → List cxobj → Step (Option yang_stmt)
  | yprev, [], _ => .next yprev
  | yprev, x :: pre, post =>
    match xml_yang_validate_unique_step c yprev x (pre ++ post) with
    | .stop r => .stop r
    | .next yprev1 => xml_yang_validate_unique_run c yprev1 pre post

/-- Sequencing of two checks: the second is made only when the first returned 1. -/
def Res.seq (r k : Res) : Res :=
  match r with
  | .ok => k
  | r => r

/-- Leave the loop with `r` unless `r` is return value 1; then go on with state `s`. -/
def Res.toStep {σ : Type} (r : Res) (s : σ) : Step σ :=
  match r with
  | .ok => .next s
  | r => .stop r

/-! ## Example schemas and trees -/

/-- Collaborators for schemas without choice and without XPath `unique` arguments. -/
def ex_none : Collaborators := ⟨fun _ => none, fun _ _ _ => none, fun _ _ => none⟩

/-- A body node with value `s`. -/
def ex_body (s : String) : cxobj := .mk "body" .CX_BODY 0 none (some s) []

/-- The statement `min-elements n` at address `a`. -/
def ex_min (a n : Nat) : yang_stmt :=
  .mk a .Y_MIN_ELEMENTS (toString n) (some ⟨false, n, false, toString n⟩) [] []

/-- The statement `max-elements n` at address `a`. -/
def ex_max (a n : Nat) : yang_stmt :=
  .mk a .Y_MAX_ELEMENTS (toString n) (some ⟨false, n, false, toString n⟩) [] []

/-- The statement `leaf name` (no default) at address `a`. -/
def ex_leaf (a : Nat) (name : String) : yang_stmt := .mk a .Y_LEAF name none [] []

/-- An element `<name>s</name>` bound to `y`. -/
def ex_elem (name : String) (y : yang_stmt) (s : String) : cxobj :=
  .mk name .CX_ELMNT 0 (some y) none [ex_body s]

/-- The schema `list x { key "k"; min-elements 1; leaf k; }`. -/
def ex_list_min1 : yang_stmt := .mk 10 .Y_LIST "x" none ["k"] [ex_min 11 1, ex_leaf 12 "k"]

/-- The schema `container b { list x { key "k"; min-elements 1; leaf k; } }`. -/
def ex_cont_b : yang_stmt := .mk 2 .Y_CONTAINER "b" none [] [ex_list_min1]

/-- The schema `container c { container b { list x { ... } } }`. -/
def ex_cont_c : yang_stmt := .mk 1 .Y_CONTAINER "c" none [] [ex_cont_b]

/-- The tree `<c/>` bound to `ex_cont_c`. -/
def ex_c_empty : cxobj := .mk "c" .CX_ELMNT 0 (some ex_cont_c) none []

/-- The schema `container c { leaf a; }`. -/
def ex_cont_leaf : yang_stmt := .mk 20 .Y_CONTAINER "c" none [] [ex_leaf 21 "a"]

/-- The tree `<c><a>1</a><a>2</a></c>` bound to `ex_cont_leaf`. -/
def ex_c_two_leaves : cxobj :=
  .mk "c" .CX_ELMNT 0 (some ex_cont_leaf) none
    [ex_elem "a" (ex_leaf 21 "a") "1", ex_elem "a" (ex_leaf 21 "a") "2"]

/-- The schema `list x { key "k"; max-elements 1; leaf k; }`. -/
def ex_list_max1 : yang_stmt := .mk 30 .Y_LIST "x" none ["k"] [ex_max 31 1, ex_leaf 32 "k"]

/-- The schema `leaf z` that follows the list in `ex_cont_max`. -/
def ex_leaf_z : yang_stmt := ex_leaf 33 "z"

/-- The schema `container c { list x { key "k"; max-elements 1; leaf k; } leaf z; }`. -/
def ex_cont_max : yang_stmt := .mk 3 .Y_CONTAINER "c" none [] [ex_list_max1, ex_leaf_z]

/-- The list entry `<x><k>s</k></x>` bound to `y`, whose key leaf is bound to `yk`. -/
def ex_entry (y yk : yang_stmt) (s : String) : cxobj :=
  .mk "x" .CX_ELMNT 0 (some y) none [ex_elem "k" yk s]

/-- The tree `<c><x><k>a</k></x><x><k>b</k></x></c>`: two entries, `max-elements 1`. -/
def ex_c_two_entries : cxobj :=
  .mk "c" .CX_ELMNT 0 (some ex_cont_max) none
    [ex_entry ex_list_max1 (ex_leaf 32 "k") "a", ex_entry ex_list_max1 (ex_leaf 32 "k") "b"]

/-- The tree `<c><x><k>a</k></x><x><k>b</k></x><z>1</z></c>`: the same two entries,
followed by a leaf. -/
def ex_c_two_entries_z : cxobj :=
  .mk "c" .CX_ELMNT 0 (some ex_cont_max) none
    [ex_entry ex_list_max1 (ex_leaf 32 "k") "a", ex_entry ex_list_max1 (ex_leaf 32 "k") "b",
     ex_elem "z" ex_leaf_z "1"]

/-- The schema `list x { key "k"; leaf k; }`. -/
def ex_list_plain : yang_stmt := .mk 40 .Y_LIST "x" none ["k"] [ex_leaf 42 "k"]

/-- The schema `leaf-list l`. -/
def ex_leaf_list : yang_stmt := .mk 43 .Y_LEAF_LIST "l" none [] []

/-- The schema `container c { list x { key "k"; leaf k; } leaf-list l; }`. -/
def ex_cont_plain : yang_stmt := .mk 4 .Y_CONTAINER "c" none [] [ex_list_plain, ex_leaf_list]

/-- An element `<u/>` without bound schema node. -/
def ex_unbound : cxobj := .mk "u" .CX_ELMNT 0 none none []

/-- The tree `<c><x><k>a</k></x><x><k>a</k></x></c>`: a duplicate key. -/
def ex_c_dup : cxobj :=
  .mk "c" .CX_ELMNT 0 (some ex_cont_plain) none
    [ex_entry ex_list_plain (ex_leaf 42 "k") "a", ex_entry ex_list_plain (ex_leaf 42 "k") "a"]

/-- The tree `<c><x><k>a</k></x><u/><x><k>a</k></x></c>`: the same entries with an unbound
element between them. -/
def ex_c_dup_unbound : cxobj :=
  .mk "c" .CX_ELMNT 0 (some ex_cont_plain) none
    [ex_entry ex_list_plain (ex_leaf 42 "k") "a", ex_unbound,
     ex_entry ex_list_plain (ex_leaf 42 "k") "a"]

/-- The tree `<c><l>a</l><u/><l>a</l></c>`: a leaf-list with two equal entries and an
unbound element between them. -/
def ex_c_ll_dup_unbound : cxobj :=
  .mk "c" .CX_ELMNT 0 (some ex_cont_plain) none
    [ex_elem "l" ex_leaf_list "a", ex_unbound, ex_elem "l" ex_leaf_list "a"]

/-- The tree `<c><l>a</l><l>a</l></c>`. -/
def ex_c_ll_dup : cxobj :=
  .mk "c" .CX_ELMNT 0 (some ex_cont_plain) none
    [ex_elem "l" ex_leaf_list "a", ex_elem "l" ex_leaf_list "a"]

/-- Whether `x` is an element child bound to the statement `L` (same address). -/
def bound_to (L : yang_stmt) (x : cxobj) : Bool :=
  is_elmnt x && yang_ptr_eq (some L) (xml_spec x)

/-- Number of element children among `cs` that are bound to `L`. -/
def xml_count_bound (L : yang_stmt) (cs : List cxobj) : Nat :=
  (cs.filter (bound_to L)).length

/-- Whether `x` is an element child bound to some statement. -/
def is_bound_elmnt (x : cxobj) : Bool :=
  is_elmnt x && (xml_spec x).isSome

/-- The count invariant used for a list `L`: while the traversal is in a run of `L`,
`yprev` is `L` and `nr` is at most `m`. -/
def run_count_inv (L : yang_stmt) (m : Nat) (st : MinmaxState) : Prop :=
  yang_ptr_eq (some L) st.yprev = true → st.yprev = some L ∧ st.nr ≤ m

/-- The statement `config false` at address `a`. -/
def ex_config_false (a : Nat) : yang_stmt :=
  .mk a .Y_CONFIG "false" (some ⟨false, 0, false, "false"⟩) [] []

/-- The schema `list x { config false; key "k"; min-elements 1; leaf k; }`. -/
def ex_list_state : yang_stmt :=
  .mk 50 .Y_LIST "x" none ["k"] [ex_config_false 51, ex_min 52 1, ex_leaf 53 "k"]

/-- The schema `container c { list x { config false; key "k"; min-elements 1; ... } }`. -/
def ex_cont_state : yang_stmt := .mk 5 .Y_CONTAINER "c" none [] [ex_list_state]

/-- The tree `<c/>` bound to `ex_cont_state`. -/
def ex_c_state : cxobj := .mk "c" .CX_ELMNT 0 (some ex_cont_state) none []

/-- The statement `unique "a/b c"` at address `a`. -/
def ex_unique_multi (a : Nat) : yang_stmt := .mk a .Y_UNIQUE "a/b c" none ["a/b", "c"] []

/-- The schema `list m { key "k"; unique "a/b c"; leaf k; }`. -/
def ex_list_m : yang_stmt := .mk 60 .Y_LIST "m" none ["k"] [ex_unique_multi 61, ex_leaf 62 "k"]

/-- The schema `container c { list m { ... unique "a/b c"; } list x { key "k";
min-elements 1; leaf k; } }`. -/
def ex_cont_m : yang_stmt := .mk 6 .Y_CONTAINER "c" none [] [ex_list_m, ex_list_min1]

/-- The entry `<m><k>s</k></m>` of `ex_list_m`. -/
def ex_entry_m (s : String) : cxobj :=
  .mk "m" .CX_ELMNT 0 (some ex_list_m) none [ex_elem "k" (ex_leaf 62 "k") s]

/-- The tree `<c><m><k>1</k></m></c>` bound to `ex_cont_m`: no entry of `x`. -/
def ex_c_m : cxobj := .mk "c" .CX_ELMNT 0 (some ex_cont_m) none [ex_entry_m "1"]

/-- The schema `list x { key "k"; min-elements 2; leaf k; }`. -/
def ex_list_min2 : yang_stmt := .mk 70 .Y_LIST "x" none ["k"] [ex_min 71 2, ex_leaf 72 "k"]

/-- The schema `container c { list x { key "k"; min-elements 2; leaf k; } leaf z; }`. -/
def ex_cont_min2 : yang_stmt := .mk 7 .Y_CONTAINER "c" none [] [ex_list_min2, ex_leaf 73 "z"]

/-- The tree `<c><x><k>a</k></x><z>1</z></c>`: one entry where `min-elements` is 2. -/
def ex_c_one_entry_z : cxobj :=
  .mk "c" .CX_ELMNT 0 (some ex_cont_min2) none
    [ex_entry ex_list_min2 (ex_leaf 72 "k") "a", ex_elem "z" (ex_leaf 73 "z") "1"]

/-- The key tuple of entry `x`: the bodies of the children named by `cvk`, when `x` has a
body for every one of these names. -/
def key_tuple (x : cxobj) : List String → Option (List String)
  | [] => some []
  | k :: ks =>
    match xml_find x k with
    | none => none
    | some xi =>
      match xml_body xi with
      | none => none
      | some b =>
        match key_tuple x ks with
        | none => none
        | some t => some (b :: t)

/-- Whether `x` is an entry of the list or leaf-list `y`: an element bound to `y`. -/
def is_entry (y : yang_stmt) (x : cxobj) : Prop :=
  is_elmnt x = true ∧ xml_spec x = some y

/-- The value of `sorted` in `check_unique_list_direct`. -/
def direct_sorted (y yu : yang_stmt) : Bool :=
  yang_keyword_get yu == .Y_LIST && (yang_find y .Y_ORDERED_BY (some "user")).isNone

/-- The loop goes on with `k` from the new state, or the function returns. -/
def Step.andThen {σ : Type} (s : Step σ) (k : σ → Res) : Res :=
  match s with
  | .stop r => r
  | .next s1 => k s1

/-- The schema `container c { list m { key "k"; unique "a/b c"; leaf k; } list x { key "k";
leaf k; } }`. -/
def ex_cont_m_plain : yang_stmt := .mk 8 .Y_CONTAINER "c" none [] [ex_list_m, ex_list_plain]

/-- The schema `container c { leaf-list l; list x { key "k"; leaf k; } }`. -/
def ex_cont_ll_plain : yang_stmt := .mk 44 .Y_CONTAINER "c" none [] [ex_leaf_list, ex_list_plain]

/-- The tree `<c><l>b</l><l>b</l><x><k>a</k></x><x><k>a</k></x></c>`. -/
def ex_c_ll_dup_then_dup : cxobj :=
  .mk "c" .CX_ELMNT 0 (some ex_cont_ll_plain) none
    [ex_elem "l" ex_leaf_list "b", ex_elem "l" ex_leaf_list "b",
     ex_entry ex_list_plain (ex_leaf 42 "k") "a", ex_entry ex_list_plain (ex_leaf 42 "k") "a"]

/-- The tree `<c><m><k>1</k></m><x><k>a</k></x><x><k>a</k></x></c>`. -/
def ex_c_m_dup : cxobj :=
  .mk "c" .CX_ELMNT 0 (some ex_cont_m_plain) none
    [ex_entry_m "1", ex_entry ex_list_plain (ex_leaf 42 "k") "a",
     ex_entry ex_list_plain (ex_leaf 42 "k") "a"]

/-- The statement `unique "v"` at address `a`. -/
def ex_unique_v (a : Nat) : yang_stmt := .mk a .Y_UNIQUE "v" none ["v"] []

/-- The schema `list x { key "k"; unique "v"; leaf k; leaf v; }`. -/
def ex_list_uv : yang_stmt :=
  .mk 80 .Y_LIST "x" none ["k"] [ex_unique_v 81, ex_leaf 82 "k", ex_leaf 83 "v"]

/-- The schema `container c { list x { key "k"; unique "v"; leaf k; leaf v; } }`. -/
def ex_cont_uv : yang_stmt := .mk 9 .Y_CONTAINER "c" none [] [ex_list_uv]

/-- The entry `<x><k>k</k><v>v</v></x>` of `ex_list_uv`. -/
def ex_entry_kv (k v : String) : cxobj :=
  .mk "x" .CX_ELMNT 0 (some ex_list_uv) none
    [ex_elem "k" (ex_leaf 82 "k") k, ex_elem "v" (ex_leaf 83 "v") v]

/-- The tree `<c><x><k>a</k><v>1</v></x><x><k>b</k><v>2</v></x></c>`. -/
def ex_c_kv : cxobj :=
  .mk "c" .CX_ELMNT 0 (some ex_cont_uv) none [ex_entry_kv "a" "1", ex_entry_kv "b" "2"]

/-- The body strings of the nodes that the path `xpath` selects from entry `x`. -/
def selected_bodies (c : Collaborators) (xpath : String) (x : cxobj) : List String :=
  match c.xpath_vec x xpath with
  | some xvec => xvec.filterMap xml_body
  | none => []

/-- The evaluation of `xpath` on entry `x` succeeds and every selected node has a body. -/
def selects_bodies (c : Collaborators) (xpath : String) (x : cxobj) : Prop :=
  ∃ xvec, c.xpath_vec x xpath = some xvec ∧ ∀ n ∈ xvec, ∃ b, xml_body n = some b

/-- The elements reached from `x` by the child names `path`. -/
def ex_select (x : cxobj) : List String → List cxobj
  | [] => [x]
  | n :: ns =>
    ((xml_childvec x).filter fun x1 => is_elmnt x1 && xml_name x1 == n).foldr
      (fun x1 acc => ex_select x1 ns ++ acc) []

/-- Collaborators for the schemas with `unique "a/b"`: no choice, the path is its own
canonical form, and `a/b` selects the children `b` of the children `a`. -/
def ex_xpath : Collaborators :=
  ⟨fun _ => none, fun _ _ s => some (some s),
   fun x xpath => if xpath == "a/b" then some (ex_select x ["a", "b"]) else none⟩

/-- The statement `unique "a/b"` at address `a`. -/
def ex_unique_ab (a : Nat) : yang_stmt := .mk a .Y_UNIQUE "a/b" none ["a/b"] []

/-- The schema `container a { leaf b; }` inside the lists with `unique "a/b"`. -/
def ex_cont_a : yang_stmt := .mk 93 .Y_CONTAINER "a" none [] [ex_leaf 94 "b"]

/-- The schema `list l { key "k"; unique "a/b"; leaf k; container a { leaf b; } }`. -/
def ex_list_ab : yang_stmt :=
  .mk 90 .Y_LIST "l" none ["k"] [ex_unique_ab 91, ex_leaf 92 "k", ex_cont_a]

/-- The entry `<l><k>k</k><a><b>b</b></a></l>` bound to `y`. -/
def ex_entry_ab (y : yang_stmt) (k b : String) : cxobj :=
  .mk "l" .CX_ELMNT 0 (some y) none
    [ex_elem "k" (ex_leaf 92 "k") k,
     .mk "a" .CX_ELMNT 0 (some ex_cont_a) none [ex_elem "b" (ex_leaf 94 "b") b]]

/-- The tree `<c>` with two entries of `ex_list_ab` that have different keys and the same
`a/b`. -/
def ex_c_ab : cxobj :=
  .mk "c" .CX_ELMNT 0 (some (.mk 95 .Y_CONTAINER "c" none [] [ex_list_ab])) none
    [ex_entry_ab ex_list_ab "1" "x", ex_entry_ab ex_list_ab "2" "x"]

/-- The schema `list l { key "k"; unique "a/b c"; unique "a/b"; leaf k; container a {
leaf b; } }`. -/
def ex_list_ab2 : yang_stmt :=
  .mk 96 .Y_LIST "l" none ["k"] [ex_unique_multi 97, ex_unique_ab 91, ex_leaf 92 "k", ex_cont_a]

/-- The tree `<c>` with two entries of `ex_list_ab2` that have different keys and the same
`a/b`. -/
def ex_c_ab2 : cxobj :=
  .mk "c" .CX_ELMNT 0 (some (.mk 98 .Y_CONTAINER "c" none [] [ex_list_ab2])) none
    [ex_entry_ab ex_list_ab2 "1" "x", ex_entry_ab ex_list_ab2 "2" "x"]

/-- The node that the call flagged (`xml_flag_set(.., mark)`), if any: the only write to
the XML tree that the validation functions can make. -/
def Res.marked : Res → Option Nat
  | .fail _ m => m
  | _ => none

mutual
/-- The traversal `xml_apply(xn, CX_ELMNT, fn, arg)` of `clixon_xml.c` (not part of this
development) for a callback that leaves the tree as it is, following the callback contract
stated at `xml_yang_minmax_apply`: `fn` is called on every element child, then the
traversal descends into the child; value 1 of the callback (here `Res.fail`, with the error
tree it stored) or -1 (`Res.error`) ends the traversal with that value, value 0
(`Res.ok`) goes on. The callbacks of this file never return 2. -/
def xml_apply (fn : cxobj → Res) : cxobj → Res
  | .mk _ _ _ _ _ cs => xml_apply_each fn cs
/-- The loop of `xml_apply` over the children not yet visited. -/
def xml_apply_each (fn : cxobj → Res) : List cxobj → Res
  | [] => .ok
  | x :: rest =>
    if !is_elmnt x then xml_apply_each fn rest
    else
      match fn x with
      | .ok =>
        match xml_apply fn x with
        | .ok => xml_apply_each fn rest
        | r => r
      | r => r
end

/-- `xml_apply0(xn, CX_ELMNT, fn, arg)`: the callback on `xn` itself, then `xml_apply`. -/
def xml_apply0 (fn : cxobj → Res) (xn : cxobj) : Res :=
  match fn xn with
  | .ok => xml_apply fn xn
  | r => r

/-- `xml_yang_validate_minmax_recurse(xt, xret)`: `xml_apply0` with the callback
`xml_yang_minmax_apply`, which calls `xml_yang_validate_minmax(x, 1, xret)` and turns
return value 0 into "abort" and 1 into "continue"; "abort" becomes return value 0. -/
def xml_yang_validate_minmax_recurse (c : Collaborators) (xt : cxobj) : Res :=
  xml_apply0 (xml_yang_validate_minmax c true) xt

/-- `xml_yang_validate_unique_recurse(xt, xret)`: `xml_apply0` with the callback
`xml_yang_unique_apply`. -/
def xml_yang_validate_unique_recurse (c : Collaborators) (xt : cxobj) : Res :=
  xml_apply0 (xml_yang_validate_unique c) xt

/-- Collaborators for which the canonicalisation of every `unique` path returns 0 (the
path cannot be canonicalised: a prefix of it has no namespace). -/
def ex_nocanon : Collaborators := ⟨fun _ => none, fun _ _ _ => some none, fun _ _ => none⟩

/-- The statement `unique "c a/b"` at address `a`. -/
def ex_unique_c_ab (a : Nat) : yang_stmt := .mk a .Y_UNIQUE "c a/b" none ["c", "a/b"] []

/-- The schema `list l { key "k"; unique "c a/b"; leaf k; leaf c; container a { leaf b; } }`. -/
def ex_list_c_ab : yang_stmt :=
  .mk 100 .Y_LIST "l" none ["k"]
    [ex_unique_c_ab 101, ex_leaf 92 "k", ex_leaf 102 "c", ex_cont_a]

/-- The entry `<l><k>1</k><c>7</c><a><b>x</b></a></l>` of `ex_list_c_ab`. -/
def ex_entry_c_ab : cxobj :=
  .mk "l" .CX_ELMNT 0 (some ex_list_c_ab) none
    [ex_elem "k" (ex_leaf 92 "k") "1", ex_elem "c" (ex_leaf 102 "c") "7",
     .mk "a" .CX_ELMNT 0 (some ex_cont_a) none [ex_elem "b" (ex_leaf 94 "b") "x"]]

/-- Statements of children of `cs` that have the same address have the same keyword. -/
def same_addr_same_kw (cs : List cxobj) : Prop :=
  ∀ x1 ∈ cs, ∀ x2 ∈ cs, ∀ y1 y2, xml_spec x1 = some y1 → xml_spec x2 = some y2 →
    yang_same y1 y2 = true → yang_keyword_get y1 = yang_keyword_get y2

/-- No child of `cs` is bound to a leaf-list. -/
def no_leaf_list_entry (cs : List cxobj) : Prop :=
  ∀ x ∈ cs, ∀ y, xml_spec x = some y → yang_keyword_get y ≠ .Y_LEAF_LIST

/-- The tree `<b/>` bound to `ex_cont_b`: the list `x` with `min-elements 1` has no
entry. -/
def ex_b_empty : cxobj := .mk "b" .CX_ELMNT 0 (some ex_cont_b) none []

/-- The tree `<c><b/></c>` bound to `ex_cont_c`, whose child `b` is a non-presence
container. -/
def ex_c_with_b : cxobj := .mk "c" .CX_ELMNT 0 (some ex_cont_c) none [ex_b_empty]

/-- Modelled from the spec: the flag bits of `clixon_xml.h`, which is not part of this
development; the spec names the flags (CHANGE, ADD, DEL, DEFAULT, MARK) without their
values. `XML_FLAG_DEL` marks a node for deletion. -/
def XML_FLAG_DEL : Nat := 0x08

/-- `xml_flag_set(x, flag)`: the node with the bits of `flag` set. -/
def xml_flag_set (x : cxobj) (flag : Nat) : cxobj :=
  match x with
  | .mk n t f s v cs => .mk n t (f ||| flag) s v cs

/-- `xml_flag(x, flag)`: the bits of `flag` that are set on `x`. -/
def xml_flag (x : cxobj) (flag : Nat) : Nat :=
  xml_flags x &&& flag

/-- The node `x` with the child vector `cs`. -/
def xml_childvec_set (x : cxobj) (cs : List cxobj) : cxobj :=
  match x with
  | .mk n t f s v _ => .mk n t f s v cs

/-- The write `xml_flag_set(xvec[dupl], mark)` that a result records, made on the children
from the first entry of the run on: `dupl` counts the element children. -/
def xml_flag_set_nth (mark : Nat) : Nat → List cxobj → List cxobj
  | _, [] => []
  | d, x :: rest =>
    if !is_elmnt x then x :: xml_flag_set_nth mark d rest
    else
      match d with
      | 0 => xml_flag_set x mark :: rest
      | d + 1 => x :: xml_flag_set_nth mark d rest

/-- The children from the first entry of a run on, after the flag operation that the
result of the check of that run records (none when no node was flagged). -/
def xml_flag_set_marked (mark : Nat) : Option Nat → List cxobj → List cxobj
  | some d, run => xml_flag_set_nth mark d run
  | none, run => run

/-- Modelled from the spec: `xml_tree_prune_flags1(xt, flags, mask, 0, &removed)` of
`clixon_xml_map.c`, which is not part of this development ("each iteration may prune the
tree"): every element child whose flags under `mask` equal `flags` is removed from the
child vector, one level deep. -/
def xml_tree_prune_flags1 (flags mask : Nat) (cs : List cxobj) : List cxobj :=
  cs.filter fun x => !(is_elmnt x && xml_flag x mask == flags)

/-- Whether `xml_tree_prune_flags1` removes a child (`*removed`). -/
def xml_tree_prune_removed (flags mask : Nat) (cs : List cxobj) : Bool :=
  cs.any fun x => is_elmnt x && xml_flag x mask == flags

/-- One pass through the body of the inner loop of `xml_duplicate_remove`, for the child
`x` followed by the children `rest`; the state is `yprev`. The checks are those of
`xml_yang_validate_unique`, made with the mark `XML_FLAG_DEL`. -/
def xml_duplicate_remove_step (c : Collaborators) (yprev : Option yang_stmt)
    (x : cxobj) (rest : List cxobj) : Step (Option yang_stmt) :=
  if !is_elmnt x then .next yprev
  else
    match xml_spec x with
    | none => .next yprev
    | some y =>
      if is_list_kw (yang_keyword_get y) then
        if yang_ptr_eq (some y) yprev then .next yprev
        else
          match (if yang_keyword_get y == .Y_LIST then
                   xml_yang_minmax_new_list c x rest y XML_FLAG_DEL
                 else xml_yang_minmax_new_leaf_list x rest y XML_FLAG_DEL) with
          | .ok => .next (some y)
          | r => .stop r
      else .next yprev

/-- The inner loop `while ((x = xml_child_each(xt, x, CX_ELMNT)) != NULL)` of
`xml_duplicate_remove` over the children not yet visited, `pre` being those already
visited: `none` when the loop runs through, else the result of the check that did not
return 1, with the children before the run it was made on and the children from its first
entry on. -/
def xml_duplicate_remove_scan (c : Collaborators) :
    Option yang_stmt → List cxobj → List cxobj → Option (Res × List cxobj × List cxobj)
  | _, _, [] => none
  | yprev, pre, x :: rest =>
    match xml_duplicate_remove_step c yprev x rest with
    | .stop r => some (r, pre, x :: rest)
    | .next yprev1 => xml_duplicate_remove_scan c yprev1 (pre ++ [x]) rest

/-- The loop `while (again)` of `xml_duplicate_remove` on the child vector `cs`, at most
`fuel` prunings (`none`: more are needed). The result is the callback value (`Res.ok`:
0, continue; `Res.fail`: 1, abort, with the error tree in `*xret`; `Res.error`: -1) and the
child vector left behind. When the check fails, the node it recorded is flagged and the
flagged children are pruned; if a child was removed the error tree is dropped and the
children are scanned again. -/
def xml_duplicate_remove_loop (c : Collaborators) : Nat → List cxobj → Option (Res × List cxobj)
  | fuel, cs =>
    match xml_duplicate_remove_scan c none [] cs with
    | none => some (.ok, cs)
    | some (.fail e m, pre, run) =>
      let cs1 := pre ++ xml_flag_set_marked XML_FLAG_DEL m run
      if xml_tree_prune_removed XML_FLAG_DEL XML_FLAG_DEL cs1 then
        match fuel with
        | 0 => none
        | fuel1 + 1 =>
          xml_duplicate_remove_loop c fuel1 (xml_tree_prune_flags1 XML_FLAG_DEL XML_FLAG_DEL cs1)
      else some (.fail e m, xml_tree_prune_flags1 XML_FLAG_DEL XML_FLAG_DEL cs1)
    | some (r, _, _) => some (r, cs)

/-- `xml_duplicate_remove(xt, arg)`: the callback value and `xt` as it is left. Every
pruning removes a child, so the number of children bounds the number of prunings. -/
def xml_duplicate_remove (c : Collaborators) (xt : cxobj) : Option (Res × cxobj) :=
  match xml_duplicate_remove_loop c (xml_childvec xt).length (xml_childvec xt) with
  | none => none
  | some (r, cs) => some (r, xml_childvec_set xt cs)

/-- The loop of `xml_apply(xn, CX_ELMNT, fn, arg)` over the children not yet visited, for
a callback that may change the node it is called on: `f x` is the callback on the element
child `x` followed by `xml_apply` on `x`, and gives the value and `x` as it is left. -/
def xml_apply_each_mut (f : cxobj → Option (Res × cxobj)) :
    List cxobj → Option (Res × List cxobj)
  | [] => some (.ok, [])
  | x :: rest =>
    if !is_elmnt x then
      match xml_apply_each_mut f rest with
      | none => none
      | some (r, rest1) => some (r, x :: rest1)
    else
      match f x with
      | none => none
      | some (.ok, x1) =>
        match xml_apply_each_mut f rest with
        | none => none
        | some (r, rest1) => some (r, x1 :: rest1)
      | some (r, x1) => some (r, x1 :: rest)

/-- `xml_apply0(xn, CX_ELMNT, xml_duplicate_remove, xret)` on a tree of depth at most
`fuel` (`none`: the tree is deeper): the callback on `xn`, then on the element children
of `xn` as the callback left it, depth first. -/
def xml_duplicate_remove_apply (c : Collaborators) : Nat → cxobj → Option (Res × cxobj)
  | 0, _ => none
  | fuel + 1, xn =>
    match xml_duplicate_remove c xn with
    | none => none
    | some (.ok, xn1) =>
      match xml_apply_each_mut (xml_duplicate_remove_apply c fuel) (xml_childvec xn1) with
      | none => none
      | some (r, cs) => some (r, xml_childvec_set xn1 cs)
    | some (r, xn1) => some (r, xn1)

mutual
/-- Number of nodes on the longest path from `x` down to a node without children. -/
def xml_depth : cxobj → Nat
  | .mk _ _ _ _ _ cs => xml_depth_each cs + 1
/-- The largest depth of a node of `cs`. -/
def xml_depth_each : List cxobj → Nat
  | [] => 0
  | x :: rest => max (xml_depth x) (xml_depth_each rest)
end

/-- `xml_duplicate_remove_recurse(xt, xret)`: the return value (`Res.ok`: 1, `Res.fail`:
0 with the error tree, `Res.error`: -1) and the tree as it is left. -/
def xml_duplicate_remove_recurse (c : Collaborators) (xt : cxobj) : Option (Res × cxobj) :=
  xml_duplicate_remove_apply c (xml_depth xt) xt

/-- The return value of a call that gives a result and a tree. -/
def ret_of (r : Option (Res × cxobj)) : Option Int := r.map fun p => p.1.retval

/-- The child vector that a call leaves behind. -/
def children_of (r : Option (Res × cxobj)) : Option (List cxobj) :=
  r.map fun p => xml_childvec p.2

/-- The schema `list a { key "n"; leaf n; leaf b; }`. -/
def ex_list_a_n : yang_stmt :=
  .mk 110 .Y_LIST "a" none ["n"] [ex_leaf 111 "n", ex_leaf 112 "b"]

/-- The schema `list l { key "k"; unique "a/b"; leaf k; list a { key "n"; leaf n; leaf b; }
}`. -/
def ex_list_l_a : yang_stmt :=
  .mk 113 .Y_LIST "l" none ["k"] [ex_unique_ab 114, ex_leaf 115 "k", ex_list_a_n]

/-- The entry `<a><n>n</n>b</a>` of `ex_list_a_n`, `b` being its child `<b>`. -/
def ex_entry_a (n : String) (b : cxobj) : cxobj :=
  .mk "a" .CX_ELMNT 0 (some ex_list_a_n) none [ex_elem "n" (ex_leaf 111 "n") n, b]

/-- The entry `<l><k>k</k> as </l>` of `ex_list_l_a`, `as` being its children `<a>`. -/
def ex_entry_l (k : String) (as : List cxobj) : cxobj :=
  .mk "l" .CX_ELMNT 0 (some ex_list_l_a) none (ex_elem "k" (ex_leaf 115 "k") k :: as)

/-- Whether an element of `cs` has the key `k`. -/
def later_same {κ : Type} [DecidableEq κ] (key : cxobj → κ) (k : κ) (cs : List cxobj) : Bool :=
  cs.any fun x1 => is_elmnt x1 && decide (key x1 = k)

/-- Keep-last: the children of `cs` without the elements that are followed by an element
with the same key; the order is kept, and so are the children that are not elements. -/
def keep_last {κ : Type} [DecidableEq κ] (key : cxobj → κ) : List cxobj → List cxobj
  | [] => []
  | x :: rest =>
    if is_elmnt x && later_same key (key x) rest then keep_last key rest
    else x :: keep_last key rest

/-- The children `cs` without element number `d`. -/
def erase_elmnt : Nat → List cxobj → List cxobj
  | _, [] => []
  | d, x :: rest =>
    if !is_elmnt x then x :: erase_elmnt d rest
    else
      match d with
      | 0 => rest
      | d + 1 => x :: erase_elmnt d rest

/-- No element of `cs` carries the flag `XML_FLAG_DEL`. -/
def no_del (cs : List cxobj) : Prop :=
  ∀ x ∈ cs, is_elmnt x = true → xml_flag x XML_FLAG_DEL ≠ XML_FLAG_DEL

/-- Element number `d` of `cs` is followed by an element with the same key. -/
def has_later_dup {κ : Type} (key : cxobj → κ) (d : Nat) (cs : List cxobj) : Prop :=
  ∃ l1 a l2 b l3, cs = l1 ++ a :: (l2 ++ b :: l3) ∧ is_elmnt a = true ∧ is_elmnt b = true ∧
    (l1.filter is_elmnt).length = d ∧ key a = key b

/-- No element of `cs` is followed by an element with the same key. -/
def no_later_dup {κ : Type} (key : cxobj → κ) (cs : List cxobj) : Prop :=
  cs.Pairwise fun a b => is_elmnt a = true → is_elmnt b = true → key a ≠ key b

/-- The key of an entry of `y` in the duplicate check: the tuple of the bodies of the key
leaves for a list, the body for a leaf-list; `none` when a body is missing. -/
def entry_key (y : yang_stmt) (x : cxobj) : Option (List String) :=
  if yang_keyword_get y == .Y_LIST then key_tuple x (yang_cvec_get y)
  else (xml_body x).map fun b => [b]

/-- The entries of a leaf-list run: every element is bound to `y0` and has a body. -/
def leaf_list_run (y0 : yang_stmt) (cs : List cxobj) : Prop :=
  ∀ x ∈ cs, is_elmnt x = true → xml_spec x = some y0 ∧ ∃ b, xml_body x = some b

/-- The entries of a list run: every element is bound to `y` and has a body for every name
of `cvk`. -/
def list_run (y : yang_stmt) (cvk : List String) (cs : List cxobj) : Prop :=
  ∀ x ∈ cs, is_elmnt x = true → xml_spec x = some y ∧ ∃ t, key_tuple x cvk = some t

/-- The rows that `check_unique_list_direct` has stored after the entries among `pre`. -/
def rows_of (cvk : List String) (pre : List cxobj) : TupleVec :=
  (pre.filter is_elmnt).map fun x => ((key_tuple x cvk).getD []).map some

/-- No element of `cs` has the key of the element before it, `last` being the key of the
element before `cs`. -/
def adjacent_distinct {κ : Type} (key : cxobj → κ) : Option κ → List cxobj → Prop
  | _, [] => True
  | last, x :: rest =>
    if is_elmnt x then last ≠ some (key x) ∧ adjacent_distinct key (some (key x)) rest
    else adjacent_distinct key last rest

/-- The key of the last element of `pre`. -/
def last_key {κ : Type} (key : cxobj → κ) (pre : List cxobj) : Option κ :=
  ((pre.filter is_elmnt).getLast?).map key

/-- The elements of `cs` are in non-decreasing order of their keys. -/
def sorted_by {κ : Type} (key : cxobj → κ) (le : κ → κ → Prop) (cs : List cxobj) : Prop :=
  cs.Pairwise fun a b => is_elmnt a = true → is_elmnt b = true → le (key a) (key b)

/-- The parents that keep-last is stated for: no child carries `XML_FLAG_DEL`; every element
child is bound to `y` and has a key; `y` is a leaf-list, or a list with keys and without
`unique` statements whose entries, unless it is `ordered-by user`, are sorted by key (`le`
is the order, two keys that are each below the other being equal). -/
def dup_run (y : yang_stmt) (le : Option (List String) → Option (List String) → Prop)
    (cs : List cxobj) : Prop :=
  no_del cs ∧
  (∀ x ∈ cs, is_elmnt x = true → xml_spec x = some y ∧ entry_key y x ≠ none) ∧
  (yang_keyword_get y = .Y_LEAF_LIST ∨
   (yang_keyword_get y = .Y_LIST ∧ yang_cvec_get y ≠ [] ∧
    (∀ k ∈ yang_cvec_get y, has_slash k = false) ∧
    (∀ yu ∈ yang_children y, yang_keyword_get yu ≠ .Y_UNIQUE) ∧
    (direct_sorted y y = true →
      (∀ k1 k2, le k1 k2 → le k2 k1 → k1 = k2) ∧ sorted_by (entry_key y) le cs)))

/-- An entry without lists below it: its element children are not bound to a list or
leaf-list and have no element children themselves. -/
def flat_entry (e : cxobj) : Prop :=
  ∀ ch ∈ xml_childvec e, is_elmnt ch = true →
    (∀ yc, xml_spec ch = some yc → is_list_kw (yang_keyword_get yc) = false) ∧
    ∀ g ∈ xml_childvec ch, is_elmnt g = false

/-- The schema and tree for the counterexample: `list x { key "k"; unique "v"; ... }` with
the entries `(a, 1)` and `(b, 1)`: the keys differ, the values of `v` do not. -/
def ex_c_kv_dup : cxobj :=
  .mk "c" .CX_ELMNT 0 (some ex_cont_uv) none [ex_entry_kv "a" "1", ex_entry_kv "b" "1"]

/-! ## Defaults: xml_default -/

/-- Modelled from the spec: the flag bit `XML_FLAG_DEFAULT` of `clixon_xml.h`, which is not
part of this development ("DEFAULT (this leaf was synthesised from a default)"). -/
def XML_FLAG_DEFAULT : Nat := 0x40

/-- Functions of other Clixon modules that the defaults code calls and whose source is not
part of this development: they are parameters.
* `yang_config_ancestor y`: whether `y` and its ancestors are config true;
* `yang_check_when_xpath xt y`: `yang_check_when_xpath(NULL, xt, y, &hit, &nr, &xpath)`,
  `none` is the error return, else `(hit, nr)`;
* `yang_choice_case_get y`: `some (yca, ych)` when the function returns 1 with the case
  and the choice of `y`;
* `yang_find_mynamespace y`: the namespace of the module of `y`, if any;
* `xml2prefix xt ns`: `none` is the error return, else whether the namespace is bound in
  the context of `xt`;
* `xml_sort cs`: the child vector after `xml_sort`. -/
structure DefaultsEnv where
  yang_config_ancestor : yang_stmt → Bool
  yang_check_when_xpath : cxobj → yang_stmt → Option (Bool × Nat)
  yang_choice_case_get : yang_stmt → Option (yang_stmt × yang_stmt)
  yang_find_mynamespace : yang_stmt → Option String
  xml2prefix : cxobj → String → Option Bool
  xml_sort : List cxobj → List cxobj

/-- The test `cv_flag(cv, V_UNSET)` of CLIgen; 0 for a NULL `cv`. -/
def cv_flag_unset : Option cg_var → Bool
  | some cv => cv.v_unset
  | none => false

/-- Model of `xml_find_type(xt, NULL, name, CX_ELMNT)`: the first element child with that
name; NULL when `xt` is not an element. -/
def xml_find_type_elmnt (xt : cxobj) (name : String) : Option cxobj :=
  if xml_type xt != .CX_ELMNT then none
  else (xml_childvec xt).find? fun x => is_elmnt x && xml_name x == name

/-- `xml_addsub(xp, xc)`: `xc` becomes the last child of `xp`. -/
def xml_addsub (xp xc : cxobj) : cxobj :=
  xml_childvec_set xp (xml_childvec xp ++ [xc])

/-- `xml_default_create1(y, xt, &xc)`, without its last step `xml_addsub(xt, xc)`: the new
element `xc`, named after `y` and bound to it; when the namespace of `y` is not bound in
the context of `xt`, `xc` gets an `xmlns` attribute (`xml_add_namespace`). `none` is the
error return. The prefix of a node is not part of the model. -/
def xml_default_create1 (env : DefaultsEnv) (y : yang_stmt) (xt : cxobj) : Option cxobj :=
  match env.yang_find_mynamespace y with
  | none => some (.mk (yang_argument_get y) .CX_ELMNT 0 (some y) none [])
  | some ns =>
    match env.xml2prefix xt ns with
    | none => none
    | some true => some (.mk (yang_argument_get y) .CX_ELMNT 0 (some y) none [])
    | some false =>
      some (.mk (yang_argument_get y) .CX_ELMNT 0 (some y) none
        [.mk "xmlns" .CX_ATTR 0 none (some ns) []])

/-- `xml_default_create(y, xt, top)`, without the `xml_addsub(xt, xc)` made on the way: the
new leaf element, flagged `XML_FLAG_DEFAULT`, with a body that holds the string form of the
default value of `y`. `none` is the error return. -/
def xml_default_create (env : DefaultsEnv) (y : yang_stmt) (xt : cxobj) : Option cxobj :=
  match xml_default_create1 env y xt with
  | none => none
  | some xc =>
    match yang_cv_get y with
    | none => none
    | some cv =>
      some (xml_addsub (xml_flag_set xc XML_FLAG_DEFAULT)
        (.mk "body" .CX_BODY 0 none (some cv.var_string) []))

mutual
/-- `xml_nopresence_try(yt, state, createp)`: `none` is the error return, else `*createp`. -/
def xml_nopresence_try (env : DefaultsEnv) (state : Bool) : yang_stmt → Option Bool
  | .mk _ k _ _ _ ys =>
    if k != .Y_CONTAINER then none
    else xml_nopresence_try_each env state false ys
/-- The loop `while ((y = yn_each(yt, y)) != NULL)` of `xml_nopresence_try` over the child
statements not yet visited, entered with the current value of `*createp`. -/
def xml_nopresence_try_each (env : DefaultsEnv) (state : Bool) :
    Bool → List yang_stmt → Option Bool
  | create, [] => some create
  | create, y :: rest =>
    if yang_keyword_get y == .Y_LEAF then
      if !cv_flag_unset (yang_cv_get y) then
        if state && env.yang_config_ancestor y then some create else some true
      else xml_nopresence_try_each env state create rest
    else if yang_keyword_get y == .Y_CONTAINER then
      if (yang_find y .Y_PRESENCE none).isNone then
        match xml_nopresence_try env state y with
        | none => none
        | some true => some true
        | some false => xml_nopresence_try_each env state false rest
      else xml_nopresence_try_each env state create rest
    else if yang_keyword_get y == .Y_CHOICE then
      if (match yang_find y .Y_DEFAULT none with
          | some ydef => (yang_find y .Y_CASE (some (yang_argument_get ydef))).isSome
          | none => false) then
        xml_nopresence_try_each env state true rest
      else xml_nopresence_try_each env state create rest
    else xml_nopresence_try_each env state create rest
end

/-- The keywords for which `xml_default` looks at the child statements. -/
def xml_default_kw (k : rfc_6020) : Bool :=
  k == .Y_MODULE || k == .Y_SUBMODULE || k == .Y_CONTAINER || k == .Y_LIST ||
    k == .Y_INPUT || k == .Y_OUTPUT || k == .Y_CASE

/-- The case that `xml_default_choice` finds in its loop over the element children of `xt`:
the case of the first bound child whose choice (`yang_choice_case_get`) is `yc`. -/
def xml_default_choice_present (env : DefaultsEnv) (yc : yang_stmt) :
    List cxobj → Option yang_stmt
  | [] => none
  | x :: rest =>
    if !is_elmnt x then xml_default_choice_present env yc rest
    else
      match xml_spec x with
      | none => xml_default_choice_present env yc rest
      | some y =>
        match env.yang_choice_case_get y with
        | some (yca, ych) =>
          if yang_same ych yc then some yca else xml_default_choice_present env yc rest
        | none => xml_default_choice_present env yc rest

/-- The statement `yca` on which `xml_default_choice(yc, xt, state)` calls `xml_default`:
the case of a present child, else the default case of `yc`, else NULL. -/
def xml_default_choice_case (env : DefaultsEnv) (yc : yang_stmt) (xt : cxobj) :
    Option yang_stmt :=
  match xml_default_choice_present env yc (xml_childvec xt) with
  | some yca => some yca
  | none =>
    match yang_find yc .Y_DEFAULT none with
    | some ydef => yang_find yc .Y_CASE (some (yang_argument_get ydef))
    | none => none

/-- The children `cs` with the element named `name` replaced by `xc`. -/
def xml_replace_elmnt (name : String) (xc : cxobj) (cs : List cxobj) : List cxobj :=
  cs.map fun x => if is_elmnt x && xml_name x == name then xc else x

mutual
/-- `xml_default(yt, xt, state)`: `none` is the error return (-1), else `xt` as the call
leaves it. -/
def xml_default (env : DefaultsEnv) (state : Bool) : yang_stmt → cxobj → Option cxobj
  | .mk _ k _ _ _ ys, xt =>
    if xml_default_kw k then xml_default_each env state ys xt else some xt
/-- The loop `while ((yc = yn_each(yt, yc)) != NULL)` of `xml_default` over the child
statements not yet visited. -/
def xml_default_each (env : DefaultsEnv) (state : Bool) :
    List yang_stmt → cxobj → Option cxobj
  | [], xt => some xt
  | yc :: rest, xt =>
    match xml_default_child env state yc xt with
    | none => none
    | some xt1 => xml_default_each env state rest xt1
/-- The body of the loop of `xml_default` for the child statement `yc`. The recursive call
`xml_default(yc, xc, state)` for a container `yc` is the loop over the child statements of
`yc`; the call `xml_default(yca, xt, state)` of `xml_default_choice` is made on the child
statement of the choice that has the address of `yca`. The element `xc` that was created,
added to `xt` and sorted into place is the only element child of `xt` with its name. -/
def xml_default_child (env : DefaultsEnv) (state : Bool) : yang_stmt → cxobj → Option cxobj
  | .mk a k arg cv cvk ycs, xt =>
    if !state && !yang_config (.mk a k arg cv cvk ycs) then some xt
    else if state && env.yang_config_ancestor (.mk a k arg cv cvk ycs) then some xt
    else if k == .Y_LEAF then
      match cv with
      | none => none
      | some cv1 =>
        if !cv1.v_unset then
          match env.yang_check_when_xpath xt (.mk a k arg cv cvk ycs) with
          | none => none
          | some (hit, nr) =>
            if hit && nr == 0 then some xt
            else if (xml_find_type_elmnt xt arg).isNone then
              match xml_default_create env (.mk a k arg cv cvk ycs) xt with
              | none => none
              | some xc =>
                some (xml_childvec_set xt (env.xml_sort (xml_childvec xt ++ [xc])))
            else some xt
        else some xt
    else if k == .Y_CONTAINER then
      if (yang_find (.mk a k arg cv cvk ycs) .Y_PRESENCE none).isNone then
        match env.yang_check_when_xpath xt (.mk a k arg cv cvk ycs) with
        | none => none
        | some (hit, nr) =>
          if hit && nr == 0 then some xt
          else if (xml_find_type_elmnt xt arg).isNone then
            match xml_nopresence_try env state (.mk a k arg cv cvk ycs) with
            | none => none
            | some false => some xt
            | some true =>
              match xml_default_create1 env (.mk a k arg cv cvk ycs) xt with
              | none => none
              | some xc =>
                match xml_default_each env state ycs xc with
                | none => none
                | some xc1 =>
                  some (xml_childvec_set xt
                    (xml_replace_elmnt arg xc1 (env.xml_sort (xml_childvec xt ++ [xc]))))
          else some xt
      else some xt
    else if k == .Y_CHOICE then
      match xml_default_choice_case env (.mk a k arg cv cvk ycs) xt with
      | none => some xt
      | some yca => xml_default_case env state (yang_addr yca) ycs xt
    else some xt
/-- The call `xml_default(yca, xt, state)` of `xml_default_choice`, `yca` being the child
statement of the choice with address `addr`. -/
def xml_default_case (env : DefaultsEnv) (state : Bool) (addr : Nat) :
    List yang_stmt → cxobj → Option cxobj
  | [], xt => some xt
  | y :: rest, xt =>
    if yang_addr y == addr then xml_default env state y xt
    else xml_default_case env state addr rest xt
end

/-- Collaborators for a schema in one module whose namespace is bound at the top, without
`when` and without choice; `xml_sort` leaves the order as it is. -/
def ex_env : DefaultsEnv :=
  ⟨fun _ => true, fun _ _ => some (false, 0), fun _ => none, fun _ => none,
   fun _ _ => some true, fun cs => cs⟩

/-- The schema `leaf x { type uint8; default 7; }`. -/
def ex_leaf_x7 : yang_stmt := .mk 201 .Y_LEAF "x" (some ⟨false, 7, false, "7"⟩) [] []

/-- The schema `container b { leaf x { default 7; } }`. -/
def ex_cont_b7 : yang_stmt := .mk 202 .Y_CONTAINER "b" none [] [ex_leaf_x7]

/-- The schema `container a { container b { leaf x { default 7; } } }`. -/
def ex_cont_a7 : yang_stmt := .mk 203 .Y_CONTAINER "a" none [] [ex_cont_b7]

/-- The schema `container root { container a { ... } }`. -/
def ex_root7 : yang_stmt := .mk 204 .Y_CONTAINER "root" none [] [ex_cont_a7]

/-- The tree `<root/>` bound to `ex_root7`. -/
def ex_root_empty : cxobj := .mk "root" .CX_ELMNT 0 (some ex_root7) none []

/-- The nodes that the defaults code makes: a leaf element flagged `XML_FLAG_DEFAULT`, or a
container element that does not carry that flag and whose element children are such
nodes. -/
inductive synthesised : cxobj → Prop where
  | leaf (x : cxobj) (y : yang_stmt) : is_elmnt x = true → xml_spec x = some y →
      yang_keyword_get y = .Y_LEAF → xml_flag x XML_FLAG_DEFAULT = XML_FLAG_DEFAULT →
      synthesised x
  | container (x : cxobj) (y : yang_stmt) : is_elmnt x = true → xml_spec x = some y →
      yang_keyword_get y = .Y_CONTAINER → xml_flag x XML_FLAG_DEFAULT = 0 →
      (∀ ch ∈ xml_childvec x, is_elmnt ch = true → synthesised ch) → synthesised x

/-- A default leaf, or a container that holds at least one element and whose elements are
all of this kind. -/
inductive default_filled : cxobj → Prop where
  | leaf (x : cxobj) (y : yang_stmt) : is_elmnt x = true → xml_spec x = some y →
      yang_keyword_get y = .Y_LEAF → xml_flag x XML_FLAG_DEFAULT = XML_FLAG_DEFAULT →
      default_filled x
  | container (x : cxobj) (y : yang_stmt) : is_elmnt x = true → xml_spec x = some y →
      yang_keyword_get y = .Y_CONTAINER → (∃ ch ∈ xml_childvec x, is_elmnt ch = true) →
      (∀ ch ∈ xml_childvec x, is_elmnt ch = true → default_filled ch) → default_filled x

/-- The node is, or has below it, a leaf element flagged `XML_FLAG_DEFAULT`. -/
inductive has_default_leaf : cxobj → Prop where
  | at_leaf (x : cxobj) (y : yang_stmt) : is_elmnt x = true → xml_spec x = some y →
      yang_keyword_get y = .Y_LEAF → xml_flag x XML_FLAG_DEFAULT = XML_FLAG_DEFAULT →
      has_default_leaf x
  | in_child (x ch : cxobj) : ch ∈ xml_childvec x → has_default_leaf ch → has_default_leaf x

/-- The guard at the head of the loop of `xml_default` lets the statement through. -/
def guard_pass (env : DefaultsEnv) (state : Bool) (y : yang_stmt) : Bool :=
  !(!state && !yang_config y) && !(state && env.yang_config_ancestor y)

/-- The `when` check never suppresses the statement: it never returns a hit without
nodes. -/
def when_pass (env : DefaultsEnv) (y : yang_stmt) : Prop :=
  ∀ xt hit nr, env.yang_check_when_xpath xt y = some (hit, nr) → (hit && nr == 0) = false

/-- A level of the schema, and the levels below its non-presence containers, without
choice, whose statements all pass the guard and the `when` check. -/
inductive plain_defaults (env : DefaultsEnv) (state : Bool) : List yang_stmt → Prop where
  | mk (ys : List yang_stmt) :
      (∀ y ∈ ys, yang_keyword_get y ≠ .Y_CHOICE ∧ guard_pass env state y = true ∧
        when_pass env y) →
      (∀ y ∈ ys, yang_keyword_get y = .Y_CONTAINER → yang_find y .Y_PRESENCE none = none →
        plain_defaults env state (yang_children y)) →
      plain_defaults env state ys

mutual
/-- The names of the elements that the pass of `xml_default` for the child statement `y`
can create in `xt`. -/
def made_names : yang_stmt → List String
  | .mk _ k arg _ _ ys =>
    if k == .Y_LEAF || k == .Y_CONTAINER then [arg]
    else if k == .Y_CHOICE then made_names_cases ys
    else []
/-- The names for the cases of a choice. -/
def made_names_cases : List yang_stmt → List String
  | [] => []
  | c :: rest => made_names_default c ++ made_names_cases rest
/-- The names of the elements that `xml_default(y, xt, state)` can create in `xt`. -/
def made_names_default : yang_stmt → List String
  | .mk _ k _ _ _ ys => if xml_default_kw k then made_names_each ys else []
/-- The names for a list of child statements. -/
def made_names_each : List yang_stmt → List String
  | [] => []
  | y :: rest => made_names y ++ made_names_each rest
end

/-- How a call of the defaults code changes a child vector: every child stays, and a new
child is an element with the property `P` whose name is one of `names` and was not the name
of an element before. -/
def default_ext (P : cxobj → Prop) (names : List String) (cs cs1 : List cxobj) : Prop :=
  (∀ x ∈ cs, x ∈ cs1) ∧
  (∀ x ∈ cs1, x ∈ cs ∨
    (P x ∧ xml_name x ∈ names ∧
      (∀ x0 ∈ cs, ¬(is_elmnt x0 = true ∧ xml_name x0 = xml_name x))))

/-- The body of the element reached from `x` by the child names `path` (the first element
child with the name, at each step). -/
def xml_path_body : cxobj → List String → Option String
  | x, [] => xml_body x
  | x, n :: path =>
    match xml_find_type_elmnt x n with
    | none => none
    | some ch => xml_path_body ch path

/-- What a call of the defaults code on `xt` leaves: `xt` with a child vector that extends
the one it had. -/
def default_inv (P : cxobj → Prop) (names : List String) (xt xt1 : cxobj) : Prop :=
  xt1 = xml_childvec_set xt (xml_childvec xt1) ∧
    default_ext P names (xml_childvec xt) (xml_childvec xt1)

/-- The element reached from `x` by the child names `path` (the first element child with
the name, at each step). -/
def xml_path : cxobj → List String → Option cxobj
  | x, [] => some x
  | x, n :: path =>
    match xml_find_type_elmnt x n with
    | none => none
    | some ch => xml_path ch path

/-- The tree `<root><a><b><x>7</x></b></a></root>` that `xml_default` makes of
`<root/>`. -/
def ex_root_filled : cxobj :=
  .mk "root" .CX_ELMNT 0 (some ex_root7) none
    [.mk "a" .CX_ELMNT 0 (some ex_cont_a7) none
      [.mk "b" .CX_ELMNT 0 (some ex_cont_b7) none
        [.mk "x" .CX_ELMNT XML_FLAG_DEFAULT (some ex_leaf_x7) none [ex_body "7"]]]]

/-- The statements of a level pass the guard and the `when` check, and none is a choice. -/
def level_plain (env : DefaultsEnv) (state : Bool) (ys : List yang_stmt) : Prop :=
  ∀ y ∈ ys, yang_keyword_get y ≠ .Y_CHOICE ∧ guard_pass env state y = true ∧ when_pass env y

/-- The schema `leaf y { type string; }`: a leaf without a default value. -/
def ex_leaf_y : yang_stmt := .mk 211 .Y_LEAF "y" (some ⟨true, 0, false, ""⟩) [] []

/-- The schema `choice ch { default c1; case c1 { leaf y; } }`. -/
def ex_choice_c1 : yang_stmt :=
  .mk 214 .Y_CHOICE "ch" none []
    [.mk 213 .Y_DEFAULT "c1" none [] [], .mk 212 .Y_CASE "c1" none [] [ex_leaf_y]]

/-- The schema `container a { choice ch { default c1; case c1 { leaf y; } } }`. -/
def ex_cont_a_choice : yang_stmt := .mk 215 .Y_CONTAINER "a" none [] [ex_choice_c1]

/-- The schema `container root { container a { choice ch { ... } } }`. -/
def ex_root_choice : yang_stmt := .mk 216 .Y_CONTAINER "root" none [] [ex_cont_a_choice]

/-- A chain of statements from a level of the schema down to a leaf with a default value:
the level holds a leaf with default `d`, or a non-presence container whose children hold
such a chain in turn. Every statement of the chain is config true and is not suppressed by
`when`, and no statement before it on its level makes an element of its name. -/
inductive default_chain (env : DefaultsEnv) : List yang_stmt → List String → String → Prop where
  | leaf (pre post : List yang_stmt) (y : yang_stmt) (cv : cg_var) :
      yang_keyword_get y = .Y_LEAF → yang_cv_get y = some cv → cv.v_unset = false →
      yang_config y = true → when_pass env y →
      yang_argument_get y ∉ made_names_each pre →
      default_chain env (pre ++ y :: post) [yang_argument_get y] cv.var_string
  | container (pre post : List yang_stmt) (y : yang_stmt) (path : List String) (d : String) :
      yang_keyword_get y = .Y_CONTAINER → yang_find y .Y_PRESENCE none = none →
      yang_config y = true → when_pass env y →
      yang_argument_get y ∉ made_names_each pre →
      default_chain env (yang_children y) path d →
      default_chain env (pre ++ y :: post) (yang_argument_get y :: path) d

/-- The schema `leaf x { type uint8; config false; default 7; }`. -/
def ex_leaf_x7_ro : yang_stmt :=
  .mk 221 .Y_LEAF "x" (some ⟨false, 7, false, "7"⟩) []
    [.mk 220 .Y_CONFIG "false" (some ⟨false, 0, false, "false"⟩) [] []]

/-- The schema `container a { leaf x { config false; default 7; } }`. -/
def ex_cont_a_ro : yang_stmt := .mk 222 .Y_CONTAINER "a" none [] [ex_leaf_x7_ro]

/-- The schema `container root { container a { leaf x { config false; default 7; } } }`. -/
def ex_root_ro : yang_stmt := .mk 223 .Y_CONTAINER "root" none [] [ex_cont_a_ro]

/-- Modelled from the spec: the flag bit `XML_FLAG_CHANGE` of `clixon_xml.h`, which is not
part of this development ("CHANGE (subtree contains a modification)"). -/
def XML_FLAG_CHANGE : Nat := 0x10

/-- Modelled from the spec: the flag bit `XML_FLAG_ADD` of `clixon_xml.h`, which is not part
of this development. -/
def XML_FLAG_ADD : Nat := 0x04

/-- The loop `while ((x = xml_child_each(xn, x, CX_ELMNT)) != NULL)` of
`xml_default_recurse` over the children not yet visited; `call` is the recursive call
`xml_default_recurse(x, state, flag)`. A bound child that is config false is passed over
when `state` is 0. `none` is the error return. -/
def xml_default_recurse_each (call : cxobj → Option cxobj) (state : Bool) :
    List cxobj → Option (List cxobj)
  | [] => some []
  | x :: rest =>
    if !is_elmnt x then (xml_default_recurse_each call state rest).map fun r => x :: r
    else if (match xml_spec x with
             | some y => !state && !yang_config y
             | none => false) then
      (xml_default_recurse_each call state rest).map fun r => x :: r
    else
      match call x with
      | none => none
      | some x1 => (xml_default_recurse_each call state rest).map fun r => x1 :: r

/-- `xml_default_recurse(xn, state, flag)`: `none` is the error return (-1), or the end of
`fuel`, which bounds the depth of the recursion; else `xn` as the call leaves it. -/
def xml_default_recurse (env : DefaultsEnv) (state : Bool) : Nat → Nat → cxobj → Option cxobj
  | 0, _, _ => none
  | fuel + 1, flag, xn =>
    if flag != 0 && xml_flag xn XML_FLAG_CHANGE == 0 && xml_flag xn flag == 0 then some xn
    else
      match (match xml_spec xn with
             | some yn => xml_default env state yn xn
             | none => some xn) with
      | none => none
      | some xn1 =>
        match xml_default_recurse_each
            (xml_default_recurse env state fuel
              (if flag != 0 && xml_flag xn XML_FLAG_CHANGE == 0 then 0 else flag))
            state (xml_childvec xn1) with
        | none => none
        | some cs => some (xml_childvec_set xn1 cs)

/-- The tree `<a><b/></a>` bound to `container a { container b { leaf x { default 7; } } }`,
with the flags `f` on `a` and none on `b`. -/
def ex_a_b (f : Nat) : cxobj :=
  .mk "a" .CX_ELMNT f (some ex_cont_a7) none [.mk "b" .CX_ELMNT 0 (some ex_cont_b7) none []]

/-- The tree `<a><b><x>7</x></b></a>`, with the flags `f` on `a`. -/
def ex_a_b_filled (f : Nat) : cxobj :=
  .mk "a" .CX_ELMNT f (some ex_cont_a7) none
    [.mk "b" .CX_ELMNT 0 (some ex_cont_b7) none
      [.mk "x" .CX_ELMNT XML_FLAG_DEFAULT (some ex_leaf_x7) none [ex_body "7"]]]

/-- The `when` check of `xml_default` suppresses the statement `y` in the context `xt`:
`yang_check_when_xpath` returns a hit without nodes (`hit && nr == 0`). -/
def when_false (env : DefaultsEnv) (xt : cxobj) (y : yang_stmt) : Bool :=
  match env.yang_check_when_xpath xt y with
  | some (hit, nr) => hit && nr == 0
  | none => false

/-- The leaf `y` has a default value: its `cv` is there and `V_UNSET` is not set. -/
def has_default (y : yang_stmt) : Bool :=
  match yang_cv_get y with
  | some cv => !cv.v_unset
  | none => false

/-- The schema `container root { leaf x { type uint8; default 7; } }`. -/
def ex_root_x7 : yang_stmt := .mk 225 .Y_CONTAINER "root" none [] [ex_leaf_x7]

/-- A node as `xml_default` makes it: an element bound to a leaf or container statement
that passes the config/state guard and named after it, a leaf flagged `XML_FLAG_DEFAULT`
without element children, or a container whose elements are such nodes in turn. -/
inductive made (env : DefaultsEnv) (state : Bool) : cxobj → Prop where
  | leaf (x : cxobj) (y : yang_stmt) : is_elmnt x = true → xml_spec x = some y →
      yang_keyword_get y = .Y_LEAF → guard_pass env state y = true →
      xml_name x = yang_argument_get y →
      xml_flag x XML_FLAG_DEFAULT = XML_FLAG_DEFAULT →
      (∀ ch ∈ xml_childvec x, is_elmnt ch = false) → made env state x
  | container (x : cxobj) (y : yang_stmt) : is_elmnt x = true → xml_spec x = some y →
      yang_keyword_get y = .Y_CONTAINER → guard_pass env state y = true →
      xml_name x = yang_argument_get y →
      (∀ ch ∈ xml_childvec x, is_elmnt ch = true → made env state ch) → made env state x

mutual
/-- The statements to which the pass of `xml_default` for the child statement `y` can bind
an element that it adds to `xt`. -/
def made_specs : yang_stmt → List yang_stmt
  | .mk a k arg cv cvk ys =>
    if k == .Y_LEAF || k == .Y_CONTAINER then [.mk a k arg cv cvk ys]
    else if k == .Y_CHOICE then made_specs_cases ys
    else []
/-- The statements for the cases of a choice. -/
def made_specs_cases : List yang_stmt → List yang_stmt
  | [] => []
  | c :: rest => made_specs_default c ++ made_specs_cases rest
/-- The statements to which `xml_default(y, xt, state)` can bind an element that it adds
to `xt`. -/
def made_specs_default : yang_stmt → List yang_stmt
  | .mk _ k _ _ _ ys => if xml_default_kw k then made_specs_each ys else []
/-- The statements for a loop over child statements. -/
def made_specs_each : List yang_stmt → List yang_stmt
  | [] => []
  | y :: rest => made_specs y ++ made_specs_each rest
end

/-- A made node that is bound to one of the statements `specs`. -/
def made_of (env : DefaultsEnv) (state : Bool) (specs : List yang_stmt) (x : cxobj) : Prop :=
  made env state x ∧ ∃ y ∈ specs, xml_spec x = some y

/-- An element that respects the config/state guard, with all the elements below it: it is
bound to a statement that is not config false when `state` is 0, and that has no config
ancestor (`yang_config_ancestor`) when `state` is 1. -/
inductive guarded (env : DefaultsEnv) (state : Bool) : cxobj → Prop where
  | mk (x : cxobj) (y : yang_stmt) : is_elmnt x = true → xml_spec x = some y →
      (state = false → yang_config y = true) →
      (state = true → env.yang_config_ancestor y = false) →
      (∀ ch ∈ xml_childvec x, is_elmnt ch = true → guarded env state ch) →
      guarded env state x

mutual
/-- The tree `x1` is the tree `x` grown by nodes `P`: the two nodes differ in their children
only, and every child of `x1` is a node `P` or is a child of `x`, grown in the same way. -/
def grown (P : cxobj → Prop) : cxobj → cxobj → Prop
  | .mk n t f s v cs1, x =>
    x = .mk n t f s v (xml_childvec x) ∧ grown_each P cs1 (xml_childvec x)
/-- Every node of the first list is a node `P` or is grown from a node of the second. -/
def grown_each (P : cxobj → Prop) : List cxobj → List cxobj → Prop
  | [], _ => True
  | c1 :: rest, cs => (P c1 ∨ ∃ c ∈ cs, grown P c1 c) ∧ grown_each P rest cs
end

/-- `xml_default_choice(yc, xt, state)`: `xml_default` on the case `yca` that the scan of the
children of `xt` or the `default` statement of `yc` gives, `yca` being looked up among the
child statements of `yc` by its address; nothing when there is no such case. -/
def xml_default_choice (env : DefaultsEnv) (state : Bool) (yc : yang_stmt) (xt : cxobj) :
    Option cxobj :=
  match xml_default_choice_case env yc xt with
  | none => some xt
  | some yca => xml_default_case env state (yang_addr yca) (yang_children yc) xt

/-- The case under which the child `x` is bound below the choice `yc`, as the loop of
`xml_default_choice` sees it: `x` is an element, is bound, `yang_choice_case_get` returns 1
for its statement and the choice it gives is `yc`. -/
def bound_case (env : DefaultsEnv) (yc : yang_stmt) (x : cxobj) : Option yang_stmt :=
  if !is_elmnt x then none
  else
    match xml_spec x with
    | none => none
    | some y =>
      match env.yang_choice_case_get y with
      | some (yca, ych) => if yang_same ych yc then some yca else none
      | none => none

/-- The schema `leaf x { type string; default "hi"; }`. -/
def ex_ch_leaf_x : yang_stmt := .mk 231 .Y_LEAF "x" (some ⟨false, 0, false, "hi"⟩) [] []

/-- The schema `case c1 { leaf x { default "hi"; } }`. -/
def ex_ch_case1 : yang_stmt := .mk 232 .Y_CASE "c1" none [] [ex_ch_leaf_x]

/-- The schema `leaf y { type string; }`. -/
def ex_ch_leaf_y : yang_stmt := .mk 233 .Y_LEAF "y" (some ⟨true, 0, false, ""⟩) [] []

/-- The schema `leaf z { type uint8; default 5; }`. -/
def ex_ch_leaf_z : yang_stmt := .mk 234 .Y_LEAF "z" (some ⟨false, 5, false, "5"⟩) [] []

/-- The schema `case c2 { leaf y; leaf z { default 5; } }`. -/
def ex_ch_case2 : yang_stmt := .mk 235 .Y_CASE "c2" none [] [ex_ch_leaf_y, ex_ch_leaf_z]

/-- The schema `choice ch { default c1; case c1 { ... } case c2 { ... } }`. -/
def ex_ch_choice : yang_stmt :=
  .mk 237 .Y_CHOICE "ch" none [] [.mk 236 .Y_DEFAULT "c1" none [] [], ex_ch_case1, ex_ch_case2]

/-- The schema `container root { choice ch { ... } }`. -/
def ex_ch_root : yang_stmt := .mk 238 .Y_CONTAINER "root" none [] [ex_ch_choice]

/-- Collaborators for `ex_ch_root`: `yang_choice_case_get` gives the case and the choice
that hold the leaf; no `when`, the namespace is bound, `xml_sort` leaves the order. -/
def ex_ch_env : DefaultsEnv :=
  ⟨(fun _ => true), fun _ _ => some (false, 0),
   fun y =>
     if yang_addr y == 231 then some (ex_ch_case1, ex_ch_choice)
     else if yang_addr y == 233 || yang_addr y == 234 then some (ex_ch_case2, ex_ch_choice)
     else none,
   fun _ => none, fun _ _ => some true, fun cs => cs⟩

/-- The tree `<root><y>1</y></root>` bound to `ex_ch_root`. -/
def ex_ch_tree_y : cxobj :=
  .mk "root" .CX_ELMNT 0 (some ex_ch_root) none
    [.mk "y" .CX_ELMNT 0 (some ex_ch_leaf_y) none [ex_body "1"]]

/-- The tree `<root><y>1</y><z>5</z></root>`, `z` made from its default. -/
def ex_ch_tree_yz : cxobj :=
  .mk "root" .CX_ELMNT 0 (some ex_ch_root) none
    [.mk "y" .CX_ELMNT 0 (some ex_ch_leaf_y) none [ex_body "1"],
     .mk "z" .CX_ELMNT XML_FLAG_DEFAULT (some ex_ch_leaf_z) none [ex_body "5"]]

/-- The statements to which `xml_default_choice` can bind a new element when it takes the
child statement of `yc` with address `addr` as the case. -/
def made_specs_case (yc : yang_stmt) (addr : Nat) : List yang_stmt :=
  match (yang_children yc).find? (fun c => yang_addr c == addr) with
  | some c => made_specs_default c
  | none => []

/-- The schema `leaf x { type string; config false; default "hi"; }`. -/
def ex_ro_leaf : yang_stmt :=
  .mk 241 .Y_LEAF "x" (some ⟨false, 0, false, "hi"⟩) []
    [.mk 240 .Y_CONFIG "false" (some ⟨false, 0, false, "false"⟩) [] []]

/-- The schema `case c1 { leaf x { config false; default "hi"; } }`. -/
def ex_ro_case : yang_stmt := .mk 242 .Y_CASE "c1" none [] [ex_ro_leaf]

/-- The schema `choice ch { default c1; case c1 { leaf x { config false; default "hi"; } }
}`. -/
def ex_ro_choice : yang_stmt :=
  .mk 244 .Y_CHOICE "ch" none [] [.mk 243 .Y_DEFAULT "c1" none [] [], ex_ro_case]

/-- The schema `container root { choice ch { ... } }` with that choice. -/
def ex_ro_root : yang_stmt := .mk 245 .Y_CONTAINER "root" none [] [ex_ro_choice]

/-- The tree `<root/>` bound to `ex_ch_root`. -/
def ex_ch_tree_empty : cxobj := .mk "root" .CX_ELMNT 0 (some ex_ch_root) none []

/-- The tree `<root><x>hi</x></root>`, `x` made from its default. -/
def ex_ch_tree_x : cxobj :=
  .mk "root" .CX_ELMNT 0 (some ex_ch_root) none
    [.mk "x" .CX_ELMNT XML_FLAG_DEFAULT (some ex_ch_leaf_x) none [ex_body "hi"]]

/-- The schema `case c1 { leaf x { default "hi"; } }` of the choice `outer`. -/
def ex_n_case1 : yang_stmt :=
  .mk 252 .Y_CASE "c1" none [] [.mk 251 .Y_LEAF "x" (some ⟨false, 0, false, "hi"⟩) [] []]

/-- The schema `leaf y { type string; }`. -/
def ex_n_leaf_y : yang_stmt := .mk 253 .Y_LEAF "y" (some ⟨true, 0, false, ""⟩) [] []

/-- The schema `case i1 { leaf y; }` of the choice `inner`. -/
def ex_n_icase1 : yang_stmt := .mk 254 .Y_CASE "i1" none [] [ex_n_leaf_y]

/-- The schema `case i2 { leaf w { default 5; } }` of the choice `inner`. -/
def ex_n_icase2 : yang_stmt :=
  .mk 256 .Y_CASE "i2" none [] [.mk 255 .Y_LEAF "w" (some ⟨false, 5, false, "5"⟩) [] []]

/-- The schema `choice inner { default i2; case i1 { ... } case i2 { ... } }`. -/
def ex_n_inner : yang_stmt :=
  .mk 258 .Y_CHOICE "inner" none [] [.mk 257 .Y_DEFAULT "i2" none [] [], ex_n_icase1, ex_n_icase2]

/-- The schema `case c2 { choice inner { ... } }` of the choice `outer`. -/
def ex_n_case2 : yang_stmt := .mk 259 .Y_CASE "c2" none [] [ex_n_inner]

/-- The schema `choice outer { default c1; case c1 { ... } case c2 { choice inner ... } }`. -/
def ex_n_outer : yang_stmt :=
  .mk 261 .Y_CHOICE "outer" none [] [.mk 260 .Y_DEFAULT "c1" none [] [], ex_n_case1, ex_n_case2]

/-- The schema `container root { choice outer { ... } }`. -/
def ex_n_root : yang_stmt := .mk 262 .Y_CONTAINER "root" none [] [ex_n_outer]

/-- Collaborators for `ex_n_root` where `yang_choice_case_get` gives the nearest case and
choice above a leaf: `y` and `w` are under `inner`, `x` is under `outer`. -/
def ex_n_env_near : DefaultsEnv :=
  ⟨(fun _ => true), fun _ _ => some (false, 0),
   fun y =>
     if yang_addr y == 251 then some (ex_n_case1, ex_n_outer)
     else if yang_addr y == 253 then some (ex_n_icase1, ex_n_inner)
     else if yang_addr y == 255 then some (ex_n_icase2, ex_n_inner)
     else none,
   fun _ => none, fun _ _ => some true, fun cs => cs⟩

/-- Collaborators for `ex_n_root` where `yang_choice_case_get` gives the outermost case and
choice above a leaf: `y` and `w` are under the case `c2` of `outer`. -/
def ex_n_env_far : DefaultsEnv :=
  ⟨(fun _ => true), fun _ _ => some (false, 0),
   fun y =>
     if yang_addr y == 251 then some (ex_n_case1, ex_n_outer)
     else if yang_addr y == 253 || yang_addr y == 255 then some (ex_n_case2, ex_n_outer)
     else none,
   fun _ => none, fun _ _ => some true, fun cs => cs⟩

/-- The tree `<root><y>1</y></root>` bound to `ex_n_root`: of the choice `outer` only the
case `c2` is present, and of the choice `inner` only the case `i1`. -/
def ex_n_tree : cxobj :=
  .mk "root" .CX_ELMNT 0 (some ex_n_root) none
    [.mk "y" .CX_ELMNT 0 (some ex_n_leaf_y) none [ex_body "1"]]

/-- The value of `rmx` before the loop of `xml_default_nopresence(xn, mode, flag)`: 1 when
`xn` is bound to a container without `presence`, or to a leaf and carries
`XML_FLAG_DEFAULT` and `mode` is not 3. -/
def xml_default_nopresence_rmx (mode : Nat) (xn : cxobj) : Bool :=
  match xml_spec xn with
  | none => false
  | some yn =>
    if yang_keyword_get yn == .Y_CONTAINER && (yang_find yn .Y_PRESENCE none).isNone then true
    else if yang_keyword_get yn == .Y_LEAF && xml_flag xn XML_FLAG_DEFAULT != 0 && mode != 3
    then true
    else false

/-- The value of `config` in `xml_default_nopresence`: `yang_config_ancestor(yn)` for a
bound node, else 1. -/
def xml_default_nopresence_config (env : DefaultsEnv) (xn : cxobj) : Bool :=
  match xml_spec xn with
  | none => true
  | some yn => env.yang_config_ancestor yn

/-- The `switch (mode)` of `xml_default_nopresence` for a child `x` that returned 1: whether
`xml_purge(x)` is called. -/
def xml_default_nopresence_purge (mode : Nat) (config : Bool) (x : cxobj) : Bool :=
  if mode == 1 then
    if !config then false
    else
      match xml_spec x with
      | some y => if !yang_config y then false else true
      | none => true
  else if mode == 2 || mode == 3 then true
  else false

/-- One run of the loop `while ((x = xml_child_each(xn, x, CX_ELMNT)) != NULL)` of
`xml_default_nopresence` from the child it stands at, `pre` being the children already
visited: up to the end of the children, or up to the first `xml_purge`. `call` is the
recursive call and gives the return value and the child as it is left. The result is `rmx`,
the child vector, and whether a child was purged. `none` is the error return. -/
def xml_default_nopresence_scan (call : cxobj → Option (Bool × cxobj)) (mode : Nat)
    (config : Bool) : Bool → List cxobj → List cxobj → Option (Bool × List cxobj × Bool)
  | rmx, pre, [] => some (rmx, pre, false)
  | rmx, pre, x :: rest =>
    if !is_elmnt x then xml_default_nopresence_scan call mode config rmx (pre ++ [x]) rest
    else
      match call x with
      | none => none
      | some (true, x1) =>
        if xml_default_nopresence_purge mode config x1 then some (rmx, pre ++ rest, true)
        else xml_default_nopresence_scan call mode config rmx (pre ++ [x1]) rest
      | some (false, x1) =>
        xml_default_nopresence_scan call mode config false (pre ++ [x1]) rest

/-- The loop of `xml_default_nopresence` over the child vector `cs`. After `xml_purge(x)`
the code sets `x = xprev`, and `xprev` is NULL throughout, so `xml_child_each` starts again
at the first child; `fuel` bounds the number of these restarts (`none`: more are needed).
The result is `rmx` and the child vector left behind. -/
def xml_default_nopresence_loop (call : cxobj → Option (Bool × cxobj)) (mode : Nat)
    (config : Bool) : Nat → Bool → List cxobj → Option (Bool × List cxobj)
  | fuel, rmx, cs =>
    match xml_default_nopresence_scan call mode config rmx [] cs with
    | none => none
    | some (rmx1, cs1, false) => some (rmx1, cs1)
    | some (rmx1, cs1, true) =>
      match fuel with
      | 0 => none
      | fuel1 + 1 => xml_default_nopresence_loop call mode config fuel1 rmx1 cs1

/-- `xml_default_nopresence(xn, mode, flag)`: the return value (`true`: 1, `false`: 0) and
`xn` as the call leaves it; `none` is the end of `fuel`, which bounds the depth of the
recursion. Every restart of the loop follows a purge, so the number of children bounds the
number of restarts. -/
def xml_default_nopresence (env : DefaultsEnv) (mode : Nat) :
    Nat → Nat → cxobj → Option (Bool × cxobj)
  | 0, _, _ => none
  | fuel + 1, flag, xn =>
    if flag != 0 && xml_flag xn XML_FLAG_CHANGE == 0 && xml_flag xn flag == 0 then
      some (false, xn)
    else
      match xml_default_nopresence_loop
          (xml_default_nopresence env mode fuel
            (if flag != 0 && xml_flag xn XML_FLAG_CHANGE == 0 then 0 else flag))
          mode (xml_default_nopresence_config env xn) (xml_childvec xn).length
          (xml_default_nopresence_rmx mode xn) (xml_childvec xn) with
      | none => none
      | some (rmx, cs) => some (rmx, xml_childvec_set xn cs)

mutual
/-- Whether the node is one that `xml_default_nopresence` answers 1 for: `rmx` starts at 1
and each of its element children is such a node. -/
def nopresence_value (mode : Nat) : cxobj → Bool
  | .mk n t f s v cs =>
    xml_default_nopresence_rmx mode (.mk n t f s v cs) && nopresence_value_each mode cs
/-- Every element of the list is such a node. -/
def nopresence_value_each (mode : Nat) : List cxobj → Bool
  | [] => true
  | c :: rest => (!is_elmnt c || nopresence_value mode c) && nopresence_value_each mode rest
end

mutual
/-- The tree without the elements, at any depth, that are such nodes and that the `switch
(mode)` purges. -/
def nopresence_pruned (env : DefaultsEnv) (mode : Nat) : cxobj → cxobj
  | .mk n t f s v cs =>
    .mk n t f s v
      (nopresence_pruned_each env mode (xml_default_nopresence_config env (.mk n t f s v [])) cs)
/-- The children that stay, pruned in turn. -/
def nopresence_pruned_each (env : DefaultsEnv) (mode : Nat) (config : Bool) :
    List cxobj → List cxobj
  | [] => []
  | c :: rest =>
    if !is_elmnt c then c :: nopresence_pruned_each env mode config rest
    else if nopresence_value mode c && xml_default_nopresence_purge mode config c then
      nopresence_pruned_each env mode config rest
    else nopresence_pruned env mode c :: nopresence_pruned_each env mode config rest
end

/-- The tree `<x><junk/></x>`: `x` is bound to the leaf `x` and flagged `XML_FLAG_DEFAULT`,
`junk` is not bound. -/
def ex_leaf_junk : cxobj :=
  .mk "x" .CX_ELMNT XML_FLAG_DEFAULT (some ex_leaf_x7) none [.mk "junk" .CX_ELMNT 0 none none []]

/-- The node is bound to a container without `presence`, or is bound to a leaf, carries
`XML_FLAG_DEFAULT` and `mode` is not 3. -/
def nopresence_kind (mode : Nat) (xn : cxobj) : Prop :=
  ∃ yn, xml_spec xn = some yn ∧
    ((yang_keyword_get yn = .Y_CONTAINER ∧ yang_find yn .Y_PRESENCE none = none) ∨
     (yang_keyword_get yn = .Y_LEAF ∧ xml_flag xn XML_FLAG_DEFAULT ≠ 0 ∧ mode ≠ 3))

/-- The element `d` is below `x`, on a path of elements. -/
inductive elmnt_descendant : cxobj → cxobj → Prop where
  | child (d x : cxobj) : d ∈ xml_childvec x → is_elmnt d = true → elmnt_descendant d x
  | deeper (d c x : cxobj) : c ∈ xml_childvec x → is_elmnt c = true →
      elmnt_descendant d c → elmnt_descendant d x

/-- A node that is bound to a container without `presence` or is bound to a leaf and carries
`XML_FLAG_DEFAULT`, and whose elements are all such nodes. -/
inductive default_only : cxobj → Prop where
  | mk (x : cxobj) : nopresence_kind 2 x →
      (∀ ch ∈ xml_childvec x, is_elmnt ch = true → default_only ch) → default_only x

/-- The tree `<root><x><junk/></x></root>`, `x` bound to the leaf `x` and flagged
`XML_FLAG_DEFAULT`. -/
def ex_root_junk : cxobj := .mk "root" .CX_ELMNT 0 (some ex_root_x7) none [ex_leaf_junk]

/-- The answer of the `when` check does not depend on the tree it is made on. -/
def when_stable (env : DefaultsEnv) : Prop :=
  ∀ (xt xt1 : cxobj) (y : yang_stmt),
    env.yang_check_when_xpath xt y = env.yang_check_when_xpath xt1 y

/-- Every element child of `xt` has an element of its name among the children of `xt1`. -/
def covers (xt xt1 : cxobj) : Prop :=
  ∀ x ∈ xml_childvec xt, is_elmnt x = true →
    ∃ x1 ∈ xml_childvec xt1, is_elmnt x1 = true ∧ xml_name x1 = xml_name x

/-- The step `if ((yn = xml_spec(xn)) != NULL) xml_default(yn, xn, state)` of
`xml_default_recurse`: `xn` as it is left, `none` for the error return. -/
def xml_default_bound (env : DefaultsEnv) (state : Bool) (xn : cxobj) : Option cxobj :=
  match xml_spec xn with
  | some yn => xml_default env state yn xn
  | none => some xn

/-- The schema `leaf z { type string; }` inside `container e`: a leaf without a default
value. -/
def ex_try_leaf_z : yang_stmt := .mk 281 .Y_LEAF "z" (some ⟨true, 0, false, ""⟩) [] []

/-- The schema `container e { leaf z; }`: a non-presence container without default values
below it. -/
def ex_try_cont_e : yang_stmt := .mk 282 .Y_CONTAINER "e" none [] [ex_try_leaf_z]

/-- The schema `choice ch { default c1; case c1 { leaf y; } }`. -/
def ex_try_choice : yang_stmt :=
  .mk 286 .Y_CHOICE "ch" none []
    [.mk 283 .Y_DEFAULT "c1" none [] [],
     .mk 285 .Y_CASE "c1" none [] [.mk 284 .Y_LEAF "y" (some ⟨true, 0, false, ""⟩) [] []]]

/-- The schema `container a { choice ch { default c1; .. } container e { leaf z; } }`: the
choice with a default case comes first. -/
def ex_try_choice_first : yang_stmt :=
  .mk 287 .Y_CONTAINER "a" none [] [ex_try_choice, ex_try_cont_e]

/-- The same container with the two children in the other order. -/
def ex_try_choice_last : yang_stmt :=
  .mk 287 .Y_CONTAINER "a" none [] [ex_try_cont_e, ex_try_choice]

/-- What `cli_prompt_get` reads from outside: the host name (`gethostname`, `none` when it
fails), the environment variable `USER`, the name of the terminal (`ttyname_r`, `none` when
it fails) and the value stored under "cli-edit-mode" in the handle (`clicon_data_get`,
`none` when it is not set). -/
structure PromptEnv where
  hostname : Option String
  user : Option String
  tty : Option String
  edit_mode : Option String

/-- The terminating NUL of a C string. -/
def CH_NUL : Char := Char.ofNat 0

/-- The character `%`. -/
def CH_PERCENT : Char := Char.ofNat 37

/-- The backslash character. -/
def CH_BACKSLASH : Char := Char.ofNat 92

/-- The newline character. -/
def CH_NEWLINE : Char := Char.ofNat 10

/-- The read `*s` at position `s` of the format string: `fmt` holds the characters before
the terminating NUL, which is at position `fmt.length`; a position after that is outside
the string (`none`). -/
def cli_prompt_deref (fmt : List Char) (s : Nat) : Option Char :=
  if s < fmt.length then some (fmt.getD s CH_NUL)
  else if s = fmt.length then some CH_NUL
  else none

/-- The `switch` after `%`: what is printed into `cb` for the character `c`. -/
def cli_prompt_percent (e : PromptEnv) (c : Char) : List Char :=
  if c = 'H' then (e.hostname.getD "unknown").data
  else if c = 'U' then (e.user.getD "nobody").data
  else if c = 'T' then (e.tty.getD "notty").data
  else if c = 'W' then
    (match e.edit_mode with
     | some path => if path.length != 0 then path.data else ['/']
     | none => ['/'])
  else [CH_PERCENT, c]

/-- The `switch` after a backslash. -/
def cli_prompt_backslash (c : Char) : List Char :=
  if c = 'n' then [CH_NEWLINE] else [CH_BACKSLASH, c]

/-- How the expansion loop of `cli_prompt_get` ends: `done cb s` when the loop condition
reads the terminating NUL at position `s`, with the characters `cb` printed so far;
`outside cb s` when the loop condition reads `*s` at a position `s` after the terminating
NUL. -/
inductive PromptScan where
  | done (cb : List Char) (s : Nat)
  | outside (cb : List Char) (s : Nat)
  deriving DecidableEq

/-- The loop `while (*s)` of `cli_prompt_get` from position `s` with the buffer `cb`; the
position grows in every iteration, `fuel` bounds their number (`none`: more are needed).
In `*s == '%' && *++s` the position is advanced before the second read, also when that
read gives NUL and the branch is not taken; the same holds for the backslash. -/
def cli_prompt_get_loop (e : PromptEnv) (fmt : List Char) :
    Nat → Nat → List Char → Option PromptScan
  | 0, _, _ => none
  | fuel + 1, s, cb =>
    match cli_prompt_deref fmt s with
    | none => some (.outside cb s)
    | some c =>
      if c = CH_NUL then some (.done cb s)
      else
        let s1 := if c = CH_PERCENT then s + 1 else s
        match cli_prompt_deref fmt s1 with
        | none => some (.outside cb s1)
        | some c1 =>
          if c = CH_PERCENT && c1 != CH_NUL then
            cli_prompt_get_loop e fmt fuel (s1 + 1) (cb ++ cli_prompt_percent e c1)
          else
            let s2 := if c1 = CH_BACKSLASH then s1 + 1 else s1
            match cli_prompt_deref fmt s2 with
            | none => some (.outside cb s2)
            | some c2 =>
              if c1 = CH_BACKSLASH && c2 != CH_NUL then
                cli_prompt_get_loop e fmt fuel (s2 + 1) (cb ++ cli_prompt_backslash c2)
              else cli_prompt_get_loop e fmt fuel (s2 + 1) (cb ++ [c2])

/-- The default prompt `CLI_DEFAULT_PROMPT`. -/
def CLI_DEFAULT_PROMPT : String := "cli> "

/-- Result of `cli_prompt_get`: the prompt string, or a read outside the format string at
the position given (the behaviour of the C function is then undefined). -/
inductive PromptRes where
  | prompt (str : String)
  | outside (s : Nat)
  deriving DecidableEq

/-- `cli_prompt_get(h, fmt)`: the expansion of `fmt`; `strdup` copies the buffer up to its
first NUL, and the default prompt when nothing was printed. A format of `n` characters
needs at most `n + 1` iterations. -/
def cli_prompt_get (e : PromptEnv) (fmt : String) : Option PromptRes :=
  match cli_prompt_get_loop e fmt.data (fmt.data.length + 1) 0 [] with
  | none => none
  | some (.outside _ s) => some (.outside s)
  | some (.done cb _) =>
    some (.prompt
      (String.mk ((if cb.length != 0 then cb else CLI_DEFAULT_PROMPT.data).takeWhile
        fun ch => ch != CH_NUL)))

/-- An environment for the examples. -/
def ex_prompt_env : PromptEnv := ⟨some "host", some "olof", none, none⟩

/-- A character that the expansion loop copies as it is. -/
def plain_char (c : Char) : Prop :=
  c ≠ CH_NUL ∧ c ≠ CH_PERCENT ∧ c ≠ CH_BACKSLASH

/-- Modelled from the spec: the flag bit `XML_FLAG_MARK` of `clixon_xml.h`, which is not
part of this development ("MARK (scratch)"). -/
def XML_FLAG_MARK : Nat := 0x01

/-- Modelled from the spec: `xml_flag_reset(x, flag)` of `clixon_xml.c`, which is not part of
this development: the node with the bits of `flag` cleared (`x_flags &= ~flag`), the
counterpart of `xml_flag_set`. -/
def xml_flag_reset (x : cxobj) (flag : Nat) : cxobj :=
  match x with
  | .mk n t f s v cs => .mk n t (f ^^^ (f &&& flag)) s v cs

/-- `xml_flag_default_value(x, flag)`: the return value and `x` as the call leaves it.
`cv_name_get` is the accessor of CLIgen for the name of a `cg_var` (NULL when it has
none); `cv2str_dup` gives the string form of the value. -/
def xml_flag_default_value (cv_name_get : cg_var → Option String) (x : cxobj) (flag : Nat) :
    Int × cxobj :=
  let x0 := xml_flag_reset x flag
  match xml_body x0 with
  | none => (0, x0)
  | some xv =>
    match xml_spec x0 with
    | none => (0, x0)
    | some y =>
      match yang_cv_get y with
      | none => (0, x0)
      | some cv =>
        match cv_name_get cv with
        | none => (0, x0)
        | some _ => if xv == cv.var_string then (0, xml_flag_set x0 flag) else (0, x0)

/-- The schema `leaf n { type uint8; }`: a leaf without a default value; its compiled value
is unset (`V_UNSET`) and has the string form `0`. -/
def ex_leaf_n_unset : yang_stmt := .mk 291 .Y_LEAF "n" (some ⟨true, 0, false, "0"⟩) [] []

/-- The tree `<n>0</n>` bound to it, with the flags `f`. -/
def ex_n_zero (f : Nat) : cxobj :=
  .mk "n" .CX_ELMNT f (some ex_leaf_n_unset) none [ex_body "0"]

/-- The name of a compiled value in the examples: the name of the leaf. -/
def ex_cv_name (_ : cg_var) : Option String := some "n"

/-- The entry `<x/>` of `y`, without a key leaf. -/
def ex_entry_nokey (y : yang_stmt) : cxobj := .mk "x" .CX_ELMNT 0 (some y) none []

/-- The schema `list x { key "k"; ordered-by user; leaf k; }`. -/
def ex_list_user : yang_stmt :=
  .mk 45 .Y_LIST "x" none ["k"] [.mk 46 .Y_ORDERED_BY "user" none [] [], ex_leaf 47 "k"]

/-- The entries `<x><k>a</k></x><x/><x><k>a</k></x>` of the list `y`: two entries with the
key `a` and an entry without key between them. -/
def ex_run_gap (y yk : yang_stmt) : List cxobj :=
  [ex_entry y yk "a", ex_entry_nokey y, ex_entry y yk "a"]

/-- The tree `<c><x><k>a</k></x><x/><x><k>a</k></x></c>` for the list `x` of
`ex_cont_plain` (ordered-by system). -/
def ex_c_dup_gap : cxobj :=
  .mk "c" .CX_ELMNT 0 (some ex_cont_plain) none (ex_run_gap ex_list_plain (ex_leaf 42 "k"))

/-- The body strings that the loop of `unique_search_xpath` looks at in the search result
`xvec`: the bodies of the nodes before the first node without body (where the loop
breaks). -/
def collected_bodies_of : List cxobj → List String
  | [] => []
  | xi :: xvec =>
    match xml_body xi with
    | none => []
    | some bi => bi :: collected_bodies_of xvec

/-- The body strings that `unique_search_xpath` looks at for the entry `x`. -/
def collected_bodies (c : Collaborators) (xpath : String) (x : cxobj) : List String :=
  match c.xpath_vec x xpath with
  | some xvec => collected_bodies_of xvec
  | none => []

/-- The body strings that the scan of a run looks at, entry after entry. -/
def run_bodies (c : Collaborators) (xpath : String) : List cxobj → List String
  | [] => []
  | x :: rest =>
    if is_elmnt x then collected_bodies c xpath x ++ run_bodies c xpath rest
    else run_bodies c xpath rest

/-- The entry `<l><k>1</k><a><n>1</n><b>x</b></a><a><n>2</n><b>x</b></a></l>` of
`ex_list_l_a`: the path `a/b` selects two nodes of the entry, with the same body. -/
def ex_entry_l_twice : cxobj :=
  ex_entry_l "1" [ex_entry_a "1" (ex_elem "b" (ex_leaf 112 "b") "x"),
    ex_entry_a "2" (ex_elem "b" (ex_leaf 112 "b") "x")]

/-- The entries of every list and leaf-list are contiguous among the children `cs`: between
two children bound to the same list or leaf-list statement, every bound element is bound to
that statement too (children that are not elements or are not bound may lie between). -/
def entries_contiguous (cs : List cxobj) : Prop :=
  ∀ (L : yang_stmt) (l1 : List cxobj) (a : cxobj) (l2 : List cxobj) (b : cxobj)
    (l3 : List cxobj), cs = l1 ++ a :: (l2 ++ b :: l3) →
    is_list_kw (yang_keyword_get L) = true → bound_to L a = true → bound_to L b = true →
    ∀ m ∈ l2, is_bound_elmnt m = true → bound_to L m = true

/-- The call `check_minmax(xt, yprev, nr, xret)` that the pass of the traversal of
`xml_yang_validate_minmax` for the child `x` makes in the state `st`, as the pair
`(yprev, nr)`: the pass makes it when `x` is a bound element whose statement is not `yprev`,
the gap analysis returned 1 and `yprev` is a list or leaf-list. -/
def minmax_step_call (c : Collaborators) (xt : cxobj) (yt : Option yang_stmt)
    (st : MinmaxState) (x : cxobj) : Option (yang_stmt × Nat) :=
  if !is_elmnt x then none
  else
    match xml_spec x with
    | none => none
    | some y =>
      if yang_ptr_eq (some y) st.yprev then none
      else
        match (xml_yang_minmax_gap_analysis c xt (some y) yt st.inext st.ye).ret, st.yprev with
        | .ok, some yp => if yprev_is_list (some yp) then some (yp, st.nr) else none
        | _, _ => none

/-- The call `check_minmax(xt, yprev, nr, xret)` made after the traversal, in the state `st`
that the traversal ends with. -/
def minmax_after_call (xt : cxobj) (st : MinmaxState) : Option (yang_stmt × Nat) :=
  match check_empty_list_minmax_iter xt st.inext, st.yprev with
  | .ok, some yp => if yprev_is_leaf_or_leaf_list (some yp) then some (yp, st.nr) else none
  | _, _ => none

/-- The state of the traversal after the children `pre`: `yprev` is the statement of the
last bound element of `pre` (NULL when there is none), and while `yprev` is a list or
leaf-list `nr` is the number of elements of `pre` bound to it. -/
def minmax_count_inv (pre : List cxobj) (st : MinmaxState) : Prop :=
  (st.yprev = none → ∀ m ∈ pre, is_bound_elmnt m = false) ∧
  (∀ L, st.yprev = some L →
    (∃ l1 a l2, pre = l1 ++ a :: l2 ∧ bound_to L a = true ∧
      ∀ m ∈ l2, is_bound_elmnt m = false) ∧
    (is_list_kw (yang_keyword_get L) = true → st.nr = xml_count_bound L pre))

/-- The check of the `unique` statement `yu` of the list `y` on the entries `cs` can be
made: its arguments name direct children (no `/`), or it has a single argument with `/`
that canonicalises and whose evaluation succeeds on every entry. -/
def unique_checkable (c : Collaborators) (y yu : yang_stmt) (cs : List cxobj) : Prop :=
  (yang_cvec_get yu ≠ [] ∧ ∀ k ∈ yang_cvec_get yu, has_slash k = false) ∨
  (∃ xpath0 xpath1, yang_cvec_get yu = [xpath0] ∧ has_slash xpath0 = true ∧
    c.xpath2canonical yu y xpath0 = some (some xpath1) ∧
    ∀ x ∈ cs, (c.xpath_vec x xpath1).isSome = true)

/-- The entries `cs` violate the `unique` statement `yu` of the list `y`: two entries have
a body for every argument and the same tuple of bodies, or, for a single argument with `/`,
two of the body strings that the path selects over the run are equal. -/
def unique_violated (c : Collaborators) (y yu : yang_stmt) (cs : List cxobj) : Prop :=
  ((∀ k ∈ yang_cvec_get yu, has_slash k = false) ∧
    ∃ l1 a l2 b l3 t, cs = l1 ++ a :: (l2 ++ b :: l3) ∧
      key_tuple a (yang_cvec_get yu) = some t ∧ key_tuple b (yang_cvec_get yu) = some t) ∨
  (∃ xpath0 xpath1, yang_cvec_get yu = [xpath0] ∧ has_slash xpath0 = true ∧
    c.xpath2canonical yu y xpath0 = some (some xpath1) ∧
    ¬ (run_bodies c xpath1 cs).Nodup)

/-- The schema `list x { key "k"; unique "a/b c"; unique "v"; leaf k; leaf v; }`. -/
def ex_list_muv : yang_stmt :=
  .mk 84 .Y_LIST "x" none ["k"]
    [ex_unique_multi 85, ex_unique_v 86, ex_leaf 87 "k", ex_leaf 88 "v"]

/-- The entry `<x><k>k</k><v>v</v></x>` of `ex_list_muv`. -/
def ex_entry_muv (k v : String) : cxobj :=
  .mk "x" .CX_ELMNT 0 (some ex_list_muv) none
    [ex_elem "k" (ex_leaf 87 "k") k, ex_elem "v" (ex_leaf 88 "v") v]

/-- The tree `<c><x><k>a</k><v>1</v></x><x><k>b</k><v>1</v></x></c>` for `ex_list_muv`:
the keys differ, the values of `v` do not. -/
def ex_c_muv_dup : cxobj :=
  .mk "c" .CX_ELMNT 0 (some (.mk 89 .Y_CONTAINER "c" none [] [ex_list_muv])) none
    [ex_entry_muv "a" "1", ex_entry_muv "b" "1"]

/-- The flag test at the head of `xml_default_nopresence(xn, mode, flag)`: whether the call
returns 0 at once (`flag` is set and `xn` carries neither `XML_FLAG_CHANGE` nor a bit of
`flag`). -/
def xml_default_nopresence_skip (flag : Nat) (xn : cxobj) : Bool :=
  flag != 0 && xml_flag xn XML_FLAG_CHANGE == 0 && xml_flag xn flag == 0

/-- The value of `flag` after the flag test: 0 ("pass all") when `xn` does not carry
`XML_FLAG_CHANGE`. -/
def xml_default_nopresence_flag (flag : Nat) (xn : cxobj) : Nat :=
  if flag != 0 && xml_flag xn XML_FLAG_CHANGE == 0 then 0 else flag

/-- The loop of `xml_default_nopresence` as a single scan from left to right: after
`xml_purge(x)` the scan goes on with the child that follows `x`, instead of starting again
at the first child. The result is `rmx` and the child vector left behind; `none` is the
error return of a recursive call. -/
def xml_default_nopresence_once_scan (call : cxobj → Option (Bool × cxobj)) (mode : Nat)
    (config : Bool) : Bool → List cxobj → Option (Bool × List cxobj)
  | rmx, [] => some (rmx, [])
  | rmx, x :: rest =>
    if !is_elmnt x then
      (xml_default_nopresence_once_scan call mode config rmx rest).map fun p => (p.1, x :: p.2)
    else
      match call x with
      | none => none
      | some (true, x1) =>
        if xml_default_nopresence_purge mode config x1 then
          xml_default_nopresence_once_scan call mode config rmx rest
        else
          (xml_default_nopresence_once_scan call mode config rmx rest).map
            fun p => (p.1, x1 :: p.2)
      | some (false, x1) =>
        (xml_default_nopresence_once_scan call mode config false rest).map
          fun p => (p.1, x1 :: p.2)

/-- `xml_default_nopresence` with the single scan as its loop, the recursive calls
included; `fuel` bounds the depth of the recursion. -/
def xml_default_nopresence_once (env : DefaultsEnv) (mode : Nat) :
    Nat → Nat → cxobj → Option (Bool × cxobj)
  | 0, _, _ => none
  | fuel + 1, flag, xn =>
    if flag != 0 && xml_flag xn XML_FLAG_CHANGE == 0 && xml_flag xn flag == 0 then
      some (false, xn)
    else
      match xml_default_nopresence_once_scan
          (xml_default_nopresence_once env mode fuel
            (if flag != 0 && xml_flag xn XML_FLAG_CHANGE == 0 then 0 else flag))
          mode (xml_default_nopresence_config env xn)
          (xml_default_nopresence_rmx mode xn) (xml_childvec xn) with
      | none => none
      | some (rmx, cs) => some (rmx, xml_childvec_set xn cs)

mutual
/-- The answer of `xml_default_nopresence(xn, mode, flag)`: 0 for a node that the flag test
passes over; else `rmx` starts as the node says and stays 1 when the answer for each element
child is 1. -/
def nopresence_answer (mode : Nat) : Nat → cxobj → Bool
  | flag, .mk n t f s v cs =>
    if xml_default_nopresence_skip flag (.mk n t f s v []) then false
    else
      xml_default_nopresence_rmx mode (.mk n t f s v []) &&
        nopresence_answer_each mode (xml_default_nopresence_flag flag (.mk n t f s v [])) cs
/-- The answer for every element of the list is 1. -/
def nopresence_answer_each (mode : Nat) : Nat → List cxobj → Bool
  | _, [] => true
  | flag, c :: rest =>
    (!is_elmnt c || nopresence_answer mode flag c) && nopresence_answer_each mode flag rest
end

mutual
/-- The tree that `xml_default_nopresence(xn, mode, flag)` leaves: a node that the flag test
passes over stays as it is; below another node the element children whose answer is 1 and
that the `switch (mode)` purges are gone, and the others are left as the call on them leaves
them. -/
def nopresence_left (env : DefaultsEnv) (mode : Nat) : Nat → cxobj → cxobj
  | flag, .mk n t f s v cs =>
    if xml_default_nopresence_skip flag (.mk n t f s v []) then .mk n t f s v cs
    else
      .mk n t f s v
        (nopresence_left_each env mode (xml_default_nopresence_config env (.mk n t f s v []))
          (xml_default_nopresence_flag flag (.mk n t f s v [])) cs)
/-- The children that stay, as the calls on them leave them. -/
def nopresence_left_each (env : DefaultsEnv) (mode : Nat) (config : Bool) :
    Nat → List cxobj → List cxobj
  | _, [] => []
  | flag, c :: rest =>
    if !is_elmnt c then c :: nopresence_left_each env mode config flag rest
    else if nopresence_answer mode flag c && xml_default_nopresence_purge mode config c then
      nopresence_left_each env mode config flag rest
    else nopresence_left env mode flag c :: nopresence_left_each env mode config flag rest
end

/-- Modelled from the spec: the key/value store of the handle ("the generic key/value handle
store"), as `clicon_db_elmnt_get` and `clicon_db_elmnt_set` of `clixon_data.c` use it, which
are not part of this development: the tree `de_xml` of the entry stored under a key. The
entry holds a pointer to the tree, so a later change of the tree is a change of the
entry. -/
abbrev clixon_handle := String → Option cxobj

/-- Modelled from the spec: `clicon_db_elmnt_get(h, key)`, the entry stored under `key`,
NULL when there is none. -/
def clicon_db_elmnt_get (h : clixon_handle) (key : String) : Option cxobj := h key

/-- Modelled from the spec: `clicon_db_elmnt_set(h, key, de)`, which stores the entry under
`key` and leaves the other keys as they are. -/
def clicon_db_elmnt_set (h : clixon_handle) (key : String) (x : cxobj) : clixon_handle :=
  fun k => if k = key then some x else h k

/-- Functions of other Clixon modules that `xml_global_defaults` calls and whose source is
not part of this development: they are parameters.
* `xpath_vec x xpath`: the nodes of the tree `x` that the path selects, each given by the
  child indexes that lead to it from `x`; `none` is the error return;
* `xml_copy_marked x0 x1`: `x1` with the marked parts of `x0` copied into it; `none` is the
  error return;
* `xml_merge xt xpart yspec`: the return value and `xt` as the call leaves it. -/
structure GlobalDefaultsEnv where
  xpath_vec : cxobj → String → Option (List (List Nat))
  xml_copy_marked : cxobj → cxobj → Option cxobj
  xml_merge : cxobj → cxobj → yang_stmt → Int × cxobj

/-- Modelled from the spec: the name `DATASTORE_TOP_SYMBOL` of the "synthetic datastore-top
element", a constant that is not part of this development. -/
def DATASTORE_TOP_SYMBOL : String := "config"

/-- `xml_new(DATASTORE_TOP_SYMBOL, NULL, CX_ELMNT)`: a new element without parent. -/
def xml_new_top : cxobj := .mk DATASTORE_TOP_SYMBOL .CX_ELMNT 0 none none []

/-- The children `cs` with `f` applied to child number `i`. -/
def xml_child_modify (f : cxobj → cxobj) : Nat → List cxobj → List cxobj
  | _, [] => []
  | 0, c :: rest => f c :: rest
  | i + 1, c :: rest => c :: xml_child_modify f i rest

/-- Modelled from the spec: `xml_flag_set` and `xml_apply_ancestor` of `clixon_xml.c`,
which is not part of this source tree, as they are used in one pass through the loop over
the match vector in `xml_global_defaults`, for the node `x0` that the child indexes `path`
lead to from `x`: `xml_flag_set(x0, XML_FLAG_MARK)` and
`xml_apply_ancestor(x0, xml_flag_set, XML_FLAG_CHANGE)`, which flags the nodes from the
parent of `x0` up to `x`. -/
def xml_mark_at : List Nat → cxobj → cxobj
  | [], x => xml_flag_set x XML_FLAG_MARK
  | i :: path, x =>
    xml_childvec_set (xml_flag_set x XML_FLAG_CHANGE)
      (xml_child_modify (xml_mark_at path) i (xml_childvec x))

mutual
/-- Modelled from the spec: `xml_apply(xn, CX_ELMNT, xml_flag_reset, flags)`, the
traversal `xml_apply` of `clixon_xml.c`, which is not part of this source tree (the
callback is called on the element children of `xn` and below them, not on `xn` itself,
which is what `xml_apply0` adds), with the callback `xml_flag_reset`, which returns 0. -/
def xml_apply_flag_reset (flags : Nat) : cxobj → cxobj
  | .mk n t f s v cs => .mk n t f s v (xml_apply_flag_reset_each flags cs)
/-- The loop of that traversal over the children. -/
def xml_apply_flag_reset_each (flags : Nat) : List cxobj → List cxobj
  | [] => []
  | c :: rest =>
    (if is_elmnt c then xml_flag_reset (xml_apply_flag_reset flags c) flags else c) ::
      xml_apply_flag_reset_each flags rest
end

/-- The loop `while ((ymod = yn_each(yspec, ymod)) != NULL)` of
`xml_global_defaults_create`. -/
def xml_global_defaults_create_each (env : DefaultsEnv) (state : Bool) :
    List yang_stmt → cxobj → Option cxobj
  | [], xt => some xt
  | ymod :: rest, xt =>
    match xml_default env state ymod xt with
    | none => none
    | some xt1 => xml_global_defaults_create_each env state rest xt1

/-- `xml_global_defaults_create(xt, yspec, state)`: `none` is the error return, else `xt` as
the call leaves it. -/
def xml_global_defaults_create (env : DefaultsEnv) (xt : cxobj) (yspec : yang_stmt)
    (state : Bool) : Option cxobj :=
  if yang_keyword_get yspec != .Y_SPEC then none
  else xml_global_defaults_create_each env state (yang_children yspec) xt

/-- The key of the cache entry: "Use different keys for config and state". -/
def global_defaults_key (state : Bool) : String :=
  if state then "global-defaults-state" else "global-defaults-config"

/-- The part of `xml_global_defaults` after the cache lookup, `xcache` being the tree of the
entry under `key`: the nodes that the path selects are marked, the marked parts are copied
into a new tree, the flags are reset in both trees, and the copy is merged into `xt`. The
result is the return value, the handle (the entry under `key` is `xcache` with the flags
that the call has left on it) and `xt`. -/
def xml_global_defaults_merge (g : GlobalDefaultsEnv) (h : clixon_handle) (key : String)
    (xcache xt : cxobj) (xpath : Option String) (yspec : yang_stmt) :
    Int × clixon_handle × cxobj :=
  match g.xpath_vec xcache (xpath.getD "/") with
  | none => (-1, clicon_db_elmnt_set h key xcache, xt)
  | some xvec =>
    match g.xml_copy_marked (xvec.foldl (fun x path => xml_mark_at path x) xcache)
        xml_new_top with
    | none =>
      (-1, clicon_db_elmnt_set h key (xvec.foldl (fun x path => xml_mark_at path x) xcache), xt)
    | some xpart =>
      (if (g.xml_merge xt
            (xml_apply_flag_reset (XML_FLAG_MARK ||| XML_FLAG_CHANGE) xpart) yspec).1 < 1
        then -1 else 0,
       clicon_db_elmnt_set h key
        (xml_apply_flag_reset (XML_FLAG_MARK ||| XML_FLAG_CHANGE)
          (xvec.foldl (fun x path => xml_mark_at path x) xcache)),
       (g.xml_merge xt
          (xml_apply_flag_reset (XML_FLAG_MARK ||| XML_FLAG_CHANGE) xpart) yspec).2)

/-- `xml_global_defaults(h, xt, nsc, xpath, yspec, state)`: the return value, the handle
and `xt` as the call leaves them. -/
def xml_global_defaults (env : DefaultsEnv) (g : GlobalDefaultsEnv) (h : clixon_handle)
    (xt : cxobj) (xpath : Option String) (yspec : yang_stmt) (state : Bool) :
    Int × clixon_handle × cxobj :=
  match clicon_db_elmnt_get h (global_defaults_key state) with
  | none =>
    match xml_global_defaults_create env xml_new_top yspec state with
    | none => (-1, h, xt)
    | some xcache =>
      xml_global_defaults_merge g h (global_defaults_key state) xcache xt xpath yspec
  | some xcache =>
    xml_global_defaults_merge g h (global_defaults_key state) xcache xt xpath yspec

mutual
/-- The tree with `XML_FLAG_MARK` and `XML_FLAG_CHANGE` cleared on every node: what two
trees that differ in these flags only have in common. -/
def xml_clear_marks : cxobj → cxobj
  | .mk n t f s v cs =>
    .mk n t (f ^^^ (f &&& (XML_FLAG_MARK ||| XML_FLAG_CHANGE))) s v (xml_clear_marks_each cs)
/-- The same for a child vector. -/
def xml_clear_marks_each : List cxobj → List cxobj
  | [] => []
  | c :: rest => xml_clear_marks c :: xml_clear_marks_each rest
end

/-- The schema `module m { leaf x { type uint8; default 7; } }`. -/
def ex_module_m : yang_stmt := .mk 301 .Y_MODULE "m" none [] [ex_leaf_x7]

/-- The top-level specification that holds this module. -/
def ex_yspec : yang_stmt := .mk 302 .Y_SPEC "" none [] [ex_module_m]

/-- Collaborators for the examples: the path `/x` selects the first child of the top node
and every other path selects the top node; the children that carry `XML_FLAG_MARK` are
copied; the merge adds the children of the copy to `xt` and returns 1. -/
def ex_global_env : GlobalDefaultsEnv :=
  ⟨fun _ xpath => if xpath == "/x" then some [[0]] else some [[]],
   fun x0 x1 => some (xml_childvec_set x1
     (xml_childvec x1 ++ (xml_childvec x0).filter fun c => xml_flag c XML_FLAG_MARK != 0)),
   fun xt xpart _ => (1, xml_childvec_set xt (xml_childvec xt ++ xml_childvec xpart))⟩

/-- The handle without cache entries. -/
def ex_handle_empty : clixon_handle := fun _ => none

/-- The tree `<config><x>7</x></config>` of the global defaults of `ex_yspec`, with the
flags `f` on the top node. -/
def ex_global_tree (f : Nat) : cxobj :=
  .mk "config" .CX_ELMNT f none none
    [.mk "x" .CX_ELMNT XML_FLAG_DEFAULT (some ex_leaf_x7) none [ex_body "7"]]


/-- The children `cs1` are the children `cs`, in their order, with nodes `M` put in
between. -/
inductive inserted (M : cxobj → Prop) : List cxobj → List cxobj → Prop where
  | nil : inserted M [] []
  | keep (x : cxobj) (cs cs1 : List cxobj) : inserted M cs cs1 →
      inserted M (x :: cs) (x :: cs1)
  | add (m : cxobj) (cs cs1 : List cxobj) : M m → inserted M cs cs1 → inserted M cs (m :: cs1)

/-- A node as the defaults code makes it and leaves it: an element bound to a leaf
statement, flagged `XML_FLAG_DEFAULT`, without element children; or an element bound to a
container statement without `presence` whose element children are such nodes, bound to
statements that `xml_default` reaches from the child statements of that container. -/
inductive default_made : cxobj → Prop where
  | leaf (x : cxobj) (y : yang_stmt) : is_elmnt x = true → xml_spec x = some y →
      yang_keyword_get y = .Y_LEAF → xml_flag x XML_FLAG_DEFAULT ≠ 0 →
      (∀ ch ∈ xml_childvec x, is_elmnt ch = false) → default_made x
  | container (x : cxobj) (y : yang_stmt) : is_elmnt x = true → xml_spec x = some y →
      yang_keyword_get y = .Y_CONTAINER → yang_find y .Y_PRESENCE none = none →
      (∀ ch ∈ xml_childvec x, is_elmnt ch = true → default_made ch) →
      (∀ ch ∈ xml_childvec x, is_elmnt ch = true →
        ∃ y1 ∈ made_specs_each (yang_children y), xml_spec ch = some y1) → default_made x

/-- Such a node, bound to one of the statements `s`. -/
def made_in (s : List yang_stmt) (c : cxobj) : Prop :=
  default_made c ∧ ∃ y ∈ s, xml_spec c = some y

mutual
/-- No leaf carries the DEFAULT flag: neither the element, if it is bound to a leaf
statement, nor an element below it. -/
def no_default_leaf : cxobj → Bool
  | .mk n t f s v cs =>
    !(is_elmnt (.mk n t f s v cs) &&
        (match s with
         | some y => yang_keyword_get y == .Y_LEAF
         | none => false) &&
        xml_flag (.mk n t f s v cs) XML_FLAG_DEFAULT != 0) &&
      no_default_leaf_each cs
/-- The same for the elements of a child vector. -/
def no_default_leaf_each : List cxobj → Bool
  | [] => true
  | c :: rest => (!is_elmnt c || no_default_leaf c) && no_default_leaf_each rest
end

mutual
/-- A non-presence container that is (recursively) empty: the node is bound to a container
statement without `presence`, and each of its element children is such a node. -/
def recursively_empty : cxobj → Bool
  | .mk _ _ _ s _ cs =>
    (match s with
     | some y => yang_keyword_get y == .Y_CONTAINER && (yang_find y .Y_PRESENCE none).isNone
     | none => false) &&
      recursively_empty_each cs
/-- Each element of the child vector is such a node. -/
def recursively_empty_each : List cxobj → Bool
  | [] => true
  | c :: rest => (!is_elmnt c || recursively_empty c) && recursively_empty_each rest
end

mutual
/-- No non-presence container is (recursively) empty: neither the node nor an element
below it. -/
def no_empty_nopresence : cxobj → Bool
  | .mk n t f s v cs =>
    !recursively_empty (.mk n t f s v cs) && no_empty_nopresence_each cs
/-- The same for the elements of a child vector. -/
def no_empty_nopresence_each : List cxobj → Bool
  | [] => true
  | c :: rest => (!is_elmnt c || no_empty_nopresence c) && no_empty_nopresence_each rest
end

/-- The children of the node, and of every element below it, are in the order `P`. -/
def children_ordered (P : List cxobj → Prop) (x : cxobj) : Prop :=
  P (xml_childvec x) ∧ ∀ d, elmnt_descendant d x → P (xml_childvec d)

/-- What `xml_sort` does with children that are in order (`P`) and a new last child `x` of
the kind that `xml_default` adds, an element bound to a leaf or container statement: it
puts `x` in its place and leaves the order of the others, and the children are in order
then, whatever the children of `x` are (the place of such a node does not depend on what
it holds). Nothing is asked for a new list or leaf-list entry, whose place depends on its
keys or its value. -/
def sort_inserts (env : DefaultsEnv) (P : List cxobj → Prop) : Prop :=
  ∀ cs x y, P cs → is_elmnt x = true → xml_spec x = some y →
    (yang_keyword_get y = .Y_LEAF ∨ yang_keyword_get y = .Y_CONTAINER) →
    ∃ a b, cs = a ++ b ∧ env.xml_sort (cs ++ [x]) = a ++ x :: b ∧
      ∀ cs1, P (a ++ xml_childvec_set x cs1 :: b)

/-- What a pass of `xml_default` leaves of `xt`: the node with other children; each child
was there or is a made node bound to one of `s`; and when the children were in order, they
still are, and they are the old children with made nodes put in between. -/
def fill_inv (P : List cxobj → Prop) (s : List yang_stmt) (xt xt1 : cxobj) : Prop :=
  xt1 = xml_childvec_set xt (xml_childvec xt1) ∧
  (∀ c ∈ xml_childvec xt1, c ∈ xml_childvec xt ∨ made_in s c) ∧
  (P (xml_childvec xt) →
    P (xml_childvec xt1) ∧ inserted (made_in s) (xml_childvec xt) (xml_childvec xt1))

mutual
/-- The depth of a statement: 1 for a statement without child statements. -/
def yang_depth : yang_stmt → Nat
  | .mk _ _ _ _ _ ys => yang_depth_each ys + 1
/-- The largest depth among the statements. -/
def yang_depth_each : List yang_stmt → Nat
  | [] => 0
  | y :: rest => max (yang_depth y) (yang_depth_each rest)
end

mutual
/-- A depth of recursion that is enough for `xml_default_recurse` on the node: one more
than the depth of its statement and than what its elements need. The elements that the
call makes are not deeper than the statement. -/
def fill_need : cxobj → Nat
  | .mk _ _ _ s _ cs =>
    max (match s with
         | some y => yang_depth y
         | none => 0) (fill_need_each cs) + 1
/-- The largest need among the elements. -/
def fill_need_each : List cxobj → Nat
  | [] => 0
  | c :: rest => max (if is_elmnt c then fill_need c else 0) (fill_need_each rest)
end

mutual
/-- Every leaf statement at or below the statement is populated with a `cv` (see the
error "yang leaf not populated with cv as it should" of `xml_default`). -/
def yang_populated : yang_stmt → Bool
  | .mk _ k _ cv _ ys => (k != .Y_LEAF || cv.isSome) && yang_populated_each ys
/-- The same for a list of statements. -/
def yang_populated_each : List yang_stmt → Bool
  | [] => true
  | y :: rest => yang_populated y && yang_populated_each rest
end

mutual
/-- The statement of the node, and of every element below it, is populated. -/
def xml_populated : cxobj → Bool
  | .mk _ _ _ s _ cs =>
    (match s with
     | some y => yang_populated y
     | none => true) && xml_populated_each cs
/-- The same for the elements of a child vector. -/
def xml_populated_each : List cxobj → Bool
  | [] => true
  | c :: rest => (!is_elmnt c || xml_populated c) && xml_populated_each rest
end

mutual
/-- A bound config tree: the node, and every element below it, is bound to a statement
that is not `config false`. -/
def xml_bound_config : cxobj → Bool
  | .mk _ _ _ s _ cs =>
    (match s with
     | some y => yang_config y
     | none => false) && xml_bound_config_each cs
/-- The same for the elements of a child vector. -/
def xml_bound_config_each : List cxobj → Bool
  | [] => true
  | c :: rest => (!is_elmnt c || xml_bound_config c) && xml_bound_config_each rest
end

/-- The number that the body of a node spells in decimal digits; 0 without a body. -/
def ex_body_number (x : cxobj) : Nat :=
  ((xml_body x).getD "").data.foldl (fun n c => n * 10 + (c.toNat - 48)) 0

/-- The place of a node among its siblings for `ex_sort_env`: first the address of its
statement (the statements of a container having increasing addresses), then, for the
entries of a leaf-list, the number in the body (below 1000); 0 for a node that is not
bound. -/
def ex_sort_key (x : cxobj) : Nat :=
  match xml_spec x with
  | some y =>
    yang_addr y * 1000 + (if yang_keyword_get y == .Y_LEAF_LIST then ex_body_number x else 0)
  | none => 0

/-- Collaborators whose `xml_sort` puts the children in the order of their statements in
the schema, the entries of a leaf-list in the order of their values, and keeps the order of
children that have the same place; no `when`, the namespace is bound. -/
def ex_sort_env : DefaultsEnv :=
  ⟨fun _ => true, fun _ _ => some (false, 0), fun _ => none, fun _ => none,
   fun _ _ => some true, fun cs => cs.insertionSort fun a b => ex_sort_key a ≤ ex_sort_key b⟩

/-- The schema `leaf a { type string; }`. -/
def ex_o_leaf_a : yang_stmt := .mk 321 .Y_LEAF "a" (some ⟨true, 0, false, ""⟩) [] []

/-- The schema `leaf b { type string; }`. -/
def ex_o_leaf_b : yang_stmt := .mk 322 .Y_LEAF "b" (some ⟨true, 0, false, ""⟩) [] []

/-- The schema `leaf-list l { type uint8; }`. -/
def ex_o_leaf_list : yang_stmt := .mk 323 .Y_LEAF_LIST "l" none [] []

/-- The schema `leaf x { type uint8; default 7; }`, after `a`, `b` and `l`. -/
def ex_o_leaf_x : yang_stmt := .mk 324 .Y_LEAF "x" (some ⟨false, 7, false, "7"⟩) [] []

/-- The schema `container root { leaf a; leaf b; leaf-list l; leaf x { default 7; } }`. -/
def ex_o_root : yang_stmt :=
  .mk 325 .Y_CONTAINER "root" none []
    [ex_o_leaf_a, ex_o_leaf_b, ex_o_leaf_list, ex_o_leaf_x]

/-- The entry `<l>v</l>` of the leaf-list. -/
def ex_o_l (v : String) : cxobj := .mk "l" .CX_ELMNT 0 (some ex_o_leaf_list) none [ex_body v]

/-- The element `<a>1</a>`. -/
def ex_o_a : cxobj := .mk "a" .CX_ELMNT 0 (some ex_o_leaf_a) none [ex_body "1"]

/-- The element `<b>1</b>`. -/
def ex_o_b : cxobj := .mk "b" .CX_ELMNT 0 (some ex_o_leaf_b) none [ex_body "1"]

/-- The element `<x>7</x>` made from the default. -/
def ex_o_x : cxobj := .mk "x" .CX_ELMNT XML_FLAG_DEFAULT (some ex_o_leaf_x) none [ex_body "7"]

/-- The tree `<root><b>1</b><a>1</a></root>`: the children are not in the order of the
schema. -/
def ex_o_tree_ba : cxobj := .mk "root" .CX_ELMNT 0 (some ex_o_root) none [ex_o_b, ex_o_a]

/-- The tree `<root><a>1</a><b>1</b></root>`. -/
def ex_o_tree_ab : cxobj := .mk "root" .CX_ELMNT 0 (some ex_o_root) none [ex_o_a, ex_o_b]

/-- The tree `<root><a>1</a><b>1</b><x>7</x></root>`. -/
def ex_o_tree_abx : cxobj :=
  .mk "root" .CX_ELMNT 0 (some ex_o_root) none [ex_o_a, ex_o_b, ex_o_x]

/-- The tree `<root><a>1</a><l>2</l><l>10</l></root>`: the children are in the order of
the schema, the entries of the leaf-list in the order of their values. -/
def ex_o_tree_l : cxobj :=
  .mk "root" .CX_ELMNT 0 (some ex_o_root) none [ex_o_a, ex_o_l "2", ex_o_l "10"]

/-- The tree `<root><a>1</a><l>2</l><l>10</l><x>7</x></root>`. -/
def ex_o_tree_lx : cxobj :=
  .mk "root" .CX_ELMNT 0 (some ex_o_root) none [ex_o_a, ex_o_l "2", ex_o_l "10", ex_o_x]

/-- The children are in the order of `ex_sort_env`. -/
def ex_sorted (cs : List cxobj) : Prop :=
  cs.Pairwise fun a b => ex_sort_key a ≤ ex_sort_key b

/-- The tree `<c><x><k>a</k><v>1</v></x><u/><x><k>b</k><v>1</v></x></c>`: the entries `(a,
1)` and `(b, 1)` of `list x { key "k"; unique "v"; .. }` with an unbound element between
them. -/
def ex_c_kv_dup_unbound : cxobj :=
  .mk "c" .CX_ELMNT 0 (some ex_cont_uv) none
    [ex_entry_kv "a" "1", ex_unbound, ex_entry_kv "b" "1"]

/-- An element that is bound to a leaf statement and carries `XML_FLAG_DEFAULT` has no
element child: the shape of every leaf that `xml_default_create`, the one place where the
flag is set, makes (its children are the body and, possibly, an `xmlns` attribute). -/
def leaf_plain (x : cxobj) : Bool :=
  match xml_spec x with
  | some y =>
    yang_keyword_get y != .Y_LEAF || xml_flag x XML_FLAG_DEFAULT == 0 ||
      (xml_childvec x).all fun c => !is_elmnt c
  | none => true

mutual
/-- The node, and every element below it, is `leaf_plain`. -/
def leaves_plain : cxobj → Bool
  | .mk n t f s v cs => leaf_plain (.mk n t f s v cs) && leaves_plain_each cs
/-- The same for the elements of a child vector. -/
def leaves_plain_each : List cxobj → Bool
  | [] => true
  | c :: rest => (!is_elmnt c || leaves_plain c) && leaves_plain_each rest
end

mutual
/-- The choices that the pass of `xml_default` for the child statement `y` meets on the
tree `xt`: `y` itself when it is a choice, and the choices met by `xml_default` on its
cases. -/
def met_choices : yang_stmt → List yang_stmt
  | .mk a k arg cv cvk ys =>
    if k == .Y_CHOICE then .mk a k arg cv cvk ys :: met_choices_cases ys else []
/-- The choices met on the cases of a choice. -/
def met_choices_cases : List yang_stmt → List yang_stmt
  | [] => []
  | c :: rest => met_choices_default c ++ met_choices_cases rest
/-- The choices that `xml_default(y, xt, state)` meets on the tree `xt`. -/
def met_choices_default : yang_stmt → List yang_stmt
  | .mk _ k _ _ _ ys => if xml_default_kw k then met_choices_each ys else []
/-- The choices met in a loop over child statements. -/
def met_choices_each : List yang_stmt → List yang_stmt
  | [] => []
  | y :: rest => met_choices y ++ met_choices_each rest
end

mutual
/-- What is asked of `yang_choice_case_get` for the pass of `xml_default` for the child
statement `y`, when `y` is a choice: a statement that the case `c` of `y` can make and that
is placed under `y` is placed under `c`; and the same for the choices met on the cases. -/
def case_get_sound (env : DefaultsEnv) : yang_stmt → Prop
  | .mk a k arg cv cvk ys =>
    k = .Y_CHOICE →
      (∀ c ∈ ys, ∀ s ∈ made_specs_default c, ∀ c1 ch,
        env.yang_choice_case_get s = some (c1, ch) →
        yang_same ch (.mk a k arg cv cvk ys) = true → yang_addr c1 = yang_addr c) ∧
      case_get_sound_cases env ys
/-- The same for the cases of a choice. -/
def case_get_sound_cases (env : DefaultsEnv) : List yang_stmt → Prop
  | [] => True
  | c :: rest => case_get_sound_default env c ∧ case_get_sound_cases env rest
/-- What is asked of `yang_choice_case_get` for `xml_default(y, xt, state)`: it gives, for
a statement, the case and the choice that hold it. -/
def case_get_sound_default (env : DefaultsEnv) : yang_stmt → Prop
  | .mk _ k _ _ _ ys => xml_default_kw k = true → case_get_sound_each env ys
/-- The same for a loop over child statements: a statement that a later child statement can
make is not placed under a choice met for an earlier one. -/
def case_get_sound_each (env : DefaultsEnv) : List yang_stmt → Prop
  | [] => True
  | y :: rest =>
    case_get_sound env y ∧ case_get_sound_each env rest ∧
      ∀ yc ∈ met_choices y, ∀ s ∈ made_specs_each rest, ∀ c ch,
        env.yang_choice_case_get s = some (c, ch) → yang_same ch yc = false
end

/-- The children of `xt` that are bound under the choice `yc` are all bound under one
case. -/
def one_case (env : DefaultsEnv) (yc : yang_stmt) (xt : cxobj) : Prop :=
  ∀ x1 ∈ xml_childvec xt, ∀ x2 ∈ xml_childvec xt, ∀ c1 c2,
    bound_case env yc x1 = some c1 → bound_case env yc x2 = some c2 →
    yang_addr c1 = yang_addr c2

/-- Every element child of `xt` has an element of its name, bound to the same statement,
among the children of `xt1`. -/
def covers_spec (xt xt1 : cxobj) : Prop :=
  ∀ x ∈ xml_childvec xt, is_elmnt x = true →
    ∃ x1 ∈ xml_childvec xt1, is_elmnt x1 = true ∧ xml_name x1 = xml_name x ∧
      xml_spec x1 = xml_spec x

/-- For every choice of `scope` under which a child of `xt1` is bound, a child of `xt` is
bound under it. -/
def settled (env : DefaultsEnv) (scope : List yang_stmt) (xt xt1 : cxobj) : Prop :=
  ∀ yc ∈ scope, ∀ x1 ∈ xml_childvec xt1, ∀ c, bound_case env yc x1 = some c →
    ∃ x ∈ xml_childvec xt, ∃ c0, bound_case env yc x = some c0

/-- C9: `check_minmax(xp, y, nr)` returns 1 exactly when (`y` has no min-elements or
`nr >= min`) and (`y` has no max-elements, or `max = 0`, or `nr <= max`); when `nr < min`
it returns 0 with too-few-elements (whatever max-elements says); otherwise, when `max > 0`
and `nr > max`, it returns 0 with too-many-elements. -/
theorem check_minmax_returns (xp : cxobj) (y : yang_stmt) (nr : Nat) :
    (check_minmax xp y nr = .ok ↔
      ((∀ m, yang_min_elements y = some m → m ≤ nr) ∧
       (∀ m, yang_max_elements y = some m → m = 0 ∨ nr ≤ m))) ∧
    (∀ m, yang_min_elements y = some m → nr < m →
      check_minmax xp y nr = .fail (some (.minmax_elements xp (yang_argument_get y) false)) none) ∧
    (∀ m, yang_max_elements y = some m → (∀ n, yang_min_elements y = some n → n ≤ nr) →
      0 < m → m < nr →
      check_minmax xp y nr = .fail (some (.minmax_elements xp (yang_argument_get y) true)) none) := by
  unfold check_minmax yang_min_elements yang_max_elements
  cases hmin : yang_find y .Y_MIN_ELEMENTS none <;>
    cases hmax : yang_find y .Y_MAX_ELEMENTS none
  · simp
  · simp only [Option.map_none', Option.map_some', Option.some.injEq]
    by_cases h1 : 0 < cv_uint32_get (yang_cv_get ‹yang_stmt›) <;>
      by_cases h2 : cv_uint32_get (yang_cv_get ‹yang_stmt›) < nr <;>
      simp [h1, h2] <;> omega
  · simp only [Option.map_none', Option.map_some', Option.some.injEq]
    by_cases h0 : nr < cv_uint32_get (yang_cv_get ‹yang_stmt›) <;> simp [h0] <;> omega
  · rename_i ymin ymax
    simp only [Option.map_none', Option.map_some', Option.some.injEq]
    by_cases h0 : nr < cv_uint32_get (yang_cv_get ymin) <;>
      by_cases h1 : 0 < cv_uint32_get (yang_cv_get ymax) <;>
      by_cases h2 : cv_uint32_get (yang_cv_get ymax) < nr <;>
      simp [h0, h1, h2] <;> omega

theorem check_minmax_zero (xp : cxobj) (y : yang_stmt) :
    (check_minmax xp y 0 = .ok ∧ ¬ ∃ n, yang_min_elements y = some n ∧ 1 ≤ n) ∨
    ((∃ n, yang_min_elements y = some n ∧ 1 ≤ n) ∧
      check_minmax xp y 0 = .fail (some (.minmax_elements xp (yang_argument_get y) false)) none) := by
  unfold check_minmax yang_min_elements
  cases hmin : yang_find y .Y_MIN_ELEMENTS none with
  | none => left; cases hmax : yang_find y .Y_MAX_ELEMENTS none <;> simp
  | some ymin =>
    by_cases h0 : 0 < cv_uint32_get (yang_cv_get ymin)
    · right; simp [h0]; omega
    · left; cases hmax : yang_find y .Y_MAX_ELEMENTS none <;> simp [h0] <;> omega

theorem gap_reachable_cons_iff (y : yang_stmt) (ys : List yang_stmt) (L : yang_stmt) :
    gap_reachable (y :: ys) L ↔ gap_reachable [y] L ∨ gap_reachable ys L := by
  constructor
  · intro h
    cases h with
    | child hm =>
      rcases List.mem_cons.1 hm with rfl | hm
      · exact Or.inl (.child (List.mem_singleton.2 rfl))
      · exact Or.inr (.child hm)
    | descend hm hc hk hp hr =>
      rcases List.mem_cons.1 hm with rfl | hm
      · exact Or.inl (.descend (List.mem_singleton.2 rfl) hc hk hp hr)
      · exact Or.inr (.descend hm hc hk hp hr)
  · rintro (h | h)
    · cases h with
      | child hm =>
        rw [List.mem_singleton.1 hm]; exact .child (List.mem_cons_self _ _)
      | descend hm hc hk hp hr =>
        obtain rfl := List.mem_singleton.1 hm
        exact .descend (List.mem_cons_self _ _) hc hk hp hr
    · cases h with
      | child hm => exact .child (List.mem_cons_of_mem _ hm)
      | descend hm hc hk hp hr => exact .descend (List.mem_cons_of_mem _ hm) hc hk hp hr

mutual
theorem check_empty_list_minmax_spec (xt : cxobj) :
    ∀ y, GapSpec xt [y] (check_empty_list_minmax xt y)
  | .mk a k arg cv cvk ys => by
    have ih := check_empty_list_minmax_iter_spec xt ys
    unfold check_empty_list_minmax
    generalize hy : yang_stmt.mk a k arg cv cvk ys = y at *
    have hk : yang_keyword_get y = k := by rw [← hy]; rfl
    have hch : yang_children y = ys := by rw [← hy]; rfl
    by_cases hc : yang_config y = true
    · rw [if_pos hc]
      by_cases hcont : (k == .Y_CONTAINER && (yang_find y .Y_PRESENCE none).isNone) = true
      · rw [if_pos hcont]
        simp only [Bool.and_eq_true, beq_iff_eq, Option.isNone_iff_eq_none] at hcont
        rcases ih with ⟨hok, hno⟩ | ⟨L, hr, hm, hres⟩
        · left
          refine ⟨hok, ?_⟩
          rintro ⟨L, hr, hm⟩
          cases hr with
          | child hmem =>
            obtain rfl := List.mem_singleton.1 hmem
            have := hm.1
            rw [hk, hcont.1] at this
            exact absurd this (by decide)
          | descend hmem _ _ _ hr2 =>
            obtain rfl := List.mem_singleton.1 hmem
            rw [hch] at hr2
            exact hno ⟨L, hr2, hm⟩
        · right
          refine ⟨L, ?_, hm, hres⟩
          exact .descend (List.mem_singleton.2 rfl) hc (by rw [hk]; exact hcont.1) hcont.2
            (by rw [hch]; exact hr)
      · rw [if_neg hcont]
        by_cases hl : (k == .Y_LIST || k == .Y_LEAF_LIST) = true
        · rw [if_pos hl]
          have hlk : is_list_kw (yang_keyword_get y) = true := by rw [hk]; exact hl
          rcases check_minmax_zero xt y with ⟨hok, hno⟩ | ⟨hmin, hres⟩
          · left
            refine ⟨hok, ?_⟩
            rintro ⟨L, hr, hm⟩
            cases hr with
            | child hmem =>
              obtain rfl := List.mem_singleton.1 hmem
              exact hno hm.2.2
            | descend hmem _ hkc _ _ =>
              obtain rfl := List.mem_singleton.1 hmem
              rw [hkc] at hlk
              exact absurd hlk (by decide)
          · right
            exact ⟨y, .child (List.mem_singleton.2 rfl), ⟨hlk, hc, hmin⟩, hres⟩
        · rw [if_neg hl]
          left
          refine ⟨rfl, ?_⟩
          rintro ⟨L, hr, hm⟩
          cases hr with
          | child hmem =>
            obtain rfl := List.mem_singleton.1 hmem
            have := hm.1
            rw [hk] at this
            exact hl this
          | descend hmem _ hkc hp _ =>
            obtain rfl := List.mem_singleton.1 hmem
            apply hcont
            rw [← hk, hkc, hp]
            rfl
    · rw [if_neg hc]
      left
      refine ⟨rfl, ?_⟩
      rintro ⟨L, hr, hm⟩
      cases hr with
      | child hmem =>
        obtain rfl := List.mem_singleton.1 hmem
        exact hc hm.2.1
      | descend hmem hcc _ _ _ =>
        obtain rfl := List.mem_singleton.1 hmem
        exact hc hcc
theorem check_empty_list_minmax_iter_spec (xt : cxobj) :
    ∀ ys, GapSpec xt ys (check_empty_list_minmax_iter xt ys)
  | [] => by
    unfold check_empty_list_minmax_iter
    left
    refine ⟨rfl, ?_⟩
    rintro ⟨L, h, -⟩
    cases h with
    | child hm => cases hm
    | descend hm => cases hm
  | y :: ys => by
    have ih1 := check_empty_list_minmax_spec xt y
    have ih2 := check_empty_list_minmax_iter_spec xt ys
    unfold check_empty_list_minmax_iter
    rcases ih1 with ⟨hok, hno⟩ | ⟨L, hr, hm, hres⟩
    · rw [hok]
      rcases ih2 with ⟨hok2, hno2⟩ | ⟨L, hr, hm, hres⟩
      · left
        refine ⟨hok2, ?_⟩
        rintro ⟨L, hr, hm⟩
        rcases (gap_reachable_cons_iff y ys L).1 hr with h | h
        · exact hno ⟨L, h, hm⟩
        · exact hno2 ⟨L, h, hm⟩
      · right
        exact ⟨L, (gap_reachable_cons_iff y ys L).2 (Or.inr hr), hm, hres⟩
    · right
      rw [hres]
      exact ⟨L, (gap_reachable_cons_iff y ys L).2 (Or.inl hr), hm, rfl⟩
end

/-! ## Unfolding the traversal of xml_yang_validate_minmax -/

theorem minmax_loop_unfold_nil (c : Collaborators) (presence : Bool) (xt : cxobj)
    (yt : Option yang_stmt) (st : MinmaxState) :
    xml_yang_validate_minmax_loop c presence xt yt st [] =
      xml_yang_validate_minmax_after xt st.yprev st.nr st.inext := by
  rw [xml_yang_validate_minmax_loop]

theorem minmax_loop_unfold_cons (c : Collaborators) (presence : Bool) (xt : cxobj)
    (yt : Option yang_stmt) (st : MinmaxState) (x : cxobj) (rest : List cxobj) :
    xml_yang_validate_minmax_loop c presence xt yt st (x :: rest) =
      match xml_yang_validate_minmax_step c presence xt yt
          (xml_yang_validate_minmax c presence x) st x rest with
      | .stop r => r
      | .next st1 => xml_yang_validate_minmax_loop c presence xt yt st1 rest := by
  rw [xml_yang_validate_minmax_loop]

theorem minmax_unfold (c : Collaborators) (presence : Bool) (xt : cxobj) :
    xml_yang_validate_minmax c presence xt =
      xml_yang_validate_minmax_loop c presence xt (xml_spec xt) (minmax_init (xml_spec xt))
        (xml_childvec xt) := by
  cases xt with
  | mk n t f yt v cs => rw [xml_yang_validate_minmax]; rfl

theorem minmax_step_skip (c : Collaborators) (presence : Bool) (xt : cxobj)
    (yt : Option yang_stmt) (sub : Res) (st : MinmaxState) (x : cxobj) (rest : List cxobj)
    (h : is_elmnt x = false ∨ xml_spec x = none) :
    xml_yang_validate_minmax_step c presence xt yt sub st x rest = .next st := by
  unfold xml_yang_validate_minmax_step
  rcases h with h | h
  · simp [h]
  · by_cases he : is_elmnt x = true <;> simp [he, h]

theorem minmax_loop_no_elmnt (c : Collaborators) (presence : Bool) (xt : cxobj)
    (yt : Option yang_stmt) (st : MinmaxState) :
    ∀ cs : List cxobj, (∀ x ∈ cs, is_elmnt x = false) →
      xml_yang_validate_minmax_loop c presence xt yt st cs =
        xml_yang_validate_minmax_after xt st.yprev st.nr st.inext := by
  intro cs
  induction cs with
  | nil => intro _; exact minmax_loop_unfold_nil c presence xt yt st
  | cons x rest ih =>
    intro h
    rw [minmax_loop_unfold_cons,
      minmax_step_skip c presence xt yt _ st x rest (Or.inl (h x (List.mem_cons_self _ _)))]
    exact ih fun x hx => h x (List.mem_cons_of_mem _ hx)

/-- Witness of `check_minmax_returns`: one entry where `min-elements 1` is satisfied, and
no entry where it is not. -/
theorem check_minmax_returns_witness :
    check_minmax ex_c_empty ex_list_min1 1 = .ok ∧
    check_minmax ex_c_empty ex_list_min1 0 =
      .fail (some (.minmax_elements ex_c_empty "x" false)) none :=
  ⟨(check_minmax_returns ex_c_empty ex_list_min1 1).1.2
      ⟨fun m hm => by
        have h : m = 1 := by simpa [yang_min_elements, yang_find, yang_children,
          ex_list_min1, ex_min, ex_leaf, yang_keyword_get, cv_uint32_get, yang_cv_get] using hm.symm
        omega,
       fun m hm => by
        simp [yang_max_elements, yang_find, yang_children, ex_list_min1, ex_min, ex_leaf,
          yang_keyword_get] at hm⟩,
   (check_minmax_returns ex_c_empty ex_list_min1 0).2.1 1 (by decide) (by decide)⟩

/-! ## Empty parent -/

/-- C3: for every element `xt` bound to `yt` and without element children, if a
config-true list or leaf-list with `min-elements` at least 1 is a child of `yt` or is
reachable from `yt` through config-true non-presence containers only, then
`xml_yang_validate_minmax(xt)` returns 0 with a too-few-elements error reported against
`xt` and naming such a missing list. -/
theorem minmax_empty_parent_too_few (c : Collaborators) (presence : Bool) (xt : cxobj)
    (yt L : yang_stmt) (hyt : xml_spec xt = some yt)
    (hempty : ∀ x ∈ xml_childvec xt, is_elmnt x = false)
    (hreach : gap_reachable (yang_children yt) L) (hL : missing_min_list L) :
    ∃ L1, gap_reachable (yang_children yt) L1 ∧ missing_min_list L1 ∧
      xml_yang_validate_minmax c presence xt =
        .fail (some (.minmax_elements xt (yang_argument_get L1) false)) none := by
  rw [minmax_unfold, minmax_loop_no_elmnt c presence xt _ _ _ hempty, hyt]
  unfold xml_yang_validate_minmax_after minmax_init
  rcases check_empty_list_minmax_iter_spec xt (yang_children yt) with
    ⟨_, hno⟩ | ⟨L1, hr, hm, hres⟩
  · exact absurd ⟨L, hreach, hL⟩ hno
  · exact ⟨L1, hr, hm, by simp only [hres]⟩

/-- Witness of `minmax_empty_parent_too_few`: `<c/>` under
`container c { container b { list x { key "k"; min-elements 1; leaf k; } } }`. -/
theorem minmax_empty_parent_too_few_witness :
    ∃ L1, gap_reachable (yang_children ex_cont_c) L1 ∧ missing_min_list L1 ∧
      xml_yang_validate_minmax ex_none false ex_c_empty =
        .fail (some (.minmax_elements ex_c_empty (yang_argument_get L1) false)) none :=
  minmax_empty_parent_too_few ex_none false ex_c_empty ex_cont_c ex_list_min1 rfl
    (by intro x hx; cases hx)
    (.descend (List.Mem.head _) (by decide) (by decide) rfl (.child (List.Mem.head _)))
    ⟨by decide, by decide, 1, by decide, by decide⟩

/-! ## The traversal of xml_yang_validate_minmax, step by step -/

@[simp] theorem Res.seq_ok (k : Res) : Res.seq .ok k = k := rfl
@[simp] theorem Res.seq_fail (e : Option ErrXml) (m : Option Nat) (k : Res) :
    Res.seq (.fail e m) k = .fail e m := rfl
@[simp] theorem Res.seq_error (k : Res) : Res.seq .error k = .error := rfl
@[simp] theorem Res.toStep_ok {σ : Type} (s : σ) : Res.toStep .ok s = .next s := rfl
@[simp] theorem Res.toStep_fail {σ : Type} (e : Option ErrXml) (m : Option Nat) (s : σ) :
    Res.toStep (.fail e m) s = .stop (.fail e m) := rfl
@[simp] theorem Res.toStep_error {σ : Type} (s : σ) : Res.toStep .error s = .stop .error := rfl

theorem Res.toStep_stop {σ : Type} {r r1 : Res} {s : σ} (h : Res.toStep r s = .stop r1) :
    r1 = r ∧ r ≠ .ok := by
  cases r <;> simp at h <;> simp [← h]

theorem Res.toStep_next {σ : Type} {r : Res} {s s1 : σ} (h : Res.toStep r s = .next s1) :
    r = .ok ∧ s1 = s := by
  cases r <;> simp at h <;> simp [← h]

theorem Res.seq_eq_ok {r k : Res} : Res.seq r k = .ok ↔ r = .ok ∧ k = .ok := by
  cases r <;> simp

theorem minmax_step_list_same (c : Collaborators) (presence : Bool) (xt : cxobj)
    (yt : Option yang_stmt) (sub : Res) (st : MinmaxState) (x : cxobj) (rest : List cxobj)
    (y : yang_stmt) (he : is_elmnt x = true) (hy : xml_spec x = some y)
    (hk : is_list_kw (yang_keyword_get y) = true)
    (hp : yang_ptr_eq (some y) st.yprev = true) :
    xml_yang_validate_minmax_step c presence xt yt sub st x rest =
      .next ⟨st.yprev, st.ye, st.nr + 1, st.inext⟩ := by
  unfold xml_yang_validate_minmax_step
  simp [he, hy, hk, hp]

theorem minmax_step_list_new (c : Collaborators) (presence : Bool) (xt : cxobj)
    (yt : Option yang_stmt) (sub : Res) (st : MinmaxState) (x : cxobj) (rest : List cxobj)
    (y : yang_stmt) (he : is_elmnt x = true) (hy : xml_spec x = some y)
    (hk : is_list_kw (yang_keyword_get y) = true)
    (hp : yang_ptr_eq (some y) st.yprev = false) :
    xml_yang_validate_minmax_step c presence xt yt sub st x rest =
      Res.toStep
        (Res.seq
          (check_minmax_prev xt
            (xml_yang_minmax_gap_analysis c xt (some y) yt st.inext st.ye).ret st.yprev st.nr)
          (if yang_keyword_get y == .Y_LIST then xml_yang_minmax_new_list c x rest y 0
           else .ok))
        ⟨some y, (xml_yang_minmax_gap_analysis c xt (some y) yt st.inext st.ye).ye, 1,
          (xml_yang_minmax_gap_analysis c xt (some y) yt st.inext st.ye).inext⟩ := by
  unfold xml_yang_validate_minmax_step
  simp only [he, hy, hk, hp, Bool.not_true, Bool.false_eq_true, if_false, if_true]
  cases check_minmax_prev xt
      (xml_yang_minmax_gap_analysis c xt (some y) yt st.inext st.ye).ret st.yprev st.nr with
  | ok =>
    simp only [Res.seq_ok]
    cases (if yang_keyword_get y == .Y_LIST then xml_yang_minmax_new_list c x rest y 0
           else Res.ok) <;> rfl
  | fail e m => rfl
  | error => rfl

theorem minmax_step_other_same (c : Collaborators) (presence : Bool) (xt : cxobj)
    (yt : Option yang_stmt) (sub : Res) (st : MinmaxState) (x : cxobj) (rest : List cxobj)
    (y : yang_stmt) (he : is_elmnt x = true) (hy : xml_spec x = some y)
    (hk : is_list_kw (yang_keyword_get y) = false)
    (hp : yang_ptr_eq (some y) st.yprev = true) :
    xml_yang_validate_minmax_step c presence xt yt sub st x rest =
      .stop (.fail (some (.minmax_elements xt (xml_name x) true)) none) := by
  unfold xml_yang_validate_minmax_step
  simp [he, hy, hk, hp]

theorem minmax_step_other_new (c : Collaborators) (presence : Bool) (xt : cxobj)
    (yt : Option yang_stmt) (sub : Res) (st : MinmaxState) (x : cxobj) (rest : List cxobj)
    (y : yang_stmt) (he : is_elmnt x = true) (hy : xml_spec x = some y)
    (hk : is_list_kw (yang_keyword_get y) = false)
    (hp : yang_ptr_eq (some y) st.yprev = false) :
    xml_yang_validate_minmax_step c presence xt yt sub st x rest =
      Res.toStep
        (Res.seq
          (check_minmax_prev xt
            (xml_yang_minmax_gap_analysis c xt (some y) yt st.inext st.ye).ret st.yprev st.nr)
          (if presence && yang_keyword_get y == .Y_CONTAINER &&
              (yang_find y .Y_PRESENCE none).isNone then sub else .ok))
        ⟨some y, (xml_yang_minmax_gap_analysis c xt (some y) yt st.inext st.ye).ye,
          if yprev_is_list st.yprev then 0 else st.nr,
          (xml_yang_minmax_gap_analysis c xt (some y) yt st.inext st.ye).inext⟩ := by
  unfold xml_yang_validate_minmax_step
  simp only [he, hy, hk, hp, Bool.not_true, Bool.false_eq_true, if_false, if_true]
  cases check_minmax_prev xt
      (xml_yang_minmax_gap_analysis c xt (some y) yt st.inext st.ye).ret st.yprev st.nr with
  | ok =>
    simp only [Res.seq_ok]
    by_cases hc : (presence && yang_keyword_get y == .Y_CONTAINER &&
        (yang_find y .Y_PRESENCE none).isNone) = true
    · simp only [hc, if_true]
      cases sub <;> rfl
    · simp only [hc, if_false]
      rfl
  | fail e m => rfl
  | error => rfl

theorem minmax_loop_append (c : Collaborators) (presence : Bool) (xt : cxobj)
    (yt : Option yang_stmt) :
    ∀ (pre : List cxobj) (st : MinmaxState) (post : List cxobj),
      xml_yang_validate_minmax_loop c presence xt yt st (pre ++ post) =
        match xml_yang_validate_minmax_run c presence xt yt st pre post with
        | .stop r => r
        | .next st1 => xml_yang_validate_minmax_loop c presence xt yt st1 post := by
  intro pre
  induction pre with
  | nil => intro st post; simp [xml_yang_validate_minmax_run]
  | cons x pre ih =>
    intro st post
    rw [List.cons_append, minmax_loop_unfold_cons, xml_yang_validate_minmax_run]
    cases h : xml_yang_validate_minmax_step c presence xt yt
        (xml_yang_validate_minmax c presence x) st x (pre ++ post) with
    | stop r => rfl
    | next st1 => simp only [ih]

theorem minmax_run_append (c : Collaborators) (presence : Bool) (xt : cxobj)
    (yt : Option yang_stmt) :
    ∀ (l1 : List cxobj) (st : MinmaxState) (l2 post : List cxobj),
      xml_yang_validate_minmax_run c presence xt yt st (l1 ++ l2) post =
        match xml_yang_validate_minmax_run c presence xt yt st l1 (l2 ++ post) with
        | .stop r => .stop r
        | .next st1 => xml_yang_validate_minmax_run c presence xt yt st1 l2 post := by
  intro l1
  induction l1 with
  | nil => intro st l2 post; simp [xml_yang_validate_minmax_run]
  | cons x l1 ih =>
    intro st l2 post
    rw [List.cons_append, xml_yang_validate_minmax_run, xml_yang_validate_minmax_run,
      List.append_assoc]
    cases h : xml_yang_validate_minmax_step c presence xt yt
        (xml_yang_validate_minmax c presence x) st x (l1 ++ (l2 ++ post)) with
    | stop r => rfl
    | next st1 => simp only [ih]

theorem yang_ptr_eq_self (y : yang_stmt) : yang_ptr_eq (some y) (some y) = true := by
  simp [yang_ptr_eq, yang_same]

/-- The traversal never leaves the function with return value 1. -/
theorem minmax_step_stop_ne_ok (c : Collaborators) (presence : Bool) (xt : cxobj)
    (yt : Option yang_stmt) (sub : Res) (st : MinmaxState) (x : cxobj) (rest : List cxobj)
    (r : Res) (h : xml_yang_validate_minmax_step c presence xt yt sub st x rest = .stop r) :
    r ≠ .ok := by
  by_cases he : is_elmnt x = true
  · cases hy : xml_spec x with
    | none => rw [minmax_step_skip c presence xt yt sub st x rest (Or.inr hy)] at h; cases h
    | some y =>
      by_cases hk : is_list_kw (yang_keyword_get y) = true <;>
        by_cases hp : yang_ptr_eq (some y) st.yprev = true
      · rw [minmax_step_list_same c presence xt yt sub st x rest y he hy hk hp] at h; cases h
      · rw [minmax_step_list_new c presence xt yt sub st x rest y he hy hk (by simpa using hp)] at h
        have := Res.toStep_stop h
        rw [this.1]; exact this.2
      · rw [minmax_step_other_same c presence xt yt sub st x rest y he hy (by simpa using hk) hp] at h
        cases h; simp
      · rw [minmax_step_other_new c presence xt yt sub st x rest y he hy (by simpa using hk)
          (by simpa using hp)] at h
        have := Res.toStep_stop h
        rw [this.1]; exact this.2
  · rw [minmax_step_skip c presence xt yt sub st x rest (Or.inl (by simpa using he))] at h
    cases h

/-- After the pass for a bound element, `yprev` is the statement of that element. -/
theorem minmax_step_next_yprev (c : Collaborators) (presence : Bool) (xt : cxobj)
    (yt : Option yang_stmt) (sub : Res) (st st1 : MinmaxState) (x : cxobj) (rest : List cxobj)
    (y : yang_stmt) (he : is_elmnt x = true) (hy : xml_spec x = some y)
    (h : xml_yang_validate_minmax_step c presence xt yt sub st x rest = .next st1) :
    yang_ptr_eq (some y) st1.yprev = true := by
  by_cases hk : is_list_kw (yang_keyword_get y) = true <;>
    by_cases hp : yang_ptr_eq (some y) st.yprev = true
  · rw [minmax_step_list_same c presence xt yt sub st x rest y he hy hk hp] at h
    cases h; exact hp
  · rw [minmax_step_list_new c presence xt yt sub st x rest y he hy hk (by simpa using hp)] at h
    rw [(Res.toStep_next h).2]; exact yang_ptr_eq_self y
  · rw [minmax_step_other_same c presence xt yt sub st x rest y he hy (by simpa using hk) hp] at h
    cases h
  · rw [minmax_step_other_new c presence xt yt sub st x rest y he hy (by simpa using hk)
      (by simpa using hp)] at h
    rw [(Res.toStep_next h).2]; exact yang_ptr_eq_self y

theorem minmax_run_stop_ne_ok (c : Collaborators) (presence : Bool) (xt : cxobj)
    (yt : Option yang_stmt) :
    ∀ (pre : List cxobj) (st : MinmaxState) (post : List cxobj) (r : Res),
      xml_yang_validate_minmax_run c presence xt yt st pre post = .stop r → r ≠ .ok := by
  intro pre
  induction pre with
  | nil => intro st post r h; simp [xml_yang_validate_minmax_run] at h
  | cons x pre ih =>
    intro st post r h
    rw [xml_yang_validate_minmax_run] at h
    cases hs : xml_yang_validate_minmax_step c presence xt yt
        (xml_yang_validate_minmax c presence x) st x (pre ++ post) with
    | stop r1 =>
      rw [hs] at h
      cases h
      exact minmax_step_stop_ne_ok c presence xt yt _ st x _ r hs
    | next st1 =>
      rw [hs] at h
      exact ih st1 post r h

theorem minmax_run_skip (c : Collaborators) (presence : Bool) (xt : cxobj)
    (yt : Option yang_stmt) (st : MinmaxState) (post : List cxobj) :
    ∀ mid : List cxobj, (∀ x ∈ mid, is_elmnt x = false ∨ xml_spec x = none) →
      xml_yang_validate_minmax_run c presence xt yt st mid post = .next st := by
  intro mid
  induction mid with
  | nil => intro _; rw [xml_yang_validate_minmax_run]
  | cons x mid ih =>
    intro h
    rw [xml_yang_validate_minmax_run,
      minmax_step_skip c presence xt yt _ st x _ (h x (List.mem_cons_self _ _))]
    exact ih fun x hx => h x (List.mem_cons_of_mem _ hx)

/-- C8: only lists and leaf-lists may repeat. If two element children of `xt` that are
consecutive among its bound children (`x1` and `x2`, with only unbound or non-element
children between them) are bound to the same schema node `y` and `y` is neither a list nor
a leaf-list, `xml_yang_validate_minmax(xt)` does not return 1; and when no earlier check
has failed, that is when the traversal arrives at `x2`, it returns 0 with a
too-many-elements error naming `x2`. -/
theorem minmax_repeat_non_list (c : Collaborators) (presence : Bool) (xt : cxobj)
    (pre mid post : List cxobj) (x1 x2 : cxobj) (y : yang_stmt)
    (hcs : xml_childvec xt = pre ++ x1 :: (mid ++ x2 :: post))
    (h1e : is_elmnt x1 = true) (h1 : xml_spec x1 = some y)
    (h2e : is_elmnt x2 = true) (h2 : xml_spec x2 = some y)
    (hmid : ∀ x ∈ mid, is_elmnt x = false ∨ xml_spec x = none)
    (hk : is_list_kw (yang_keyword_get y) = false) :
    xml_yang_validate_minmax c presence xt ≠ .ok ∧
    (∀ st, xml_yang_validate_minmax_run c presence xt (xml_spec xt) (minmax_init (xml_spec xt))
        (pre ++ x1 :: mid) (x2 :: post) = .next st →
      xml_yang_validate_minmax c presence xt =
        .fail (some (.minmax_elements xt (xml_name x2) true)) none) := by
  have hsplit : pre ++ x1 :: (mid ++ x2 :: post) = (pre ++ x1 :: mid) ++ (x2 :: post) := by
    simp
  have key : ∀ st, xml_yang_validate_minmax_run c presence xt (xml_spec xt)
      (minmax_init (xml_spec xt)) (pre ++ x1 :: mid) (x2 :: post) = .next st →
      xml_yang_validate_minmax c presence xt =
        .fail (some (.minmax_elements xt (xml_name x2) true)) none := by
    intro st hst
    rw [minmax_unfold, hcs, hsplit, minmax_loop_append, hst]
    simp only
    rw [minmax_run_append] at hst
    cases h0 : xml_yang_validate_minmax_run c presence xt (xml_spec xt)
        (minmax_init (xml_spec xt)) pre (x1 :: mid ++ x2 :: post) with
    | stop r => rw [h0] at hst; cases hst
    | next st0 =>
      rw [h0] at hst
      simp only at hst
      rw [xml_yang_validate_minmax_run] at hst
      cases h1s : xml_yang_validate_minmax_step c presence xt (xml_spec xt)
          (xml_yang_validate_minmax c presence x1) st0 x1 (mid ++ x2 :: post) with
      | stop r => rw [h1s] at hst; cases hst
      | next st1 =>
        rw [h1s] at hst
        simp only at hst
        rw [minmax_run_skip c presence xt _ st1 _ mid hmid] at hst
        have e : st1 = st := by injection hst
        subst e
        have hp := minmax_step_next_yprev c presence xt _ _ st0 st1 x1 _ y h1e h1 h1s
        rw [minmax_loop_unfold_cons,
          minmax_step_other_same c presence xt _ _ st1 x2 post y h2e h2 hk hp]
  refine ⟨?_, key⟩
  cases hrun : xml_yang_validate_minmax_run c presence xt (xml_spec xt)
      (minmax_init (xml_spec xt)) (pre ++ x1 :: mid) (x2 :: post) with
  | stop r =>
    rw [minmax_unfold, hcs, hsplit, minmax_loop_append, hrun]
    exact minmax_run_stop_ne_ok c presence xt _ _ _ _ r hrun
  | next st =>
    rw [key st hrun]
    simp

/-- Witness of `minmax_repeat_non_list`: `<c><a>1</a><a>2</a></c>` under
`container c { leaf a; }`. -/
theorem minmax_repeat_non_list_witness :
    xml_yang_validate_minmax ex_none false ex_c_two_leaves ≠ .ok ∧
    xml_yang_validate_minmax ex_none false ex_c_two_leaves =
      .fail (some (.minmax_elements ex_c_two_leaves "a" true)) none :=
  ⟨(minmax_repeat_non_list ex_none false ex_c_two_leaves [] [] []
      (ex_elem "a" (ex_leaf 21 "a") "1") (ex_elem "a" (ex_leaf 21 "a") "2") (ex_leaf 21 "a")
      rfl rfl rfl rfl rfl (by intro x hx; cases hx) rfl).1,
   (minmax_repeat_non_list ex_none false ex_c_two_leaves [] [] []
      (ex_elem "a" (ex_leaf 21 "a") "1") (ex_elem "a" (ex_leaf 21 "a") "2") (ex_leaf 21 "a")
      rfl rfl rfl rfl rfl (by intro x hx; cases hx) rfl).2 _ rfl⟩

/-! ## Inputs on which the code departs from the specification -/

/-- C2: the run of a list that ends the children of `xt` is not checked against
max-elements. Under `list x { key "k"; max-elements 1; leaf k; }` the parent with the two
entries `a` and `b` as its last children passes `xml_yang_validate_minmax` (return value 1,
with `presence` 0 or 1), although `check_minmax` on that run with `nr = 2` fails with
too-many-elements, and although the same two entries followed by a leaf are rejected with
too-many-elements: the check after the traversal tests `Y_LEAF` where the checks inside
the traversal test `Y_LIST`. -/
theorem minmax_terminal_list_run_unchecked :
    xml_yang_validate_minmax ex_none false ex_c_two_entries = .ok ∧
    xml_yang_validate_minmax ex_none true ex_c_two_entries = .ok ∧
    check_minmax ex_c_two_entries ex_list_max1 2 =
      .fail (some (.minmax_elements ex_c_two_entries "x" true)) none ∧
    xml_yang_validate_minmax ex_none false ex_c_two_entries_z =
      .fail (some (.minmax_elements ex_c_two_entries_z "x" true)) none :=
  ⟨rfl, rfl, rfl, rfl⟩

/-- C7: a leaf-list whose two entries have the same body `a`, with an unbound element
between them, passes `xml_yang_validate_unique` (return value 1); without the unbound
element the same entries are rejected with data-not-unique. The scan of the run stops at
the unbound element, while the traversal goes on with the same run after it. -/
theorem unique_leaf_list_unbound_between :
    xml_yang_validate_unique ex_none ex_c_ll_dup_unbound = .ok ∧
    xml_yang_validate_unique ex_none ex_c_ll_dup =
      .fail (some (.data_not_unique (ex_elem "l" ex_leaf_list "a") ["a"])) none :=
  ⟨rfl, rfl⟩

/-- C10: inserting an unbound element between two list entries with the same key changes
the result of `xml_yang_validate_unique` and of `xml_yang_validate_minmax` from 0
(data-not-unique) to 1. -/
theorem validate_unbound_between_entries :
    xml_yang_validate_unique ex_none ex_c_dup_unbound = .ok ∧
    xml_yang_validate_unique ex_none ex_c_dup =
      .fail (some (.data_not_unique (ex_entry ex_list_plain (ex_leaf 42 "k") "a") ["k"])) none ∧
    xml_yang_validate_minmax ex_none false ex_c_dup_unbound = .ok ∧
    xml_yang_validate_minmax ex_none false ex_c_dup =
      .fail (some (.data_not_unique (ex_entry ex_list_plain (ex_leaf 42 "k") "a") ["k"])) none :=
  ⟨rfl, rfl, rfl, rfl⟩

/-! ## Gap analysis -/

theorem check_minmax_ne_error (xp : cxobj) (y : yang_stmt) (nr : Nat) :
    check_minmax xp y nr ≠ .error := by
  unfold check_minmax
  split
  · simp
  · split <;> simp

theorem check_minmax_too_few (xp : cxobj) (y : yang_stmt) (nr n : Nat)
    (hmin : yang_min_elements y = some n) (h : nr < n) : check_minmax xp y nr ≠ .ok := by
  unfold yang_min_elements at hmin
  unfold check_minmax
  cases hf : yang_find y .Y_MIN_ELEMENTS none with
  | none => rw [hf] at hmin; cases hmin
  | some ymin =>
    rw [hf] at hmin
    simp only [Option.map_some', Option.some.injEq] at hmin
    simp [hmin, h]

theorem check_minmax_prev_eq_ok {xt : cxobj} {r : Res} {yprev : Option yang_stmt} {nr : Nat}
    (h : check_minmax_prev xt r yprev nr = .ok) : r = .ok := by
  unfold check_minmax_prev at h
  split at h
  · rfl
  · exact h

theorem check_minmax_prev_list (xt : cxobj) (L : yang_stmt) (nr : Nat)
    (hk : is_list_kw (yang_keyword_get L) = true) :
    check_minmax_prev xt .ok (some L) nr = check_minmax xt L nr := by
  unfold check_minmax_prev
  have : yprev_is_list (some L) = true := by
    simpa [yprev_is_list, is_list_kw] using hk
  simp [this]

/-- A list with unmet `min-elements` fails the empty-list check. -/
theorem check_empty_list_minmax_missing (xt : cxobj) (L : yang_stmt)
    (hL : missing_min_list L) : check_empty_list_minmax xt L ≠ .ok := by
  rcases check_empty_list_minmax_spec xt L with ⟨_, hno⟩ | ⟨L1, _, _, hres⟩
  · exact absurd ⟨L, .child (List.mem_singleton.2 rfl), hL⟩ hno
  · rw [hres]; simp

theorem check_empty_list_minmax_iter_mem (xt : cxobj) (L : yang_stmt)
    (hL : check_empty_list_minmax xt L ≠ .ok) :
    ∀ ys : List yang_stmt, L ∈ ys → check_empty_list_minmax_iter xt ys ≠ .ok := by
  intro ys
  induction ys with
  | nil => intro h; cases h
  | cons y ys ih =>
    intro hm
    rw [check_empty_list_minmax_iter]
    rcases List.mem_cons.1 hm with rfl | hm
    · cases h : check_empty_list_minmax xt L with
      | ok => exact absurd h hL
      | fail e m => simp
      | error => simp
    · cases h : check_empty_list_minmax xt y with
      | ok => exact ih hm
      | fail e m => simp
      | error => simp

/-- The gap loop either fails or leaves `L` among the schema children not yet visited. -/
theorem gap_analysis_loop_keeps (xt : cxobj) (ych : Option yang_stmt) (L : yang_stmt)
    (hL : check_empty_list_minmax xt L ≠ .ok)
    (hych : yang_ptr_eq (some L) ych = false) :
    ∀ (inext : List yang_stmt) (ye : yang_stmt), L ∈ ye :: inext →
      (xml_yang_minmax_gap_analysis_loop xt ych ye inext).ret = .ok →
      L ∈ (xml_yang_minmax_gap_analysis_loop xt ych ye inext).inext := by
  intro inext
  induction inext with
  | nil =>
    intro ye hm hret
    rw [xml_yang_minmax_gap_analysis_loop] at hret
    obtain rfl : L = ye := by simpa using hm
    cases h : check_empty_list_minmax xt L with
    | ok => exact absurd h hL
    | fail e m => rw [h] at hret; cases hret
    | error => rw [h] at hret; cases hret
  | cons ye1 inext ih =>
    intro ye hm hret
    rw [xml_yang_minmax_gap_analysis_loop] at hret ⊢
    cases h : check_empty_list_minmax xt ye with
    | ok =>
      rw [h] at hret
      simp only [h] at hret ⊢
      have hmem : L ∈ ye1 :: inext := by
        rcases List.mem_cons.1 hm with rfl | hm
        · exact absurd h hL
        · exact hm
      by_cases hp : yang_ptr_eq (some ye1) ych = true
      · simp only [hp, if_true]
        rcases List.mem_cons.1 hmem with rfl | hm2
        · rw [hp] at hych; cases hych
        · exact hm2
      · simp only [hp, if_false] at hret ⊢
        exact ih ye1 hmem hret
    | fail e m => rw [h] at hret; cases hret
    | error => rw [h] at hret; cases hret

theorem yang_ptr_eq_comm (a b : Option yang_stmt) : yang_ptr_eq a b = yang_ptr_eq b a := by
  cases a <;> cases b <;> simp [yang_ptr_eq, yang_same, eq_comm]

theorem yang_ptr_eq_trans {a b c : Option yang_stmt} (h1 : yang_ptr_eq a b = true)
    (h2 : yang_ptr_eq b c = true) : yang_ptr_eq a c = true := by
  cases a <;> cases b <;> cases c <;> simp_all [yang_ptr_eq, yang_same]

theorem yang_ptr_eq_addr {a b : yang_stmt} :
    yang_ptr_eq (some a) (some b) = true ↔ yang_addr a = yang_addr b := by
  simp [yang_ptr_eq, yang_same]

theorem gap_analysis_keeps (c : Collaborators) (xt : cxobj) (y : yang_stmt)
    (yt : Option yang_stmt) (inext : List yang_stmt) (ye : Option yang_stmt) (L : yang_stmt)
    (hL : check_empty_list_minmax xt L ≠ .ok)
    (hy : yang_ptr_eq (some L) (some y) = false)
    (hchoice : ∀ y yc, c.yang_choice y = some yc → yang_addr yc ≠ yang_addr L)
    (hm : L ∈ inext)
    (hret : (xml_yang_minmax_gap_analysis c xt (some y) yt inext ye).ret = .ok) :
    L ∈ (xml_yang_minmax_gap_analysis c xt (some y) yt inext ye).inext := by
  have hych : yang_ptr_eq (some L) (gap_analysis_ych c (some y)) = false := by
    cases hc : c.yang_choice y with
    | none => simp only [gap_analysis_ych, hc]; exact hy
    | some yc =>
      have := hchoice y yc hc
      simp only [gap_analysis_ych, hc]
      rw [Bool.eq_false_iff]
      intro h
      exact this (yang_ptr_eq_addr.1 h).symm
  unfold xml_yang_minmax_gap_analysis at hret ⊢
  split
  · rename_i hcond
    rw [if_pos hcond] at hret
    cases inext with
    | nil => cases hm
    | cons ye1 inext1 =>
      simp only at hret ⊢
      split
      · rename_i hne
        rw [if_pos hne] at hret
        exact gap_analysis_loop_keeps xt _ L hL hych inext1 ye1 hm hret
      · rename_i hne
        simp only [Bool.not_eq_true', Bool.not_eq_false] at hne
        simp only
        rcases List.mem_cons.1 hm with rfl | hm2
        · rw [yang_ptr_eq_comm] at hne
          rw [hne] at hych
          cases hych
        · exact hm2
  · exact hm

/-! ## Gap completeness -/

theorem minmax_after_ne_ok_of_mem (xt : cxobj) (yprev : Option yang_stmt) (nr : Nat)
    (inext : List yang_stmt) (L : yang_stmt) (hL : check_empty_list_minmax xt L ≠ .ok)
    (hm : L ∈ inext) : xml_yang_validate_minmax_after xt yprev nr inext ≠ .ok := by
  unfold xml_yang_validate_minmax_after
  have := check_empty_list_minmax_iter_mem xt L hL inext hm
  cases h : check_empty_list_minmax_iter xt inext with
  | ok => exact absurd h this
  | fail e m => simp
  | error => simp

theorem bound_to_false_ptr {L y : yang_stmt} {x : cxobj} (he : is_elmnt x = true)
    (hy : xml_spec x = some y) (hb : bound_to L x = false) :
    yang_ptr_eq (some L) (some y) = false := by
  simpa [bound_to, he, hy] using hb

theorem bound_to_true_ptr {L y : yang_stmt} {x : cxobj} (he : is_elmnt x = true)
    (hy : xml_spec x = some y) (hb : bound_to L x = true) :
    yang_ptr_eq (some L) (some y) = true := by
  simpa [bound_to, he, hy] using hb

/-- A pass of the traversal for a child that is not bound to `L` leaves `L` among the
schema children not yet visited. -/
theorem minmax_step_keeps (c : Collaborators) (presence : Bool) (xt : cxobj)
    (yt : Option yang_stmt) (sub : Res) (st st1 : MinmaxState) (x : cxobj) (rest : List cxobj)
    (L : yang_stmt) (hL : check_empty_list_minmax xt L ≠ .ok)
    (hchoice : ∀ y yc, c.yang_choice y = some yc → yang_addr yc ≠ yang_addr L)
    (hb : bound_to L x = false) (hm : L ∈ st.inext)
    (h : xml_yang_validate_minmax_step c presence xt yt sub st x rest = .next st1) :
    L ∈ st1.inext := by
  by_cases he : is_elmnt x = true
  · cases hy : xml_spec x with
    | none =>
      rw [minmax_step_skip c presence xt yt sub st x rest (Or.inr hy)] at h
      cases h; exact hm
    | some y =>
      have hLy := bound_to_false_ptr he hy hb
      by_cases hk : is_list_kw (yang_keyword_get y) = true <;>
        by_cases hp : yang_ptr_eq (some y) st.yprev = true
      · rw [minmax_step_list_same c presence xt yt sub st x rest y he hy hk hp] at h
        cases h; exact hm
      · rw [minmax_step_list_new c presence xt yt sub st x rest y he hy hk (by simpa using hp)] at h
        obtain ⟨hok, rfl⟩ := Res.toStep_next h
        have hg := check_minmax_prev_eq_ok (Res.seq_eq_ok.1 hok).1
        exact gap_analysis_keeps c xt y yt st.inext st.ye L hL hLy hchoice hm hg
      · rw [minmax_step_other_same c presence xt yt sub st x rest y he hy (by simpa using hk) hp] at h
        cases h
      · rw [minmax_step_other_new c presence xt yt sub st x rest y he hy (by simpa using hk)
          (by simpa using hp)] at h
        obtain ⟨hok, rfl⟩ := Res.toStep_next h
        have hg := check_minmax_prev_eq_ok (Res.seq_eq_ok.1 hok).1
        exact gap_analysis_keeps c xt y yt st.inext st.ye L hL hLy hchoice hm hg
  · rw [minmax_step_skip c presence xt yt sub st x rest (Or.inl (by simpa using he))] at h
    cases h; exact hm

/-- If a statement that fails the empty-list check is among the schema children not yet
visited and no remaining child is bound to it, the function does not return 1. -/
theorem minmax_loop_missing (c : Collaborators) (presence : Bool) (xt : cxobj)
    (yt : Option yang_stmt) (L : yang_stmt) (hL : check_empty_list_minmax xt L ≠ .ok)
    (hchoice : ∀ y yc, c.yang_choice y = some yc → yang_addr yc ≠ yang_addr L) :
    ∀ (cs : List cxobj) (st : MinmaxState), L ∈ st.inext →
      (∀ x ∈ cs, bound_to L x = false) →
      xml_yang_validate_minmax_loop c presence xt yt st cs ≠ .ok := by
  intro cs
  induction cs with
  | nil =>
    intro st hm _
    rw [minmax_loop_unfold_nil]
    exact minmax_after_ne_ok_of_mem xt _ _ _ L hL hm
  | cons x cs ih =>
    intro st hm hb
    rw [minmax_loop_unfold_cons]
    cases hs : xml_yang_validate_minmax_step c presence xt yt
        (xml_yang_validate_minmax c presence x) st x cs with
    | stop r => exact minmax_step_stop_ne_ok c presence xt yt _ st x cs r hs
    | next st1 =>
      exact ih st1
        (minmax_step_keeps c presence xt yt _ st st1 x cs L hL hchoice
          (hb x (List.mem_cons_self _ _)) hm hs)
        (fun x hx => hb x (List.mem_cons_of_mem _ hx))

theorem minmax_step_count (c : Collaborators) (presence : Bool) (xt : cxobj)
    (yt : Option yang_stmt) (sub : Res) (st st1 : MinmaxState) (x : cxobj) (rest : List cxobj)
    (L : yang_stmt) (m : Nat) (hLk : is_list_kw (yang_keyword_get L) = true)
    (hcons : ∀ y, xml_spec x = some y → yang_addr y = yang_addr L → y = L)
    (hinv : run_count_inv L m st)
    (h : xml_yang_validate_minmax_step c presence xt yt sub st x rest = .next st1) :
    run_count_inv L (m + (if bound_to L x then 1 else 0)) st1 := by
  by_cases he : is_elmnt x = true
  · cases hy : xml_spec x with
    | none =>
      rw [minmax_step_skip c presence xt yt sub st x rest (Or.inr hy)] at h
      cases h
      intro hp
      exact ⟨(hinv hp).1, Nat.le_trans (hinv hp).2 (Nat.le_add_right _ _)⟩
    | some y =>
      by_cases hk : is_list_kw (yang_keyword_get y) = true <;>
        by_cases hp : yang_ptr_eq (some y) st.yprev = true
      · rw [minmax_step_list_same c presence xt yt sub st x rest y he hy hk hp] at h
        cases h
        intro hpL
        simp only at hpL
        have hb : bound_to L x = true := by
          have : yang_ptr_eq (some L) (some y) = true := by
            rw [yang_ptr_eq_comm] at hp
            exact yang_ptr_eq_trans hpL hp
          simpa [bound_to, he, hy] using this
        simp only [hb, if_true]
        exact ⟨(hinv hpL).1, Nat.add_le_add_right (hinv hpL).2 1⟩
      · rw [minmax_step_list_new c presence xt yt sub st x rest y he hy hk (by simpa using hp)] at h
        obtain ⟨_, rfl⟩ := Res.toStep_next h
        intro hpL
        simp only at hpL
        have hyL : y = L := hcons y hy (yang_ptr_eq_addr.1 hpL).symm
        have hb : bound_to L x = true := by simpa [bound_to, he, hy] using hpL
        simp only [hb, if_true, hyL]
        exact ⟨trivial, by omega⟩
      · rw [minmax_step_other_same c presence xt yt sub st x rest y he hy (by simpa using hk) hp] at h
        cases h
      · rw [minmax_step_other_new c presence xt yt sub st x rest y he hy (by simpa using hk)
          (by simpa using hp)] at h
        obtain ⟨_, rfl⟩ := Res.toStep_next h
        intro hpL
        simp only at hpL
        have hyL : y = L := hcons y hy (yang_ptr_eq_addr.1 hpL).symm
        rw [hyL] at hk
        exact absurd hLk hk
  · rw [minmax_step_skip c presence xt yt sub st x rest (Or.inl (by simpa using he))] at h
    cases h
    intro hp
    exact ⟨(hinv hp).1, Nat.le_trans (hinv hp).2 (Nat.le_add_right _ _)⟩

theorem xml_count_bound_cons (L : yang_stmt) (x : cxobj) (cs : List cxobj) :
    xml_count_bound L (x :: cs) = (if bound_to L x then 1 else 0) + xml_count_bound L cs := by
  unfold xml_count_bound
  by_cases h : bound_to L x = true
  · simp [h, List.filter_cons]; omega
  · simp [h, List.filter_cons]

theorem xml_count_bound_append (L : yang_stmt) (l1 l2 : List cxobj) :
    xml_count_bound L (l1 ++ l2) = xml_count_bound L l1 + xml_count_bound L l2 := by
  simp [xml_count_bound]

theorem minmax_run_count (c : Collaborators) (presence : Bool) (xt : cxobj)
    (yt : Option yang_stmt) (L : yang_stmt) (hLk : is_list_kw (yang_keyword_get L) = true) :
    ∀ (pre : List cxobj) (st st1 : MinmaxState) (post : List cxobj) (m : Nat),
      (∀ x ∈ pre, ∀ y, xml_spec x = some y → yang_addr y = yang_addr L → y = L) →
      run_count_inv L m st →
      xml_yang_validate_minmax_run c presence xt yt st pre post = .next st1 →
      run_count_inv L (m + xml_count_bound L pre) st1 := by
  intro pre
  induction pre with
  | nil =>
    intro st st1 post m _ hinv h
    rw [xml_yang_validate_minmax_run] at h
    cases h
    simpa [xml_count_bound] using hinv
  | cons x pre ih =>
    intro st st1 post m hcons hinv h
    rw [xml_yang_validate_minmax_run] at h
    cases hs : xml_yang_validate_minmax_step c presence xt yt
        (xml_yang_validate_minmax c presence x) st x (pre ++ post) with
    | stop r => rw [hs] at h; cases h
    | next st0 =>
      rw [hs] at h
      have h0 := minmax_step_count c presence xt yt _ st st0 x _ L m hLk
        (hcons x (List.mem_cons_self _ _)) hinv hs
      have := ih st0 st1 post _ (fun x hx => hcons x (List.mem_cons_of_mem _ hx)) h0 h
      rw [xml_count_bound_cons, ← Nat.add_assoc]
      exact this

theorem check_minmax_prev_too_few (xt : cxobj) (r : Res) (L : yang_stmt) (nr n : Nat)
    (hLk : is_list_kw (yang_keyword_get L) = true) (hmin : yang_min_elements L = some n)
    (h : nr < n) : check_minmax_prev xt r (some L) nr ≠ .ok := by
  cases r with
  | ok => rw [check_minmax_prev_list xt L nr hLk]; exact check_minmax_too_few xt L nr n hmin h
  | fail e m => simp [check_minmax_prev]
  | error => simp [check_minmax_prev]

theorem Res.toStep_seq_ne_ok {σ : Type} {r k : Res} {s : σ} (h : r ≠ .ok) :
    ∃ r1, Res.toStep (Res.seq r k) s = .stop r1 ∧ r1 ≠ .ok := by
  cases r with
  | ok => exact absurd rfl h
  | fail e m => exact ⟨_, rfl, by simp⟩
  | error => exact ⟨_, rfl, by simp⟩

/-- After the last entry of a run of `L` with fewer than `min-elements` entries: the
function does not return 1 when another bound child follows or `L` is a leaf-list. -/
theorem minmax_loop_after_run (c : Collaborators) (presence : Bool) (xt : cxobj)
    (yt : Option yang_stmt) (L : yang_stmt) (n : Nat)
    (hLk : is_list_kw (yang_keyword_get L) = true) (hmin : yang_min_elements L = some n) :
    ∀ (post : List cxobj) (st : MinmaxState), st.yprev = some L → st.nr < n →
      (∀ x ∈ post, bound_to L x = false) →
      (yang_keyword_get L = .Y_LEAF_LIST ∨ ∃ x ∈ post, is_bound_elmnt x = true) →
      xml_yang_validate_minmax_loop c presence xt yt st post ≠ .ok := by
  intro post
  induction post with
  | nil =>
    intro st hyp hnr _ hend
    rw [minmax_loop_unfold_nil]
    unfold xml_yang_validate_minmax_after
    rcases hend with hll | ⟨x, hx, _⟩
    · cases h : check_empty_list_minmax_iter xt st.inext with
      | ok =>
        simp only [hyp]
        have : yprev_is_leaf_or_leaf_list (some L) = true := by
          simp [yprev_is_leaf_or_leaf_list, hll]
        rw [if_pos this]
        exact check_minmax_too_few xt L st.nr n hmin hnr
      | fail e m => simp
      | error => simp
    · cases hx
  | cons x post ih =>
    intro st hyp hnr hb hend
    rw [minmax_loop_unfold_cons]
    by_cases hbe : is_bound_elmnt x = true
    · have he : is_elmnt x = true := by
        simp only [is_bound_elmnt, Bool.and_eq_true] at hbe; exact hbe.1
      cases hy : xml_spec x with
      | none => simp [is_bound_elmnt, hy] at hbe
      | some y =>
        have hLy := bound_to_false_ptr he hy (hb x (List.mem_cons_self _ _))
        have hp : yang_ptr_eq (some y) st.yprev = false := by
          rw [hyp, yang_ptr_eq_comm]; exact hLy
        have hne := check_minmax_prev_too_few xt
          (xml_yang_minmax_gap_analysis c xt (some y) yt st.inext st.ye).ret L st.nr n hLk hmin hnr
        by_cases hk : is_list_kw (yang_keyword_get y) = true
        · rw [minmax_step_list_new c presence xt yt _ st x post y he hy hk hp, hyp]
          obtain ⟨r1, h1, h2⟩ := Res.toStep_seq_ne_ok hne
          rw [h1]; exact h2
        · rw [minmax_step_other_new c presence xt yt _ st x post y he hy (by simpa using hk) hp,
            hyp]
          obtain ⟨r1, h1, h2⟩ := Res.toStep_seq_ne_ok hne
          rw [h1]; exact h2
    · have hskip : is_elmnt x = false ∨ xml_spec x = none := by
        by_cases he : is_elmnt x = true
        · right
          cases hy : xml_spec x with
          | none => rfl
          | some y => simp [is_bound_elmnt, he, hy] at hbe
        · left; simpa using he
      rw [minmax_step_skip c presence xt yt _ st x post hskip]
      apply ih st hyp hnr (fun x hx => hb x (List.mem_cons_of_mem _ hx))
      rcases hend with hll | ⟨x1, hx1, hx1b⟩
      · exact Or.inl hll
      · rcases List.mem_cons.1 hx1 with rfl | hx1
        · exact absurd hx1b hbe
        · exact Or.inr ⟨x1, hx1, hx1b⟩

/-- After the traversal of a prefix that ends with a bound element, `yprev` is the
statement of that element. -/
theorem minmax_run_last_yprev (c : Collaborators) (presence : Bool) (xt : cxobj)
    (yt : Option yang_stmt) (pre : List cxobj) (x : cxobj) (post : List cxobj)
    (st st1 : MinmaxState) (y : yang_stmt) (he : is_elmnt x = true) (hy : xml_spec x = some y)
    (h : xml_yang_validate_minmax_run c presence xt yt st (pre ++ [x]) post = .next st1) :
    yang_ptr_eq (some y) st1.yprev = true := by
  rw [minmax_run_append] at h
  cases h0 : xml_yang_validate_minmax_run c presence xt yt st pre ([x] ++ post) with
  | stop r => rw [h0] at h; cases h
  | next st0 =>
    rw [h0] at h
    simp only at h
    rw [xml_yang_validate_minmax_run] at h
    cases hs : xml_yang_validate_minmax_step c presence xt yt
        (xml_yang_validate_minmax c presence x) st0 x ([] ++ post) with
    | stop r => rw [hs] at h; cases h
    | next st2 =>
      rw [hs] at h
      simp only at h
      rw [xml_yang_validate_minmax_run] at h
      have e : st2 = st1 := by injection h
      subst e
      exact minmax_step_next_yprev c presence xt yt _ st0 st2 x _ y he hy hs

/-- C1 (amended): for every parent `xt` bound to `yt` and every list or leaf-list `L` among
the children of `yt` with `min-elements n`, where fewer than `n` element children of `xt`
are bound to `L`, `xml_yang_validate_minmax(xt)` does not return 1, in each of these cases:
no element child is bound to `L` and `L` is config true; or some element child is bound
to `L` and, after the last of them, another bound element child follows or `L` is a
leaf-list. (Addresses identify statements, and `yang_choice` does not return `L`.) -/
theorem minmax_gap_completeness (c : Collaborators) (presence : Bool) (xt : cxobj)
    (yt L : yang_stmt) (n : Nat) (hyt : xml_spec xt = some yt)
    (hL : L ∈ yang_children yt) (hLk : is_list_kw (yang_keyword_get L) = true)
    (hmin : yang_min_elements L = some n)
    (hcount : xml_count_bound L (xml_childvec xt) < n)
    (hcons : ∀ x ∈ xml_childvec xt, ∀ y, xml_spec x = some y →
      yang_addr y = yang_addr L → y = L)
    (hchoice : ∀ y yc, c.yang_choice y = some yc → yang_addr yc ≠ yang_addr L)
    (hcase : (xml_count_bound L (xml_childvec xt) = 0 ∧ yang_config L = true) ∨
      (∃ pre x post, xml_childvec xt = pre ++ x :: post ∧ bound_to L x = true ∧
        (∀ x1 ∈ post, bound_to L x1 = false) ∧
        (yang_keyword_get L = .Y_LEAF_LIST ∨ ∃ x1 ∈ post, is_bound_elmnt x1 = true))) :
    xml_yang_validate_minmax c presence xt ≠ .ok := by
  rw [minmax_unfold, hyt]
  rcases hcase with ⟨h0, hcfg⟩ | ⟨pre, x, post, hcs, hbx, hpost, hend⟩
  · have hmiss : missing_min_list L := ⟨hLk, hcfg, n, hmin, by omega⟩
    apply minmax_loop_missing c presence xt _ L (check_empty_list_minmax_missing xt L hmiss)
      hchoice
    · exact hL
    · intro x hx
      unfold xml_count_bound at h0
      have := List.length_eq_zero.1 h0
      by_contra hb
      have hmem : x ∈ (xml_childvec xt).filter (bound_to L) :=
        List.mem_filter.2 ⟨hx, by simpa using hb⟩
      rw [this] at hmem
      cases hmem
  · have hsplit : pre ++ x :: post = (pre ++ [x]) ++ post := by simp
    rw [hcs, hsplit, minmax_loop_append]
    cases hrun : xml_yang_validate_minmax_run c presence xt (some yt) (minmax_init (some yt))
        (pre ++ [x]) post with
    | stop r => exact minmax_run_stop_ne_ok c presence xt _ _ _ _ r hrun
    | next st =>
      simp only
      have hex : is_elmnt x = true := by
        simp only [bound_to, Bool.and_eq_true] at hbx; exact hbx.1
      cases hy : xml_spec x with
      | none => simp [bound_to, hy, yang_ptr_eq] at hbx
      | some y =>
        have hp1 := minmax_run_last_yprev c presence xt _ pre x post _ st y hex hy hrun
        have hp : yang_ptr_eq (some L) st.yprev = true :=
          yang_ptr_eq_trans (bound_to_true_ptr hex hy hbx) hp1
        have hinv0 : run_count_inv L 0 (minmax_init (some yt)) := by
          intro h; simp [minmax_init, yang_ptr_eq] at h
        have hinv := minmax_run_count c presence xt _ L hLk (pre ++ [x]) _ st post 0
          (fun x1 hx1 => hcons x1 (by rw [hcs, hsplit]; exact List.mem_append_left _ hx1))
          hinv0 hrun
        obtain ⟨hyp, hnr⟩ := hinv hp
        have hle : xml_count_bound L (pre ++ [x]) ≤ xml_count_bound L (xml_childvec xt) := by
          rw [hcs, hsplit, xml_count_bound_append L (pre ++ [x]) post]
          exact Nat.le_add_right _ _
        exact minmax_loop_after_run c presence xt _ L n hLk hmin post st hyp (by omega) hpost hend

/-- Witness of `minmax_gap_completeness`: `<c><x><k>a</k></x><z>1</z></c>` under
`container c { list x { key "k"; min-elements 2; leaf k; } leaf z; }`. -/
theorem minmax_gap_completeness_witness :
    xml_yang_validate_minmax ex_none false ex_c_one_entry_z ≠ .ok :=
  minmax_gap_completeness ex_none false ex_c_one_entry_z ex_cont_min2 ex_list_min2 2 rfl
    (List.Mem.head _) rfl rfl (by decide)
    (by
      intro x hx y hy ha
      simp only [xml_childvec, ex_c_one_entry_z, List.mem_cons, List.mem_singleton,
        List.not_mem_nil, or_false] at hx
      rcases hx with rfl | rfl
      · simpa [ex_entry, xml_spec] using hy.symm
      · have : y = ex_leaf 73 "z" := by simpa [ex_elem, xml_spec] using hy.symm
        subst this
        exact absurd ha (by decide))
    (by intro y yc h; cases h)
    (Or.inr ⟨[], ex_entry ex_list_min2 (ex_leaf 72 "k") "a", [ex_elem "z" (ex_leaf 73 "z") "1"],
      rfl, rfl, by decide, Or.inr ⟨_, List.Mem.head _, rfl⟩⟩)

/-- Counterexample to gap completeness as stated. First, a list with `config false` and
`min-elements 1` without entries: the function returns 1. Second, a config-true list with
`min-elements 1` without entries behind a list whose `unique` statement has two arguments
one of which contains a slash: the function returns -1, not 0 with too-few-elements. -/
theorem minmax_gap_completeness_counterexample :
    (xml_spec ex_c_state = some ex_cont_state ∧
      ex_list_state ∈ yang_children ex_cont_state ∧
      yang_keyword_get ex_list_state = .Y_LIST ∧
      yang_min_elements ex_list_state = some 1 ∧
      xml_count_bound ex_list_state (xml_childvec ex_c_state) = 0 ∧
      xml_yang_validate_minmax ex_none false ex_c_state = .ok) ∧
    (xml_spec ex_c_m = some ex_cont_m ∧
      ex_list_min1 ∈ yang_children ex_cont_m ∧
      yang_keyword_get ex_list_min1 = .Y_LIST ∧
      yang_min_elements ex_list_min1 = some 1 ∧
      xml_count_bound ex_list_min1 (xml_childvec ex_c_m) = 0 ∧
      xml_yang_validate_minmax ex_none false ex_c_m = .error) :=
  ⟨⟨rfl, List.Mem.head _, rfl, rfl, rfl, rfl⟩,
   ⟨rfl, List.Mem.tail _ (List.Mem.head _), rfl, rfl, rfl, rfl⟩⟩

/-! ## Key tuples and duplicate detection -/

theorem collect_tuple_complete (x : cxobj) :
    ∀ (cvk : List String) (t : List String), (∀ k ∈ cvk, has_slash k = false) →
      key_tuple x cvk = some t → collect_tuple x cvk = some (t.map some, true) := by
  intro cvk
  induction cvk with
  | nil => intro t _ h; simp [key_tuple] at h; subst h; rfl
  | cons k ks ih =>
    intro t hs h
    rw [key_tuple] at h
    rw [collect_tuple]
    have hk := hs k (List.mem_cons_self _ _)
    simp only [hk, Bool.false_eq_true, if_false]
    cases hf : xml_find x k with
    | none => rw [hf] at h; cases h
    | some xi =>
      rw [hf] at h
      simp only at h ⊢
      cases hb : xml_body xi with
      | none => rw [hb] at h; cases h
      | some b =>
        rw [hb] at h
        simp only at h ⊢
        cases ht : key_tuple x ks with
        | none => rw [ht] at h; cases h
        | some t1 =>
          rw [ht] at h
          simp only [Option.some.injEq] at h
          subst h
          rw [ih t1 (fun k hk => hs k (List.mem_cons_of_mem _ hk)) ht]
          rfl

theorem collect_tuple_no_slash (x : cxobj) :
    ∀ (cvk : List String), (∀ k ∈ cvk, has_slash k = false) →
      ∃ row complete, collect_tuple x cvk = some (row, complete) ∧
        (complete = true → ∃ t, key_tuple x cvk = some t ∧ row = t.map some) := by
  intro cvk
  induction cvk with
  | nil => intro _; exact ⟨[], true, rfl, fun _ => ⟨[], rfl, rfl⟩⟩
  | cons k ks ih =>
    intro hs
    rw [collect_tuple, key_tuple]
    have hk := hs k (List.mem_cons_self _ _)
    simp only [hk, Bool.false_eq_true, if_false]
    cases hf : xml_find x k with
    | none => exact ⟨[], false, rfl, fun h => by cases h⟩
    | some xi =>
      simp only
      cases hb : xml_body xi with
      | none => exact ⟨[], false, rfl, fun h => by cases h⟩
      | some b =>
        simp only
        obtain ⟨row, complete, hc, hcomp⟩ := ih (fun k hk => hs k (List.mem_cons_of_mem _ hk))
        rw [hc]
        refine ⟨some b :: row, complete, rfl, fun h => ?_⟩
        obtain ⟨t, ht, hrow⟩ := hcomp h
        rw [ht]
        exact ⟨b :: t, rfl, by rw [hrow]; rfl⟩

theorem key_tuple_length (x : cxobj) :
    ∀ (cvk : List String) (t : List String), key_tuple x cvk = some t →
      t.length = cvk.length := by
  intro cvk
  induction cvk with
  | nil => intro t h; simp [key_tuple] at h; subst h; rfl
  | cons k ks ih =>
    intro t h
    rw [key_tuple] at h
    cases hf : xml_find x k with
    | none => rw [hf] at h; cases h
    | some xi =>
      rw [hf] at h
      simp only at h
      cases hb : xml_body xi with
      | none => rw [hb] at h; cases h
      | some b =>
        rw [hb] at h
        simp only at h
        cases ht : key_tuple x ks with
        | none => rw [ht] at h; cases h
        | some t1 =>
          rw [ht] at h
          simp only [Option.some.injEq] at h
          subst h
          simp [ih t1 ht]

/-- Two rows that hold the same complete tuple are found equal. -/
theorem tuple_equal_of_rows (vec : TupleVec) (i i1 : Nat) (t : List String)
    (hi : vec.getD i [] = t.map some) (hi1 : vec.getD i1 [] = t.map some) :
    tuple_equal vec i i1 t.length = true := by
  unfold tuple_equal
  rw [List.all_eq_true]
  intro v hv
  have hv' : v < t.length := by simpa using hv
  unfold vec_at
  rw [hi, hi1]
  have : (t.map some).getD v none = some (t.get ⟨v, hv'⟩) := by
    rw [List.getD_eq_getElem?_getD, List.getElem?_map, List.getElem?_eq_getElem hv']
    rfl
  rw [this]
  simp

theorem check_insert_duplicate_of_row (vec : TupleVec) (t : List String) (i : Nat)
    (sorted : Bool) (hi : i < vec.length) (hrow : vec.getD i [] = t.map some)
    (hsorted : sorted = true → i + 1 = vec.length) :
    ∃ dupl, check_insert_duplicate (vec ++ [t.map some]) vec.length t.length sorted =
      some dupl := by
  have hnew : (vec ++ [t.map some]).getD vec.length [] = t.map some := by
    simp [List.getD_eq_getElem?_getD]
  have hold : (vec ++ [t.map some]).getD i [] = t.map some := by
    rw [← hrow]
    simp [List.getD_eq_getElem?_getD, List.getElem?_append_left hi]
  have heq := tuple_equal_of_rows (vec ++ [t.map some]) i vec.length t hold hnew
  unfold check_insert_duplicate
  cases sorted with
  | true =>
    have h1 := hsorted rfl
    have h2 : vec.length ≠ 0 := by omega
    have h3 : vec.length - 1 = i := by omega
    simp only [if_true, h2, if_false, h3, heq]
    exact ⟨i, rfl⟩
  | false =>
    simp only [Bool.false_eq_true, if_false]
    have : ((List.range vec.length).find?
        fun j => tuple_equal (vec ++ [t.map some]) j vec.length t.length).isSome = true := by
      rw [List.find?_isSome]
      exact ⟨i, List.mem_range.2 hi, heq⟩
    obtain ⟨d, hd⟩ := Option.isSome_iff_exists.1 this
    exact ⟨d, hd⟩

@[simp] theorem Step.andThen_stop {σ : Type} (r : Res) (k : σ → Res) :
    Step.andThen (.stop r) k = r := rfl

@[simp] theorem Step.andThen_next {σ : Type} (s : σ) (k : σ → Res) :
    Step.andThen (.next s) k = k s := rfl

theorem direct_step_no_slash (cvk : List String) (sorted : Bool) (mark : Nat) (vec : TupleVec)
    (x : cxobj) (hs : ∀ k ∈ cvk, has_slash k = false) :
    (∃ row, check_unique_list_direct_step cvk sorted mark vec x = .next (vec ++ [row])) ∨
    (∃ d, check_unique_list_direct_step cvk sorted mark vec x =
      .stop (.fail (some (.data_not_unique x cvk)) (marked_of mark d))) := by
  obtain ⟨row, complete, hc, _⟩ := collect_tuple_no_slash x cvk hs
  unfold check_unique_list_direct_step
  rw [hc]
  simp only
  cases complete with
  | false => exact Or.inl ⟨row, by simp⟩
  | true =>
    simp only [if_true]
    cases check_insert_duplicate (vec ++ [row]) vec.length cvk.length sorted with
    | none => exact Or.inl ⟨row, rfl⟩
    | some d => exact Or.inr ⟨d, rfl⟩

theorem direct_step_complete (cvk : List String) (sorted : Bool) (mark : Nat) (vec : TupleVec)
    (x : cxobj) (t : List String) (hs : ∀ k ∈ cvk, has_slash k = false)
    (ht : key_tuple x cvk = some t) :
    (check_insert_duplicate (vec ++ [t.map some]) vec.length cvk.length sorted = none ∧
      check_unique_list_direct_step cvk sorted mark vec x = .next (vec ++ [t.map some])) ∨
    (∃ d, check_insert_duplicate (vec ++ [t.map some]) vec.length cvk.length sorted = some d ∧
      check_unique_list_direct_step cvk sorted mark vec x =
        .stop (.fail (some (.data_not_unique x cvk)) (marked_of mark d))) := by
  unfold check_unique_list_direct_step
  rw [collect_tuple_complete x cvk t hs ht]
  simp only [if_true]
  cases check_insert_duplicate (vec ++ [t.map some]) vec.length cvk.length sorted with
  | none => exact Or.inl ⟨rfl, rfl⟩
  | some d => exact Or.inr ⟨d, rfl, rfl⟩

theorem direct_scan_entry (y : yang_stmt) (cvk : List String) (sorted : Bool) (mark : Nat)
    (vec : TupleVec) (x : cxobj) (rest : List cxobj) (hx : is_entry y x) :
    check_unique_list_direct_scan y cvk sorted mark vec (x :: rest) =
      (check_unique_list_direct_step cvk sorted mark vec x).andThen fun vec1 =>
        check_unique_list_direct_scan y cvk sorted mark vec1 rest := by
  rw [check_unique_list_direct_scan]
  simp only [hx.1, hx.2, yang_ptr_eq_self, Bool.not_true, Bool.false_eq_true, if_false]
  cases check_unique_list_direct_step cvk sorted mark vec x <;> rfl

/-- Started on an entry of `y`, `check_unique_list_direct` is the scan of the run from an
empty vector. -/
theorem direct_eq_scan (x : cxobj) (rest : List cxobj) (y yu : yang_stmt) (mark : Nat)
    (hx : is_entry y x) (hne : yang_cvec_get yu ≠ []) :
    check_unique_list_direct x rest y yu mark =
      check_unique_list_direct_scan y (yang_cvec_get yu) (direct_sorted y yu) mark []
        (x :: rest) := by
  rw [direct_scan_entry y _ _ mark [] x rest hx]
  unfold check_unique_list_direct direct_sorted
  have : (yang_cvec_get yu).length ≠ 0 := by
    intro h; exact hne (List.length_eq_zero.1 h)
  simp only [this, if_false]
  cases check_unique_list_direct_step (yang_cvec_get yu)
    (yang_keyword_get yu == .Y_LIST && (yang_find y .Y_ORDERED_BY (some "user")).isNone)
    mark [] x <;> rfl

/-- A run that contains two adjacent entries with the same complete tuple is rejected. -/
theorem direct_scan_adjacent (y : yang_stmt) (cvk : List String) (sorted : Bool) (mark : Nat)
    (a b : cxobj) (post : List cxobj) (t : List String)
    (hs : ∀ k ∈ cvk, has_slash k = false)
    (ha : is_entry y a) (hb : is_entry y b)
    (hta : key_tuple a cvk = some t) (htb : key_tuple b cvk = some t) :
    ∀ (e1 : List cxobj) (vec : TupleVec), (∀ x ∈ e1, is_entry y x) →
      ∃ x d, x ∈ e1 ++ [a, b] ∧
        check_unique_list_direct_scan y cvk sorted mark vec (e1 ++ a :: b :: post) =
          .fail (some (.data_not_unique x cvk)) (marked_of mark d) := by
  intro e1
  induction e1 with
  | nil =>
    intro vec _
    simp only [List.nil_append]
    rw [direct_scan_entry y cvk sorted mark vec a _ ha]
    rcases direct_step_complete cvk sorted mark vec a t hs hta with ⟨_, hst⟩ | ⟨d, _, hst⟩
    · rw [hst, Step.andThen_next, direct_scan_entry y cvk sorted mark _ b _ hb]
      have hlen := key_tuple_length a cvk t hta
      obtain ⟨d, hd2⟩ := check_insert_duplicate_of_row (vec ++ [t.map some]) t vec.length sorted
        (by simp) (by simp [List.getD_eq_getElem?_getD]) (fun _ => by simp)
      rw [hlen] at hd2
      rcases direct_step_complete cvk sorted mark (vec ++ [t.map some]) b t hs htb with
        ⟨hnone, _⟩ | ⟨d1, _, hst1⟩
      · rw [hnone] at hd2; cases hd2
      · rw [hst1]
        exact ⟨b, d1, by simp, rfl⟩
    · rw [hst]
      exact ⟨a, d, by simp, rfl⟩
  | cons e e1 ih =>
    intro vec he
    simp only [List.cons_append]
    rw [direct_scan_entry y cvk sorted mark vec e _ (he e (List.mem_cons_self _ _))]
    rcases direct_step_no_slash cvk sorted mark vec e hs with ⟨row, hrow⟩ | ⟨d, hd⟩
    · rw [hrow, Step.andThen_next]
      obtain ⟨x, d, hx, hres⟩ := ih (vec ++ [row]) (fun x hx => he x (List.mem_cons_of_mem _ hx))
      exact ⟨x, d, List.mem_cons_of_mem _ hx, hres⟩
    · rw [hd]
      exact ⟨e, d, by simp, rfl⟩

theorem marked_of_zero (d : Nat) : marked_of 0 d = none := by
  simp [marked_of]

/-- The key check of `xml_yang_minmax_new_list` rejects a run with two adjacent entries
that agree on every key. -/
theorem new_list_adjacent (c : Collaborators) (y : yang_stmt) (a b : cxobj)
    (e1 post : List cxobj) (x0 : cxobj) (rest : List cxobj) (t : List String)
    (hrun : x0 :: rest = e1 ++ a :: b :: post)
    (hne : yang_cvec_get y ≠ [])
    (hs : ∀ k ∈ yang_cvec_get y, has_slash k = false)
    (he1 : ∀ x ∈ e1, is_entry y x) (ha : is_entry y a) (hb : is_entry y b)
    (hta : key_tuple a (yang_cvec_get y) = some t)
    (htb : key_tuple b (yang_cvec_get y) = some t) :
    ∃ x, x ∈ e1 ++ [a, b] ∧
      xml_yang_minmax_new_list c x0 rest y 0 =
        .fail (some (.data_not_unique x (yang_cvec_get y))) none := by
  have hx0 : is_entry y x0 := by
    cases e1 with
    | nil => simp only [List.nil_append, List.cons.injEq] at hrun; rw [hrun.1]; exact ha
    | cons e e1 =>
      simp only [List.cons_append, List.cons.injEq] at hrun
      rw [hrun.1]; exact he1 e (List.mem_cons_self _ _)
  obtain ⟨x, d, hx, hres⟩ := direct_scan_adjacent y (yang_cvec_get y) (direct_sorted y y) 0
    a b post t hs ha hb hta htb e1 [] he1
  refine ⟨x, hx, ?_⟩
  unfold xml_yang_minmax_new_list
  rw [direct_eq_scan x0 rest y y 0 hx0 hne, hrun, hres, marked_of_zero]

/-! ## The traversal of xml_yang_validate_unique, step by step -/

theorem unique_loop_unfold_cons (c : Collaborators) (yprev : Option yang_stmt) (x : cxobj)
    (rest : List cxobj) :
    xml_yang_validate_unique_loop c yprev (x :: rest) =
      (xml_yang_validate_unique_step c yprev x rest).andThen fun yprev1 =>
        xml_yang_validate_unique_loop c yprev1 rest := by
  rw [xml_yang_validate_unique_loop]
  cases xml_yang_validate_unique_step c yprev x rest <;> rfl

theorem unique_step_skip (c : Collaborators) (yprev : Option yang_stmt) (x : cxobj)
    (rest : List cxobj) (h : is_elmnt x = false ∨ xml_spec x = none) :
    xml_yang_validate_unique_step c yprev x rest = .next yprev := by
  unfold xml_yang_validate_unique_step
  rcases h with h | h
  · simp [h]
  · by_cases he : is_elmnt x = true <;> simp [he, h]

theorem unique_step_other (c : Collaborators) (yprev : Option yang_stmt) (x : cxobj)
    (rest : List cxobj) (y : yang_stmt) (hy : xml_spec x = some y)
    (hk : is_list_kw (yang_keyword_get y) = false) :
    xml_yang_validate_unique_step c yprev x rest = .next yprev := by
  unfold xml_yang_validate_unique_step
  by_cases he : is_elmnt x = true <;> simp [he, hy, hk]

theorem unique_step_same (c : Collaborators) (yprev : Option yang_stmt) (x : cxobj)
    (rest : List cxobj) (y : yang_stmt) (hy : xml_spec x = some y)
    (hp : yang_ptr_eq (some y) yprev = true) :
    xml_yang_validate_unique_step c yprev x rest = .next yprev := by
  unfold xml_yang_validate_unique_step
  by_cases he : is_elmnt x = true <;>
    by_cases hk : is_list_kw (yang_keyword_get y) = true <;> simp [he, hy, hk, hp]

theorem unique_step_new (c : Collaborators) (yprev : Option yang_stmt) (x : cxobj)
    (rest : List cxobj) (y : yang_stmt) (he : is_elmnt x = true) (hy : xml_spec x = some y)
    (hk : is_list_kw (yang_keyword_get y) = true)
    (hp : yang_ptr_eq (some y) yprev = false) :
    xml_yang_validate_unique_step c yprev x rest =
      Res.toStep
        (if yang_keyword_get y == .Y_LIST then xml_yang_minmax_new_list c x rest y 0
         else xml_yang_minmax_new_leaf_list x rest y 0) (some y) := by
  unfold xml_yang_validate_unique_step
  simp only [he, hy, hk, hp, Bool.not_true, Bool.false_eq_true, if_false, if_true]
  cases (if yang_keyword_get y == .Y_LIST then xml_yang_minmax_new_list c x rest y 0
         else xml_yang_minmax_new_leaf_list x rest y 0) <;> rfl

theorem unique_step_cases (c : Collaborators) (yprev : Option yang_stmt) (x : cxobj)
    (rest : List cxobj) :
    xml_yang_validate_unique_step c yprev x rest = .next yprev ∨
    ∃ y, is_elmnt x = true ∧ xml_spec x = some y ∧
      is_list_kw (yang_keyword_get y) = true ∧ yang_ptr_eq (some y) yprev = false ∧
      xml_yang_validate_unique_step c yprev x rest =
        Res.toStep
          (if yang_keyword_get y == .Y_LIST then xml_yang_minmax_new_list c x rest y 0
           else xml_yang_minmax_new_leaf_list x rest y 0) (some y) := by
  by_cases he : is_elmnt x = true
  · cases hy : xml_spec x with
    | none => exact Or.inl (unique_step_skip c yprev x rest (Or.inr hy))
    | some y =>
      by_cases hk : is_list_kw (yang_keyword_get y) = true
      · by_cases hp : yang_ptr_eq (some y) yprev = true
        · exact Or.inl (unique_step_same c yprev x rest y hy hp)
        · exact Or.inr ⟨y, he, rfl, hk, by simpa using hp,
            unique_step_new c yprev x rest y he hy hk (by simpa using hp)⟩
      · exact Or.inl (unique_step_other c yprev x rest y hy (by simpa using hk))
  · exact Or.inl (unique_step_skip c yprev x rest (Or.inl (by simpa using he)))

theorem unique_step_stop_ne_ok (c : Collaborators) (yprev : Option yang_stmt) (x : cxobj)
    (rest : List cxobj) (r : Res)
    (h : xml_yang_validate_unique_step c yprev x rest = .stop r) : r ≠ .ok := by
  rcases unique_step_cases c yprev x rest with h1 | ⟨y, _, _, _, _, h1⟩
  · rw [h1] at h; cases h
  · rw [h1] at h
    have := Res.toStep_stop h
    rw [this.1]; exact this.2

theorem unique_step_next_yprev (c : Collaborators) (yprev yprev1 : Option yang_stmt)
    (x : cxobj) (rest : List cxobj)
    (h : xml_yang_validate_unique_step c yprev x rest = .next yprev1) :
    yprev1 = yprev ∨ (is_elmnt x = true ∧ xml_spec x = yprev1) := by
  rcases unique_step_cases c yprev x rest with h1 | ⟨y, he, hy, _, _, h1⟩
  · rw [h1] at h; injection h with h; exact Or.inl h.symm
  · rw [h1] at h
    have := (Res.toStep_next h).2
    exact Or.inr ⟨he, by rw [hy, this]⟩

theorem unique_loop_append (c : Collaborators) :
    ∀ (pre : List cxobj) (yprev : Option yang_stmt) (post : List cxobj),
      xml_yang_validate_unique_loop c yprev (pre ++ post) =
        (xml_yang_validate_unique_run c yprev pre post).andThen fun yprev1 =>
          xml_yang_validate_unique_loop c yprev1 post := by
  intro pre
  induction pre with
  | nil => intro yprev post; simp [xml_yang_validate_unique_run]
  | cons x pre ih =>
    intro yprev post
    rw [List.cons_append, unique_loop_unfold_cons, xml_yang_validate_unique_run]
    cases h : xml_yang_validate_unique_step c yprev x (pre ++ post) with
    | stop r => rfl
    | next yprev1 => simp only [Step.andThen_next, ih]

theorem unique_run_stop_ne_ok (c : Collaborators) :
    ∀ (pre : List cxobj) (yprev : Option yang_stmt) (post : List cxobj) (r : Res),
      xml_yang_validate_unique_run c yprev pre post = .stop r → r ≠ .ok := by
  intro pre
  induction pre with
  | nil => intro yprev post r h; simp [xml_yang_validate_unique_run] at h
  | cons x pre ih =>
    intro yprev post r h
    rw [xml_yang_validate_unique_run] at h
    cases hs : xml_yang_validate_unique_step c yprev x (pre ++ post) with
    | stop r1 =>
      rw [hs] at h
      cases h
      exact unique_step_stop_ne_ok c yprev x _ r hs
    | next yprev1 =>
      rw [hs] at h
      exact ih yprev1 post r h

/-- The value of `yprev` after a prefix is the initial one or the statement of an element
of the prefix. -/
theorem unique_run_yprev (c : Collaborators) :
    ∀ (pre : List cxobj) (yprev yprev1 : Option yang_stmt) (post : List cxobj),
      xml_yang_validate_unique_run c yprev pre post = .next yprev1 →
      yprev1 = yprev ∨ ∃ x ∈ pre, is_elmnt x = true ∧ xml_spec x = yprev1 := by
  intro pre
  induction pre with
  | nil =>
    intro yprev yprev1 post h
    rw [xml_yang_validate_unique_run] at h
    injection h with h
    exact Or.inl h.symm
  | cons x pre ih =>
    intro yprev yprev1 post h
    rw [xml_yang_validate_unique_run] at h
    cases hs : xml_yang_validate_unique_step c yprev x (pre ++ post) with
    | stop r => rw [hs] at h; cases h
    | next yprev0 =>
      rw [hs] at h
      rcases ih yprev0 yprev1 post h with h1 | ⟨x1, hx1, h1⟩
      · rcases unique_step_next_yprev c yprev yprev0 x _ hs with h2 | h2
        · exact Or.inl (h1.trans h2)
        · exact Or.inr ⟨x, List.mem_cons_self _ _, h2.1, by rw [h1]; exact h2.2⟩
      · exact Or.inr ⟨x1, List.mem_cons_of_mem _ hx1, h1⟩

theorem minmax_step_next_yprev_mem (c : Collaborators) (presence : Bool) (xt : cxobj)
    (yt : Option yang_stmt) (sub : Res) (st st1 : MinmaxState) (x : cxobj) (rest : List cxobj)
    (h : xml_yang_validate_minmax_step c presence xt yt sub st x rest = .next st1) :
    st1.yprev = st.yprev ∨ (is_elmnt x = true ∧ xml_spec x = st1.yprev) := by
  by_cases he : is_elmnt x = true
  · cases hy : xml_spec x with
    | none =>
      rw [minmax_step_skip c presence xt yt sub st x rest (Or.inr hy)] at h
      injection h with h; left; rw [h]
    | some y =>
      by_cases hk : is_list_kw (yang_keyword_get y) = true <;>
        by_cases hp : yang_ptr_eq (some y) st.yprev = true
      · rw [minmax_step_list_same c presence xt yt sub st x rest y he hy hk hp] at h
        injection h with h; left; rw [← h]
      · rw [minmax_step_list_new c presence xt yt sub st x rest y he hy hk (by simpa using hp)] at h
        rw [(Res.toStep_next h).2]; exact Or.inr ⟨he, rfl⟩
      · rw [minmax_step_other_same c presence xt yt sub st x rest y he hy (by simpa using hk) hp] at h
        cases h
      · rw [minmax_step_other_new c presence xt yt sub st x rest y he hy (by simpa using hk)
          (by simpa using hp)] at h
        rw [(Res.toStep_next h).2]; exact Or.inr ⟨he, rfl⟩
  · rw [minmax_step_skip c presence xt yt sub st x rest (Or.inl (by simpa using he))] at h
    injection h with h; left; rw [h]

theorem minmax_run_yprev (c : Collaborators) (presence : Bool) (xt : cxobj)
    (yt : Option yang_stmt) :
    ∀ (pre : List cxobj) (st st1 : MinmaxState) (post : List cxobj),
      xml_yang_validate_minmax_run c presence xt yt st pre post = .next st1 →
      st1.yprev = st.yprev ∨ ∃ x ∈ pre, is_elmnt x = true ∧ xml_spec x = st1.yprev := by
  intro pre
  induction pre with
  | nil =>
    intro st st1 post h
    rw [xml_yang_validate_minmax_run] at h
    injection h with h
    left; rw [h]
  | cons x pre ih =>
    intro st st1 post h
    rw [xml_yang_validate_minmax_run] at h
    cases hs : xml_yang_validate_minmax_step c presence xt yt
        (xml_yang_validate_minmax c presence x) st x (pre ++ post) with
    | stop r => rw [hs] at h; cases h
    | next st0 =>
      rw [hs] at h
      rcases ih st0 st1 post h with h1 | ⟨x1, hx1, h1⟩
      · rcases minmax_step_next_yprev_mem c presence xt yt _ st st0 x _ hs with h2 | h2
        · exact Or.inl (h1.trans h2)
        · exact Or.inr ⟨x, List.mem_cons_self _ _, h2.1, by rw [h1]; exact h2.2⟩
      · exact Or.inr ⟨x1, List.mem_cons_of_mem _ hx1, h1⟩

/-- A statement that no element of the prefix is bound to differs from `yprev` after the
prefix. -/
theorem ptr_ne_of_not_bound (y : yang_stmt) (pre : List cxobj) (yprev : Option yang_stmt)
    (hpre : ∀ x ∈ pre, bound_to y x = false)
    (h : yprev = none ∨ ∃ x ∈ pre, is_elmnt x = true ∧ xml_spec x = yprev) :
    yang_ptr_eq (some y) yprev = false := by
  rcases h with rfl | ⟨x, hx, he, hsp⟩
  · rfl
  · have := hpre x hx
    rw [← hsp]
    simpa [bound_to, he] using this

/-! ## Duplicate keys -/

theorem check_empty_list_minmax_ne_error (xt : cxobj) (y : yang_stmt) :
    check_empty_list_minmax xt y ≠ .error := by
  rcases check_empty_list_minmax_spec xt y with ⟨h, _⟩ | ⟨L, _, _, h⟩ <;> rw [h] <;> simp

theorem gap_analysis_loop_ne_error (xt : cxobj) (ych : Option yang_stmt) :
    ∀ (inext : List yang_stmt) (ye : yang_stmt),
      (xml_yang_minmax_gap_analysis_loop xt ych ye inext).ret ≠ .error := by
  intro inext
  induction inext with
  | nil =>
    intro ye
    rw [xml_yang_minmax_gap_analysis_loop]
    have := check_empty_list_minmax_ne_error xt ye
    cases h : check_empty_list_minmax xt ye with
    | ok => simp
    | fail e m => simp
    | error => exact absurd h this
  | cons ye1 inext ih =>
    intro ye
    rw [xml_yang_minmax_gap_analysis_loop]
    have := check_empty_list_minmax_ne_error xt ye
    cases h : check_empty_list_minmax xt ye with
    | ok =>
      simp only
      by_cases hp : yang_ptr_eq (some ye1) ych = true
      · simp [hp]
      · simp only [hp, if_false]; exact ih ye1
    | fail e m => simp
    | error => exact absurd h this

theorem gap_analysis_ne_error (c : Collaborators) (xt : cxobj) (y yt : Option yang_stmt)
    (inext : List yang_stmt) (ye : Option yang_stmt) :
    (xml_yang_minmax_gap_analysis c xt y yt inext ye).ret ≠ .error := by
  unfold xml_yang_minmax_gap_analysis
  split
  · cases inext with
    | nil => simp
    | cons ye1 inext1 =>
      simp only
      split
      · exact gap_analysis_loop_ne_error xt _ inext1 ye1
      · simp
  · simp

theorem check_minmax_prev_ne_error (xt : cxobj) (r : Res) (yprev : Option yang_stmt)
    (nr : Nat) (h : r ≠ .error) : check_minmax_prev xt r yprev nr ≠ .error := by
  unfold check_minmax_prev
  split
  · split
    · exact check_minmax_ne_error xt _ nr
    · simp
  · exact h

/-- C4 (amended): for every keyed list `y` (key names without a slash) and every parent
`xt` whose children are sorted so that the entries of `y` are contiguous (no child before
the run is bound to `y`): if two adjacent entries `a` and `b` of the run each have a body
for every key leaf and agree on every key, then neither `xml_yang_validate_unique(xt)` nor
`xml_yang_validate_minmax(xt)` returns 1; and when no check made for the children before
the run fails or errs, `xml_yang_validate_unique(xt)` returns 0 with a data-not-unique
error for an entry of the run carrying the key names, and `xml_yang_validate_minmax(xt)`
returns 0. -/
theorem validate_adjacent_key_duplicate (c : Collaborators) (xt : cxobj) (y : yang_stmt)
    (pre e1 post : List cxobj) (a b : cxobj) (t : List String)
    (hk : yang_keyword_get y = .Y_LIST)
    (hne : yang_cvec_get y ≠ [])
    (hs : ∀ k ∈ yang_cvec_get y, has_slash k = false)
    (hcs : xml_childvec xt = pre ++ (e1 ++ a :: b :: post))
    (hpre : ∀ x ∈ pre, bound_to y x = false)
    (he1 : ∀ x ∈ e1, is_entry y x) (ha : is_entry y a) (hb : is_entry y b)
    (hta : key_tuple a (yang_cvec_get y) = some t)
    (htb : key_tuple b (yang_cvec_get y) = some t) :
    xml_yang_validate_unique c xt ≠ .ok ∧
    (∀ presence, xml_yang_validate_minmax c presence xt ≠ .ok) ∧
    (∀ yprev, xml_yang_validate_unique_run c none pre (e1 ++ a :: b :: post) = .next yprev →
      ∃ x, x ∈ e1 ++ [a, b] ∧
        xml_yang_validate_unique c xt =
          .fail (some (.data_not_unique x (yang_cvec_get y))) none) ∧
    (∀ presence st,
      xml_yang_validate_minmax_run c presence xt (xml_spec xt) (minmax_init (xml_spec xt))
        pre (e1 ++ a :: b :: post) = .next st →
      (xml_yang_validate_minmax c presence xt).retval = 0) := by
  obtain ⟨x0, rest, hrun⟩ : ∃ x0 rest, x0 :: rest = e1 ++ a :: b :: post := by
    cases e1 with
    | nil => exact ⟨a, b :: post, rfl⟩
    | cons e e1 => exact ⟨e, e1 ++ a :: b :: post, rfl⟩
  have hx0 : is_entry y x0 := by
    cases e1 with
    | nil => simp only [List.nil_append, List.cons.injEq] at hrun; rw [hrun.1]; exact ha
    | cons e e1 =>
      simp only [List.cons_append, List.cons.injEq] at hrun
      rw [hrun.1]; exact he1 e (List.mem_cons_self _ _)
  have hlk : is_list_kw (yang_keyword_get y) = true := by rw [hk]; rfl
  obtain ⟨xd, hxd, hnew⟩ := new_list_adjacent c y a b e1 post x0 rest t hrun hne hs he1 ha hb
    hta htb
  rw [← hrun] at hcs ⊢
  -- xml_yang_validate_unique
  have huniq : ∀ yprev, xml_yang_validate_unique_run c none pre (x0 :: rest) = .next yprev →
      xml_yang_validate_unique c xt =
        .fail (some (.data_not_unique xd (yang_cvec_get y))) none := by
    intro yprev hrunu
    have hp : yang_ptr_eq (some y) yprev = false := by
      apply ptr_ne_of_not_bound y pre yprev hpre
      rcases unique_run_yprev c pre none yprev _ hrunu with h | h
      · exact Or.inl h
      · exact Or.inr h
    unfold xml_yang_validate_unique
    rw [hcs, unique_loop_append, hrunu, Step.andThen_next, unique_loop_unfold_cons,
      unique_step_new c yprev x0 rest y hx0.1 hx0.2 hlk hp]
    simp only [hk, beq_self_eq_true, if_true, hnew, Res.toStep_fail, Step.andThen_stop]
  -- xml_yang_validate_minmax
  have hmm : ∀ presence st,
      xml_yang_validate_minmax_run c presence xt (xml_spec xt) (minmax_init (xml_spec xt))
        pre (x0 :: rest) = .next st →
      (xml_yang_validate_minmax c presence xt).retval = 0 := by
    intro presence st hrunm
    have hp : yang_ptr_eq (some y) st.yprev = false := by
      apply ptr_ne_of_not_bound y pre st.yprev hpre
      rcases minmax_run_yprev c presence xt _ pre _ st _ hrunm with h | h
      · exact Or.inl h
      · exact Or.inr h
    rw [minmax_unfold, hcs, minmax_loop_append, hrunm]
    simp only
    rw [minmax_loop_unfold_cons,
      minmax_step_list_new c presence xt _ _ st x0 rest y hx0.1 hx0.2 hlk hp]
    simp only [hk, beq_self_eq_true, if_true, hnew]
    have hne_err := check_minmax_prev_ne_error xt
      (xml_yang_minmax_gap_analysis c xt (some y) (xml_spec xt) st.inext st.ye).ret
      st.yprev st.nr (gap_analysis_ne_error c xt _ _ _ _)
    cases hc : check_minmax_prev xt
        (xml_yang_minmax_gap_analysis c xt (some y) (xml_spec xt) st.inext st.ye).ret
        st.yprev st.nr with
    | ok => rfl
    | fail e m => rfl
    | error => exact absurd hc hne_err
  refine ⟨?_, ?_, ?_, hmm⟩
  · cases hrunu : xml_yang_validate_unique_run c none pre (x0 :: rest) with
    | stop r =>
      unfold xml_yang_validate_unique
      rw [hcs, unique_loop_append, hrunu, Step.andThen_stop]
      exact unique_run_stop_ne_ok c pre none _ r hrunu
    | next yprev => rw [huniq yprev hrunu]; simp
  · intro presence
    cases hrunm : xml_yang_validate_minmax_run c presence xt (xml_spec xt)
        (minmax_init (xml_spec xt)) pre (x0 :: rest) with
    | stop r =>
      rw [minmax_unfold, hcs, minmax_loop_append, hrunm]
      exact minmax_run_stop_ne_ok c presence xt _ _ _ _ r hrunm
    | next st =>
      have := hmm presence st hrunm
      intro h
      rw [h] at this
      cases this
  · intro yprev hrunu
    exact ⟨xd, hxd, huniq yprev hrunu⟩

/-- Witness of `validate_adjacent_key_duplicate`: `<c><x><k>a</k></x><x><k>a</k></x></c>`
under `list x { key "k"; leaf k; }`. -/
theorem validate_adjacent_key_duplicate_witness :
    xml_yang_validate_unique ex_none ex_c_dup ≠ .ok ∧
    (xml_yang_validate_minmax ex_none false ex_c_dup).retval = 0 :=
  ⟨(validate_adjacent_key_duplicate ex_none ex_c_dup ex_list_plain [] [] []
      (ex_entry ex_list_plain (ex_leaf 42 "k") "a") (ex_entry ex_list_plain (ex_leaf 42 "k") "a")
      ["a"] rfl (by decide) (by decide) rfl (by intro x hx; cases hx) (by intro x hx; cases hx)
      ⟨rfl, rfl⟩ ⟨rfl, rfl⟩ rfl rfl).1,
   (validate_adjacent_key_duplicate ex_none ex_c_dup ex_list_plain [] [] []
      (ex_entry ex_list_plain (ex_leaf 42 "k") "a") (ex_entry ex_list_plain (ex_leaf 42 "k") "a")
      ["a"] rfl (by decide) (by decide) rfl (by intro x hx; cases hx) (by intro x hx; cases hx)
      ⟨rfl, rfl⟩ ⟨rfl, rfl⟩ rfl rfl).2.2.2 false _ rfl⟩

/-- Counterexample to the duplicate-key claim as stated. The two entries of `x` with key
`a` are adjacent and contiguous. First, the list `m` before them has `unique "a/b c"`, and
both functions return -1, not 0. Second, a leaf-list with two equal entries comes before
them, and the data-not-unique error of `xml_yang_validate_unique` is the one of the
leaf-list, carrying the body `b` and not the key names. -/
theorem validate_adjacent_key_duplicate_counterexample :
    (xml_childvec ex_c_m_dup =
      [ex_entry_m "1"] ++ [ex_entry ex_list_plain (ex_leaf 42 "k") "a",
        ex_entry ex_list_plain (ex_leaf 42 "k") "a"] ∧
      yang_keyword_get ex_list_plain = .Y_LIST ∧
      yang_cvec_get ex_list_plain = ["k"] ∧
      bound_to ex_list_plain (ex_entry_m "1") = false ∧
      key_tuple (ex_entry ex_list_plain (ex_leaf 42 "k") "a") ["k"] = some ["a"] ∧
      (xml_yang_validate_unique ex_none ex_c_m_dup).retval = -1 ∧
      (xml_yang_validate_minmax ex_none false ex_c_m_dup).retval = -1) ∧
    (xml_childvec ex_c_ll_dup_then_dup =
      [ex_elem "l" ex_leaf_list "b", ex_elem "l" ex_leaf_list "b"] ++
        [ex_entry ex_list_plain (ex_leaf 42 "k") "a",
         ex_entry ex_list_plain (ex_leaf 42 "k") "a"] ∧
      bound_to ex_list_plain (ex_elem "l" ex_leaf_list "b") = false ∧
      xml_yang_validate_unique ex_none ex_c_ll_dup_then_dup =
        .fail (some (.data_not_unique (ex_elem "l" ex_leaf_list "b") ["b"])) none) :=
  ⟨⟨rfl, rfl, rfl, rfl, rfl, rfl, rfl⟩, ⟨rfl, rfl, rfl⟩⟩

theorem unique_loop_eq_ok (c : Collaborators) (pre post : List cxobj)
    (yprev : Option yang_stmt)
    (h : xml_yang_validate_unique_loop c yprev (pre ++ post) = .ok) :
    ∃ yprev1, xml_yang_validate_unique_run c yprev pre post = .next yprev1 ∧
      xml_yang_validate_unique_loop c yprev1 post = .ok := by
  rw [unique_loop_append] at h
  cases hr : xml_yang_validate_unique_run c yprev pre post with
  | stop r =>
    rw [hr, Step.andThen_stop] at h
    exact absurd h (unique_run_stop_ne_ok c pre yprev post r hr)
  | next yprev1 =>
    rw [hr, Step.andThen_next] at h
    exact ⟨yprev1, rfl, h⟩

theorem new_list_iter_eq_ok (c : Collaborators) (x : cxobj) (rest : List cxobj)
    (y : yang_stmt) :
    ∀ ys : List yang_stmt, xml_yang_minmax_new_list_iter c x rest y ys = .ok →
      ∀ yu ∈ ys, yang_keyword_get yu = .Y_UNIQUE → check_unique_list c x rest y yu 0 = .ok := by
  intro ys
  induction ys with
  | nil => intro _ yu hyu; cases hyu
  | cons y1 ys ih =>
    intro h yu hyu hku
    rw [xml_yang_minmax_new_list_iter] at h
    by_cases hk1 : yang_keyword_get y1 = .Y_UNIQUE
    · simp only [hk1, bne_self_eq_false, Bool.false_eq_true, if_false] at h
      cases hc : check_unique_list c x rest y y1 0 with
      | ok =>
        rw [hc] at h
        rcases List.mem_cons.1 hyu with rfl | hyu
        · exact hc
        · exact ih h yu hyu hku
      | fail e m => rw [hc] at h; cases h
      | error => rw [hc] at h; cases h
    · have : (yang_keyword_get y1 != .Y_UNIQUE) = true := by simpa using hk1
      simp only [this, if_true] at h
      rcases List.mem_cons.1 hyu with rfl | hyu
      · exact absurd hku hk1
      · exact ih h yu hyu hku

theorem new_list_eq_ok (c : Collaborators) (x : cxobj) (rest : List cxobj) (y : yang_stmt)
    (mark : Nat) (h : xml_yang_minmax_new_list c x rest y mark = .ok) :
    check_unique_list_direct x rest y y mark = .ok ∧
      xml_yang_minmax_new_list_iter c x rest y (yang_children y) = .ok := by
  unfold xml_yang_minmax_new_list at h
  cases hd : check_unique_list_direct x rest y y mark with
  | ok => rw [hd] at h; exact ⟨rfl, h⟩
  | fail e m => rw [hd] at h; cases h
  | error => rw [hd] at h; cases h

/-- With names that contain no slash, `check_unique_list` is the direct check. -/
theorem check_unique_list_direct_mode (c : Collaborators) (x : cxobj) (rest : List cxobj)
    (y yu : yang_stmt) (mark : Nat) (hs : ∀ k ∈ yang_cvec_get yu, has_slash k = false)
    (hne : yang_cvec_get yu ≠ []) :
    check_unique_list c x rest y yu mark = check_unique_list_direct x rest y yu mark := by
  unfold check_unique_list
  by_cases hl : (yang_cvec_get yu).length > 1
  · simp [hl]
  · simp only [hl, if_false]
    cases hc : yang_cvec_get yu with
    | nil => exact absurd hc hne
    | cons k ks =>
      have := hs k (by rw [hc]; exact List.mem_cons_self _ _)
      simp [this]

theorem check_unique_list_ok_ne_nil (c : Collaborators) (x : cxobj) (rest : List cxobj)
    (y yu : yang_stmt) (mark : Nat) (h : check_unique_list c x rest y yu mark = .ok) :
    yang_cvec_get yu ≠ [] := by
  intro hc
  unfold check_unique_list at h
  simp [hc] at h

/-- Pairwise scan: when the unsorted scan of a run returns 1, no complete tuple of the run
is in the vector it started with, and no two entries of the run have the same complete
tuple. -/
theorem direct_scan_unsorted_sound (y : yang_stmt) (cvk : List String) (mark : Nat)
    (post : List cxobj) (hs : ∀ k ∈ cvk, has_slash k = false) :
    ∀ (es : List cxobj) (vec : TupleVec), (∀ x ∈ es, is_entry y x) →
      check_unique_list_direct_scan y cvk false mark vec (es ++ post) = .ok →
      (∀ x ∈ es, ∀ t, key_tuple x cvk = some t → t.map some ∉ vec) ∧
      es.Pairwise (fun a b => ∀ t, key_tuple a cvk = some t → key_tuple b cvk ≠ some t) := by
  intro es
  induction es with
  | nil => intro vec _ _; exact ⟨(fun x hx => by cases hx), List.Pairwise.nil⟩
  | cons e es ih =>
    intro vec hes hok
    simp only [List.cons_append] at hok
    rw [direct_scan_entry y cvk false mark vec e _ (hes e (List.mem_cons_self _ _))] at hok
    have hes' : ∀ x ∈ es, is_entry y x := fun x hx => hes x (List.mem_cons_of_mem _ hx)
    cases hte : key_tuple e cvk with
    | none =>
      rcases direct_step_no_slash cvk false mark vec e hs with ⟨row, hrow⟩ | ⟨d, hd⟩
      · rw [hrow, Step.andThen_next] at hok
        obtain ⟨h1, h2⟩ := ih (vec ++ [row]) hes' hok
        refine ⟨?_, List.Pairwise.cons ?_ h2⟩
        · intro x hx t ht hmem
          rcases List.mem_cons.1 hx with rfl | hx
          · rw [hte] at ht; cases ht
          · exact h1 x hx t ht (List.mem_append_left _ hmem)
        · intro x _ t ht; rw [hte] at ht; cases ht
      · rw [hd] at hok; cases hok
    | some te =>
      rcases direct_step_complete cvk false mark vec e te hs hte with ⟨hnone, hst⟩ | ⟨d, _, hst⟩
      · rw [hst, Step.andThen_next] at hok
        obtain ⟨h1, h2⟩ := ih (vec ++ [te.map some]) hes' hok
        refine ⟨?_, List.Pairwise.cons ?_ h2⟩
        · intro x hx t ht hmem
          rcases List.mem_cons.1 hx with rfl | hx
          · rw [hte] at ht
            injection ht with ht
            subst ht
            obtain ⟨i, hi, hget⟩ := List.getElem_of_mem hmem
            obtain ⟨d, hd⟩ := check_insert_duplicate_of_row vec te i false hi
              (by rw [List.getD_eq_getElem?_getD, List.getElem?_eq_getElem hi]; simpa using hget)
              (fun h => by cases h)
            rw [key_tuple_length x cvk te hte, hnone] at hd
            cases hd
          · exact h1 x hx t ht (List.mem_append_left _ hmem)
        · intro x hx t ht hxt
          rw [hte] at ht
          injection ht with ht
          subst ht
          exact h1 x hx te hxt (List.mem_append_right _ (List.mem_singleton.2 rfl))
      · rw [hst] at hok; cases hok

/-! ## Unique soundness -/

/-- Unique soundness for a run without other elements inside. For every list `y` with a
`unique` statement `yu` over leaf names (direct children, no slash) and every parent `xt`
in which the entries `es` of `y` follow one another as elements (`hes`: every element of
the run is an entry of `y`, so no unbound element lies between them), if
`xml_yang_validate_unique(xt)` returns 1 then no two entries of the run that each have a
body for every name have equal value tuples, whatever their order. -/
theorem validate_unique_sound (c : Collaborators) (xt : cxobj) (y yu : yang_stmt)
    (pre es post : List cxobj)
    (hk : yang_keyword_get y = .Y_LIST)
    (hyu : yu ∈ yang_children y) (hku : yang_keyword_get yu = .Y_UNIQUE)
    (hs : ∀ k ∈ yang_cvec_get yu, has_slash k = false)
    (hcs : xml_childvec xt = pre ++ (es ++ post))
    (hpre : ∀ x ∈ pre, bound_to y x = false)
    (hes : ∀ x ∈ es, is_entry y x)
    (hok : xml_yang_validate_unique c xt = .ok) :
    es.Pairwise fun a b =>
      ∀ t, key_tuple a (yang_cvec_get yu) = some t → key_tuple b (yang_cvec_get yu) ≠ some t := by
  cases es with
  | nil => exact List.Pairwise.nil
  | cons x0 es1 =>
    have hx0 := hes x0 (List.mem_cons_self _ _)
    have hlk : is_list_kw (yang_keyword_get y) = true := by rw [hk]; rfl
    unfold xml_yang_validate_unique at hok
    rw [hcs] at hok
    obtain ⟨yprev, hrun, hloop⟩ := unique_loop_eq_ok c pre _ none hok
    have hp : yang_ptr_eq (some y) yprev = false := by
      apply ptr_ne_of_not_bound y pre yprev hpre
      rcases unique_run_yprev c pre none yprev _ hrun with h | h
      · exact Or.inl h
      · exact Or.inr h
    simp only [List.cons_append] at hloop
    rw [unique_loop_unfold_cons,
      unique_step_new c yprev x0 (es1 ++ post) y hx0.1 hx0.2 hlk hp] at hloop
    simp only [hk, beq_self_eq_true, if_true] at hloop
    cases hnew : xml_yang_minmax_new_list c x0 (es1 ++ post) y 0 with
    | fail e m => rw [hnew] at hloop; cases hloop
    | error => rw [hnew] at hloop; cases hloop
    | ok =>
      have hu := new_list_iter_eq_ok c x0 (es1 ++ post) y _ (new_list_eq_ok c _ _ _ _ hnew).2
        yu hyu hku
      have hne := check_unique_list_ok_ne_nil c _ _ _ _ _ hu
      rw [check_unique_list_direct_mode c _ _ _ _ _ hs hne,
        direct_eq_scan x0 (es1 ++ post) y yu 0 hx0 hne] at hu
      have hsorted : direct_sorted y yu = false := by
        simp [direct_sorted, hku]
      rw [hsorted, ← List.cons_append] at hu
      exact (direct_scan_unsorted_sound y (yang_cvec_get yu) 0 post hs (x0 :: es1) [] hes hu).2

/-- Witness of `validate_unique_sound`: two entries with different values of `v` under
`list x { key "k"; unique "v"; leaf k; leaf v; }`. -/
theorem validate_unique_sound_witness :
    [ex_entry_kv "a" "1", ex_entry_kv "b" "2"].Pairwise fun a b =>
      ∀ t, key_tuple a ["v"] = some t → key_tuple b ["v"] ≠ some t :=
  validate_unique_sound ex_none ex_c_kv ex_list_uv (ex_unique_v 81) []
    [ex_entry_kv "a" "1", ex_entry_kv "b" "2"] [] rfl (List.Mem.head _) rfl (by decide) rfl
    (by intro x hx; cases hx)
    (by
      intro x hx
      simp only [List.mem_cons, List.mem_singleton, List.not_mem_nil, or_false] at hx
      rcases hx with rfl | rfl <;> exact ⟨rfl, rfl⟩)
    rfl

/-! ## Unique in XPath mode -/

theorem search_loop_all_bodies :
    ∀ (xvec : List cxobj) (svec : List String), (∀ n ∈ xvec, ∃ b, xml_body n = some b) →
      unique_search_xpath_loop xvec svec = none ∨
      unique_search_xpath_loop xvec svec = some (svec ++ xvec.filterMap xml_body) := by
  intro xvec
  induction xvec with
  | nil => intro svec _; right; simp [unique_search_xpath_loop]
  | cons n xvec ih =>
    intro svec h
    obtain ⟨b, hb⟩ := h n (List.mem_cons_self _ _)
    rw [unique_search_xpath_loop, hb]
    simp only
    by_cases hc : svec.contains b = true
    · left; rw [if_pos hc]
    · rw [if_neg hc]
      rcases ih (svec ++ [b]) (fun n hn => h n (List.mem_cons_of_mem _ hn)) with h1 | h1
      · exact Or.inl h1
      · right
        rw [h1, List.filterMap_cons, hb]
        simp

theorem search_loop_hit (b0 : String) :
    ∀ (xvec : List cxobj) (svec : List String), (∀ n ∈ xvec, ∃ b, xml_body n = some b) →
      b0 ∈ svec → b0 ∈ xvec.filterMap xml_body →
      unique_search_xpath_loop xvec svec = none := by
  intro xvec
  induction xvec with
  | nil => intro svec _ _ h; simp at h
  | cons n xvec ih =>
    intro svec h hs hm
    obtain ⟨b, hb⟩ := h n (List.mem_cons_self _ _)
    rw [unique_search_xpath_loop, hb]
    simp only
    by_cases hc : svec.contains b = true
    · rw [if_pos hc]
    · rw [if_neg hc]
      apply ih (svec ++ [b]) (fun n hn => h n (List.mem_cons_of_mem _ hn))
        (List.mem_append_left _ hs)
      rw [List.filterMap_cons, hb] at hm
      rcases List.mem_cons.1 hm with rfl | hm
      · exfalso; apply hc; simpa using hs
      · exact hm

theorem xpath_step_cases (c : Collaborators) (cvk : List String) (xpath1 : String)
    (svec : List String) (x : cxobj) (h : selects_bodies c xpath1 x) :
    check_unique_list_step c cvk xpath1 svec x =
      .stop (.fail (some (.data_not_unique x cvk)) none) ∨
    check_unique_list_step c cvk xpath1 svec x =
      .next (svec ++ selected_bodies c xpath1 x) := by
  obtain ⟨xvec, hx, hb⟩ := h
  unfold check_unique_list_step unique_search_xpath selected_bodies
  rw [hx]
  simp only
  rcases search_loop_all_bodies xvec svec hb with h1 | h1
  · left; rw [h1]
  · right; rw [h1]

theorem xpath_step_hit (c : Collaborators) (cvk : List String) (xpath1 : String)
    (svec : List String) (x : cxobj) (b0 : String) (h : selects_bodies c xpath1 x)
    (hs : b0 ∈ svec) (hm : b0 ∈ selected_bodies c xpath1 x) :
    check_unique_list_step c cvk xpath1 svec x =
      .stop (.fail (some (.data_not_unique x cvk)) none) := by
  obtain ⟨xvec, hx, hb⟩ := h
  unfold selected_bodies at hm
  rw [hx] at hm
  unfold check_unique_list_step unique_search_xpath
  rw [hx]
  simp only
  rw [search_loop_hit b0 xvec svec hb hs hm]

theorem xpath_scan_entry (c : Collaborators) (y : yang_stmt) (cvk : List String)
    (xpath1 : String) (svec : List String) (x : cxobj) (rest : List cxobj)
    (hx : is_entry y x) :
    check_unique_list_scan c y cvk xpath1 svec (x :: rest) =
      (check_unique_list_step c cvk xpath1 svec x).andThen fun svec1 =>
        check_unique_list_scan c y cvk xpath1 svec1 rest := by
  rw [check_unique_list_scan]
  simp only [hx.1, hx.2, yang_ptr_eq_self, Bool.not_true, Bool.false_eq_true, if_false]
  cases check_unique_list_step c cvk xpath1 svec x <;> rfl

/-- A body already collected is found again in a later entry of the run. -/
theorem xpath_scan_hit (c : Collaborators) (y : yang_stmt) (cvk : List String)
    (xpath1 : String) (b : cxobj) (rest : List cxobj) (b0 : String)
    (hb : is_entry y b) (hsb : selects_bodies c xpath1 b)
    (hmb : b0 ∈ selected_bodies c xpath1 b) :
    ∀ (l2 : List cxobj) (svec : List String), (∀ x ∈ l2, is_entry y x) →
      (∀ x ∈ l2, selects_bodies c xpath1 x) → b0 ∈ svec →
      ∃ x, x ∈ l2 ++ [b] ∧
        check_unique_list_scan c y cvk xpath1 svec (l2 ++ b :: rest) =
          .fail (some (.data_not_unique x cvk)) none := by
  intro l2
  induction l2 with
  | nil =>
    intro svec _ _ hs
    simp only [List.nil_append]
    rw [xpath_scan_entry c y cvk xpath1 svec b rest hb,
      xpath_step_hit c cvk xpath1 svec b b0 hsb hs hmb]
    exact ⟨b, by simp, rfl⟩
  | cons e l2 ih =>
    intro svec he hse hs
    simp only [List.cons_append]
    rw [xpath_scan_entry c y cvk xpath1 svec e _ (he e (List.mem_cons_self _ _))]
    rcases xpath_step_cases c cvk xpath1 svec e (hse e (List.mem_cons_self _ _)) with h1 | h1
    · rw [h1]; exact ⟨e, by simp, rfl⟩
    · rw [h1, Step.andThen_next]
      obtain ⟨x, hx, hres⟩ := ih (svec ++ selected_bodies c xpath1 e)
        (fun x hx => he x (List.mem_cons_of_mem _ hx))
        (fun x hx => hse x (List.mem_cons_of_mem _ hx)) (List.mem_append_left _ hs)
      exact ⟨x, List.mem_cons_of_mem _ hx, hres⟩

/-- A run in which two distinct entries select a node with the same body is rejected. -/
theorem xpath_scan_dup (c : Collaborators) (y : yang_stmt) (cvk : List String)
    (xpath1 : String) (a b : cxobj) (l2 rest : List cxobj) (b0 : String)
    (ha : is_entry y a) (hsa : selects_bodies c xpath1 a)
    (hma : b0 ∈ selected_bodies c xpath1 a)
    (hl2 : ∀ x ∈ l2, is_entry y x) (hsl2 : ∀ x ∈ l2, selects_bodies c xpath1 x)
    (hb : is_entry y b) (hsb : selects_bodies c xpath1 b)
    (hmb : b0 ∈ selected_bodies c xpath1 b) :
    ∀ (l1 : List cxobj) (svec : List String), (∀ x ∈ l1, is_entry y x) →
      (∀ x ∈ l1, selects_bodies c xpath1 x) →
      ∃ x, x ∈ l1 ++ a :: (l2 ++ [b]) ∧
        check_unique_list_scan c y cvk xpath1 svec (l1 ++ a :: (l2 ++ b :: rest)) =
          .fail (some (.data_not_unique x cvk)) none := by
  intro l1
  induction l1 with
  | nil =>
    intro svec _ _
    simp only [List.nil_append]
    rw [xpath_scan_entry c y cvk xpath1 svec a _ ha]
    rcases xpath_step_cases c cvk xpath1 svec a hsa with h1 | h1
    · rw [h1]; exact ⟨a, by simp, rfl⟩
    · rw [h1, Step.andThen_next]
      obtain ⟨x, hx, hres⟩ := xpath_scan_hit c y cvk xpath1 b rest b0 hb hsb hmb l2
        (svec ++ selected_bodies c xpath1 a) hl2 hsl2 (List.mem_append_right _ hma)
      exact ⟨x, List.mem_cons_of_mem _ hx, hres⟩
  | cons e l1 ih =>
    intro svec he hse
    simp only [List.cons_append]
    rw [xpath_scan_entry c y cvk xpath1 svec e _ (he e (List.mem_cons_self _ _))]
    rcases xpath_step_cases c cvk xpath1 svec e (hse e (List.mem_cons_self _ _)) with h1 | h1
    · rw [h1]; exact ⟨e, by simp, rfl⟩
    · rw [h1, Step.andThen_next]
      obtain ⟨x, hx, hres⟩ := ih (svec ++ selected_bodies c xpath1 e)
        (fun x hx => he x (List.mem_cons_of_mem _ hx))
        (fun x hx => hse x (List.mem_cons_of_mem _ hx))
      exact ⟨x, List.mem_cons_of_mem _ hx, hres⟩

/-- In XPath mode, started on an entry of `y`, `check_unique_list` is the scan of the run
from an empty vector. -/
theorem check_unique_list_xpath_mode (c : Collaborators) (x : cxobj) (rest : List cxobj)
    (y yu : yang_stmt) (mark : Nat) (xpath0 xpath1 : String)
    (hcvk : yang_cvec_get yu = [xpath0]) (hslash : has_slash xpath0 = true)
    (hcanon : c.xpath2canonical yu y xpath0 = some (some xpath1)) (hx : is_entry y x) :
    check_unique_list c x rest y yu mark =
      check_unique_list_scan c y [xpath0] xpath1 [] (x :: rest) := by
  rw [xpath_scan_entry c y _ xpath1 [] x rest hx]
  unfold check_unique_list
  simp only [hcvk, List.length_singleton, gt_iff_lt, Nat.lt_irrefl, if_false, List.head?_cons,
    hslash, Bool.not_true, Bool.false_eq_true, hcanon]
  cases check_unique_list_step c [xpath0] xpath1 [] x <;> rfl

theorem new_list_iter_append (c : Collaborators) (x : cxobj) (rest : List cxobj)
    (y : yang_stmt) :
    ∀ (ys1 ys2 : List yang_stmt), xml_yang_minmax_new_list_iter c x rest y ys1 = .ok →
      xml_yang_minmax_new_list_iter c x rest y (ys1 ++ ys2) =
        xml_yang_minmax_new_list_iter c x rest y ys2 := by
  intro ys1
  induction ys1 with
  | nil => intro ys2 _; rfl
  | cons y1 ys1 ih =>
    intro ys2 h
    rw [xml_yang_minmax_new_list_iter] at h
    rw [List.cons_append, xml_yang_minmax_new_list_iter]
    by_cases hk1 : (yang_keyword_get y1 != .Y_UNIQUE) = true
    · simp only [hk1, if_true] at h ⊢
      exact ih ys2 h
    · simp only [hk1, Bool.false_eq_true, if_false] at h ⊢
      cases hc : check_unique_list c x rest y y1 0 with
      | ok => rw [hc] at h; simp only; exact ih ys2 h
      | fail e m => rw [hc] at h; cases h
      | error => rw [hc] at h; cases h

/-- C6 (amended): for every list `y` with a `unique` statement `yu` whose single argument
`xpath0` contains a slash and canonicalises to `xpath1`, and every run of entries of `y`
on each of which the path evaluates to nodes that all have a body: if two distinct entries
`a` and `b` of the run select nodes with the same body string `b0`, then
`check_unique_list` returns 0 with a data-not-unique error for an entry of the run; on
every parent in which the run is contiguous `xml_yang_validate_unique` does not return 1,
and it returns 0 with that data-not-unique error when the keys are unique and no check
made before (for the children before the run, or for a `unique` statement that precedes
`yu`) fails or errs. -/
theorem check_unique_list_xpath_duplicate (c : Collaborators) (y yu : yang_stmt)
    (xpath0 xpath1 : String) (l1 l2 post : List cxobj) (a b : cxobj) (b0 : String)
    (x0 : cxobj) (rest : List cxobj)
    (hrun : x0 :: rest = l1 ++ a :: (l2 ++ b :: post))
    (hcvk : yang_cvec_get yu = [xpath0]) (hslash : has_slash xpath0 = true)
    (hcanon : c.xpath2canonical yu y xpath0 = some (some xpath1))
    (hl1 : ∀ x ∈ l1, is_entry y x) (hsl1 : ∀ x ∈ l1, selects_bodies c xpath1 x)
    (ha : is_entry y a) (hsa : selects_bodies c xpath1 a)
    (hl2 : ∀ x ∈ l2, is_entry y x) (hsl2 : ∀ x ∈ l2, selects_bodies c xpath1 x)
    (hb : is_entry y b) (hsb : selects_bodies c xpath1 b)
    (hma : b0 ∈ selected_bodies c xpath1 a) (hmb : b0 ∈ selected_bodies c xpath1 b) :
    (∀ mark, ∃ x, x ∈ l1 ++ a :: (l2 ++ [b]) ∧
      check_unique_list c x0 rest y yu mark = .fail (some (.data_not_unique x [xpath0])) none) ∧
    (∀ (xt : cxobj) (pre : List cxobj), xml_childvec xt = pre ++ x0 :: rest →
      (∀ x ∈ pre, bound_to y x = false) → yang_keyword_get y = .Y_LIST →
      yu ∈ yang_children y → yang_keyword_get yu = .Y_UNIQUE →
      xml_yang_validate_unique c xt ≠ .ok ∧
      (∀ yprev ys1 ys2, xml_yang_validate_unique_run c none pre (x0 :: rest) = .next yprev →
        check_unique_list_direct x0 rest y y 0 = .ok →
        yang_children y = ys1 ++ yu :: ys2 →
        xml_yang_minmax_new_list_iter c x0 rest y ys1 = .ok →
        ∃ x, x ∈ l1 ++ a :: (l2 ++ [b]) ∧
          xml_yang_validate_unique c xt =
            .fail (some (.data_not_unique x [xpath0])) none)) := by
  have hx0 : is_entry y x0 := by
    cases l1 with
    | nil => simp only [List.nil_append, List.cons.injEq] at hrun; rw [hrun.1]; exact ha
    | cons e l1 =>
      simp only [List.cons_append, List.cons.injEq] at hrun
      rw [hrun.1]; exact hl1 e (List.mem_cons_self _ _)
  have hmain : ∀ mark, ∃ x, x ∈ l1 ++ a :: (l2 ++ [b]) ∧
      check_unique_list c x0 rest y yu mark =
        .fail (some (.data_not_unique x [xpath0])) none := by
    intro mark
    obtain ⟨x, hx, hres⟩ := xpath_scan_dup c y [xpath0] xpath1 a b l2 post b0 ha hsa hma hl2 hsl2
      hb hsb hmb l1 [] hl1 hsl1
    refine ⟨x, hx, ?_⟩
    rw [check_unique_list_xpath_mode c x0 rest y yu mark xpath0 xpath1 hcvk hslash hcanon hx0,
      hrun, hres]
  refine ⟨hmain, ?_⟩
  intro xt pre hcs hpre hk hyu hku
  have hlk : is_list_kw (yang_keyword_get y) = true := by rw [hk]; rfl
  obtain ⟨xd, hxd, hfail⟩ := hmain 0
  have hstep : ∀ yprev, xml_yang_validate_unique_run c none pre (x0 :: rest) = .next yprev →
      xml_yang_validate_unique c xt =
        (Res.toStep (xml_yang_minmax_new_list c x0 rest y 0) (some y)).andThen fun yprev1 =>
          xml_yang_validate_unique_loop c yprev1 rest := by
    intro yprev hrunu
    have hp : yang_ptr_eq (some y) yprev = false := by
      apply ptr_ne_of_not_bound y pre yprev hpre
      rcases unique_run_yprev c pre none yprev _ hrunu with h | h
      · exact Or.inl h
      · exact Or.inr h
    unfold xml_yang_validate_unique
    rw [hcs, unique_loop_append, hrunu, Step.andThen_next, unique_loop_unfold_cons,
      unique_step_new c yprev x0 rest y hx0.1 hx0.2 hlk hp]
    simp only [hk, beq_self_eq_true, if_true]
  constructor
  · cases hrunu : xml_yang_validate_unique_run c none pre (x0 :: rest) with
    | stop r =>
      unfold xml_yang_validate_unique
      rw [hcs, unique_loop_append, hrunu, Step.andThen_stop]
      exact unique_run_stop_ne_ok c pre none _ r hrunu
    | next yprev =>
      rw [hstep yprev hrunu]
      cases hnew : xml_yang_minmax_new_list c x0 rest y 0 with
      | ok =>
        have hu := new_list_iter_eq_ok c x0 rest y _ (new_list_eq_ok c _ _ _ _ hnew).2 yu hyu hku
        rw [hfail] at hu
        cases hu
      | fail e m => simp
      | error => simp
  · intro yprev ys1 ys2 hrunu hkeys hys hys1
    refine ⟨xd, hxd, ?_⟩
    rw [hstep yprev hrunu]
    have hnew : xml_yang_minmax_new_list c x0 rest y 0 =
        .fail (some (.data_not_unique xd [xpath0])) none := by
      unfold xml_yang_minmax_new_list
      rw [hkeys]
      simp only
      rw [hys, new_list_iter_append c x0 rest y ys1 _ hys1, xml_yang_minmax_new_list_iter]
      simp only [hku, bne_self_eq_false, Bool.false_eq_true, if_false, hfail]
    rw [hnew]
    rfl

/-- Witness of `check_unique_list_xpath_duplicate`: two entries with different keys and
the same `a/b` under `list l { key "k"; unique "a/b"; ... }`. -/
theorem check_unique_list_xpath_duplicate_witness :
    (∃ x, x ∈ [ex_entry_ab ex_list_ab "1" "x", ex_entry_ab ex_list_ab "2" "x"] ∧
      check_unique_list ex_xpath (ex_entry_ab ex_list_ab "1" "x")
        [ex_entry_ab ex_list_ab "2" "x"] ex_list_ab (ex_unique_ab 91) 0 =
        .fail (some (.data_not_unique x ["a/b"])) none) ∧
    xml_yang_validate_unique ex_xpath ex_c_ab ≠ .ok :=
  have h := check_unique_list_xpath_duplicate ex_xpath ex_list_ab (ex_unique_ab 91) "a/b" "a/b"
    [] [] [] (ex_entry_ab ex_list_ab "1" "x") (ex_entry_ab ex_list_ab "2" "x") "x"
    (ex_entry_ab ex_list_ab "1" "x") [ex_entry_ab ex_list_ab "2" "x"] rfl rfl rfl rfl
    (by intro x hx; cases hx) (by intro x hx; cases hx)
    ⟨rfl, rfl⟩
    ⟨[ex_elem "b" (ex_leaf 94 "b") "x"], rfl, by
      intro n hn; rw [List.mem_singleton.1 hn]; exact ⟨"x", rfl⟩⟩
    (by intro x hx; cases hx) (by intro x hx; cases hx)
    ⟨rfl, rfl⟩
    ⟨[ex_elem "b" (ex_leaf 94 "b") "x"], rfl, by
      intro n hn; rw [List.mem_singleton.1 hn]; exact ⟨"x", rfl⟩⟩
    (by decide) (by decide)
  ⟨h.1 0, (h.2 ex_c_ab [] rfl (by intro x hx; cases hx) rfl (List.Mem.head _) rfl).1⟩

/-- Counterexample to the XPath unique claim as stated: the two entries have unique keys
and the same `a/b`, and `check_unique_list` on `unique "a/b"` returns 0 with
data-not-unique; but the list also has `unique "a/b c"` before it, and
`xml_yang_validate_unique` on the parent returns -1. -/
theorem check_unique_list_xpath_duplicate_counterexample :
    check_unique_list ex_xpath (ex_entry_ab ex_list_ab2 "1" "x")
      [ex_entry_ab ex_list_ab2 "2" "x"] ex_list_ab2 (ex_unique_ab 91) 0 =
      .fail (some (.data_not_unique (ex_entry_ab ex_list_ab2 "2" "x") ["a/b"])) none ∧
    check_unique_list_direct (ex_entry_ab ex_list_ab2 "1" "x")
      [ex_entry_ab ex_list_ab2 "2" "x"] ex_list_ab2 ex_list_ab2 0 = .ok ∧
    (xml_yang_validate_unique ex_xpath ex_c_ab2).retval = -1 :=
  ⟨rfl, rfl, rfl⟩

/-! ## Frame: the validation functions do not write to the tree -/

theorem direct_step_mark0 (cvk : List String) (sorted : Bool) (vec : TupleVec) (x : cxobj)
    (r : Res) (h : check_unique_list_direct_step cvk sorted 0 vec x = .stop r) :
    r.marked = none := by
  unfold check_unique_list_direct_step at h
  split at h
  · cases h; rfl
  · split at h
    · split at h
      · cases h; rfl
      · cases h
    · cases h

theorem direct_scan_mark0 (y : yang_stmt) (cvk : List String) (sorted : Bool) :
    ∀ (rest : List cxobj) (vec : TupleVec),
      (check_unique_list_direct_scan y cvk sorted 0 vec rest).marked = none
  | [], _ => rfl
  | x :: rest, vec => by
    unfold check_unique_list_direct_scan
    split
    · exact direct_scan_mark0 y cvk sorted rest vec
    · split
      · rfl
      · split
        · next r h => exact direct_step_mark0 cvk sorted vec x r h
        · next vec1 _ => exact direct_scan_mark0 y cvk sorted rest vec1

theorem direct_mark0 (x : cxobj) (rest : List cxobj) (y yu : yang_stmt) :
    (check_unique_list_direct x rest y yu 0).marked = none := by
  unfold check_unique_list_direct
  simp only
  split
  · rfl
  · split
    · next r h => exact direct_step_mark0 _ _ _ x r h
    · exact direct_scan_mark0 _ _ _ _ _

theorem xpath_step_marked (c : Collaborators) (cvk : List String) (xpath1 : String)
    (svec : List String) (x : cxobj) (r : Res)
    (h : check_unique_list_step c cvk xpath1 svec x = .stop r) : r.marked = none := by
  unfold check_unique_list_step at h
  split at h <;> cases h <;> rfl

theorem xpath_scan_marked (c : Collaborators) (y : yang_stmt) (cvk : List String)
    (xpath1 : String) :
    ∀ (rest : List cxobj) (svec : List String),
      (check_unique_list_scan c y cvk xpath1 svec rest).marked = none
  | [], _ => rfl
  | x :: rest, svec => by
    unfold check_unique_list_scan
    split
    · exact xpath_scan_marked c y cvk xpath1 rest svec
    · split
      · rfl
      · split
        · next r h => exact xpath_step_marked c cvk xpath1 svec x r h
        · next svec1 _ => exact xpath_scan_marked c y cvk xpath1 rest svec1

theorem check_unique_list_mark0 (c : Collaborators) (x : cxobj) (rest : List cxobj)
    (y yu : yang_stmt) : (check_unique_list c x rest y yu 0).marked = none := by
  unfold check_unique_list
  simp only
  split
  · exact direct_mark0 x rest y yu
  · split
    · rfl
    · split
      · exact direct_mark0 x rest y yu
      · split
        · rfl
        · rfl
        · split
          · next r h => exact xpath_step_marked c _ _ _ x r h
          · exact xpath_scan_marked c _ _ _ _ _

theorem new_list_iter_marked (c : Collaborators) (x : cxobj) (rest : List cxobj)
    (y : yang_stmt) :
    ∀ ys, (xml_yang_minmax_new_list_iter c x rest y ys).marked = none
  | [] => rfl
  | yu :: ys => by
    unfold xml_yang_minmax_new_list_iter
    split
    · exact new_list_iter_marked c x rest y ys
    · have h0 := check_unique_list_mark0 c x rest y yu
      split
      · exact new_list_iter_marked c x rest y ys
      · next r hr _ => exact h0

theorem new_list_mark0 (c : Collaborators) (x : cxobj) (rest : List cxobj)
    (y : yang_stmt) : (xml_yang_minmax_new_list c x rest y 0).marked = none := by
  unfold xml_yang_minmax_new_list
  have h0 := direct_mark0 x rest y y
  split
  · exact new_list_iter_marked c x rest y _
  · exact h0

theorem new_leaf_list_scan_mark0 (y0 : yang_stmt) :
    ∀ (rest : List cxobj) (i : Nat),
      (xml_yang_minmax_new_leaf_list_scan y0 0 i rest).marked = none
  | [], _ => rfl
  | xi :: rest, i => by
    unfold xml_yang_minmax_new_leaf_list_scan
    split
    · exact new_leaf_list_scan_mark0 y0 rest i
    · split
      · rfl
      · split
        · next r h =>
          unfold xml_yang_minmax_new_leaf_list_step at h
          split at h
          · cases h
          · split at h
            · cases h; rfl
            · cases h
        · exact new_leaf_list_scan_mark0 y0 rest (i + 1)

theorem new_leaf_list_mark0 (x0 : cxobj) (rest : List cxobj) (y0 : yang_stmt) :
    (xml_yang_minmax_new_leaf_list x0 rest y0 0).marked = none := by
  unfold xml_yang_minmax_new_leaf_list
  split
  · next r h =>
    unfold xml_yang_minmax_new_leaf_list_step at h
    split at h
    · cases h
    · split at h
      · cases h; rfl
      · cases h
  · exact new_leaf_list_scan_mark0 y0 rest 1

theorem unique_step_marked (c : Collaborators) (yprev : Option yang_stmt) (x : cxobj)
    (rest : List cxobj) (r : Res)
    (h : xml_yang_validate_unique_step c yprev x rest = .stop r) : r.marked = none := by
  unfold xml_yang_validate_unique_step at h
  split at h
  · cases h
  · split at h
    · cases h
    · next y _ =>
      split at h
      · split at h
        · cases h
        · have h1 := new_list_mark0 c x rest y
          have h2 := new_leaf_list_mark0 x rest y
          split at h
          · cases h
          · cases h
            by_cases hk : (yang_keyword_get y == .Y_LIST) = true
            · rw [if_pos hk]; exact h1
            · rw [if_neg hk]; exact h2
      · cases h

theorem unique_loop_marked (c : Collaborators) :
    ∀ (cs : List cxobj) (yprev : Option yang_stmt),
      (xml_yang_validate_unique_loop c yprev cs).marked = none
  | [], _ => rfl
  | x :: rest, yprev => by
    unfold xml_yang_validate_unique_loop
    split
    · next r h => exact unique_step_marked c yprev x rest r h
    · exact unique_loop_marked c rest _

theorem check_minmax_marked (xp : cxobj) (y : yang_stmt) (nr : Nat) :
    (check_minmax xp y nr).marked = none := by
  unfold check_minmax
  split
  · rfl
  · split <;> rfl

mutual
theorem check_empty_list_minmax_marked (xt : cxobj) :
    ∀ y, (check_empty_list_minmax xt y).marked = none
  | .mk a k arg cv cvk ys => by
    unfold check_empty_list_minmax
    split
    · split
      · exact check_empty_list_minmax_iter_marked xt ys
      · split
        · exact check_minmax_marked _ _ _
        · rfl
    · rfl
theorem check_empty_list_minmax_iter_marked (xt : cxobj) :
    ∀ ys, (check_empty_list_minmax_iter xt ys).marked = none
  | [] => rfl
  | y :: ys => by
    unfold check_empty_list_minmax_iter
    have h0 := check_empty_list_minmax_marked xt y
    split
    · exact check_empty_list_minmax_iter_marked xt ys
    · exact h0
end

theorem gap_analysis_loop_marked (xt : cxobj) (ych : Option yang_stmt) :
    ∀ (inext : List yang_stmt) (ye : yang_stmt),
      (xml_yang_minmax_gap_analysis_loop xt ych ye inext).ret.marked = none
  | [], ye => by
    unfold xml_yang_minmax_gap_analysis_loop
    have h0 := check_empty_list_minmax_marked xt ye
    split
    · rfl
    · exact h0
  | ye1 :: inext, ye => by
    unfold xml_yang_minmax_gap_analysis_loop
    have h0 := check_empty_list_minmax_marked xt ye
    split
    · split
      · rfl
      · exact gap_analysis_loop_marked xt ych inext ye1
    · exact h0

theorem gap_analysis_marked (c : Collaborators) (xt : cxobj) (y yt : Option yang_stmt)
    (inext : List yang_stmt) (ye : Option yang_stmt) :
    (xml_yang_minmax_gap_analysis c xt y yt inext ye).ret.marked = none := by
  unfold xml_yang_minmax_gap_analysis
  split
  · split
    · rfl
    · split
      · exact gap_analysis_loop_marked _ _ _ _
      · rfl
  · rfl

theorem check_minmax_prev_marked (xt : cxobj) (ret : Res) (yprev : Option yang_stmt)
    (nr : Nat) (h : ret.marked = none) : (check_minmax_prev xt ret yprev nr).marked = none := by
  unfold check_minmax_prev
  split
  · split
    · exact check_minmax_marked _ _ _
    · rfl
  · exact h

theorem minmax_after_marked (xt : cxobj) (yprev : Option yang_stmt) (nr : Nat)
    (inext : List yang_stmt) : (xml_yang_validate_minmax_after xt yprev nr inext).marked = none := by
  unfold xml_yang_validate_minmax_after
  have h0 := check_empty_list_minmax_iter_marked xt inext
  split
  · split
    · split
      · exact check_minmax_marked _ _ _
      · rfl
    · rfl
  · exact h0

theorem minmax_step_marked (c : Collaborators) (presence : Bool) (xt : cxobj)
    (yt : Option yang_stmt) (sub : Res) (st : MinmaxState) (x : cxobj) (rest : List cxobj)
    (hsub : sub.marked = none) (r : Res)
    (h : xml_yang_validate_minmax_step c presence xt yt sub st x rest = .stop r) :
    r.marked = none := by
  unfold xml_yang_validate_minmax_step at h
  split at h
  · cases h
  · split at h
    · cases h
    · next y _ =>
      have hg := check_minmax_prev_marked xt
        (xml_yang_minmax_gap_analysis c xt (some y) yt st.inext st.ye).ret st.yprev st.nr
        (gap_analysis_marked c xt (some y) yt st.inext st.ye)
      split at h
      · split at h
        · cases h
        · simp only at h
          split at h
          · split at h
            · cases h
            · cases h
              by_cases hk : (yang_keyword_get y == .Y_LIST) = true
              · rw [if_pos hk]; exact new_list_mark0 c x rest y
              · rw [if_neg hk]; rfl
          · cases h; exact hg
      · split at h
        · cases h; rfl
        · simp only at h
          split at h
          · split at h
            · split at h
              · cases h
              · cases h; exact hsub
            · cases h
          · cases h; exact hg

mutual
theorem validate_minmax_marked (c : Collaborators) (presence : Bool) :
    ∀ xt, (xml_yang_validate_minmax c presence xt).marked = none
  | .mk n t f yt v cs => by
    unfold xml_yang_validate_minmax
    exact validate_minmax_loop_marked c presence (.mk n t f yt v cs) yt cs (minmax_init yt)
theorem validate_minmax_loop_marked (c : Collaborators) (presence : Bool) (xt : cxobj)
    (yt : Option yang_stmt) :
    ∀ (cs : List cxobj) (st : MinmaxState),
      (xml_yang_validate_minmax_loop c presence xt yt st cs).marked = none
  | [], st => by
    unfold xml_yang_validate_minmax_loop
    exact minmax_after_marked _ _ _ _
  | x :: rest, st => by
    unfold xml_yang_validate_minmax_loop
    have hsub := validate_minmax_marked c presence x
    split
    · next r h => exact minmax_step_marked c presence xt yt _ st x rest hsub r h
    · exact validate_minmax_loop_marked c presence xt yt rest _
end

mutual
theorem xml_apply_marked (fn : cxobj → Res) (hfn : ∀ x, (fn x).marked = none) :
    ∀ xn, (xml_apply fn xn).marked = none
  | .mk _ _ _ _ _ cs => by
    unfold xml_apply
    exact xml_apply_each_marked fn hfn cs
theorem xml_apply_each_marked (fn : cxobj → Res) (hfn : ∀ x, (fn x).marked = none) :
    ∀ cs, (xml_apply_each fn cs).marked = none
  | [] => rfl
  | x :: rest => by
    unfold xml_apply_each
    have h0 := hfn x
    have h1 := xml_apply_marked fn hfn x
    split
    · exact xml_apply_each_marked fn hfn rest
    · split
      · split
        · exact xml_apply_each_marked fn hfn rest
        · exact h1
      · exact h0
end

theorem xml_apply0_marked (fn : cxobj → Res) (hfn : ∀ x, (fn x).marked = none) (xn : cxobj) :
    (xml_apply0 fn xn).marked = none := by
  unfold xml_apply0
  have h0 := hfn xn
  have h1 := xml_apply_marked fn hfn xn
  split
  · exact h1
  · exact h0

/-- C12: `xml_yang_validate_minmax`, `xml_yang_validate_unique` and their `_recurse`
variants leave the XML tree as it is. The only write to the tree that the code reachable
from them contains is `xml_flag_set(.., mark)`, made under `if (mark)`; they pass
`mark = 0`, and whatever they return (1, 0 or -1) no node was flagged. -/
theorem validate_leaves_tree (c : Collaborators) (presence : Bool) (xt : cxobj) :
    (xml_yang_validate_minmax c presence xt).marked = none ∧
    (xml_yang_validate_unique c xt).marked = none ∧
    (xml_yang_validate_minmax_recurse c xt).marked = none ∧
    (xml_yang_validate_unique_recurse c xt).marked = none :=
  ⟨validate_minmax_marked c presence xt, unique_loop_marked c _ _,
   xml_apply0_marked _ (validate_minmax_marked c true) xt,
   xml_apply0_marked _ (fun _ => unique_loop_marked c _ _) xt⟩

/-! ## Error tree of a failure; unique statements with several arguments -/

/-- C11: with `unique "a/b"` on a list and a path that `xpath2canonical` cannot
canonicalise (return value 0), `check_unique_list` leaves through `goto fail` before any
error tree is built: `xml_yang_validate_unique` and `xml_yang_validate_minmax` return 0 and
`*xret` holds no error tree. -/
theorem validate_fail_without_error_tree :
    (xml_yang_validate_unique ex_nocanon ex_c_ab).retval = 0 ∧
    (xml_yang_validate_unique ex_nocanon ex_c_ab).xret = none ∧
    ∀ presence, (xml_yang_validate_minmax ex_nocanon presence ex_c_ab).retval = 0 ∧
      (xml_yang_validate_minmax ex_nocanon presence ex_c_ab).xret = none := by
  refine ⟨by decide, rfl, ?_⟩
  intro presence
  cases presence <;> exact ⟨by decide, rfl⟩

theorem collect_tuple_slash (e : cxobj) (s : String) (post : List String)
    (hs : has_slash s = true) :
    ∀ (pre : List String), (∀ a ∈ pre, has_slash a = false) →
      (key_tuple e pre ≠ none → collect_tuple e (pre ++ s :: post) = none) ∧
      (key_tuple e pre = none → ∃ row, collect_tuple e (pre ++ s :: post) = some (row, false))
  | [], _ => by
    constructor
    · intro _
      simp only [List.nil_append]
      unfold collect_tuple
      rw [if_pos hs]
    · intro h
      unfold key_tuple at h
      cases h
  | a :: pre, hpre => by
    have ha : has_slash a = false := hpre a (List.mem_cons_self _ _)
    have ih := collect_tuple_slash e s post hs pre
      (fun b hb => hpre b (List.mem_cons_of_mem _ hb))
    simp only [List.cons_append]
    unfold collect_tuple key_tuple
    rw [ha]
    simp only [Bool.false_eq_true, if_false]
    cases hf : xml_find e a with
    | none => exact ⟨fun h => absurd rfl h, fun _ => ⟨[], rfl⟩⟩
    | some xi =>
      simp only
      cases hb : xml_body xi with
      | none => exact ⟨fun h => absurd rfl h, fun _ => ⟨[], rfl⟩⟩
      | some bi =>
        simp only
        cases hk : key_tuple e pre with
        | none =>
          obtain ⟨row, hrow⟩ := ih.2 hk
          rw [hrow]
          exact ⟨fun h => absurd rfl h, fun _ => ⟨some bi :: row, rfl⟩⟩
        | some t =>
          have := ih.1 (by rw [hk]; exact fun h => by cases h)
          rw [this]
          exact ⟨fun _ => rfl, fun h => by cases h⟩

theorem direct_step_slash (e : cxobj) (pre : List String) (s : String) (post : List String)
    (sorted : Bool) (mark : Nat) (vec : TupleVec)
    (hpre : ∀ a ∈ pre, has_slash a = false) (hs : has_slash s = true) :
    (key_tuple e pre ≠ none →
      check_unique_list_direct_step (pre ++ s :: post) sorted mark vec e = .stop .error) ∧
    (key_tuple e pre = none →
      ∃ row, check_unique_list_direct_step (pre ++ s :: post) sorted mark vec e =
        .next (vec ++ [row])) := by
  have h := collect_tuple_slash e s post hs pre hpre
  constructor
  · intro hk
    unfold check_unique_list_direct_step
    rw [h.1 hk]
  · intro hk
    obtain ⟨row, hrow⟩ := h.2 hk
    refine ⟨row, ?_⟩
    unfold check_unique_list_direct_step
    rw [hrow]
    rfl

theorem direct_step_slash_cases (e : cxobj) (pre : List String) (s : String)
    (post : List String) (sorted : Bool) (mark : Nat) (vec : TupleVec)
    (hpre : ∀ a ∈ pre, has_slash a = false) (hs : has_slash s = true) :
    check_unique_list_direct_step (pre ++ s :: post) sorted mark vec e = .stop .error ∨
    ∃ row, check_unique_list_direct_step (pre ++ s :: post) sorted mark vec e =
      .next (vec ++ [row]) := by
  have h := direct_step_slash e pre s post sorted mark vec hpre hs
  cases hk : key_tuple e pre with
  | none => exact Or.inr (h.2 hk)
  | some t => exact Or.inl (h.1 (by rw [hk]; exact fun h => by cases h))

theorem direct_scan_slash_no_fail (y : yang_stmt) (pre : List String) (s : String)
    (post : List String) (sorted : Bool) (mark : Nat)
    (hpre : ∀ a ∈ pre, has_slash a = false) (hs : has_slash s = true) :
    ∀ (rest : List cxobj) (vec : TupleVec),
      check_unique_list_direct_scan y (pre ++ s :: post) sorted mark vec rest = .ok ∨
      check_unique_list_direct_scan y (pre ++ s :: post) sorted mark vec rest = .error
  | [], _ => Or.inl rfl
  | x :: rest, vec => by
    unfold check_unique_list_direct_scan
    split
    · exact direct_scan_slash_no_fail y pre s post sorted mark hpre hs rest vec
    · split
      · exact Or.inl rfl
      · rcases direct_step_slash_cases x pre s post sorted mark vec hpre hs with h | ⟨row, h⟩
        · rw [h]; exact Or.inr rfl
        · rw [h]; exact direct_scan_slash_no_fail y pre s post sorted mark hpre hs rest _

theorem direct_scan_slash_ok (y : yang_stmt) (pre : List String) (s : String)
    (post : List String) (sorted : Bool) (mark : Nat)
    (hpre : ∀ a ∈ pre, has_slash a = false) (hs : has_slash s = true) :
    ∀ (rest : List cxobj) (vec : TupleVec), (∀ e ∈ rest, key_tuple e pre = none) →
      check_unique_list_direct_scan y (pre ++ s :: post) sorted mark vec rest = .ok
  | [], _, _ => rfl
  | x :: rest, vec, h => by
    have ih := fun v => direct_scan_slash_ok y pre s post sorted mark hpre hs rest v
      (fun e he => h e (List.mem_cons_of_mem _ he))
    unfold check_unique_list_direct_scan
    split
    · exact ih vec
    · split
      · rfl
      · obtain ⟨row, hrow⟩ := (direct_step_slash x pre s post sorted mark vec hpre hs).2
          (h x (List.mem_cons_self _ _))
        rw [hrow]; exact ih _

theorem direct_scan_slash_error (y : yang_stmt) (pre : List String) (s : String)
    (post : List String) (sorted : Bool) (mark : Nat)
    (hpre : ∀ a ∈ pre, has_slash a = false) (hs : has_slash s = true) (tl : List cxobj) :
    ∀ (es : List cxobj) (vec : TupleVec), (∀ e ∈ es, is_entry y e) →
      (∃ e ∈ es, key_tuple e pre ≠ none) →
      check_unique_list_direct_scan y (pre ++ s :: post) sorted mark vec (es ++ tl) = .error
  | [], _, _, hex => by
    obtain ⟨e, he, _⟩ := hex
    cases he
  | x :: es, vec, hent, hex => by
    have hx := hent x (List.mem_cons_self _ _)
    simp only [List.cons_append]
    unfold check_unique_list_direct_scan
    have h1 : (!is_elmnt x) = false := by rw [hx.1]; rfl
    have h2 : (!yang_ptr_eq (some y) (xml_spec x)) = false := by
      rw [hx.2, yang_ptr_eq_self]; rfl
    rw [h1, h2]
    simp only [Bool.false_eq_true, if_false]
    cases hk : key_tuple x pre with
    | some t =>
      rw [(direct_step_slash x pre s post sorted mark vec hpre hs).1
        (by rw [hk]; exact fun h => by cases h)]
    | none =>
      obtain ⟨row, hrow⟩ := (direct_step_slash x pre s post sorted mark vec hpre hs).2 hk
      rw [hrow]
      apply direct_scan_slash_error y pre s post sorted mark hpre hs tl es _
        (fun e he => hent e (List.mem_cons_of_mem _ he))
      obtain ⟨e, he, hne⟩ := hex
      rcases List.mem_cons.1 he with rfl | he
      · exact absurd hk hne
      · exact ⟨e, he, hne⟩

/-- C13 (as stated) fails: for `unique "c a/b"` and a run of one entry that has no child
`c`, the loop over the arguments breaks at `c` before it reaches `a/b`, and
`check_unique_list` returns 1. -/
theorem check_unique_list_slash_among_many_counterexample :
    2 ≤ (yang_cvec_get (ex_unique_c_ab 101)).length ∧
    (∃ s ∈ yang_cvec_get (ex_unique_c_ab 101), has_slash s = true) ∧
    is_entry ex_list_c_ab (ex_entry_ab ex_list_c_ab "1" "x") ∧
    (check_unique_list ex_none (ex_entry_ab ex_list_c_ab "1" "x") [] ex_list_c_ab
      (ex_unique_c_ab 101) 0).retval = 1 :=
  ⟨by decide, ⟨"a/b", by decide, by decide⟩, ⟨rfl, rfl⟩, by decide⟩

/-- C13 (amended): for a `unique` statement with two or more arguments whose first
argument containing '/' is `s`, preceded by the arguments `pre`: `check_unique_list` never
returns 0; it returns -1 when some entry of the run has a body for every name of `pre`
(always, when `s` is the first argument), and it returns 1 when no child from `x` on has a
body for every name of `pre`. -/
theorem check_unique_list_slash_among_many (c : Collaborators) (x : cxobj)
    (rest : List cxobj) (y yu : yang_stmt) (mark : Nat) (pre : List String) (s : String)
    (post : List String) (hcvk : yang_cvec_get yu = pre ++ s :: post)
    (hlen : 2 ≤ (yang_cvec_get yu).length) (hpre : ∀ a ∈ pre, has_slash a = false)
    (hs : has_slash s = true) :
    (check_unique_list c x rest y yu mark).retval ≠ 0 ∧
    (∀ es tl, rest = es ++ tl → (∀ e ∈ es, is_entry y e) →
      (∃ e ∈ x :: es, key_tuple e pre ≠ none) →
      check_unique_list c x rest y yu mark = .error) ∧
    ((∀ e ∈ x :: rest, key_tuple e pre = none) →
      check_unique_list c x rest y yu mark = .ok) := by
  have hdir : check_unique_list c x rest y yu mark =
      (check_unique_list_direct_step (pre ++ s :: post) (direct_sorted y yu) mark [] x).andThen
        (fun vec => check_unique_list_direct_scan y (pre ++ s :: post) (direct_sorted y yu)
          mark vec rest) := by
    unfold check_unique_list
    simp only
    rw [if_pos (by omega)]
    unfold check_unique_list_direct
    simp only
    rw [if_neg (by omega), hcvk]
    unfold direct_sorted
    cases check_unique_list_direct_step (pre ++ s :: post)
      (yang_keyword_get yu == .Y_LIST && (yang_find y .Y_ORDERED_BY (some "user")).isNone)
      mark [] x <;> rfl
  rw [hdir]
  have hstep := direct_step_slash x pre s post (direct_sorted y yu) mark [] hpre hs
  refine ⟨?_, ?_, ?_⟩
  · cases hk : key_tuple x pre with
    | some t =>
      rw [hstep.1 (by rw [hk]; exact fun h => by cases h)]
      show (-1 : Int) ≠ 0
      decide
    | none =>
      obtain ⟨row, hrow⟩ := hstep.2 hk
      rw [hrow]
      simp only [Step.andThen]
      rcases direct_scan_slash_no_fail y pre s post (direct_sorted y yu) mark hpre hs rest
        ([] ++ [row]) with h | h <;> rw [h] <;> decide
  · intro es tl hrest hent hex
    cases hk : key_tuple x pre with
    | some t =>
      rw [hstep.1 (by rw [hk]; exact fun h => by cases h)]
      rfl
    | none =>
      obtain ⟨row, hrow⟩ := hstep.2 hk
      rw [hrow, hrest]
      simp only [Step.andThen]
      apply direct_scan_slash_error y pre s post (direct_sorted y yu) mark hpre hs tl es _ hent
      obtain ⟨e, he, hne⟩ := hex
      rcases List.mem_cons.1 he with rfl | he
      · exact absurd hk hne
      · exact ⟨e, he, hne⟩
  · intro hall
    obtain ⟨row, hrow⟩ := hstep.2 (hall x (List.mem_cons_self _ _))
    rw [hrow]
    simp only [Step.andThen]
    exact direct_scan_slash_ok y pre s post (direct_sorted y yu) mark hpre hs rest _
      (fun e he => hall e (List.mem_cons_of_mem _ he))

theorem check_unique_list_slash_among_many_witness :
    check_unique_list ex_none (ex_entry_ab ex_list_c_ab "1" "x") [ex_entry_c_ab] ex_list_c_ab
      (ex_unique_c_ab 101) 0 = .error :=
  (check_unique_list_slash_among_many ex_none (ex_entry_ab ex_list_c_ab "1" "x")
    [ex_entry_c_ab] ex_list_c_ab (ex_unique_c_ab 101) 0 ["c"] "a/b" [] rfl (by decide)
    (by decide) (by decide)).2.1 [ex_entry_c_ab] [] rfl
    (fun e he => by obtain rfl := List.mem_singleton.1 he; exact ⟨rfl, rfl⟩)
    ⟨ex_entry_c_ab, by simp, by decide⟩

/-! ## xml_yang_validate_unique against xml_yang_validate_minmax -/

theorem unique_fail_minmax_loop (c : Collaborators) (presence : Bool) (xt : cxobj)
    (yt : Option yang_stmt) (P : yang_stmt → Prop)
    (hP : ∀ y1 y2, P y1 → P y2 → yang_same y1 y2 = true →
      yang_keyword_get y1 = yang_keyword_get y2) :
    ∀ (cs : List cxobj) (yu : Option yang_stmt) (st : MinmaxState),
      (∀ x ∈ cs, ∀ y, xml_spec x = some y → P y ∧ yang_keyword_get y ≠ .Y_LEAF_LIST) →
      (∀ y, st.yprev = some y →
        P y ∧ (is_list_kw (yang_keyword_get y) = true → yang_ptr_eq (some y) yu = true)) →
      xml_yang_validate_unique_loop c yu cs ≠ .ok →
      xml_yang_validate_minmax_loop c presence xt yt st cs ≠ .ok
  | [], yu, st, _, _, hu => by
    exfalso; apply hu; rw [xml_yang_validate_unique_loop]
  | x :: rest, yu, st, hcs, hinv, hu => by
    have ih := unique_fail_minmax_loop c presence xt yt P hP rest
    have hrest : ∀ x ∈ rest, ∀ y, xml_spec x = some y →
        P y ∧ yang_keyword_get y ≠ .Y_LEAF_LIST :=
      fun x1 h1 => hcs x1 (List.mem_cons_of_mem _ h1)
    rw [unique_loop_unfold_cons] at hu
    rw [minmax_loop_unfold_cons]
    cases hm : xml_yang_validate_minmax_step c presence xt yt
        (xml_yang_validate_minmax c presence x) st x rest with
    | stop r => exact minmax_step_stop_ne_ok c presence xt yt _ st x rest r hm
    | next st1 =>
      simp only
      by_cases he : is_elmnt x = true
      swap
      · have he1 : is_elmnt x = false := by simpa using he
        rw [minmax_step_skip c presence xt yt _ st x rest (Or.inl he1)] at hm
        rw [unique_step_skip c yu x rest (Or.inl he1)] at hu
        have e : st1 = st := by injection hm with hm; exact hm.symm
        subst e
        exact ih yu st1 hrest hinv hu
      cases hy : xml_spec x with
      | none =>
        rw [minmax_step_skip c presence xt yt _ st x rest (Or.inr hy)] at hm
        rw [unique_step_skip c yu x rest (Or.inr hy)] at hu
        have e : st1 = st := by injection hm with hm; exact hm.symm
        subst e
        exact ih yu st1 hrest hinv hu
      | some y =>
        obtain ⟨hPy, hnll⟩ := hcs x (List.mem_cons_self _ _) y hy
        by_cases hk : is_list_kw (yang_keyword_get y) = true
        · have hlist : (yang_keyword_get y == .Y_LIST) = true := by
            unfold is_list_kw at hk
            simp only [Bool.or_eq_true, beq_iff_eq] at hk
            rcases hk with hk | hk
            · simp [hk]
            · exact absurd hk hnll
          by_cases hpu : yang_ptr_eq (some y) yu = true
          · -- the unique traversal is inside the run
            rw [unique_step_same c yu x rest y hy hpu] at hu
            by_cases hpm : yang_ptr_eq (some y) st.yprev = true
            · rw [minmax_step_list_same c presence xt yt _ st x rest y he hy hk hpm] at hm
              have e : st1 = ⟨st.yprev, st.ye, st.nr + 1, st.inext⟩ := by
                injection hm with hm; exact hm.symm
              subst e
              exact ih yu _ hrest hinv hu
            · rw [minmax_step_list_new c presence xt yt _ st x rest y he hy hk
                (by simpa using hpm)] at hm
              have e := (Res.toStep_next hm).2
              subst e
              refine ih yu _ hrest ?_ hu
              intro y1 h1
              have e1 : y1 = y := by injection h1 with h1; exact h1.symm
              subst e1
              exact ⟨hPy, fun _ => hpu⟩
          · -- the unique traversal starts a run here
            have hpu1 : yang_ptr_eq (some y) yu = false := by simpa using hpu
            rw [unique_step_new c yu x rest y he hy hk hpu1, if_pos hlist] at hu
            have hpm : yang_ptr_eq (some y) st.yprev = false := by
              cases hyp : st.yprev with
              | none => rfl
              | some yp =>
                obtain ⟨hPp, hlp⟩ := hinv yp hyp
                by_contra hne
                have hpt : yang_ptr_eq (some y) (some yp) = true := by simpa using hne
                have hkp : yang_keyword_get y = yang_keyword_get yp := hP y yp hPy hPp hpt
                have := hlp (by rw [← hkp]; exact hk)
                rw [yang_ptr_eq_trans hpt this] at hpu1
                cases hpu1
            rw [minmax_step_list_new c presence xt yt _ st x rest y he hy hk hpm,
              if_pos hlist] at hm
            obtain ⟨hok, e⟩ := Res.toStep_next hm
            subst e
            have hnl : xml_yang_minmax_new_list c x rest y 0 = .ok := (Res.seq_eq_ok.1 hok).2
            rw [hnl] at hu
            refine ih (some y) _ hrest ?_ hu
            intro y1 h1
            have e1 : y1 = y := by injection h1 with h1; exact h1.symm
            subst e1
            exact ⟨hPy, fun _ => yang_ptr_eq_self y1⟩
        · have hk1 : is_list_kw (yang_keyword_get y) = false := by simpa using hk
          rw [unique_step_other c yu x rest y hy hk1] at hu
          by_cases hpm : yang_ptr_eq (some y) st.yprev = true
          · rw [minmax_step_other_same c presence xt yt _ st x rest y he hy hk1 hpm] at hm
            cases hm
          · rw [minmax_step_other_new c presence xt yt _ st x rest y he hy hk1
              (by simpa using hpm)] at hm
            have e := (Res.toStep_next hm).2
            subst e
            refine ih yu _ hrest ?_ hu
            intro y1 h1
            have e1 : y1 = y := by injection h1 with h1; exact h1.symm
            subst e1
            exact ⟨hPy, fun h => by rw [hk1] at h; cases h⟩

/-- C14 (as stated) fails: for the sorted, schema-bound children `<l>a</l><l>a</l>` of a
leaf-list, `xml_yang_validate_unique` returns 0 and `xml_yang_validate_minmax` returns 1,
with and without `presence`. -/
theorem validate_minmax_includes_unique_counterexample :
    (xml_yang_validate_unique ex_none ex_c_ll_dup).retval = 0 ∧
    (xml_yang_validate_minmax ex_none false ex_c_ll_dup).retval = 1 ∧
    (xml_yang_validate_minmax ex_none true ex_c_ll_dup).retval = 1 := by
  decide

/-- C14 (amended): for every parent `xt` no child of which is bound to a leaf-list (and in
which statements with the same address have the same keyword), if
`xml_yang_validate_unique(xt)` returns 0 then `xml_yang_validate_minmax(xt, presence)`
does not return 1, for either value of `presence`. -/
theorem validate_minmax_includes_unique (c : Collaborators) (presence : Bool) (xt : cxobj)
    (hwf : same_addr_same_kw (xml_childvec xt))
    (hnoll : no_leaf_list_entry (xml_childvec xt))
    (hfail : (xml_yang_validate_unique c xt).retval = 0) :
    (xml_yang_validate_minmax c presence xt).retval ≠ 1 := by
  have hu : xml_yang_validate_unique_loop c none (xml_childvec xt) ≠ .ok := by
    intro h
    unfold xml_yang_validate_unique at hfail
    rw [h] at hfail
    cases hfail
  have := unique_fail_minmax_loop c presence xt (xml_spec xt)
    (fun y => ∃ x ∈ xml_childvec xt, xml_spec x = some y)
    (fun y1 y2 ⟨x1, hx1, h1⟩ ⟨x2, hx2, h2⟩ hs => hwf x1 hx1 x2 hx2 y1 y2 h1 h2 hs)
    (xml_childvec xt) none (minmax_init (xml_spec xt))
    (fun x hx y hy => ⟨⟨x, hx, hy⟩, hnoll x hx y hy⟩)
    (fun y hy => by cases xml_spec xt <;> cases hy)
    hu
  rw [minmax_unfold]
  intro h
  apply this
  cases hr : xml_yang_validate_minmax_loop c presence xt (xml_spec xt)
      (minmax_init (xml_spec xt)) (xml_childvec xt) with
  | ok => rfl
  | fail e m => rw [hr] at h; cases h
  | error => rw [hr] at h; cases h

theorem validate_minmax_includes_unique_witness :
    (xml_yang_validate_minmax ex_none true ex_c_dup).retval ≠ 1 :=
  validate_minmax_includes_unique ex_none true ex_c_dup
    (by
      intro x1 h1 x2 h2 y1 y2 e1 e2 _
      have a1 : xml_spec x1 = some ex_list_plain := by
        simp only [ex_c_dup, xml_childvec, List.mem_cons, List.mem_singleton,
          List.not_mem_nil, or_false, or_self] at h1
        rw [h1]; rfl
      have a2 : xml_spec x2 = some ex_list_plain := by
        simp only [ex_c_dup, xml_childvec, List.mem_cons, List.mem_singleton,
          List.not_mem_nil, or_false, or_self] at h2
        rw [h2]; rfl
      rw [a1] at e1; rw [a2] at e2
      injection e1 with e1; injection e2 with e2
      rw [← e1, ← e2])
    (by
      intro x1 h1 y1 e1
      have a1 : xml_spec x1 = some ex_list_plain := by
        simp only [ex_c_dup, xml_childvec, List.mem_cons, List.mem_singleton,
          List.not_mem_nil, or_false, or_self] at h1
        rw [h1]; rfl
      rw [a1] at e1
      injection e1 with e1
      rw [← e1]; decide)
    (by decide)

/-! ## The presence argument of xml_yang_validate_minmax -/

/-- C15: the code descends into the non-presence container children exactly when
`presence` is set. With `presence = 0` the value of the recursive call is never looked at
(the pass through the loop body is the same whatever it would return), and for
`<c><b/></c>`, whose child `b` lacks the entry that `min-elements 1` asks for, the call
with `presence = 0` returns 1 and the call with `presence = 1` returns 0. -/
theorem minmax_presence_descends_when_set :
    (∀ (c : Collaborators) (xt : cxobj) (yt : Option yang_stmt) (sub sub1 : Res)
        (st : MinmaxState) (x : cxobj) (rest : List cxobj),
      xml_yang_validate_minmax_step c false xt yt sub st x rest =
        xml_yang_validate_minmax_step c false xt yt sub1 st x rest) ∧
    (xml_yang_validate_minmax ex_none false ex_b_empty).retval = 0 ∧
    (xml_yang_validate_minmax ex_none false ex_c_with_b).retval = 1 ∧
    (xml_yang_validate_minmax ex_none true ex_c_with_b).retval = 0 := by
  refine ⟨?_, by decide, by decide, by decide⟩
  intro c xt yt sub sub1 st x rest
  unfold xml_yang_validate_minmax_step
  simp only [Bool.false_and, Bool.false_eq_true, if_false]

/-! ## xml_duplicate_remove: the checks do not depend on the mark -/

theorem xml_flag_set_nth_length (mark : Nat) :
    ∀ (cs : List cxobj) (d : Nat), (xml_flag_set_nth mark d cs).length = cs.length
  | [], _ => rfl
  | x :: rest, d => by
    unfold xml_flag_set_nth
    split
    · simp [xml_flag_set_nth_length mark rest d]
    · cases d with
      | zero => rfl
      | succ d => simp [xml_flag_set_nth_length mark rest d]

theorem xml_flag_set_flag (x : cxobj) (flag : Nat) :
    xml_flag (xml_flag_set x flag) flag = flag := by
  cases x with
  | mk n t f s v cs =>
    show (f ||| flag) &&& flag = flag
    apply Nat.eq_of_testBit_eq
    intro i
    simp only [Nat.testBit_land, Nat.testBit_lor]
    cases f.testBit i <;> cases flag.testBit i <;> rfl

theorem is_elmnt_flag_set (x : cxobj) (flag : Nat) :
    is_elmnt (xml_flag_set x flag) = is_elmnt x := by
  cases x; rfl

theorem prune_no_del (cs : List cxobj) (h : no_del cs) :
    xml_tree_prune_flags1 XML_FLAG_DEL XML_FLAG_DEL cs = cs := by
  unfold xml_tree_prune_flags1
  apply List.filter_eq_self.2
  intro x hx
  by_cases he : is_elmnt x = true
  · have := h x hx he
    simp [he, this]
  · simp [he]

theorem no_del_cons {x : cxobj} {cs : List cxobj} (h : no_del (x :: cs)) : no_del cs :=
  fun x1 h1 => h x1 (List.mem_cons_of_mem _ h1)

/-- Flagging element number `d` with `XML_FLAG_DEL` and pruning removes that element. -/
theorem prune_flag_set_nth :
    ∀ (cs : List cxobj) (d : Nat), no_del cs →
      xml_tree_prune_flags1 XML_FLAG_DEL XML_FLAG_DEL (xml_flag_set_nth XML_FLAG_DEL d cs) =
        erase_elmnt d cs
  | [], _, _ => rfl
  | x :: rest, d, h => by
    have hrest := no_del_cons h
    unfold xml_flag_set_nth erase_elmnt
    by_cases he : is_elmnt x = true
    · have hx := h x (List.mem_cons_self _ _) he
      simp only [he, Bool.not_true, Bool.false_eq_true, if_false]
      cases d with
      | zero =>
        simp only
        unfold xml_tree_prune_flags1
        rw [List.filter_cons]
        have : (!(is_elmnt (xml_flag_set x XML_FLAG_DEL) &&
            xml_flag (xml_flag_set x XML_FLAG_DEL) XML_FLAG_DEL == XML_FLAG_DEL)) = false := by
          rw [is_elmnt_flag_set, he, xml_flag_set_flag]; simp
        rw [this]
        simp only [Bool.false_eq_true, if_false]
        exact prune_no_del rest hrest
      | succ d =>
        simp only
        have ih := prune_flag_set_nth rest d hrest
        unfold xml_tree_prune_flags1 at ih ⊢
        rw [List.filter_cons]
        have : (!(is_elmnt x && xml_flag x XML_FLAG_DEL == XML_FLAG_DEL)) = true := by
          simp [he, hx]
        rw [this, if_pos rfl, ih]
    · have he1 : is_elmnt x = false := by simpa using he
      simp only [he1, Bool.not_false, if_true]
      have ih := prune_flag_set_nth rest d hrest
      unfold xml_tree_prune_flags1 at ih ⊢
      rw [List.filter_cons]
      simp only [he1, Bool.false_and, Bool.not_false, if_true]
      rw [ih]

theorem keep_last_no_later_dup {κ : Type} [DecidableEq κ] (key : cxobj → κ) :
    ∀ (cs : List cxobj), no_later_dup key cs → keep_last key cs = cs
  | [], _ => rfl
  | x :: rest, h => by
    unfold no_later_dup at h
    rw [List.pairwise_cons] at h
    unfold keep_last
    have : (is_elmnt x && later_same key (key x) rest) = false := by
      by_cases he : is_elmnt x = true
      · rw [he, Bool.true_and]
        unfold later_same
        rw [Bool.eq_false_iff]
        intro hany
        rw [List.any_eq_true] at hany
        obtain ⟨b, hb, hp⟩ := hany
        simp only [Bool.and_eq_true, decide_eq_true_eq] at hp
        exact h.1 b hb he hp.1 hp.2.symm
      · simp [he]
    rw [this]
    simp only [Bool.false_eq_true, if_false]
    rw [keep_last_no_later_dup key rest h.2]

theorem has_later_dup_cons {κ : Type} (key : cxobj → κ) (d : Nat) (x : cxobj)
    (rest : List cxobj) (h : has_later_dup key d (x :: rest)) :
    (is_elmnt x = false ∧ has_later_dup key d rest) ∨
    (is_elmnt x = true ∧ d = 0 ∧ ∃ b ∈ rest, is_elmnt b = true ∧ key x = key b) ∨
    (is_elmnt x = true ∧ ∃ d1, d = d1 + 1 ∧ has_later_dup key d1 rest) := by
  obtain ⟨l1, a, l2, b, l3, hcs, ha, hb, hd, hk⟩ := h
  cases l1 with
  | nil =>
    simp only [List.nil_append, List.cons.injEq] at hcs
    obtain ⟨e1, e2⟩ := hcs
    subst e1 e2
    right; left
    exact ⟨ha, by simpa using hd.symm, b, by simp, hb, hk⟩
  | cons x1 l1 =>
    simp only [List.cons_append, List.cons.injEq] at hcs
    obtain ⟨e1, e2⟩ := hcs
    subst e1
    by_cases he : is_elmnt x = true
    · right; right
      refine ⟨he, (l1.filter is_elmnt).length, ?_, l1, a, l2, b, l3, e2, ha, hb, rfl, hk⟩
      rw [← hd, List.filter_cons, if_pos he]
      rfl
    · left
      have he1 : is_elmnt x = false := by simpa using he
      refine ⟨he1, l1, a, l2, b, l3, e2, ha, hb, ?_, hk⟩
      rw [← hd, List.filter_cons, if_neg he]

theorem later_same_erase {κ : Type} [DecidableEq κ] (key : cxobj → κ) (k : κ) :
    ∀ (cs : List cxobj) (d : Nat), has_later_dup key d cs →
      later_same key k (erase_elmnt d cs) = later_same key k cs
  | [], _, h => by
    obtain ⟨l1, a, l2, b, l3, hcs, _⟩ := h
    cases l1 <;> cases hcs
  | x :: rest, d, h => by
    rcases has_later_dup_cons key d x rest h with ⟨he, h1⟩ | ⟨he, hd, b, hb, hbe, hk⟩ |
      ⟨he, d1, hd, h1⟩
    · unfold erase_elmnt
      simp only [he, Bool.not_false, if_true]
      unfold later_same
      simp only [List.any_cons, he, Bool.false_and, Bool.false_or]
      exact later_same_erase key k rest d h1
    · subst hd
      unfold erase_elmnt
      simp only [he, Bool.not_true, Bool.false_eq_true, if_false]
      unfold later_same
      simp only [List.any_cons, he, Bool.true_and]
      by_cases hkx : key x = k
      · have : (rest.any fun x1 => is_elmnt x1 && decide (key x1 = k)) = true := by
          rw [List.any_eq_true]
          exact ⟨b, hb, by simp [hbe, ← hk, hkx]⟩
        rw [this]; simp
      · simp [hkx]
    · subst hd
      unfold erase_elmnt
      simp only [he, Bool.not_true, Bool.false_eq_true, if_false]
      unfold later_same
      simp only [List.any_cons, he, Bool.true_and]
      have := later_same_erase key k rest d1 h1
      unfold later_same at this
      rw [this]

/-- Removing an element that is followed by an element with the same key does not change
what keep-last keeps. -/
theorem keep_last_erase {κ : Type} [DecidableEq κ] (key : cxobj → κ) :
    ∀ (cs : List cxobj) (d : Nat), has_later_dup key d cs →
      keep_last key (erase_elmnt d cs) = keep_last key cs
  | [], _, h => by
    obtain ⟨l1, a, l2, b, l3, hcs, _⟩ := h
    cases l1 <;> cases hcs
  | x :: rest, d, h => by
    rcases has_later_dup_cons key d x rest h with ⟨he, h1⟩ | ⟨he, hd, b, hb, hbe, hk⟩ |
      ⟨he, d1, hd, h1⟩
    · unfold erase_elmnt
      simp only [he, Bool.not_false, if_true]
      unfold keep_last
      simp only [he, Bool.false_and, Bool.false_eq_true, if_false]
      rw [keep_last_erase key rest d h1]
    · subst hd
      unfold erase_elmnt
      simp only [he, Bool.not_true, Bool.false_eq_true, if_false]
      conv_rhs => unfold keep_last
      have : later_same key (key x) rest = true := by
        unfold later_same
        rw [List.any_eq_true]
        exact ⟨b, hb, by simp [hbe, hk]⟩
      simp only [he, this, Bool.and_self, if_true]
    · subst hd
      unfold erase_elmnt
      simp only [he, Bool.not_true, Bool.false_eq_true, if_false]
      unfold keep_last
      rw [later_same_erase key (key x) rest d1 h1, keep_last_erase key rest d1 h1]

theorem erase_elmnt_length_lt {κ : Type} (key : cxobj → κ) :
    ∀ (cs : List cxobj) (d : Nat), has_later_dup key d cs →
      (erase_elmnt d cs).length < cs.length
  | [], _, h => by
    obtain ⟨l1, a, l2, b, l3, hcs, _⟩ := h
    cases l1 <;> cases hcs
  | x :: rest, d, h => by
    rcases has_later_dup_cons key d x rest h with ⟨he, h1⟩ | ⟨he, hd, _⟩ | ⟨he, d1, hd, h1⟩
    · unfold erase_elmnt
      simp only [he, Bool.not_false, if_true, List.length_cons]
      have := erase_elmnt_length_lt key rest d h1
      omega
    · subst hd
      unfold erase_elmnt
      simp [he]
    · subst hd
      unfold erase_elmnt
      simp only [he, Bool.not_true, Bool.false_eq_true, if_false, List.length_cons]
      have := erase_elmnt_length_lt key rest d1 h1
      omega

theorem erase_elmnt_subset :
    ∀ (cs : List cxobj) (d : Nat) (x : cxobj), x ∈ erase_elmnt d cs → x ∈ cs
  | [], _, _, h => by cases h
  | x :: rest, d, x1, h => by
    unfold erase_elmnt at h
    split at h
    · rcases List.mem_cons.1 h with e | h
      · rw [e]; exact List.mem_cons_self _ _
      · exact List.mem_cons_of_mem _ (erase_elmnt_subset rest d x1 h)
    · cases d with
      | zero => exact List.mem_cons_of_mem _ h
      | succ d =>
        simp only at h
        rcases List.mem_cons.1 h with e | h
        · rw [e]; exact List.mem_cons_self _ _
        · exact List.mem_cons_of_mem _ (erase_elmnt_subset rest d x1 h)

/-! ## Duplicate detection in a run -/

theorem has_later_dup_skip {κ : Type} (key : cxobj → κ) (d : Nat) (x : cxobj)
    (rest : List cxobj) (he : is_elmnt x = false) (h : has_later_dup key d rest) :
    has_later_dup key d (x :: rest) := by
  obtain ⟨l1, a, l2, b, l3, hcs, ha, hb, hd, hk⟩ := h
  refine ⟨x :: l1, a, l2, b, l3, by rw [hcs]; rfl, ha, hb, ?_, hk⟩
  rw [List.filter_cons, he]
  simpa using hd

theorem has_later_dup_succ {κ : Type} (key : cxobj → κ) (d : Nat) (x : cxobj)
    (rest : List cxobj) (he : is_elmnt x = true) (h : has_later_dup key d rest) :
    has_later_dup key (d + 1) (x :: rest) := by
  obtain ⟨l1, a, l2, b, l3, hcs, ha, hb, hd, hk⟩ := h
  refine ⟨x :: l1, a, l2, b, l3, by rw [hcs]; rfl, ha, hb, ?_, hk⟩
  rw [List.filter_cons, if_pos he, List.length_cons, hd]

theorem has_later_dup_zero {κ : Type} (key : cxobj → κ) (x b : cxobj) (rest : List cxobj)
    (he : is_elmnt x = true) (hb : b ∈ rest) (hbe : is_elmnt b = true) (hk : key x = key b) :
    has_later_dup key 0 (x :: rest) := by
  obtain ⟨l2, l3, e⟩ := List.append_of_mem hb
  exact ⟨[], x, l2, b, l3, by rw [e]; rfl, he, hbe, rfl, hk⟩

theorem no_later_dup_skip {κ : Type} (key : cxobj → κ) (x : cxobj) (rest : List cxobj)
    (he : is_elmnt x = false) (h : no_later_dup key rest) : no_later_dup key (x :: rest) := by
  unfold no_later_dup at h ⊢
  rw [List.pairwise_cons]
  exact ⟨(fun b _ h1 => by rw [he] at h1; cases h1), h⟩

theorem leaf_list_search_iff (y0 : yang_stmt) (bi : String) :
    ∀ (rest : List cxobj), leaf_list_run y0 rest →
      (leaf_list_search y0 bi rest = true ↔
        ∃ x ∈ rest, is_elmnt x = true ∧ xml_body x = some bi)
  | [], _ => by simp [leaf_list_search]
  | xj :: rest, h => by
    have ih := leaf_list_search_iff y0 bi rest (fun x hx => h x (List.mem_cons_of_mem _ hx))
    unfold leaf_list_search
    by_cases he : is_elmnt xj = true
    · obtain ⟨hs, bj, hb⟩ := h xj (List.mem_cons_self _ _) he
      simp only [he, Bool.not_true, Bool.false_eq_true, if_false, hs, yang_ptr_eq_self, hb]
      by_cases hbb : (bi == bj) = true
      · rw [if_pos hbb]
        have : bi = bj := by simpa using hbb
        subst this
        simp only [true_iff]
        exact ⟨xj, List.mem_cons_self _ _, he, hb⟩
      · rw [if_neg hbb, ih]
        have hne : bi ≠ bj := by simpa using hbb
        constructor
        · rintro ⟨x, hx, h1, h2⟩
          exact ⟨x, List.mem_cons_of_mem _ hx, h1, h2⟩
        · rintro ⟨x, hx, h1, h2⟩
          rcases List.mem_cons.1 hx with rfl | hx
          · rw [hb] at h2
            injection h2 with h2
            exact absurd h2.symm hne
          · exact ⟨x, hx, h1, h2⟩
    · have he1 : is_elmnt xj = false := by simpa using he
      simp only [he1, Bool.not_false, if_true]
      rw [ih]
      constructor
      · rintro ⟨x, hx, h1, h2⟩
        exact ⟨x, List.mem_cons_of_mem _ hx, h1, h2⟩
      · rintro ⟨x, hx, h1, h2⟩
        rcases List.mem_cons.1 hx with rfl | hx
        · rw [he1] at h1; cases h1
        · exact ⟨x, hx, h1, h2⟩

/-- The scan of a leaf-list run: it returns 1 when no entry is followed by an entry with
the same body, and else fails and flags an entry that is. -/
theorem new_leaf_list_scan_spec (y0 : yang_stmt) (mark : Nat) :
    ∀ (rest : List cxobj) (i : Nat), leaf_list_run y0 rest →
      (xml_yang_minmax_new_leaf_list_scan y0 mark i rest = .ok ∧
        no_later_dup xml_body rest) ∨
      (∃ e d, xml_yang_minmax_new_leaf_list_scan y0 mark i rest =
          .fail e (marked_of mark (i + d)) ∧ has_later_dup xml_body d rest)
  | [], _, _ => Or.inl ⟨rfl, List.Pairwise.nil⟩
  | xi :: rest, i, h => by
    have hrest : leaf_list_run y0 rest := fun x hx => h x (List.mem_cons_of_mem _ hx)
    unfold xml_yang_minmax_new_leaf_list_scan
    by_cases he : is_elmnt xi = true
    · obtain ⟨hs, bi, hb⟩ := h xi (List.mem_cons_self _ _) he
      simp only [he, Bool.not_true, Bool.false_eq_true, if_false, hs, yang_ptr_eq_self]
      unfold xml_yang_minmax_new_leaf_list_step
      simp only [hb]
      by_cases hsearch : leaf_list_search y0 bi rest = true
      · rw [if_pos hsearch]
        right
        obtain ⟨x, hx, hxe, hxb⟩ := (leaf_list_search_iff y0 bi rest hrest).1 hsearch
        exact ⟨_, 0, rfl, has_later_dup_zero xml_body xi x rest he hx hxe (by rw [hb, hxb])⟩
      · rw [if_neg hsearch]
        simp only
        rcases new_leaf_list_scan_spec y0 mark rest (i + 1) hrest with ⟨hok, hnd⟩ | ⟨e, d, hf, hd⟩
        · left
          refine ⟨hok, ?_⟩
          unfold no_later_dup at hnd ⊢
          rw [List.pairwise_cons]
          refine ⟨(fun b hbm _ hbe hk => ?_), hnd⟩
          apply hsearch
          rw [leaf_list_search_iff y0 bi rest hrest]
          exact ⟨b, hbm, hbe, by rw [← hk, hb]⟩
        · right
          refine ⟨e, d + 1, ?_, has_later_dup_succ xml_body d xi rest he hd⟩
          rw [hf]
          congr 2
          omega
    · have he1 : is_elmnt xi = false := by simpa using he
      simp only [he1, Bool.not_false, if_true]
      rcases new_leaf_list_scan_spec y0 mark rest i hrest with ⟨hok, hnd⟩ | ⟨e, d, hf, hd⟩
      · exact Or.inl ⟨hok, no_later_dup_skip xml_body xi rest he1 hnd⟩
      · exact Or.inr ⟨e, d, hf, has_later_dup_skip xml_body d xi rest he1 hd⟩

theorem new_leaf_list_eq_scan (x0 : cxobj) (rest : List cxobj) (y0 : yang_stmt) (mark : Nat)
    (he : is_elmnt x0 = true) (hs : xml_spec x0 = some y0) :
    xml_yang_minmax_new_leaf_list x0 rest y0 mark =
      xml_yang_minmax_new_leaf_list_scan y0 mark 0 (x0 :: rest) := by
  unfold xml_yang_minmax_new_leaf_list
  rw [xml_yang_minmax_new_leaf_list_scan]
  simp only [he, Bool.not_true, Bool.false_eq_true, if_false, hs, yang_ptr_eq_self]

theorem nth_elmnt_split :
    ∀ (pre : List cxobj) (d : Nat), d < (pre.filter is_elmnt).length →
      ∃ l1 a l2, pre = l1 ++ a :: l2 ∧ is_elmnt a = true ∧
        (l1.filter is_elmnt).length = d ∧ (pre.filter is_elmnt)[d]? = some a
  | [], d, h => by simp at h
  | x :: pre, d, h => by
    by_cases he : is_elmnt x = true
    · rw [List.filter_cons, if_pos he] at h ⊢
      cases d with
      | zero => exact ⟨[], x, pre, rfl, he, rfl, by simp⟩
      | succ d =>
        obtain ⟨l1, a, l2, e, ha, hl, hg⟩ := nth_elmnt_split pre d (by simpa using h)
        refine ⟨x :: l1, a, l2, by rw [e]; rfl, ha, ?_, ?_⟩
        · rw [List.filter_cons, if_pos he, List.length_cons, hl]
        · simpa using hg
    · rw [List.filter_cons, if_neg he] at h ⊢
      obtain ⟨l1, a, l2, e, ha, hl, hg⟩ := nth_elmnt_split pre d h
      refine ⟨x :: l1, a, l2, by rw [e]; rfl, ha, ?_, hg⟩
      rw [List.filter_cons, if_neg he, hl]

theorem tuple_equal_rows (vec : TupleVec) (i i1 : Nat) (t1 t2 : List String)
    (h1 : vec.getD i [] = t1.map some) (h2 : vec.getD i1 [] = t2.map some)
    (hlen : t1.length = t2.length) (h : tuple_equal vec i i1 t1.length = true) : t1 = t2 := by
  apply List.ext_getElem hlen
  intro v hv1 hv2
  unfold tuple_equal at h
  rw [List.all_eq_true] at h
  have := h v (List.mem_range.2 hv1)
  unfold vec_at at this
  rw [h1, h2] at this
  have e1 : (t1.map some).getD v none = some t1[v] := by
    rw [List.getD_eq_getElem?_getD, List.getElem?_map, List.getElem?_eq_getElem hv1]
    rfl
  have e2 : (t2.map some).getD v none = some t2[v] := by
    rw [List.getD_eq_getElem?_getD, List.getElem?_map, List.getElem?_eq_getElem hv2]
    rfl
  rw [e1, e2] at this
  simp only [beq_iff_eq, Option.some.injEq] at this
  exact this.symm

theorem check_insert_duplicate_some (vec : TupleVec) (i1 vlen : Nat) (sorted : Bool) (d : Nat)
    (h : check_insert_duplicate vec i1 vlen sorted = some d) :
    d < i1 ∧ tuple_equal vec d i1 vlen = true := by
  unfold check_insert_duplicate at h
  cases sorted with
  | true =>
    simp only [if_true] at h
    split at h
    · cases h
    · split at h
      · next h0 heq =>
        injection h with h
        subst h
        exact ⟨by omega, heq⟩
      · cases h
  | false =>
    simp only [Bool.false_eq_true, if_false] at h
    have h1 := List.find?_some h
    have h2 := List.mem_of_find?_eq_some h
    exact ⟨List.mem_range.1 h2, h1⟩

theorem rows_of_getD (cvk : List String) (pre : List cxobj) (d : Nat) (a : cxobj)
    (t : List String) (hg : (pre.filter is_elmnt)[d]? = some a)
    (ht : key_tuple a cvk = some t) : (rows_of cvk pre).getD d [] = t.map some := by
  unfold rows_of
  rw [List.getD_eq_getElem?_getD, List.getElem?_map, hg]
  simp [ht]

/-- A duplicate that `check_insert_duplicate` reports for the entry `x` is an earlier entry
with the key tuple of `x`. -/
theorem direct_dupl_has_later (y : yang_stmt) (cvk : List String) (sorted : Bool)
    (pre : List cxobj) (x : cxobj) (rest : List cxobj) (t : List String) (d : Nat)
    (hpre : list_run y cvk pre) (he : is_elmnt x = true) (ht : key_tuple x cvk = some t)
    (h : check_insert_duplicate (rows_of cvk pre ++ [t.map some]) (rows_of cvk pre).length
      cvk.length sorted = some d) :
    has_later_dup (fun x => key_tuple x cvk) d (pre ++ x :: rest) := by
  obtain ⟨hd, heq⟩ := check_insert_duplicate_some _ _ _ _ _ h
  have hd1 : d < (pre.filter is_elmnt).length := by
    unfold rows_of at hd; simpa using hd
  obtain ⟨l1, a, l2, e, ha, hl, hg⟩ := nth_elmnt_split pre d hd1
  obtain ⟨_, ta, hta⟩ := hpre a (by rw [e]; simp) ha
  have hrow := rows_of_getD cvk pre d a ta hg hta
  have hla := key_tuple_length a cvk ta hta
  have hlx := key_tuple_length x cvk t ht
  have h1 : (rows_of cvk pre ++ [t.map some]).getD d [] = ta.map some := by
    rw [← hrow]
    simp [List.getD_eq_getElem?_getD, List.getElem?_append_left hd]
  have h2 : (rows_of cvk pre ++ [t.map some]).getD (rows_of cvk pre).length [] =
      t.map some := by
    simp [List.getD_eq_getElem?_getD]
  have := tuple_equal_rows _ d (rows_of cvk pre).length ta t h1 h2 (by rw [hla, hlx])
    (by rw [hla]; exact heq)
  refine ⟨l1, a, l2, x, rest, by rw [e]; simp, ha, he, hl, ?_⟩
  show key_tuple a cvk = key_tuple x cvk
  rw [hta, ht, this]

theorem rows_of_snoc_elmnt (cvk : List String) (pre : List cxobj) (x : cxobj)
    (t : List String) (he : is_elmnt x = true) (ht : key_tuple x cvk = some t) :
    rows_of cvk (pre ++ [x]) = rows_of cvk pre ++ [t.map some] := by
  unfold rows_of
  rw [List.filter_append, List.map_append]
  simp [he, ht]

theorem rows_of_snoc_skip (cvk : List String) (pre : List cxobj) (x : cxobj)
    (he : is_elmnt x = false) : rows_of cvk (pre ++ [x]) = rows_of cvk pre := by
  unfold rows_of
  rw [List.filter_append]
  simp [he]

theorem direct_scan_skip (y : yang_stmt) (cvk : List String) (sorted : Bool) (mark : Nat)
    (vec : TupleVec) (x : cxobj) (rest : List cxobj) (he : is_elmnt x = false) :
    check_unique_list_direct_scan y cvk sorted mark vec (x :: rest) =
      check_unique_list_direct_scan y cvk sorted mark vec rest := by
  rw [check_unique_list_direct_scan]
  simp [he]

/-- The pairwise scan of a list run: it returns 1 when no entry has the key tuple of an
earlier entry, and else fails and flags an entry that is followed by an entry with the
same key tuple. -/
theorem direct_scan_unsorted_spec (y : yang_stmt) (cvk : List String) (mark : Nat)
    (hs : ∀ k ∈ cvk, has_slash k = false) :
    ∀ (rest pre : List cxobj), list_run y cvk (pre ++ rest) →
      (check_unique_list_direct_scan y cvk false mark (rows_of cvk pre) rest = .ok ∧
        (∀ a ∈ pre, ∀ b ∈ rest, is_elmnt a = true → is_elmnt b = true →
          key_tuple a cvk ≠ key_tuple b cvk) ∧
        no_later_dup (fun x => key_tuple x cvk) rest) ∨
      (∃ e d, check_unique_list_direct_scan y cvk false mark (rows_of cvk pre) rest =
          .fail e (marked_of mark d) ∧
        has_later_dup (fun x => key_tuple x cvk) d (pre ++ rest))
  | [], pre, _ => Or.inl ⟨rfl, (fun _ _ b hb => by cases hb), List.Pairwise.nil⟩
  | x :: rest, pre, h => by
    have hrun : list_run y cvk ((pre ++ [x]) ++ rest) := by simpa using h
    have hpre : list_run y cvk pre := fun a ha => h a (List.mem_append_left _ ha)
    have ih := direct_scan_unsorted_spec y cvk mark hs rest (pre ++ [x]) hrun
    have happ : pre ++ [x] ++ rest = pre ++ x :: rest := by simp
    by_cases he : is_elmnt x = true
    · obtain ⟨hsp, t, ht⟩ := h x (by simp) he
      rw [direct_scan_entry y cvk false mark _ x rest ⟨he, hsp⟩]
      rcases direct_step_complete cvk false mark (rows_of cvk pre) x t hs ht with
        ⟨hnone, hst⟩ | ⟨d, hd, hst⟩
      · rw [hst, Step.andThen_next, ← rows_of_snoc_elmnt cvk pre x t he ht]
        rcases ih with ⟨hok, hcross, hnd⟩ | ⟨e, d, hf, hd⟩
        · left
          refine ⟨hok, ?_, ?_⟩
          · intro a ha b hb hae hbe
            rcases List.mem_cons.1 hb with rfl | hb
            · intro hk
              obtain ⟨i, hi, hget⟩ := List.getElem_of_mem
                (List.mem_filter.2 ⟨ha, hae⟩ : a ∈ pre.filter is_elmnt)
              have hg : (pre.filter is_elmnt)[i]? = some a := by
                rw [List.getElem?_eq_getElem hi, hget]
              have hrow := rows_of_getD cvk pre i a t hg (by rw [hk, ht])
              obtain ⟨d, hd⟩ := check_insert_duplicate_of_row (rows_of cvk pre) t i false
                (by unfold rows_of; simpa using hi) hrow (fun h => by cases h)
              rw [key_tuple_length b cvk t ht, hnone] at hd
              cases hd
            · exact hcross a (List.mem_append_left _ ha) b hb hae hbe
          · unfold no_later_dup at hnd ⊢
            rw [List.pairwise_cons]
            exact ⟨(fun b hb hxe hbe => hcross x (by simp) b hb hxe hbe), hnd⟩
        · right
          exact ⟨e, d, hf, by rw [← happ]; exact hd⟩
      · right
        rw [hst, Step.andThen_stop]
        exact ⟨_, d, rfl, direct_dupl_has_later y cvk false pre x rest t d hpre he ht hd⟩
    · have he1 : is_elmnt x = false := by simpa using he
      rw [direct_scan_skip y cvk false mark _ x rest he1, ← rows_of_snoc_skip cvk pre x he1]
      rcases ih with ⟨hok, hcross, hnd⟩ | ⟨e, d, hf, hd⟩
      · left
        refine ⟨hok, ?_, no_later_dup_skip _ x rest he1 hnd⟩
        intro a ha b hb hae hbe
        rcases List.mem_cons.1 hb with rfl | hb
        · rw [he1] at hbe; cases hbe
        · exact hcross a (List.mem_append_left _ ha) b hb hae hbe
      · right
        exact ⟨e, d, hf, by rw [← happ]; exact hd⟩

theorem last_key_snoc_elmnt {κ : Type} (key : cxobj → κ) (pre : List cxobj) (x : cxobj)
    (he : is_elmnt x = true) : last_key key (pre ++ [x]) = some (key x) := by
  unfold last_key
  rw [List.filter_append]
  simp [he]

theorem last_key_snoc_skip {κ : Type} (key : cxobj → κ) (pre : List cxobj) (x : cxobj)
    (he : is_elmnt x = false) : last_key key (pre ++ [x]) = last_key key pre := by
  unfold last_key
  rw [List.filter_append]
  simp [he]

/-- The backward-one scan of a list run: it returns 1 when no entry has the key tuple of
the entry before it, and else fails and flags an entry that is followed by an entry with
the same key tuple. -/
theorem direct_scan_sorted_spec (y : yang_stmt) (cvk : List String) (mark : Nat)
    (hs : ∀ k ∈ cvk, has_slash k = false) :
    ∀ (rest pre : List cxobj), list_run y cvk (pre ++ rest) →
      (check_unique_list_direct_scan y cvk true mark (rows_of cvk pre) rest = .ok ∧
        adjacent_distinct (fun x => key_tuple x cvk)
          (last_key (fun x => key_tuple x cvk) pre) rest) ∨
      (∃ e d, check_unique_list_direct_scan y cvk true mark (rows_of cvk pre) rest =
          .fail e (marked_of mark d) ∧
        has_later_dup (fun x => key_tuple x cvk) d (pre ++ rest))
  | [], pre, _ => Or.inl ⟨rfl, trivial⟩
  | x :: rest, pre, h => by
    have hrun : list_run y cvk ((pre ++ [x]) ++ rest) := by simpa using h
    have hpre : list_run y cvk pre := fun a ha => h a (List.mem_append_left _ ha)
    have ih := direct_scan_sorted_spec y cvk mark hs rest (pre ++ [x]) hrun
    have happ : pre ++ [x] ++ rest = pre ++ x :: rest := by simp
    by_cases he : is_elmnt x = true
    · obtain ⟨hsp, t, ht⟩ := h x (by simp) he
      rw [direct_scan_entry y cvk true mark _ x rest ⟨he, hsp⟩]
      rcases direct_step_complete cvk true mark (rows_of cvk pre) x t hs ht with
        ⟨hnone, hst⟩ | ⟨d, hd, hst⟩
      · rw [hst, Step.andThen_next, ← rows_of_snoc_elmnt cvk pre x t he ht]
        rcases ih with ⟨hok, hadj⟩ | ⟨e, d, hf, hd⟩
        · left
          refine ⟨hok, ?_⟩
          unfold adjacent_distinct
          rw [if_pos he]
          rw [last_key_snoc_elmnt _ pre x he] at hadj
          refine ⟨?_, hadj⟩
          intro hlast
          unfold last_key at hlast
          cases hgl : (pre.filter is_elmnt).getLast? with
          | none => rw [hgl] at hlast; cases hlast
          | some a =>
            rw [hgl] at hlast
            simp only [Option.map_some', Option.some.injEq] at hlast
            have hne : pre.filter is_elmnt ≠ [] := by
              intro e; rw [e] at hgl; cases hgl
            have hpos : 0 < (pre.filter is_elmnt).length := List.length_pos.2 hne
            have hg : (pre.filter is_elmnt)[(pre.filter is_elmnt).length - 1]? = some a := by
              rw [← List.getLast?_eq_getElem?]; exact hgl
            have hrow := rows_of_getD cvk pre _ a t hg (by rw [hlast, ht])
            have hlen : (rows_of cvk pre).length = (pre.filter is_elmnt).length := by
              unfold rows_of; simp
            obtain ⟨d, hd⟩ := check_insert_duplicate_of_row (rows_of cvk pre) t
              ((pre.filter is_elmnt).length - 1) true (by rw [hlen]; omega) hrow
              (fun _ => by rw [hlen]; omega)
            rw [key_tuple_length x cvk t ht, hnone] at hd
            cases hd
        · right
          exact ⟨e, d, hf, by rw [← happ]; exact hd⟩
      · right
        rw [hst, Step.andThen_stop]
        exact ⟨_, d, rfl, direct_dupl_has_later y cvk true pre x rest t d hpre he ht hd⟩
    · have he1 : is_elmnt x = false := by simpa using he
      rw [direct_scan_skip y cvk true mark _ x rest he1, ← rows_of_snoc_skip cvk pre x he1]
      rcases ih with ⟨hok, hadj⟩ | ⟨e, d, hf, hd⟩
      · left
        refine ⟨hok, ?_⟩
        unfold adjacent_distinct
        rw [if_neg he]
        rw [last_key_snoc_skip _ pre x he1] at hadj
        exact hadj
      · right
        exact ⟨e, d, hf, by rw [← happ]; exact hd⟩

theorem adjacent_distinct_below {κ : Type} (key : cxobj → κ) (le : κ → κ → Prop)
    (hanti : ∀ k1 k2, le k1 k2 → le k2 k1 → k1 = k2) (k : κ) :
    ∀ (rest : List cxobj), adjacent_distinct key (some k) rest →
      (∀ b ∈ rest, is_elmnt b = true → le k (key b)) → sorted_by key le rest →
      ∀ b ∈ rest, is_elmnt b = true → key b ≠ k
  | [], _, _, _, b, hb, _ => by cases hb
  | x :: rest, hadj, hle, hsorted, b, hb, hbe => by
    unfold sorted_by at hsorted
    rw [List.pairwise_cons] at hsorted
    unfold adjacent_distinct at hadj
    by_cases he : is_elmnt x = true
    · rw [if_pos he] at hadj
      have hxk : key x ≠ k := fun e => hadj.1 (by rw [e])
      rcases List.mem_cons.1 hb with rfl | hb
      · exact hxk
      · intro hbk
        apply hxk
        apply hanti
        · have := hsorted.1 b hb he hbe
          rw [hbk] at this
          exact this
        · exact hle x (List.mem_cons_self _ _) he
    · rw [if_neg he] at hadj
      rcases List.mem_cons.1 hb with rfl | hb
      · exact absurd hbe he
      · exact adjacent_distinct_below key le hanti k rest hadj
          (fun b hb => hle b (List.mem_cons_of_mem _ hb)) hsorted.2 b hb hbe

/-- In a run sorted by key, entries with the same key are adjacent: when no entry has the
key of the entry before it, no two entries have the same key. -/
theorem adjacent_distinct_sorted {κ : Type} (key : cxobj → κ) (le : κ → κ → Prop)
    (hanti : ∀ k1 k2, le k1 k2 → le k2 k1 → k1 = k2) :
    ∀ (cs : List cxobj) (last : Option κ), adjacent_distinct key last cs →
      sorted_by key le cs → no_later_dup key cs
  | [], _, _, _ => List.Pairwise.nil
  | x :: rest, last, hadj, hsorted => by
    have hs := hsorted
    unfold sorted_by at hs
    rw [List.pairwise_cons] at hs
    unfold adjacent_distinct at hadj
    unfold no_later_dup
    rw [List.pairwise_cons]
    by_cases he : is_elmnt x = true
    · rw [if_pos he] at hadj
      refine ⟨?_, adjacent_distinct_sorted key le hanti rest _ hadj.2 hs.2⟩
      intro b hb _ hbe hk
      exact adjacent_distinct_below key le hanti (key x) rest hadj.2
        (fun b hb hbe => hs.1 b hb he hbe) hs.2 b hb hbe hk.symm
    · rw [if_neg he] at hadj
      exact ⟨(fun b _ h1 => absurd h1 he),
        adjacent_distinct_sorted key le hanti rest _ hadj hs.2⟩

/-! ## xml_duplicate_remove: keep-last -/

theorem erase_elmnt_sublist :
    ∀ (cs : List cxobj) (d : Nat), List.Sublist (erase_elmnt d cs) cs
  | [], _ => List.Sublist.slnil
  | x :: rest, d => by
    unfold erase_elmnt
    split
    · exact (erase_elmnt_sublist rest d).cons₂ x
    · cases d with
      | zero => exact List.sublist_cons_self x rest
      | succ d => exact (erase_elmnt_sublist rest d).cons₂ x

theorem dup_run_sublist (y : yang_stmt) (le : Option (List String) → Option (List String) → Prop)
    (cs cs1 : List cxobj) (hsub : List.Sublist cs1 cs) (h : dup_run y le cs) :
    dup_run y le cs1 := by
  obtain ⟨h1, h2, h3⟩ := h
  refine ⟨fun x hx => h1 x (hsub.subset hx), fun x hx => h2 x (hsub.subset hx), ?_⟩
  rcases h3 with h3 | ⟨a, b, c1, d, e⟩
  · exact Or.inl h3
  · exact Or.inr ⟨a, b, c1, d, fun hs => ⟨(e hs).1, List.Pairwise.sublist hsub (e hs).2⟩⟩

theorem no_later_dup_mono {κ κ1 : Type} (key : cxobj → κ) (key1 : cxobj → κ1)
    (cs : List cxobj) (h : ∀ a b, key1 a = key1 b → key a = key b)
    (hn : no_later_dup key cs) : no_later_dup key1 cs := by
  unfold no_later_dup at hn ⊢
  exact hn.imp (fun {a b} hab ha hb e => hab ha hb (h a b e))

theorem has_later_dup_mono {κ κ1 : Type} (key : cxobj → κ) (key1 : cxobj → κ1) (d : Nat)
    (cs : List cxobj) (h : ∀ a b, key a = key b → key1 a = key1 b)
    (hd : has_later_dup key d cs) : has_later_dup key1 d cs := by
  obtain ⟨l1, a, l2, b, l3, hcs, ha, hb, hl, hk⟩ := hd
  exact ⟨l1, a, l2, b, l3, hcs, ha, hb, hl, h a b hk⟩

theorem new_list_iter_no_unique (c : Collaborators) (x : cxobj) (rest : List cxobj)
    (y : yang_stmt) :
    ∀ ys, (∀ yu ∈ ys, yang_keyword_get yu ≠ .Y_UNIQUE) →
      xml_yang_minmax_new_list_iter c x rest y ys = .ok
  | [], _ => rfl
  | yu :: ys, h => by
    unfold xml_yang_minmax_new_list_iter
    have := h yu (List.mem_cons_self _ _)
    simp only [bne_iff_ne, ne_eq, this, not_false_eq_true, if_true]
    exact new_list_iter_no_unique c x rest y ys (fun yu hyu => h yu (List.mem_cons_of_mem _ hyu))

theorem marked_of_del (d : Nat) : marked_of XML_FLAG_DEL d = some d := by
  unfold marked_of XML_FLAG_DEL
  simp

/-- The check that `xml_duplicate_remove` makes at the first entry of the run: it returns 1
when no entry is followed by an entry with the same key, and else fails and flags an entry
that is. -/
theorem duplicate_check_spec (c : Collaborators) (y : yang_stmt)
    (le : Option (List String) → Option (List String) → Prop) (x0 : cxobj)
    (rest : List cxobj) (h : dup_run y le (x0 :: rest)) (he : is_elmnt x0 = true) :
    ((if yang_keyword_get y == .Y_LIST then xml_yang_minmax_new_list c x0 rest y XML_FLAG_DEL
       else xml_yang_minmax_new_leaf_list x0 rest y XML_FLAG_DEL) = .ok ∧
      no_later_dup (entry_key y) (x0 :: rest)) ∨
    (∃ e d, (if yang_keyword_get y == .Y_LIST then
          xml_yang_minmax_new_list c x0 rest y XML_FLAG_DEL
        else xml_yang_minmax_new_leaf_list x0 rest y XML_FLAG_DEL) = .fail e (some d) ∧
      has_later_dup (entry_key y) d (x0 :: rest)) := by
  obtain ⟨_, h2, h3⟩ := h
  have hx0 := h2 x0 (List.mem_cons_self _ _) he
  rcases h3 with hk | ⟨hk, hne, hs, hnu, hsorted⟩
  · -- leaf-list
    have hkl : (yang_keyword_get y == .Y_LIST) = false := by rw [hk]; rfl
    have hkey : entry_key y = fun x => (xml_body x).map fun b => [b] := by
      funext x; unfold entry_key; rw [hkl]; rfl
    rw [hkl]
    simp only [Bool.false_eq_true, if_false]
    rw [new_leaf_list_eq_scan x0 rest y XML_FLAG_DEL he hx0.1]
    have hrun : leaf_list_run y (x0 :: rest) := by
      intro x hx hxe
      obtain ⟨hsx, hkx⟩ := h2 x hx hxe
      refine ⟨hsx, ?_⟩
      rw [hkey] at hkx
      cases hb : xml_body x with
      | none =>
        exact absurd (show Option.map (fun b => [b]) (xml_body x) = none by rw [hb]; rfl) hkx
      | some b => exact ⟨b, rfl⟩
    rcases new_leaf_list_scan_spec y XML_FLAG_DEL (x0 :: rest) 0 hrun with
      ⟨hok, hnd⟩ | ⟨e, d, hf, hd⟩
    · left
      refine ⟨hok, no_later_dup_mono xml_body _ _ ?_ hnd⟩
      intro a b hab
      rw [hkey] at hab
      simp only at hab
      cases ha : xml_body a <;> cases hb : xml_body b <;> rw [ha, hb] at hab <;>
        simp at hab ⊢
      exact hab
    · right
      refine ⟨e, d, ?_, has_later_dup_mono xml_body _ d _ ?_ hd⟩
      · rw [hf, marked_of_del]; simp
      · intro a b hab
        rw [hkey]
        simp only
        rw [hab]
  · -- list
    have hkl : (yang_keyword_get y == .Y_LIST) = true := by rw [hk]; rfl
    have hkey : entry_key y = fun x => key_tuple x (yang_cvec_get y) := by
      funext x; unfold entry_key; rw [hkl]; rfl
    rw [hkl]
    simp only [if_true]
    have hrun : list_run y (yang_cvec_get y) ([] ++ (x0 :: rest)) := by
      intro x hx hxe
      obtain ⟨hsx, hkx⟩ := h2 x hx hxe
      refine ⟨hsx, ?_⟩
      rw [hkey] at hkx
      cases hb : key_tuple x (yang_cvec_get y) with
      | none => exact absurd hb hkx
      | some t => exact ⟨t, rfl⟩
    unfold xml_yang_minmax_new_list
    rw [direct_eq_scan x0 rest y y XML_FLAG_DEL ⟨he, hx0.1⟩ hne]
    have hrows : rows_of (yang_cvec_get y) [] = [] := rfl
    rw [hkey]
    cases hso : direct_sorted y y with
    | true =>
      rcases direct_scan_sorted_spec y (yang_cvec_get y) XML_FLAG_DEL hs (x0 :: rest) [] hrun
        with ⟨hok, hadj⟩ | ⟨e, d, hf, hd⟩
      · left
        rw [hrows] at hok
        rw [hok]
        refine ⟨new_list_iter_no_unique c x0 rest y _ hnu, ?_⟩
        have := hsorted hso
        rw [hkey] at this
        exact adjacent_distinct_sorted _ le this.1 _ _ hadj this.2
      · right
        rw [hrows] at hf
        rw [hf, marked_of_del]
        exact ⟨e, d, rfl, hd⟩
    | false =>
      rcases direct_scan_unsorted_spec y (yang_cvec_get y) XML_FLAG_DEL hs (x0 :: rest) [] hrun
        with ⟨hok, _, hnd⟩ | ⟨e, d, hf, hd⟩
      · left
        rw [hrows] at hok
        rw [hok]
        exact ⟨new_list_iter_no_unique c x0 rest y _ hnu, hnd⟩
      · right
        rw [hrows] at hf
        rw [hf, marked_of_del]
        exact ⟨e, d, rfl, hd⟩

theorem dup_run_list_kw (y : yang_stmt)
    (le : Option (List String) → Option (List String) → Prop) (cs : List cxobj)
    (h : dup_run y le cs) : is_list_kw (yang_keyword_get y) = true := by
  rcases h.2.2 with hk | ⟨hk, _⟩ <;> rw [hk] <;> rfl

theorem duplicate_remove_step_skip (c : Collaborators) (yprev : Option yang_stmt) (x : cxobj)
    (rest : List cxobj) (he : is_elmnt x = false) :
    xml_duplicate_remove_step c yprev x rest = .next yprev := by
  unfold xml_duplicate_remove_step
  simp [he]

/-- Inside the run the traversal goes on without a check. -/
theorem duplicate_remove_scan_same (c : Collaborators) (y : yang_stmt)
    (hk : is_list_kw (yang_keyword_get y) = true) :
    ∀ (rest acc : List cxobj), (∀ x ∈ rest, is_elmnt x = true → xml_spec x = some y) →
      xml_duplicate_remove_scan c (some y) acc rest = none
  | [], _, _ => rfl
  | x :: rest, acc, h => by
    rw [xml_duplicate_remove_scan]
    have hstep : xml_duplicate_remove_step c (some y) x rest = .next (some y) := by
      by_cases he : is_elmnt x = true
      · unfold xml_duplicate_remove_step
        simp [he, h x (List.mem_cons_self _ _) he, hk, yang_ptr_eq_self]
      · exact duplicate_remove_step_skip c _ x rest (by simpa using he)
    rw [hstep]
    exact duplicate_remove_scan_same c y hk rest _ (fun x hx => h x (List.mem_cons_of_mem _ hx))

/-- One pass of the inner loop of `xml_duplicate_remove` over a run: it runs through when
no entry is followed by an entry with the same key, and else it stops at the first entry of
the run with a failure that flags an entry that is. -/
theorem duplicate_remove_pass_spec (c : Collaborators) (y : yang_stmt)
    (le : Option (List String) → Option (List String) → Prop) :
    ∀ (cs acc : List cxobj), dup_run y le cs →
      (xml_duplicate_remove_scan c none acc cs = none ∧ no_later_dup (entry_key y) cs) ∨
      (∃ e d pre0 run, xml_duplicate_remove_scan c none acc cs =
          some (.fail e (some d), acc ++ pre0, run) ∧ cs = pre0 ++ run ∧
        (∀ x ∈ pre0, is_elmnt x = false) ∧ has_later_dup (entry_key y) d run)
  | [], _, _ => Or.inl ⟨rfl, List.Pairwise.nil⟩
  | x :: rest, acc, h => by
    have hrest : dup_run y le rest := dup_run_sublist y le _ _ (List.sublist_cons_self x rest) h
    rw [xml_duplicate_remove_scan]
    by_cases he : is_elmnt x = true
    · have hsp := (h.2.1 x (List.mem_cons_self _ _) he).1
      have hkw := dup_run_list_kw y le _ h
      have hstep : xml_duplicate_remove_step c none x rest =
          Res.toStep (if yang_keyword_get y == .Y_LIST then
              xml_yang_minmax_new_list c x rest y XML_FLAG_DEL
            else xml_yang_minmax_new_leaf_list x rest y XML_FLAG_DEL) (some y) := by
        unfold xml_duplicate_remove_step
        simp only [he, Bool.not_true, Bool.false_eq_true, if_false, hsp, hkw, if_true,
          yang_ptr_eq]
        cases (if yang_keyword_get y == .Y_LIST then
              xml_yang_minmax_new_list c x rest y XML_FLAG_DEL
            else xml_yang_minmax_new_leaf_list x rest y XML_FLAG_DEL) <;> rfl
      rw [hstep]
      rcases duplicate_check_spec c y le x rest h he with ⟨hok, hnd⟩ | ⟨e, d, hf, hd⟩
      · left
        rw [hok]
        exact ⟨duplicate_remove_scan_same c y hkw rest _
          (fun x1 h1 he1 => (h.2.1 x1 (List.mem_cons_of_mem _ h1) he1).1), hnd⟩
      · right
        rw [hf]
        exact ⟨e, d, [], x :: rest, by simp [Res.toStep], rfl, (fun _ hx => by cases hx), hd⟩
    · have he1 : is_elmnt x = false := by simpa using he
      rw [duplicate_remove_step_skip c none x rest he1]
      rcases duplicate_remove_pass_spec c y le rest (acc ++ [x]) hrest with
        ⟨hn, hnd⟩ | ⟨e, d, pre0, run, hsc, hcs, hpre, hd⟩
      · exact Or.inl ⟨hn, no_later_dup_skip _ x rest he1 hnd⟩
      · right
        refine ⟨e, d, x :: pre0, run, ?_, by rw [hcs]; rfl, ?_, hd⟩
        · show xml_duplicate_remove_scan c none (acc ++ [x]) rest = _
          rw [hsc]; simp
        · intro x1 h1
          rcases List.mem_cons.1 h1 with rfl | h1
          · exact he1
          · exact hpre x1 h1

theorem xml_flag_set_nth_skip (mark d : Nat) (x : cxobj) (rest : List cxobj)
    (he : is_elmnt x = false) :
    xml_flag_set_nth mark d (x :: rest) = x :: xml_flag_set_nth mark d rest := by
  conv_lhs => unfold xml_flag_set_nth
  simp [he]

theorem xml_flag_set_nth_before (mark d : Nat) :
    ∀ (pre0 run : List cxobj), (∀ x ∈ pre0, is_elmnt x = false) →
      xml_flag_set_nth mark d (pre0 ++ run) = pre0 ++ xml_flag_set_nth mark d run
  | [], _, _ => rfl
  | x :: pre0, run, h => by
    have ih := xml_flag_set_nth_before mark d pre0 run
      (fun x hx => h x (List.mem_cons_of_mem _ hx))
    simp only [List.cons_append]
    rw [xml_flag_set_nth_skip mark d x _ (h x (List.mem_cons_self _ _)), ih]

theorem has_later_dup_before {κ : Type} (key : cxobj → κ) (d : Nat) :
    ∀ (pre0 run : List cxobj), (∀ x ∈ pre0, is_elmnt x = false) →
      has_later_dup key d run → has_later_dup key d (pre0 ++ run)
  | [], _, _, h => h
  | x :: pre0, run, hp, h =>
    has_later_dup_skip key d x _ (hp x (List.mem_cons_self _ _))
      (has_later_dup_before key d pre0 run (fun x hx => hp x (List.mem_cons_of_mem _ hx)) h)

theorem prune_removed_false (flags mask : Nat) (cs : List cxobj)
    (h : xml_tree_prune_removed flags mask cs = false) :
    xml_tree_prune_flags1 flags mask cs = cs := by
  unfold xml_tree_prune_removed at h
  unfold xml_tree_prune_flags1
  apply List.filter_eq_self.2
  intro x hx
  rw [List.any_eq_false] at h
  have := h x hx
  by_cases he : is_elmnt x = true
  · simp only [he, Bool.true_and] at this
    simp [he, this]
  · simp [he]

/-- The loop `while (again)` on a run: it ends with value 0 (continue) and leaves the
entries that keep-last keeps. -/
theorem duplicate_remove_loop_keep_last (c : Collaborators) (y : yang_stmt)
    (le : Option (List String) → Option (List String) → Prop) :
    ∀ (fuel : Nat) (cs : List cxobj), cs.length ≤ fuel → dup_run y le cs →
      xml_duplicate_remove_loop c fuel cs = some (.ok, keep_last (entry_key y) cs)
  | fuel, cs, hlen, h => by
    unfold xml_duplicate_remove_loop
    rcases duplicate_remove_pass_spec c y le cs [] h with
      ⟨hn, hnd⟩ | ⟨e, d, pre0, run, hsc, hcs, hpre, hd⟩
    · rw [hn, keep_last_no_later_dup _ cs hnd]
    · rw [hsc]
      simp only [List.nil_append]
      have hcs1 : pre0 ++ xml_flag_set_marked XML_FLAG_DEL (some d) run =
          xml_flag_set_nth XML_FLAG_DEL d cs := by
        rw [hcs, xml_flag_set_nth_before XML_FLAG_DEL d pre0 run hpre]
        rfl
      rw [hcs1]
      have hprune := prune_flag_set_nth cs d h.1
      have hdup : has_later_dup (entry_key y) d cs := by
        rw [hcs]; exact has_later_dup_before _ d pre0 run hpre hd
      have hlt := erase_elmnt_length_lt (entry_key y) cs d hdup
      have hrem : xml_tree_prune_removed XML_FLAG_DEL XML_FLAG_DEL
          (xml_flag_set_nth XML_FLAG_DEL d cs) = true := by
        by_contra hne
        have := prune_removed_false _ _ _ (by simpa using hne)
        rw [hprune] at this
        rw [this, xml_flag_set_nth_length] at hlt
        omega
      rw [hrem, hprune]
      simp only [if_true]
      cases fuel with
      | zero => omega
      | succ fuel1 =>
        simp only
        rw [duplicate_remove_loop_keep_last c y le fuel1 (erase_elmnt d cs) (by omega)
          (dup_run_sublist y le _ _ (erase_elmnt_sublist cs d) h)]
        rw [keep_last_erase (entry_key y) cs d hdup]

theorem duplicate_remove_scan_no_list (c : Collaborators) :
    ∀ (cs acc : List cxobj) (yprev : Option yang_stmt),
      (∀ x ∈ cs, is_elmnt x = true → ∀ yc, xml_spec x = some yc →
        is_list_kw (yang_keyword_get yc) = false) →
      xml_duplicate_remove_scan c yprev acc cs = none
  | [], _, _, _ => rfl
  | x :: rest, acc, yprev, h => by
    rw [xml_duplicate_remove_scan]
    have hstep : xml_duplicate_remove_step c yprev x rest = .next yprev := by
      by_cases he : is_elmnt x = true
      · unfold xml_duplicate_remove_step
        cases hsp : xml_spec x with
        | none => simp [he]
        | some yc => simp [he, h x (List.mem_cons_self _ _) he yc hsp]
      · exact duplicate_remove_step_skip c _ x rest (by simpa using he)
    rw [hstep]
    exact duplicate_remove_scan_no_list c rest _ yprev
      (fun x hx => h x (List.mem_cons_of_mem _ hx))

theorem xml_childvec_set_self (x : cxobj) : xml_childvec_set x (xml_childvec x) = x := by
  cases x; rfl

theorem xml_childvec_set_set (x : cxobj) (cs cs1 : List cxobj) :
    xml_childvec_set (xml_childvec_set x cs) cs1 = xml_childvec_set x cs1 := by
  cases x; rfl

theorem xml_childvec_set_get (x : cxobj) (cs : List cxobj) :
    xml_childvec (xml_childvec_set x cs) = cs := by
  cases x; rfl

theorem duplicate_remove_no_list (c : Collaborators) (x : cxobj)
    (h : ∀ ch ∈ xml_childvec x, is_elmnt ch = true → ∀ yc, xml_spec ch = some yc →
      is_list_kw (yang_keyword_get yc) = false) :
    xml_duplicate_remove c x = some (.ok, x) := by
  unfold xml_duplicate_remove xml_duplicate_remove_loop
  rw [duplicate_remove_scan_no_list c _ [] none h]
  simp only
  rw [xml_childvec_set_self]

theorem xml_apply_each_mut_id (f : cxobj → Option (Res × cxobj)) :
    ∀ (cs : List cxobj), (∀ x ∈ cs, is_elmnt x = true → f x = some (.ok, x)) →
      xml_apply_each_mut f cs = some (.ok, cs)
  | [], _ => rfl
  | x :: rest, h => by
    have ih := xml_apply_each_mut_id f rest (fun x hx => h x (List.mem_cons_of_mem _ hx))
    unfold xml_apply_each_mut
    by_cases he : is_elmnt x = true
    · simp only [he, Bool.not_true, Bool.false_eq_true, if_false,
        h x (List.mem_cons_self _ _) he, ih]
    · simp only [he, Bool.not_false, if_true, ih]

theorem xml_depth_pos (x : cxobj) : 1 ≤ xml_depth x := by
  cases x; unfold xml_depth; omega

theorem xml_depth_mem : ∀ (cs : List cxobj) (x : cxobj), x ∈ cs →
    xml_depth x ≤ xml_depth_each cs
  | [], _, h => by cases h
  | y :: rest, x, h => by
    unfold xml_depth_each
    rcases List.mem_cons.1 h with rfl | h
    · exact Nat.le_max_left _ _
    · exact Nat.le_trans (xml_depth_mem rest x h) (Nat.le_max_right _ _)

theorem xml_depth_child (x ch : cxobj) (h : ch ∈ xml_childvec x) :
    xml_depth ch + 1 ≤ xml_depth x := by
  cases x with
  | mk n t f s v cs =>
    have := xml_depth_mem cs ch h
    show xml_depth ch + 1 ≤ xml_depth_each cs + 1
    omega

/-- On an entry without lists below it, the walk changes nothing. -/
theorem duplicate_remove_apply_flat (c : Collaborators) (e : cxobj) (hflat : flat_entry e) :
    ∀ (fuel : Nat), xml_depth e ≤ fuel →
      xml_duplicate_remove_apply c fuel e = some (.ok, e)
  | 0, h => by have := xml_depth_pos e; omega
  | fuel + 1, h => by
    have hall : xml_apply_each_mut (xml_duplicate_remove_apply c fuel) (xml_childvec e) =
        some (.ok, xml_childvec e) := by
      apply xml_apply_each_mut_id
      intro ch hch he
      have hd := xml_depth_child e ch hch
      have hp := xml_depth_pos ch
      cases fuel with
      | zero => omega
      | succ fuel1 =>
        have hnone : xml_apply_each_mut (xml_duplicate_remove_apply c fuel1)
            (xml_childvec ch) = some (.ok, xml_childvec ch) := by
          apply xml_apply_each_mut_id
          intro g hg hge
          rw [(hflat ch hch he).2 g hg] at hge
          cases hge
        unfold xml_duplicate_remove_apply
        rw [duplicate_remove_no_list c ch
          (fun g hg hge => by rw [(hflat ch hch he).2 g hg] at hge; cases hge)]
        simp only
        rw [hnone]
        simp only
        rw [xml_childvec_set_self]
    unfold xml_duplicate_remove_apply
    rw [duplicate_remove_no_list c e (fun ch hch he => (hflat ch hch he).1)]
    simp only
    rw [hall]
    simp only
    rw [xml_childvec_set_self]

theorem keep_last_subset {κ : Type} [DecidableEq κ] (key : cxobj → κ) :
    ∀ (cs : List cxobj) (x : cxobj), x ∈ keep_last key cs → x ∈ cs
  | [], _, h => by cases h
  | y :: rest, x, h => by
    unfold keep_last at h
    split at h
    · exact List.mem_cons_of_mem _ (keep_last_subset key rest x h)
    · rcases List.mem_cons.1 h with e | h
      · rw [e]; exact List.mem_cons_self _ _
      · exact List.mem_cons_of_mem _ (keep_last_subset key rest x h)

/-- C16 (as stated) fails: the children of `ex_c_kv_dup` are one run of a keyed list,
sorted by key, every entry with its key and none flagged, and
`xml_duplicate_remove_recurse` returns 0 and removes nothing, because the entries violate
`unique "v"`. -/
theorem duplicate_remove_keep_last_counterexample :
    (∀ x ∈ xml_childvec ex_c_kv_dup, is_entry ex_list_uv x ∧ xml_flags x = 0) ∧
    (xml_childvec ex_c_kv_dup).map (fun x => key_tuple x (yang_cvec_get ex_list_uv)) =
      [some ["a"], some ["b"]] ∧
    ret_of (xml_duplicate_remove_recurse ex_none ex_c_kv_dup) = some 0 ∧
    children_of (xml_duplicate_remove_recurse ex_none ex_c_kv_dup) =
      some (xml_childvec ex_c_kv_dup) := by
  refine ⟨?_, by decide, by decide, rfl⟩
  intro x hx
  simp only [ex_c_kv_dup, xml_childvec, List.mem_cons, List.mem_singleton, List.not_mem_nil,
    or_false] at hx
  rcases hx with rfl | rfl <;> exact ⟨⟨rfl, rfl⟩, rfl⟩

/-- C16 (amended): keep-last. For every parent `xt` none of whose children carries the DEL
flag and whose element children are all entries of one leaf-list (every entry with a body)
or of one keyed list without `unique` statements (every entry with every key;
ordered-by user, or sorted by key), the pass of `xml_duplicate_remove` over `xt` returns 0
(continue) and leaves the children of `xt` without the entries that are followed by an
entry with the same body / key tuple, in their original order. When the entries hold no
list or leaf-list entries below them, `xml_duplicate_remove_recurse(xt)` returns 1 and
leaves that tree. -/
theorem duplicate_remove_keep_last (c : Collaborators) (y : yang_stmt)
    (le : Option (List String) → Option (List String) → Prop) (xt : cxobj)
    (h : dup_run y le (xml_childvec xt)) :
    xml_duplicate_remove c xt =
      some (.ok, xml_childvec_set xt (keep_last (entry_key y) (xml_childvec xt))) ∧
    ((∀ e ∈ xml_childvec xt, is_elmnt e = true → flat_entry e) →
      xml_duplicate_remove_recurse c xt =
        some (.ok, xml_childvec_set xt (keep_last (entry_key y) (xml_childvec xt)))) := by
  have h1 : xml_duplicate_remove c xt =
      some (.ok, xml_childvec_set xt (keep_last (entry_key y) (xml_childvec xt))) := by
    unfold xml_duplicate_remove
    rw [duplicate_remove_loop_keep_last c y le _ _ (Nat.le_refl _) h]
  refine ⟨h1, ?_⟩
  intro hflat
  unfold xml_duplicate_remove_recurse
  have hdepth : xml_depth xt = xml_depth_each (xml_childvec xt) + 1 := by
    cases xt; rfl
  rw [hdepth]
  unfold xml_duplicate_remove_apply
  rw [h1]
  simp only
  have hall : xml_apply_each_mut
      (xml_duplicate_remove_apply c (xml_depth_each (xml_childvec xt)))
      (keep_last (entry_key y) (xml_childvec xt)) =
      some (.ok, keep_last (entry_key y) (xml_childvec xt)) := by
    apply xml_apply_each_mut_id
    intro e he hee
    have hmem := keep_last_subset (entry_key y) _ e he
    exact duplicate_remove_apply_flat c e (hflat e hmem hee) _ (xml_depth_mem _ e hmem)
  rw [xml_childvec_set_get, hall]
  simp only
  rw [xml_childvec_set_set]

theorem duplicate_remove_keep_last_witness :
    dup_run ex_list_plain (fun a b => a = b) (xml_childvec ex_c_dup) ∧
    children_of (xml_duplicate_remove ex_none ex_c_dup) =
      some [ex_entry ex_list_plain (ex_leaf 42 "k") "a"] ∧
    children_of (xml_duplicate_remove_recurse ex_none ex_c_dup) =
      some [ex_entry ex_list_plain (ex_leaf 42 "k") "a"] := by
  have hmem : ∀ x ∈ xml_childvec ex_c_dup, x = ex_entry ex_list_plain (ex_leaf 42 "k") "a" := by
    intro x hx
    simp only [ex_c_dup, xml_childvec, List.mem_cons, List.mem_singleton, List.not_mem_nil,
      or_false, or_self] at hx
    exact hx
  have hdup : dup_run ex_list_plain (fun a b => a = b) (xml_childvec ex_c_dup) := by
    refine ⟨?_, ?_, Or.inr ⟨rfl, by decide, by decide, by decide, fun _ => ⟨?_, ?_⟩⟩⟩
    · intro x hx _
      rw [hmem x hx]
      decide
    · intro x hx _
      rw [hmem x hx]
      exact ⟨rfl, by decide⟩
    · intro k1 k2 h _
      exact h
    · unfold sorted_by
      decide
  have hflat : ∀ e ∈ xml_childvec ex_c_dup, is_elmnt e = true → flat_entry e := by
    intro e he _
    rw [hmem e he]
    intro ch hch _
    simp only [ex_entry, xml_childvec, List.mem_singleton] at hch
    subst hch
    refine ⟨fun yc hyc => ?_, fun g hg => ?_⟩
    · have : yc = ex_leaf 42 "k" := by
        simp only [ex_elem, xml_spec, Option.some.injEq] at hyc
        exact hyc.symm
      subst this
      rfl
    · simp only [ex_elem, xml_childvec, List.mem_singleton] at hg
      subst hg
      rfl
  have hthm := duplicate_remove_keep_last ex_none ex_list_plain (fun a b => a = b) ex_c_dup hdup
  refine ⟨hdup, ?_, ?_⟩
  · rw [hthm.1]; rfl
  · rw [hthm.2 hflat]; rfl

/-! ## Defaults: the elements that are created -/

theorem default_ext_refl (P : cxobj → Prop) (names : List String) (cs : List cxobj) :
    default_ext P names cs cs :=
  ⟨fun _ h => h, fun _ h => Or.inl h⟩

theorem default_ext_trans {P : cxobj → Prop} {n1 n2 names : List String}
    {cs cs1 cs2 : List cxobj}
    (h1 : default_ext P n1 cs cs1) (h2 : default_ext P n2 cs1 cs2)
    (hn1 : ∀ a ∈ n1, a ∈ names) (hn2 : ∀ a ∈ n2, a ∈ names) : default_ext P names cs cs2 := by
  refine ⟨fun x hx => h2.1 x (h1.1 x hx), fun x hx => ?_⟩
  rcases h2.2 x hx with h | ⟨hs, hn, hno⟩
  · rcases h1.2 x h with h | ⟨hs, hn, hno⟩
    · exact Or.inl h
    · exact Or.inr ⟨hs, hn1 _ hn, hno⟩
  · exact Or.inr ⟨hs, hn2 _ hn, fun x0 hx0 => hno x0 (h1.1 x0 hx0)⟩

theorem default_ext_mono {P : cxobj → Prop} {n1 names : List String} {cs cs1 : List cxobj}
    (h1 : default_ext P n1 cs cs1) (hn1 : ∀ a ∈ n1, a ∈ names) : default_ext P names cs cs1 :=
  default_ext_trans h1 (default_ext_refl P [] cs1) hn1 (fun _ h => by cases h)

theorem xml_find_type_elmnt_none (xt : cxobj) (name : String)
    (hxt : xml_type xt = .CX_ELMNT) (h : (xml_find_type_elmnt xt name).isNone = true) :
    ∀ x0 ∈ xml_childvec xt, ¬(is_elmnt x0 = true ∧ xml_name x0 = name) := by
  unfold xml_find_type_elmnt at h
  simp only [hxt, bne_self_eq_false, Bool.false_eq_true, if_false, Option.isNone_iff_eq_none,
    List.find?_eq_none] at h
  intro x0 hx0 ⟨h1, h2⟩
  exact h x0 hx0 (by simp [h1, h2])

theorem xml_type_childvec_set (x : cxobj) (cs : List cxobj) :
    xml_type (xml_childvec_set x cs) = xml_type x := by
  cases x; rfl

theorem xml_default_create1_spec (env : DefaultsEnv) (y : yang_stmt) (xt xc : cxobj)
    (h : xml_default_create1 env y xt = some xc) :
    xml_type xc = .CX_ELMNT ∧ xml_name xc = yang_argument_get y ∧ xml_spec xc = some y ∧
    xml_flags xc = 0 ∧ ∀ ch ∈ xml_childvec xc, xml_type ch = .CX_ATTR := by
  unfold xml_default_create1 at h
  split at h
  · injection h with h; subst h
    exact ⟨rfl, rfl, rfl, rfl, fun _ hch => by cases hch⟩
  · split at h
    · cases h
    · injection h with h; subst h
      exact ⟨rfl, rfl, rfl, rfl, fun _ hch => by cases hch⟩
    · injection h with h; subst h
      refine ⟨rfl, rfl, rfl, rfl, fun ch hch => ?_⟩
      simp only [xml_childvec, List.mem_singleton] at hch
      subst hch
      rfl

theorem is_elmnt_of_attr (x : cxobj) (h : xml_type x = .CX_ATTR) : is_elmnt x = false := by
  unfold is_elmnt; rw [h]; rfl

theorem xml_flag_zero (x : cxobj) (flag : Nat) (h : xml_flags x = 0) : xml_flag x flag = 0 := by
  unfold xml_flag
  rw [h]
  exact Nat.zero_and flag

theorem xml_body_addsub_body (x : cxobj) (f : Nat) (s : String)
    (ht : xml_type x = .CX_ELMNT) (hch : ∀ ch ∈ xml_childvec x, xml_type ch = .CX_ATTR) :
    xml_body (xml_addsub (xml_flag_set x f) (.mk "body" .CX_BODY 0 none (some s) [])) =
      some s := by
  cases x with
  | mk n t f0 sp v cs =>
    have e1 : xml_type (xml_addsub (xml_flag_set (.mk n t f0 sp v cs) f)
        (.mk "body" .CX_BODY 0 none (some s) [])) = .CX_ELMNT := ht
    have e2 : xml_childvec (xml_addsub (xml_flag_set (.mk n t f0 sp v cs) f)
        (.mk "body" .CX_BODY 0 none (some s) [])) =
        cs ++ [.mk "body" .CX_BODY 0 none (some s) []] := rfl
    have e3 : cs.find? (fun xb => xml_type xb == .CX_BODY) = none := by
      rw [List.find?_eq_none]
      intro x hx
      rw [hch x hx]
      decide
    unfold xml_body
    rw [e1, e2]
    simp only [bne_self_eq_false, Bool.false_eq_true, if_false]
    rw [List.find?_append, e3]
    rfl

theorem xml_default_create_spec (env : DefaultsEnv) (y : yang_stmt) (xt xc : cxobj)
    (h : xml_default_create env y xt = some xc) :
    is_elmnt xc = true ∧ xml_name xc = yang_argument_get y ∧ xml_spec xc = some y ∧
    xml_flag xc XML_FLAG_DEFAULT = XML_FLAG_DEFAULT ∧
    (∀ ch ∈ xml_childvec xc, is_elmnt ch = false) ∧
    ∃ cv, yang_cv_get y = some cv ∧ xml_body xc = some cv.var_string := by
  unfold xml_default_create at h
  cases h1 : xml_default_create1 env y xt with
  | none => rw [h1] at h; cases h
  | some xc0 =>
    rw [h1] at h
    obtain ⟨ht, hn, hs, hf, hch⟩ := xml_default_create1_spec env y xt xc0 h1
    cases hcv : yang_cv_get y with
    | none => rw [hcv] at h; cases h
    | some cv =>
      rw [hcv] at h
      simp only [Option.some.injEq] at h
      subst h
      refine ⟨?_, ?_, ?_, ?_, ?_, cv, rfl, xml_body_addsub_body xc0 _ _ ht hch⟩
      · cases xc0; exact (by simpa [is_elmnt, xml_addsub, xml_flag_set, xml_childvec_set,
          xml_type] using ht)
      · cases xc0; exact hn
      · cases xc0; exact hs
      · have : xml_flag (xml_addsub (xml_flag_set xc0 XML_FLAG_DEFAULT)
            (.mk "body" .CX_BODY 0 none (some cv.var_string) [])) XML_FLAG_DEFAULT =
            xml_flag (xml_flag_set xc0 XML_FLAG_DEFAULT) XML_FLAG_DEFAULT := by
          cases xc0; rfl
        rw [this, xml_flag_set_flag]
      · intro ch hc
        have e2 : xml_childvec (xml_addsub (xml_flag_set xc0 XML_FLAG_DEFAULT)
            (.mk "body" .CX_BODY 0 none (some cv.var_string) [])) =
            xml_childvec xc0 ++ [.mk "body" .CX_BODY 0 none (some cv.var_string) []] := by
          cases xc0; rfl
        rw [e2] at hc
        rcases List.mem_append.1 hc with hc | hc
        · exact is_elmnt_of_attr ch (hch ch hc)
        · obtain rfl := List.mem_singleton.1 hc
          rfl

/-! ## Defaults: what xml_default adds -/

theorem default_inv_refl (P : cxobj → Prop) (names : List String) (xt : cxobj) :
    default_inv P names xt xt :=
  ⟨(xml_childvec_set_self xt).symm, default_ext_refl P names _⟩

theorem default_inv_trans {P : cxobj → Prop} {n1 n2 names : List String} {xt xt1 xt2 : cxobj}
    (h1 : default_inv P n1 xt xt1) (h2 : default_inv P n2 xt1 xt2)
    (hn1 : ∀ a ∈ n1, a ∈ names) (hn2 : ∀ a ∈ n2, a ∈ names) : default_inv P names xt xt2 := by
  refine ⟨?_, default_ext_trans h1.2 h2.2 hn1 hn2⟩
  have e1 := h1.1
  have e2 := h2.1
  rw [e2]
  conv_lhs => rw [e1]
  rw [xml_childvec_set_set, xml_childvec_set_get]

theorem default_inv_mono {P : cxobj → Prop} {n1 names : List String} {xt xt1 : cxobj}
    (h1 : default_inv P n1 xt xt1) (hn1 : ∀ a ∈ n1, a ∈ names) : default_inv P names xt xt1 :=
  ⟨h1.1, default_ext_mono h1.2 hn1⟩

theorem default_inv_type {P : cxobj → Prop} {names : List String} {xt xt1 : cxobj}
    (h : default_inv P names xt xt1) : xml_type xt1 = xml_type xt := by
  rw [h.1, xml_type_childvec_set]

/-- The new leaf sorted into the children. -/
theorem default_inv_leaf (env : DefaultsEnv) (hperm : ∀ l, (env.xml_sort l).Perm l)
    (P : cxobj → Prop) (y : yang_stmt) (xt xc : cxobj) (hxt : xml_type xt = .CX_ELMNT)
    (hfind : (xml_find_type_elmnt xt (yang_argument_get y)).isNone = true)
    (hn : xml_name xc = yang_argument_get y) (hP : P xc) :
    default_inv P [yang_argument_get y] xt
      (xml_childvec_set xt (env.xml_sort (xml_childvec xt ++ [xc]))) := by
  refine ⟨by rw [xml_childvec_set_get], ?_⟩
  rw [xml_childvec_set_get]
  refine ⟨fun x hx => ((hperm _).mem_iff).2 (List.mem_append_left _ hx), fun x hx => ?_⟩
  have hx1 := ((hperm _).mem_iff).1 hx
  rcases List.mem_append.1 hx1 with hx1 | hx1
  · exact Or.inl hx1
  · obtain rfl := List.mem_singleton.1 hx1
    right
    refine ⟨hP, by rw [hn]; exact List.mem_singleton.2 rfl, ?_⟩
    rw [hn]
    exact xml_find_type_elmnt_none xt _ hxt hfind

/-- The new container, filled and sorted into the children. -/
theorem default_inv_container (env : DefaultsEnv) (hperm : ∀ l, (env.xml_sort l).Perm l)
    (P : cxobj → Prop) (y : yang_stmt) (xt xc xc1 : cxobj) (hxt : xml_type xt = .CX_ELMNT)
    (hfind : (xml_find_type_elmnt xt (yang_argument_get y)).isNone = true)
    (hc : xml_default_create1 env y xt = some xc)
    (hn1 : xml_name xc1 = yang_argument_get y) (hP : P xc1) :
    default_inv P [yang_argument_get y] xt
      (xml_childvec_set xt (xml_replace_elmnt (yang_argument_get y) xc1
        (env.xml_sort (xml_childvec xt ++ [xc])))) := by
  obtain ⟨ht, hn, hs, hf, hch⟩ := xml_default_create1_spec env y xt xc hc
  have hno := xml_find_type_elmnt_none xt _ hxt hfind
  refine ⟨by rw [xml_childvec_set_get], ?_⟩
  rw [xml_childvec_set_get]
  unfold xml_replace_elmnt
  refine ⟨fun x hx => ?_, fun x hx => ?_⟩
  · rw [List.mem_map]
    refine ⟨x, ((hperm _).mem_iff).2 (List.mem_append_left _ hx), ?_⟩
    have := hno x hx
    by_cases hc1 : (is_elmnt x && xml_name x == yang_argument_get y) = true
    · simp only [Bool.and_eq_true, beq_iff_eq] at hc1
      exact absurd hc1 this
    · rw [if_neg hc1]
  · rw [List.mem_map] at hx
    obtain ⟨a, ha, hfa⟩ := hx
    by_cases hc1 : (is_elmnt a && xml_name a == yang_argument_get y) = true
    · rw [if_pos hc1] at hfa
      subst hfa
      right
      refine ⟨hP, by rw [hn1]; exact List.mem_singleton.2 rfl, ?_⟩
      rw [hn1]
      exact hno
    · rw [if_neg hc1] at hfa
      subst hfa
      have ha1 := ((hperm _).mem_iff).1 ha
      rcases List.mem_append.1 ha1 with ha1 | ha1
      · exact Or.inl ha1
      · obtain rfl := List.mem_singleton.1 ha1
        exfalso
        apply hc1
        have : is_elmnt a = true := by unfold is_elmnt; rw [ht]; rfl
        simp [this, hn]

/-- A created container after the loop over the child statements: the fields that the
loop leaves as they are. -/
theorem default_filled_fields {P : cxobj → Prop} (env : DefaultsEnv) (y : yang_stmt)
    (xt xc xc1 : cxobj) (names : List String)
    (hc : xml_default_create1 env y xt = some xc) (hfill : default_inv P names xc xc1) :
    is_elmnt xc1 = true ∧ xml_spec xc1 = some y ∧ xml_flags xc1 = 0 ∧
    xml_name xc1 = yang_argument_get y ∧
    ∀ ch ∈ xml_childvec xc1, is_elmnt ch = true → P ch := by
  obtain ⟨ht, hn, hs, hf, hch⟩ := xml_default_create1_spec env y xt xc hc
  have e := hfill.1
  refine ⟨?_, ?_, ?_, ?_, ?_⟩
  · rw [e]; cases xc; exact (by simpa [is_elmnt, xml_childvec_set, xml_type] using ht)
  · rw [e]; cases xc; exact hs
  · rw [e]; cases xc; exact hf
  · rw [e]; cases xc; exact hn
  · intro ch hch1 hche
    rcases hfill.2.2 ch hch1 with h | ⟨h, _⟩
    · rw [is_elmnt_of_attr ch (hch ch h)] at hche; cases hche
    · exact h

theorem made_names_each_cons (y : yang_stmt) (rest : List yang_stmt) :
    made_names_each (y :: rest) = made_names y ++ made_names_each rest := by
  rw [made_names_each]

theorem made_names_cases_cons (c : yang_stmt) (rest : List yang_stmt) :
    made_names_cases (c :: rest) = made_names_default c ++ made_names_cases rest := by
  rw [made_names_cases]

mutual
/-- `xml_default` only adds children to `xt`: synthesised elements with new names. -/
theorem xml_default_inv (env : DefaultsEnv) (state : Bool)
    (hperm : ∀ l, (env.xml_sort l).Perm l) :
    ∀ (y : yang_stmt) (xt xt1 : cxobj), xml_type xt = .CX_ELMNT →
      xml_default env state y xt = some xt1 → default_inv synthesised (made_names_default y) xt xt1
  | .mk a k arg cv cvk ys, xt, xt1, hxt, h => by
    rw [xml_default] at h
    rw [made_names_default]
    split at h
    · next hk =>
      rw [if_pos hk]
      exact xml_default_each_inv env state hperm ys xt xt1 hxt h
    · injection h with h
      subst h
      exact default_inv_refl _ _ _
theorem xml_default_each_inv (env : DefaultsEnv) (state : Bool)
    (hperm : ∀ l, (env.xml_sort l).Perm l) :
    ∀ (ys : List yang_stmt) (xt xt1 : cxobj), xml_type xt = .CX_ELMNT →
      xml_default_each env state ys xt = some xt1 → default_inv synthesised (made_names_each ys) xt xt1
  | [], xt, xt1, _, h => by
    rw [xml_default_each] at h
    injection h with h
    subst h
    exact default_inv_refl _ _ _
  | yc :: rest, xt, xt1, hxt, h => by
    rw [xml_default_each] at h
    rw [made_names_each_cons]
    cases hc : xml_default_child env state yc xt with
    | none => rw [hc] at h; cases h
    | some xt2 =>
      rw [hc] at h
      have h1 := xml_default_child_inv env state hperm yc xt xt2 hxt hc
      have h2 := xml_default_each_inv env state hperm rest xt2 xt1
        (by rw [default_inv_type h1]; exact hxt) h
      exact default_inv_trans h1 h2 (fun a ha => List.mem_append_left _ ha)
        (fun a ha => List.mem_append_right _ ha)
theorem xml_default_child_inv (env : DefaultsEnv) (state : Bool)
    (hperm : ∀ l, (env.xml_sort l).Perm l) :
    ∀ (yc : yang_stmt) (xt xt1 : cxobj), xml_type xt = .CX_ELMNT →
      xml_default_child env state yc xt = some xt1 → default_inv synthesised (made_names yc) xt xt1
  | .mk a k arg cv cvk ycs, xt, xt1, hxt, h => by
    unfold xml_default_child at h
    rw [made_names]
    split at h
    · injection h with h; subst h; exact default_inv_refl _ _ _
    split at h
    · injection h with h; subst h; exact default_inv_refl _ _ _
    split at h
    · -- leaf
      next hk =>
      have hk1 : k = .Y_LEAF := by simpa using hk
      subst hk1
      split at h
      · cases h
      · split at h
        · split at h
          · cases h
          · split at h
            · injection h with h; subst h; exact default_inv_refl _ _ _
            · split at h
              · next hfind =>
                split at h
                · cases h
                · next xc hcr =>
                  injection h with h
                  subst h
                  obtain ⟨he, hn, hs, hf, _, _⟩ := xml_default_create_spec env _ xt xc hcr
                  exact default_inv_leaf env hperm _ (.mk a .Y_LEAF arg _ cvk ycs) xt xc hxt
                    hfind hn (synthesised.leaf xc _ he hs rfl hf)
              · injection h with h; subst h; exact default_inv_refl _ _ _
        · injection h with h; subst h; exact default_inv_refl _ _ _
    split at h
    · -- container
      next hnl hk =>
      have hk1 : k = .Y_CONTAINER := by simpa using hk
      subst hk1
      split at h
      · split at h
        · cases h
        · split at h
          · injection h with h; subst h; exact default_inv_refl _ _ _
          · split at h
            · next hfind =>
              split at h
              · cases h
              · injection h with h; subst h; exact default_inv_refl _ _ _
              · split at h
                · cases h
                · next xc hcr =>
                  split at h
                  · cases h
                  · next xc1 hfill =>
                    injection h with h
                    subst h
                    have hxc := xml_default_create1_spec env _ xt xc hcr
                    have hin := xml_default_each_inv env state hperm ycs xc xc1 hxc.1 hfill
                    obtain ⟨he1, hs1, hf1, hn1, hch1⟩ := default_filled_fields env _ xt xc xc1 _
                      hcr hin
                    exact default_inv_container env hperm _ (.mk a .Y_CONTAINER arg cv cvk ycs)
                      xt xc xc1 hxt hfind hcr hn1
                      (synthesised.container xc1 _ he1 hs1 rfl (xml_flag_zero xc1 _ hf1) hch1)
            · injection h with h; subst h; exact default_inv_refl _ _ _
      · injection h with h; subst h; exact default_inv_refl _ _ _
    split at h
    · -- choice
      next hnl hnc hk =>
      have hk1 : k = .Y_CHOICE := by simpa using hk
      subst hk1
      simp only [show (rfc_6020.Y_CHOICE == rfc_6020.Y_LEAF ||
        rfc_6020.Y_CHOICE == rfc_6020.Y_CONTAINER) = false from rfl, Bool.false_eq_true,
        if_false, beq_self_eq_true, if_true]
      split at h
      · injection h with h; subst h; exact default_inv_refl _ _ _
      · next yca _ =>
        exact xml_default_case_inv env state hperm (yang_addr yca) ycs xt xt1 hxt h
    · injection h with h; subst h; exact default_inv_refl _ _ _
theorem xml_default_case_inv (env : DefaultsEnv) (state : Bool)
    (hperm : ∀ l, (env.xml_sort l).Perm l) (addr : Nat) :
    ∀ (ys : List yang_stmt) (xt xt1 : cxobj), xml_type xt = .CX_ELMNT →
      xml_default_case env state addr ys xt = some xt1 →
      default_inv synthesised (made_names_cases ys) xt xt1
  | [], xt, xt1, _, h => by
    rw [xml_default_case] at h
    injection h with h
    subst h
    exact default_inv_refl _ _ _
  | y :: rest, xt, xt1, hxt, h => by
    rw [xml_default_case] at h
    rw [made_names_cases_cons]
    split at h
    · exact default_inv_mono (xml_default_inv env state hperm y xt xt1 hxt h)
        (fun a ha => List.mem_append_left _ ha)
    · exact default_inv_mono (xml_default_case_inv env state hperm addr rest xt xt1 hxt h)
        (fun a ha => List.mem_append_right _ ha)
end

/-- C19 (as stated) fails: for the schema `container a { container b { leaf x { default 7 }
} }` and the empty parent `<root/>`, `xml_default` creates `a`, `b` and `x`; `x` carries
`XML_FLAG_DEFAULT`, the containers `a` and `b` do not. -/
theorem default_nodes_flagged_counterexample :
    ((xml_default ex_env false ex_root7 ex_root_empty).bind fun t =>
      (xml_path t ["a"]).map fun n => xml_flag n XML_FLAG_DEFAULT) = some 0 ∧
    ((xml_default ex_env false ex_root7 ex_root_empty).bind fun t =>
      (xml_path t ["a", "b"]).map fun n => xml_flag n XML_FLAG_DEFAULT) = some 0 ∧
    ((xml_default ex_env false ex_root7 ex_root_empty).bind fun t =>
      (xml_path t ["a", "b", "x"]).map fun n => xml_flag n XML_FLAG_DEFAULT) =
      some XML_FLAG_DEFAULT := by
  decide

/-- C19 (amended): when `xml_default(yt, xt, state)` returns 0 it has only added children
to `xt`, and every child it added is a synthesised node: a leaf element that carries
`XML_FLAG_DEFAULT`, or a container element that does not carry the flag and whose elements
are synthesised nodes in turn. (`xml_sort` is assumed to permute the children.) -/
theorem default_nodes_flagged (env : DefaultsEnv) (state : Bool)
    (hperm : ∀ l, (env.xml_sort l).Perm l) (yt : yang_stmt) (xt xt1 : cxobj)
    (hxt : xml_type xt = .CX_ELMNT) (h : xml_default env state yt xt = some xt1) :
    xt1 = xml_childvec_set xt (xml_childvec xt1) ∧
    (∀ x ∈ xml_childvec xt, x ∈ xml_childvec xt1) ∧
    ∀ x ∈ xml_childvec xt1, x ∈ xml_childvec xt ∨ synthesised x := by
  have hinv := xml_default_inv env state hperm yt xt xt1 hxt h
  refine ⟨hinv.1, hinv.2.1, fun x hx => ?_⟩
  rcases hinv.2.2 x hx with h1 | ⟨h1, _⟩
  · exact Or.inl h1
  · exact Or.inr h1

theorem default_nodes_flagged_witness :
    xml_default ex_env false ex_root7 ex_root_empty = some ex_root_filled ∧
    ∀ x ∈ xml_childvec ex_root_filled, x ∈ xml_childvec ex_root_empty ∨ synthesised x :=
  ⟨rfl, (default_nodes_flagged ex_env false (fun l => List.Perm.refl l) ex_root7 ex_root_empty
    ex_root_filled rfl rfl).2.2⟩

/-! ## Defaults: the pass for one child statement -/

theorem guard_pass_iff (env : DefaultsEnv) (state : Bool) (y : yang_stmt) :
    guard_pass env state y = true ↔
      (!state && !yang_config y) = false ∧ (state && env.yang_config_ancestor y) = false := by
  unfold guard_pass
  cases (!state && !yang_config y) <;> cases (state && env.yang_config_ancestor y) <;> simp

theorem xml_default_child_other (env : DefaultsEnv) (state : Bool) (a : Nat) (k : rfc_6020)
    (arg : String) (cv : Option cg_var) (cvk : List String) (ycs : List yang_stmt)
    (xt : cxobj) (h1 : k ≠ .Y_LEAF) (h2 : k ≠ .Y_CONTAINER) (h3 : k ≠ .Y_CHOICE) :
    xml_default_child env state (.mk a k arg cv cvk ycs) xt = some xt := by
  unfold xml_default_child
  split
  · rfl
  split
  · rfl
  simp [h1, h2, h3]

theorem xml_default_child_leaf_unset (env : DefaultsEnv) (state : Bool) (a : Nat)
    (arg : String) (cv1 : cg_var) (cvk : List String) (ycs : List yang_stmt) (xt : cxobj)
    (hu : cv1.v_unset = true) :
    xml_default_child env state (.mk a .Y_LEAF arg (some cv1) cvk ycs) xt = some xt := by
  unfold xml_default_child
  split
  · rfl
  split
  · rfl
  simp [hu]

theorem xml_default_child_leaf_create (env : DefaultsEnv) (state : Bool) (a : Nat)
    (arg : String) (cv : Option cg_var) (cvk : List String) (ycs : List yang_stmt)
    (xt xt1 : cxobj) (hg : guard_pass env state (.mk a .Y_LEAF arg cv cvk ycs) = true)
    (hu : cv_flag_unset cv = false) (hw : when_pass env (.mk a .Y_LEAF arg cv cvk ycs))
    (hfind : (xml_find_type_elmnt xt arg).isNone = true)
    (h : xml_default_child env state (.mk a .Y_LEAF arg cv cvk ycs) xt = some xt1) :
    ∃ xc, xml_default_create env (.mk a .Y_LEAF arg cv cvk ycs) xt = some xc ∧
      xt1 = xml_childvec_set xt (env.xml_sort (xml_childvec xt ++ [xc])) := by
  obtain ⟨hg1, hg2⟩ := (guard_pass_iff env state _).1 hg
  unfold xml_default_child at h
  rw [if_neg (by rw [hg1]; simp), if_neg (by rw [hg2]; simp)] at h
  simp only [beq_self_eq_true, if_true] at h
  cases cv with
  | none => cases h
  | some cv1 =>
    have hu1 : cv1.v_unset = false := hu
    simp only [hu1, Bool.not_false, if_true] at h
    cases hwh : env.yang_check_when_xpath xt (.mk a .Y_LEAF arg (some cv1) cvk ycs) with
    | none => rw [hwh] at h; cases h
    | some p =>
      obtain ⟨hit, nr⟩ := p
      rw [hwh] at h
      simp only [hw xt hit nr hwh, Bool.false_eq_true, if_false, hfind, if_true] at h
      cases hc : xml_default_create env (.mk a .Y_LEAF arg (some cv1) cvk ycs) xt with
      | none => rw [hc] at h; cases h
      | some xc =>
        rw [hc] at h
        injection h with h
        exact ⟨xc, rfl, h.symm⟩

theorem xml_default_child_presence (env : DefaultsEnv) (state : Bool) (a : Nat)
    (arg : String) (cv : Option cg_var) (cvk : List String) (ycs : List yang_stmt)
    (xt : cxobj)
    (hp : (yang_find (.mk a .Y_CONTAINER arg cv cvk ycs) .Y_PRESENCE none).isNone = false) :
    xml_default_child env state (.mk a .Y_CONTAINER arg cv cvk ycs) xt = some xt := by
  unfold xml_default_child
  split
  · rfl
  split
  · rfl
  simp [hp]

theorem xml_default_child_try_false (env : DefaultsEnv) (state : Bool) (a : Nat)
    (arg : String) (cv : Option cg_var) (cvk : List String) (ycs : List yang_stmt)
    (xt xt1 : cxobj)
    (ht : xml_nopresence_try env state (.mk a .Y_CONTAINER arg cv cvk ycs) = some false)
    (h : xml_default_child env state (.mk a .Y_CONTAINER arg cv cvk ycs) xt = some xt1) :
    xt1 = xt := by
  unfold xml_default_child at h
  split at h
  · injection h with h; exact h.symm
  split at h
  · injection h with h; exact h.symm
  simp only [show (rfc_6020.Y_CONTAINER == rfc_6020.Y_LEAF) = false from rfl,
    Bool.false_eq_true, if_false, beq_self_eq_true, if_true, ht] at h
  split at h
  · split at h
    · cases h
    · split at h
      · injection h with h; exact h.symm
      · split at h
        · injection h with h; exact h.symm
        · injection h with h; exact h.symm
  · injection h with h; exact h.symm

theorem xml_default_child_container_create (env : DefaultsEnv) (state : Bool) (a : Nat)
    (arg : String) (cv : Option cg_var) (cvk : List String) (ycs : List yang_stmt)
    (xt xt1 : cxobj) (hg : guard_pass env state (.mk a .Y_CONTAINER arg cv cvk ycs) = true)
    (hp : (yang_find (.mk a .Y_CONTAINER arg cv cvk ycs) .Y_PRESENCE none).isNone = true)
    (hw : when_pass env (.mk a .Y_CONTAINER arg cv cvk ycs))
    (hfind : (xml_find_type_elmnt xt arg).isNone = true)
    (ht : xml_nopresence_try env state (.mk a .Y_CONTAINER arg cv cvk ycs) = some true)
    (h : xml_default_child env state (.mk a .Y_CONTAINER arg cv cvk ycs) xt = some xt1) :
    ∃ xc xc1, xml_default_create1 env (.mk a .Y_CONTAINER arg cv cvk ycs) xt = some xc ∧
      xml_default_each env state ycs xc = some xc1 ∧
      xt1 = xml_childvec_set xt
        (xml_replace_elmnt arg xc1 (env.xml_sort (xml_childvec xt ++ [xc]))) := by
  obtain ⟨hg1, hg2⟩ := (guard_pass_iff env state _).1 hg
  unfold xml_default_child at h
  rw [if_neg (by rw [hg1]; simp), if_neg (by rw [hg2]; simp)] at h
  simp only [show (rfc_6020.Y_CONTAINER == rfc_6020.Y_LEAF) = false from rfl,
    Bool.false_eq_true, if_false, beq_self_eq_true, if_true, hp, ht] at h
  cases hwh : env.yang_check_when_xpath xt (.mk a .Y_CONTAINER arg cv cvk ycs) with
  | none => rw [hwh] at h; cases h
  | some p =>
    obtain ⟨hit, nr⟩ := p
    rw [hwh] at h
    simp only [hw xt hit nr hwh, Bool.false_eq_true, if_false, hfind, if_true] at h
    cases hc : xml_default_create1 env (.mk a .Y_CONTAINER arg cv cvk ycs) xt with
    | none => rw [hc] at h; cases h
    | some xc =>
      rw [hc] at h
      simp only at h
      cases hf : xml_default_each env state ycs xc with
      | none => rw [hf] at h; cases h
      | some xc1 =>
        rw [hf] at h
        injection h with h
        exact ⟨xc, xc1, rfl, hf, h.symm⟩

theorem xml_find_type_elmnt_no_elmnt (xt : cxobj) (name : String)
    (h : ∀ ch ∈ xml_childvec xt, is_elmnt ch = false) :
    (xml_find_type_elmnt xt name).isNone = true := by
  unfold xml_find_type_elmnt
  split
  · rfl
  · rw [Option.isNone_iff_eq_none, List.find?_eq_none]
    intro x hx
    simp [h x hx]

/-- A container for which `xml_nopresence_try` answers 1 is not left empty: the loop of
`xml_default` over its child statements, started on an element without element children,
leaves an element child. -/
theorem default_each_nonempty (env : DefaultsEnv) (state : Bool)
    (hperm : ∀ l, (env.xml_sort l).Perm l) :
    ∀ (ys : List yang_stmt) (xt xt1 : cxobj), xml_type xt = .CX_ELMNT →
      (∀ ch ∈ xml_childvec xt, is_elmnt ch = false) → level_plain env state ys →
      xml_nopresence_try_each env state false ys = some true →
      xml_default_each env state ys xt = some xt1 →
      ∃ x ∈ xml_childvec xt1, is_elmnt x = true
  | [], _, _, _, _, _, htry, _ => by
    rw [xml_nopresence_try_each] at htry
    cases htry
  | y :: rest, xt, xt1, hxt, hno, hlev, htry, h => by
    have ih := default_each_nonempty env state hperm rest xt xt1 hxt hno
      (fun y hy => hlev y (List.mem_cons_of_mem _ hy))
    obtain ⟨hnc, hg, hw⟩ := hlev y (List.mem_cons_self _ _)
    rw [xml_default_each] at h
    rw [xml_nopresence_try_each] at htry
    cases hc : xml_default_child env state y xt with
    | none => rw [hc] at h; cases h
    | some xt2 =>
      rw [hc] at h
      have hinv := xml_default_child_inv env state hperm y xt xt2 hxt hc
      have hxt2 : xml_type xt2 = .CX_ELMNT := by rw [default_inv_type hinv]; exact hxt
      have hkeep := (xml_default_each_inv env state hperm rest xt2 xt1 hxt2 h).2.1
      cases y with
      | mk a k arg cv cvk ycs =>
        simp only [yang_keyword_get, yang_cv_get] at htry hnc
        by_cases hk1 : k = .Y_LEAF
        · subst hk1
          simp only [beq_self_eq_true, if_true] at htry
          by_cases hu : cv_flag_unset cv = false
          · obtain ⟨xc, hcr, e⟩ := xml_default_child_leaf_create env state a arg cv cvk ycs xt
              xt2 hg hu hw (xml_find_type_elmnt_no_elmnt xt arg hno) hc
            obtain ⟨he, _⟩ := xml_default_create_spec env _ xt xc hcr
            refine ⟨xc, hkeep xc ?_, he⟩
            rw [e, xml_childvec_set_get]
            exact ((hperm _).mem_iff).2 (by simp)
          · have hu1 : cv_flag_unset cv = true := by simpa using hu
            simp only [hu1, Bool.not_true, Bool.false_eq_true, if_false] at htry
            cases cv with
            | none => cases hu1
            | some cv1 =>
              rw [xml_default_child_leaf_unset env state a arg cv1 cvk ycs xt hu1] at hc
              injection hc with hc
              subst hc
              exact ih htry h
        · by_cases hk2 : k = .Y_CONTAINER
          · subst hk2
            simp only [show (rfc_6020.Y_CONTAINER == rfc_6020.Y_LEAF) = false from rfl,
              Bool.false_eq_true, if_false, beq_self_eq_true, if_true] at htry
            by_cases hp : (yang_find (.mk a .Y_CONTAINER arg cv cvk ycs) .Y_PRESENCE none).isNone
                = true
            · rw [if_pos hp] at htry
              cases ht : xml_nopresence_try env state (.mk a .Y_CONTAINER arg cv cvk ycs) with
              | none => rw [ht] at htry; cases htry
              | some b =>
                rw [ht] at htry
                cases b with
                | true =>
                  obtain ⟨xc, xc1, hcr, hfill, e⟩ := xml_default_child_container_create env
                    state a arg cv cvk ycs xt xt2 hg hp hw
                    (xml_find_type_elmnt_no_elmnt xt arg hno) ht hc
                  have hxc := xml_default_create1_spec env _ xt xc hcr
                  have hin := xml_default_each_inv env state hperm ycs xc xc1 hxc.1 hfill
                  obtain ⟨he1, _⟩ := default_filled_fields env _ xt xc xc1 _ hcr hin
                  refine ⟨xc1, hkeep xc1 ?_, he1⟩
                  rw [e, xml_childvec_set_get]
                  unfold xml_replace_elmnt
                  rw [List.mem_map]
                  refine ⟨xc, ((hperm _).mem_iff).2 (by simp), ?_⟩
                  have : is_elmnt xc = true := by unfold is_elmnt; rw [hxc.1]; rfl
                  simp [this, hxc.2.1, yang_argument_get]
                | false =>
                  simp only at htry
                  have := xml_default_child_try_false env state a arg cv cvk ycs xt xt2 ht hc
                  subst this
                  exact ih htry h
            · have hp1 : (yang_find (.mk a .Y_CONTAINER arg cv cvk ycs) .Y_PRESENCE
                  none).isNone = false := by
                cases hq : (yang_find (.mk a .Y_CONTAINER arg cv cvk ycs) .Y_PRESENCE
                  none).isNone with
                | true => exact absurd hq hp
                | false => rfl
              rw [if_neg hp] at htry
              rw [xml_default_child_presence env state a arg cv cvk ycs xt hp1] at hc
              injection hc with hc
              subst hc
              exact ih htry h
          · have hk3 : k ≠ .Y_CHOICE := hnc
            simp only [beq_iff_eq, hk1, hk2, hk3, if_false] at htry
            rw [xml_default_child_other env state a k arg cv cvk ycs xt hk1 hk2 hk3] at hc
            injection hc with hc
            subst hc
            exact ih htry h

/-! ## Defaults: containers are not left empty -/

theorem plain_defaults_level {env : DefaultsEnv} {state : Bool} {ys : List yang_stmt}
    (h : plain_defaults env state ys) : level_plain env state ys := by
  cases h with
  | mk _ h1 _ => exact h1

theorem plain_defaults_children {env : DefaultsEnv} {state : Bool} {ys : List yang_stmt}
    (h : plain_defaults env state ys) :
    ∀ y ∈ ys, yang_keyword_get y = .Y_CONTAINER → yang_find y .Y_PRESENCE none = none →
      plain_defaults env state (yang_children y) := by
  cases h with
  | mk _ _ h2 => exact h2

theorem plain_defaults_tail {env : DefaultsEnv} {state : Bool} {y : yang_stmt}
    {ys : List yang_stmt} (h : plain_defaults env state (y :: ys)) :
    plain_defaults env state ys :=
  plain_defaults.mk ys
    (fun y1 hy => plain_defaults_level h y1 (List.mem_cons_of_mem _ hy))
    (fun y1 hy => plain_defaults_children h y1 (List.mem_cons_of_mem _ hy))

theorem default_filled_has_leaf : ∀ (x : cxobj), default_filled x → has_default_leaf x := by
  intro x h
  induction h with
  | leaf x y he hs hk hf => exact has_default_leaf.at_leaf x y he hs hk hf
  | container x y _ _ _ hne _ ih =>
    obtain ⟨ch, hch, hce⟩ := hne
    exact has_default_leaf.in_child x ch hch (ih ch hch hce)

mutual
/-- Without choices, guards and `when` suppression, the loop of `xml_default` only adds
default leaves and containers that are not empty. -/
theorem xml_default_each_filled (env : DefaultsEnv) (state : Bool)
    (hperm : ∀ l, (env.xml_sort l).Perm l) :
    ∀ (ys : List yang_stmt) (xt xt1 : cxobj), plain_defaults env state ys →
      xml_type xt = .CX_ELMNT → xml_default_each env state ys xt = some xt1 →
      default_inv default_filled (made_names_each ys) xt xt1
  | [], xt, xt1, _, _, h => by
    rw [xml_default_each] at h
    injection h with h
    subst h
    exact default_inv_refl _ _ _
  | yc :: rest, xt, xt1, hpl, hxt, h => by
    rw [xml_default_each] at h
    rw [made_names_each_cons]
    cases hc : xml_default_child env state yc xt with
    | none => rw [hc] at h; cases h
    | some xt2 =>
      rw [hc] at h
      have h1 := xml_default_child_filled env state hperm yc xt xt2
        (plain_defaults_level hpl yc (List.mem_cons_self _ _)).1
        (plain_defaults_children hpl yc (List.mem_cons_self _ _)) hxt hc
      have h2 := xml_default_each_filled env state hperm rest xt2 xt1
        (plain_defaults_tail hpl) (by rw [default_inv_type h1]; exact hxt) h
      exact default_inv_trans h1 h2 (fun a ha => List.mem_append_left _ ha)
        (fun a ha => List.mem_append_right _ ha)
theorem xml_default_child_filled (env : DefaultsEnv) (state : Bool)
    (hperm : ∀ l, (env.xml_sort l).Perm l) :
    ∀ (yc : yang_stmt) (xt xt1 : cxobj), yang_keyword_get yc ≠ .Y_CHOICE →
      (yang_keyword_get yc = .Y_CONTAINER → yang_find yc .Y_PRESENCE none = none →
        plain_defaults env state (yang_children yc)) →
      xml_type xt = .CX_ELMNT → xml_default_child env state yc xt = some xt1 →
      default_inv default_filled (made_names yc) xt xt1
  | .mk a k arg cv cvk ycs, xt, xt1, hnc, hsub, hxt, h => by
    unfold xml_default_child at h
    rw [made_names]
    split at h
    · injection h with h; subst h; exact default_inv_refl _ _ _
    split at h
    · injection h with h; subst h; exact default_inv_refl _ _ _
    split at h
    · -- leaf
      next hk =>
      have hk1 : k = .Y_LEAF := by simpa using hk
      subst hk1
      split at h
      · cases h
      · split at h
        · split at h
          · cases h
          · split at h
            · injection h with h; subst h; exact default_inv_refl _ _ _
            · split at h
              · next hfind =>
                split at h
                · cases h
                · next xc hcr =>
                  injection h with h
                  subst h
                  obtain ⟨he, hn, hs, hf, _, _⟩ := xml_default_create_spec env _ xt xc hcr
                  exact default_inv_leaf env hperm _ (.mk a .Y_LEAF arg _ cvk ycs) xt xc hxt
                    hfind hn (default_filled.leaf xc _ he hs rfl hf)
              · injection h with h; subst h; exact default_inv_refl _ _ _
        · injection h with h; subst h; exact default_inv_refl _ _ _
    split at h
    · -- container
      next hnl hk =>
      have hk1 : k = .Y_CONTAINER := by simpa using hk
      subst hk1
      split at h
      · next hpres =>
        split at h
        · cases h
        · split at h
          · injection h with h; subst h; exact default_inv_refl _ _ _
          · split at h
            · next hfind =>
              split at h
              · cases h
              · injection h with h; subst h; exact default_inv_refl _ _ _
              · next htry =>
                split at h
                · cases h
                · next xc hcr =>
                  split at h
                  · cases h
                  · next xc1 hfill =>
                    injection h with h
                    subst h
                    have hpl : plain_defaults env state ycs :=
                      hsub rfl (Option.isNone_iff_eq_none.1 hpres)
                    have hxc := xml_default_create1_spec env _ xt xc hcr
                    have hin := xml_default_each_filled env state hperm ycs xc xc1 hpl hxc.1
                      hfill
                    obtain ⟨he1, hs1, hf1, hn1, hch1⟩ := default_filled_fields env _ xt xc xc1 _
                      hcr hin
                    have hne := default_each_nonempty env state hperm ycs xc xc1 hxc.1
                      (fun ch hch => is_elmnt_of_attr ch (hxc.2.2.2.2 ch hch))
                      (plain_defaults_level hpl) (by rw [xml_nopresence_try] at htry; exact htry)
                      hfill
                    exact default_inv_container env hperm _ (.mk a .Y_CONTAINER arg cv cvk ycs)
                      xt xc xc1 hxt hfind hcr hn1
                      (default_filled.container xc1 _ he1 hs1 rfl hne hch1)
            · injection h with h; subst h; exact default_inv_refl _ _ _
      · injection h with h; subst h; exact default_inv_refl _ _ _
    split at h
    · next hnl hnc1 hk =>
      have hk1 : k = .Y_CHOICE := by simpa using hk
      exact absurd hk1 hnc
    · injection h with h; subst h; exact default_inv_refl _ _ _
end

/-! ## Defaults: created containers and default leaves -/

/-- C20 (as stated) fails: for the schema `container a { choice ch { default c1; case c1 {
leaf y; } } }` (no default value anywhere) and the parent `<root/>`, `xml_nopresence_try`
answers 1 because the choice has a default case, and `xml_default` creates the container
`a`, which is empty when the call returns. -/
theorem default_container_has_leaf_counterexample :
    xml_nopresence_try ex_env false ex_cont_a_choice = some true ∧
    xml_default ex_env false ex_root_choice
        (.mk "root" .CX_ELMNT 0 (some ex_root_choice) none []) =
      some (.mk "root" .CX_ELMNT 0 (some ex_root_choice) none
        [.mk "a" .CX_ELMNT 0 (some ex_cont_a_choice) none []]) :=
  ⟨rfl, rfl⟩

/-- C20 (amended): if no statement below `yt`, through the non-presence containers, is a
choice, is skipped by the config/state guard or is suppressed by its `when`, then every
child that `xml_default(yt, xt, state)` has added to `xt` when it returns 0 is a default
leaf or a container that is not empty and holds only such nodes, and so has a descendant
leaf flagged `XML_FLAG_DEFAULT`. (`xml_sort` is assumed to permute the children.) -/
theorem default_container_has_leaf (env : DefaultsEnv) (state : Bool)
    (hperm : ∀ l, (env.xml_sort l).Perm l) (yt : yang_stmt) (xt xt1 : cxobj)
    (hplain : plain_defaults env state (yang_children yt))
    (hxt : xml_type xt = .CX_ELMNT) (h : xml_default env state yt xt = some xt1) :
    ∀ x ∈ xml_childvec xt1, x ∈ xml_childvec xt ∨ (default_filled x ∧ has_default_leaf x) := by
  intro x hx
  cases yt with
  | mk a k arg cv cvk ys =>
    rw [xml_default] at h
    split at h
    · have hinv := xml_default_each_filled env state hperm ys xt xt1 hplain hxt h
      rcases hinv.2.2 x hx with h1 | ⟨h1, _⟩
      · exact Or.inl h1
      · exact Or.inr ⟨h1, default_filled_has_leaf x h1⟩
    · injection h with h
      subst h
      exact Or.inl hx

theorem ex_plain7 : plain_defaults ex_env false (yang_children ex_root7) := by
  have hw : ∀ y, when_pass ex_env y := by
    intro y xt hit nr h
    cases h
    rfl
  refine plain_defaults.mk _ (fun y hy => ?_) (fun y hy _ _ => ?_)
  · obtain rfl : y = ex_cont_a7 := by simpa [yang_children, ex_root7] using hy
    exact ⟨by decide, rfl, hw _⟩
  · obtain rfl : y = ex_cont_a7 := by simpa [yang_children, ex_root7] using hy
    refine plain_defaults.mk _ (fun y hy => ?_) (fun y hy _ _ => ?_)
    · obtain rfl : y = ex_cont_b7 := by simpa [yang_children, ex_cont_a7] using hy
      exact ⟨by decide, rfl, hw _⟩
    · obtain rfl : y = ex_cont_b7 := by simpa [yang_children, ex_cont_a7] using hy
      refine plain_defaults.mk _ (fun y hy => ?_) (fun y hy hk _ => ?_)
      · obtain rfl : y = ex_leaf_x7 := by simpa [yang_children, ex_cont_b7] using hy
        exact ⟨by decide, rfl, hw _⟩
      · obtain rfl : y = ex_leaf_x7 := by simpa [yang_children, ex_cont_b7] using hy
        exact absurd hk (by decide)

theorem default_container_has_leaf_witness :
    xml_default ex_env false ex_root7 ex_root_empty = some ex_root_filled ∧
    ∀ x ∈ xml_childvec ex_root_filled,
      x ∈ xml_childvec ex_root_empty ∨ (default_filled x ∧ has_default_leaf x) :=
  ⟨rfl, default_container_has_leaf ex_env false (fun l => List.Perm.refl l) ex_root7
    ex_root_empty ex_root_filled ex_plain7 rfl rfl⟩

/-! ## Defaults: the cascade to a default leaf -/

theorem xml_find_type_elmnt_isNone (xt : cxobj) (name : String)
    (h : ∀ x0 ∈ xml_childvec xt, ¬(is_elmnt x0 = true ∧ xml_name x0 = name)) :
    (xml_find_type_elmnt xt name).isNone = true := by
  unfold xml_find_type_elmnt
  split
  · rfl
  · rw [Option.isNone_iff_eq_none, List.find?_eq_none]
    intro x hx hp
    simp only [Bool.and_eq_true, beq_iff_eq] at hp
    exact h x hx hp

theorem xml_find_type_elmnt_unique (xt z : cxobj) (name : String)
    (hxt : xml_type xt = .CX_ELMNT) (hz : z ∈ xml_childvec xt) (he : is_elmnt z = true)
    (hn : xml_name z = name)
    (huniq : ∀ x ∈ xml_childvec xt, is_elmnt x = true → xml_name x = name → x = z) :
    xml_find_type_elmnt xt name = some z := by
  unfold xml_find_type_elmnt
  rw [if_neg (by rw [hxt]; decide)]
  cases hf : (xml_childvec xt).find? (fun x => is_elmnt x && xml_name x == name) with
  | none =>
    rw [List.find?_eq_none] at hf
    exact absurd (by simp [he, hn]) (hf z hz)
  | some w =>
    have hp := List.find?_some hf
    simp only [Bool.and_eq_true, beq_iff_eq] at hp
    rw [huniq w (List.mem_of_find?_eq_some hf) hp.1 hp.2]

theorem xml_default_each_append (env : DefaultsEnv) (state : Bool) :
    ∀ (pre rest : List yang_stmt) (xt : cxobj),
      xml_default_each env state (pre ++ rest) xt =
        (xml_default_each env state pre xt).bind (xml_default_each env state rest)
  | [], rest, xt => by
    rw [List.nil_append, xml_default_each]
    rfl
  | y :: pre, rest, xt => by
    simp only [List.cons_append]
    rw [xml_default_each, xml_default_each]
    cases hc : xml_default_child env state y xt with
    | none => rfl
    | some xt2 => exact xml_default_each_append env state pre rest xt2

mutual
/-- On a container `xml_nopresence_try` returns 0. -/
theorem xml_nopresence_try_some (env : DefaultsEnv) (state : Bool) :
    ∀ (y : yang_stmt), yang_keyword_get y = .Y_CONTAINER →
      ∃ b, xml_nopresence_try env state y = some b
  | .mk a k arg cv cvk ys, hk => by
    have hk1 : k = .Y_CONTAINER := hk
    subst hk1
    rw [xml_nopresence_try]
    exact xml_nopresence_try_each_some env state ys false
theorem xml_nopresence_try_each_some (env : DefaultsEnv) (state : Bool) :
    ∀ (ys : List yang_stmt) (create : Bool),
      ∃ b, xml_nopresence_try_each env state create ys = some b
  | [], create => ⟨create, by rw [xml_nopresence_try_each]⟩
  | y :: rest, create => by
    rw [xml_nopresence_try_each]
    split
    · split
      · split
        · exact ⟨_, rfl⟩
        · exact ⟨_, rfl⟩
      · exact xml_nopresence_try_each_some env state rest create
    · split
      · next hk =>
        split
        · obtain ⟨b, hb⟩ := xml_nopresence_try_some env state y (by simpa using hk)
          rw [hb]
          cases b
          · exact xml_nopresence_try_each_some env state rest false
          · exact ⟨_, rfl⟩
        · exact xml_nopresence_try_each_some env state rest create
      · split
        · split
          · exact xml_nopresence_try_each_some env state rest true
          · exact xml_nopresence_try_each_some env state rest create
        · exact xml_nopresence_try_each_some env state rest create
end

/-- With `state` 0 the loop of `xml_nopresence_try` either answers 1 on the statements
`pre`, or goes on to the statements after them. -/
theorem xml_nopresence_try_each_pre (env : DefaultsEnv) :
    ∀ (pre rest : List yang_stmt) (create : Bool),
      xml_nopresence_try_each env false create (pre ++ rest) = some true ∨
      ∃ c1, xml_nopresence_try_each env false create (pre ++ rest) =
        xml_nopresence_try_each env false c1 rest
  | [], rest, create => Or.inr ⟨create, rfl⟩
  | y :: pre, rest, create => by
    simp only [List.cons_append]
    rw [xml_nopresence_try_each]
    split
    · split
      · left; rfl
      · exact xml_nopresence_try_each_pre env pre rest create
    · split
      · next hk =>
        split
        · obtain ⟨b, hb⟩ := xml_nopresence_try_some env false y (by simpa using hk)
          rw [hb]
          cases b
          · exact xml_nopresence_try_each_pre env pre rest false
          · left; rfl
        · exact xml_nopresence_try_each_pre env pre rest create
      · split
        · split
          · exact xml_nopresence_try_each_pre env pre rest true
          · exact xml_nopresence_try_each_pre env pre rest create
        · exact xml_nopresence_try_each_pre env pre rest create

/-- With `state` 0, `xml_nopresence_try` answers 1 on a level that holds a chain down to a
default leaf. -/
theorem default_chain_try (env : DefaultsEnv) {ys : List yang_stmt} {path : List String}
    {d : String} (hch : default_chain env ys path d) :
    ∀ create, xml_nopresence_try_each env false create ys = some true := by
  induction hch with
  | leaf pre post y cv hk hcv hu _ _ _ =>
    intro create
    rcases xml_nopresence_try_each_pre env pre (y :: post) create with h | ⟨c1, h⟩
    · exact h
    · rw [h, xml_nopresence_try_each]
      simp [hk, hcv, cv_flag_unset, hu]
  | container pre post y path d hk hp _ _ _ _ ih =>
    intro create
    rcases xml_nopresence_try_each_pre env pre (y :: post) create with h | ⟨c1, h⟩
    · exact h
    · rw [h, xml_nopresence_try_each]
      have ht : xml_nopresence_try env false y = some true := by
        cases y with
        | mk a k arg cv cvk ycs =>
          have hk1 : k = .Y_CONTAINER := hk
          subst hk1
          rw [xml_nopresence_try]
          exact ih false
      simp [hk, hp, ht]

theorem xml_replace_elmnt_mem (name : String) (xc xc1 : cxobj) (cs : List cxobj)
    (hin : xc ∈ cs) (he : is_elmnt xc = true) (hn : xml_name xc = name) :
    xc1 ∈ xml_replace_elmnt name xc1 cs := by
  unfold xml_replace_elmnt
  rw [List.mem_map]
  exact ⟨xc, hin, by simp [he, hn]⟩

theorem guard_pass_config (env : DefaultsEnv) (y : yang_stmt) (h : yang_config y = true) :
    guard_pass env false y = true := by
  unfold guard_pass
  simp [h]

/-- The loop of `xml_default` over `pre ++ y :: post`, around the pass for `y`: the
statements `pre` make no element named `n`, and an element named `n` that is the only one
after the pass for `y` is the one that is found under that name at the end. -/
theorem xml_default_each_around (env : DefaultsEnv) (state : Bool)
    (hperm : ∀ l, (env.xml_sort l).Perm l) (pre post : List yang_stmt) (y : yang_stmt)
    (xt xt1 : cxobj) (n : String) (hxt : xml_type xt = .CX_ELMNT)
    (hn : n ∉ made_names_each pre)
    (hno : ∀ x ∈ xml_childvec xt, ¬(is_elmnt x = true ∧ xml_name x = n))
    (h : xml_default_each env state (pre ++ y :: post) xt = some xt1) :
    ∃ xta xtb, xml_type xta = .CX_ELMNT ∧ (xml_find_type_elmnt xta n).isNone = true ∧
      xml_default_child env state y xta = some xtb ∧
      ∀ z ∈ xml_childvec xtb, is_elmnt z = true → xml_name z = n →
        (∀ x ∈ xml_childvec xtb, is_elmnt x = true → xml_name x = n → x = z) →
        xml_find_type_elmnt xt1 n = some z := by
  rw [xml_default_each_append] at h
  cases ha : xml_default_each env state pre xt with
  | none => rw [ha] at h; cases h
  | some xta =>
    rw [ha] at h
    simp only [Option.bind] at h
    rw [xml_default_each] at h
    cases hb : xml_default_child env state y xta with
    | none => rw [hb] at h; cases h
    | some xtb =>
      rw [hb] at h
      simp only at h
      have hpre := xml_default_each_inv env state hperm pre xt xta hxt ha
      have hxta : xml_type xta = .CX_ELMNT := by rw [default_inv_type hpre]; exact hxt
      have hmid := xml_default_child_inv env state hperm y xta xtb hxta hb
      have hxtb : xml_type xtb = .CX_ELMNT := by rw [default_inv_type hmid]; exact hxta
      have hpost := xml_default_each_inv env state hperm post xtb xt1 hxtb h
      have hxt1 : xml_type xt1 = .CX_ELMNT := by rw [default_inv_type hpost]; exact hxtb
      refine ⟨xta, xtb, hxta, ?_, hb, ?_⟩
      · apply xml_find_type_elmnt_isNone
        intro x0 hx0 hx
        rcases hpre.2.2 x0 hx0 with h1 | ⟨_, h2, _⟩
        · exact hno x0 h1 hx
        · rw [hx.2] at h2
          exact hn h2
      · intro z hz hze hzn huniq
        apply xml_find_type_elmnt_unique xt1 z n hxt1 (hpost.2.1 z hz) hze hzn
        intro x hx hxe hxn
        rcases hpost.2.2 x hx with h1 | ⟨_, _, h3⟩
        · exact huniq x h1 hxe hxn
        · exact absurd ⟨hze, by rw [hzn, hxn]⟩ (h3 z hz)

/-- The cascade: the loop of `xml_default` with `state` 0 over a level that holds a chain
down to a leaf with default `d`, on an element without a child of the first name of the
chain, leaves the path of the chain with the body `d`. -/
theorem default_chain_path (env : DefaultsEnv) (hperm : ∀ l, (env.xml_sort l).Perm l)
    {ys : List yang_stmt} {path : List String} {d : String}
    (hch : default_chain env ys path d) :
    ∀ (xt xt1 : cxobj), xml_type xt = .CX_ELMNT →
      (∀ n, path.head? = some n →
        ∀ x ∈ xml_childvec xt, ¬(is_elmnt x = true ∧ xml_name x = n)) →
      xml_default_each env false ys xt = some xt1 → xml_path_body xt1 path = some d := by
  induction hch with
  | leaf pre post y cv hk hcv hu hcfg hw hnm =>
    intro xt xt1 hxt hno h
    obtain ⟨xta, xtb, hxta, hfind, hb, hfin⟩ := xml_default_each_around env false hperm pre
      post y xt xt1 _ hxt hnm (hno _ rfl) h
    cases y with
    | mk a k arg cv0 cvk ycs =>
      have hk1 : k = .Y_LEAF := hk
      subst hk1
      have hcv1 : cv0 = some cv := hcv
      subst hcv1
      obtain ⟨xc, hcr, e⟩ := xml_default_child_leaf_create env false a arg (some cv) cvk ycs
        xta xtb (guard_pass_config env _ hcfg) hu hw hfind hb
      obtain ⟨he, hn, _, _, _, cv1, hcv2, hbody⟩ := xml_default_create_spec env _ xta xc hcr
      have hcv3 : cv1 = cv := by
        have : some cv = some cv1 := hcv2
        injection this with this
        exact this.symm
      subst hcv3
      have hinv : default_inv (fun x => x = xc) [arg] xta xtb := by
        rw [e]
        exact default_inv_leaf env hperm (fun x => x = xc)
          (.mk a .Y_LEAF arg (some cv1) cvk ycs) xta xc hxta hfind hn rfl
      have hz : xc ∈ xml_childvec xtb := by
        rw [e, xml_childvec_set_get]
        exact ((hperm _).mem_iff).2 (by simp)
      have hf := hfin xc hz he hn (fun x hx hxe hxn => by
        rcases hinv.2.2 x hx with h1 | ⟨h1, _⟩
        · exact absurd ⟨hxe, hxn⟩ (xml_find_type_elmnt_none xta _ hxta hfind x h1)
        · exact h1)
      show xml_path_body xt1 [arg] = some cv1.var_string
      rw [xml_path_body]
      have hf1 : xml_find_type_elmnt xt1 arg = some xc := hf
      rw [hf1]
      simp only
      rw [xml_path_body]
      exact hbody
  | container pre post y path d hk hp hcfg hw hnm hsub ih =>
    intro xt xt1 hxt hno h
    obtain ⟨xta, xtb, hxta, hfind, hb, hfin⟩ := xml_default_each_around env false hperm pre
      post y xt xt1 _ hxt hnm (hno _ rfl) h
    cases y with
    | mk a k arg cv0 cvk ycs =>
      have hk1 : k = .Y_CONTAINER := hk
      subst hk1
      have ht : xml_nopresence_try env false (.mk a .Y_CONTAINER arg cv0 cvk ycs) =
          some true := by
        rw [xml_nopresence_try]
        exact default_chain_try env hsub false
      obtain ⟨xc, xc1, hcr, hfill, e⟩ := xml_default_child_container_create env false a arg
        cv0 cvk ycs xta xtb (guard_pass_config env _ hcfg)
        (by rw [Option.isNone_iff_eq_none]; exact hp) hw hfind ht hb
      have hxc := xml_default_create1_spec env _ xta xc hcr
      have hxce : is_elmnt xc = true := by unfold is_elmnt; rw [hxc.1]; rfl
      have hin := xml_default_each_inv env false hperm ycs xc xc1 hxc.1 hfill
      obtain ⟨he1, _, _, hn1, _⟩ := default_filled_fields env _ xta xc xc1 _ hcr hin
      have hinv : default_inv (fun x => x = xc1) [arg] xta xtb := by
        rw [e]
        exact default_inv_container env hperm (fun x => x = xc1)
          (.mk a .Y_CONTAINER arg cv0 cvk ycs) xta xc xc1 hxta hfind hcr hn1 rfl
      have hz : xc1 ∈ xml_childvec xtb := by
        rw [e, xml_childvec_set_get]
        exact xml_replace_elmnt_mem arg xc xc1 _ (((hperm _).mem_iff).2 (by simp)) hxce hxc.2.1
      have hf := hfin xc1 hz he1 hn1 (fun x hx hxe hxn => by
        rcases hinv.2.2 x hx with h1 | ⟨h1, _⟩
        · exact absurd ⟨hxe, hxn⟩ (xml_find_type_elmnt_none xta _ hxta hfind x h1)
        · exact h1)
      have hsubp := ih xc xc1 hxc.1
        (fun n _ x hx hxn => by
          rw [is_elmnt_of_attr x (hxc.2.2.2.2 x hx)] at hxn
          exact Bool.false_ne_true hxn.1)
        hfill
      show xml_path_body xt1 (arg :: path) = some d
      rw [xml_path_body]
      have hf1 : xml_find_type_elmnt xt1 arg = some xc1 := hf
      rw [hf1]
      exact hsubp

/-- C18 (as stated) fails: in the schema `container a { leaf x { config false; default 7; }
}` the container `a` is config true, has no presence and no `when`, and ends in a leaf with
default 7. On `<root/>` with `state` 0, `xml_default` creates `a` and then skips the leaf,
which is config false: the result is `<root><a/></root>`, without the path `a/x`. -/
theorem default_cascade_counterexample :
    yang_config ex_cont_a_ro = true ∧
    yang_find ex_cont_a_ro .Y_PRESENCE none = none ∧
    xml_default ex_env false ex_root_ro (.mk "root" .CX_ELMNT 0 (some ex_root_ro) none []) =
      some (.mk "root" .CX_ELMNT 0 (some ex_root_ro) none
        [.mk "a" .CX_ELMNT 0 (some ex_cont_a_ro) none []]) ∧
    ((xml_default ex_env false ex_root_ro
        (.mk "root" .CX_ELMNT 0 (some ex_root_ro) none [])).bind fun t =>
      xml_path_body t ["a", "x"]) = none :=
  ⟨rfl, rfl, rfl, rfl⟩

/-- C18 (amended): let `yt` be a module, submodule, container, list, input, output or case
statement with a chain of nested non-presence containers c1/.../cn (n >= 0) below it that
ends in a leaf with default value `d`, where the containers and the leaf are config true,
none of them is suppressed by `when`, and no statement before one of them on its level
makes an element of its name. For every element `xt` without an element child named as
the head of the chain, when `xml_default(yt, xt, 0)` returns 0, `xt` contains the path
c1/.../cn/leaf and the body of the leaf is the string form of `d`. (`xml_sort` is assumed
to permute the children.) -/
theorem default_cascade (env : DefaultsEnv) (hperm : ∀ l, (env.xml_sort l).Perm l)
    (yt : yang_stmt) (xt xt1 : cxobj) (path : List String) (d : String)
    (hkw : xml_default_kw (yang_keyword_get yt) = true)
    (hch : default_chain env (yang_children yt) path d)
    (hxt : xml_type xt = .CX_ELMNT)
    (hno : ∀ n, path.head? = some n →
      ∀ x ∈ xml_childvec xt, ¬(is_elmnt x = true ∧ xml_name x = n))
    (h : xml_default env false yt xt = some xt1) :
    xml_path_body xt1 path = some d := by
  cases yt with
  | mk a k arg cv cvk ys =>
    rw [xml_default] at h
    have hkw1 : xml_default_kw k = true := hkw
    rw [if_pos hkw1] at h
    exact default_chain_path env hperm hch xt xt1 hxt hno h

theorem ex_chain7 : default_chain ex_env (yang_children ex_root7) ["a", "b", "x"] "7" := by
  have hw : ∀ y, when_pass ex_env y := by
    intro y xt hit nr h
    cases h
    rfl
  have hnil : ∀ s : String, s ∉ made_names_each [] := by
    intro s
    rw [made_names_each]
    exact List.not_mem_nil s
  exact default_chain.container [] [] ex_cont_a7 ["b", "x"] "7" rfl rfl rfl (hw _) (hnil _)
    (default_chain.container [] [] ex_cont_b7 ["x"] "7" rfl rfl rfl (hw _) (hnil _)
      (default_chain.leaf [] [] ex_leaf_x7 ⟨false, 7, false, "7"⟩ rfl rfl rfl rfl (hw _)
        (hnil _)))

theorem default_cascade_witness :
    xml_default ex_env false ex_root7 ex_root_empty = some ex_root_filled ∧
    xml_path_body ex_root_filled ["a", "b", "x"] = some "7" :=
  ⟨rfl, default_cascade ex_env (fun l => List.Perm.refl l) ex_root7 ex_root_empty
    ex_root_filled ["a", "b", "x"] "7" rfl ex_chain7 rfl (fun _ _ _ hx => by cases hx) rfl⟩

/-! ## Defaults: xml_default_recurse -/

/-- C27: `xml_default_recurse(xn, state, flag)` with `flag != 0` on a node `xn` that carries
neither `XML_FLAG_CHANGE` nor a bit of `flag` returns 0 and leaves `xn`, with its whole
subtree, as it is. -/
theorem default_recurse_skips_unflagged (env : DefaultsEnv) (state : Bool) (fuel flag : Nat)
    (xn : cxobj) (hflag : flag ≠ 0) (hc : xml_flag xn XML_FLAG_CHANGE = 0)
    (hf : xml_flag xn flag = 0) :
    xml_default_recurse env state (fuel + 1) flag xn = some xn := by
  rw [xml_default_recurse]
  simp [hflag, hc, hf]

theorem default_recurse_skips_unflagged_witness :
    xml_default_recurse ex_env false 3 XML_FLAG_ADD (ex_a_b 0) = some (ex_a_b 0) ∧
    xml_default_recurse ex_env false 3 0 (ex_a_b 0) = some (ex_a_b_filled 0) :=
  ⟨default_recurse_skips_unflagged ex_env false 2 XML_FLAG_ADD (ex_a_b 0) (by decide)
    (by decide) (by decide), rfl⟩

/-- C28. A node that carries `XML_FLAG_ADD` and also `XML_FLAG_CHANGE` is taken by the
first test, `flag` is not reset, and its unflagged child `b` is skipped:
`xml_default_recurse(xn, 0, XML_FLAG_ADD)` leaves `<a><b/></a>` as it is, where with
`XML_FLAG_ADD` alone on `a` the default of `b` is filled in. The header of the function
says "When ADD is encountered process all children". -/
theorem default_recurse_add_with_change :
    xml_flag (ex_a_b (XML_FLAG_CHANGE ||| XML_FLAG_ADD)) XML_FLAG_ADD ≠ 0 ∧
    xml_default_recurse ex_env false 3 XML_FLAG_ADD (ex_a_b (XML_FLAG_CHANGE ||| XML_FLAG_ADD)) =
      some (ex_a_b (XML_FLAG_CHANGE ||| XML_FLAG_ADD)) ∧
    xml_default_recurse ex_env false 3 XML_FLAG_ADD (ex_a_b XML_FLAG_ADD) =
      some (ex_a_b_filled XML_FLAG_ADD) :=
  ⟨by decide, rfl, rfl⟩

/-- On a node `xn` that carries a bit of `flag` and does not carry `XML_FLAG_CHANGE`, `xml_default_recurse(xn, state, flag)` does what
`xml_default_recurse(xn, state, 0)` does: the flags of the descendants are not looked
at. -/
theorem default_recurse_add_all_children (env : DefaultsEnv) (state : Bool) (fuel flag : Nat)
    (xn : cxobj) (hc : xml_flag xn XML_FLAG_CHANGE = 0) (hf : xml_flag xn flag ≠ 0) :
    xml_default_recurse env state fuel flag xn = xml_default_recurse env state fuel 0 xn := by
  cases fuel with
  | zero => rfl
  | succ fuel =>
    have e : (if flag = 0 then flag else 0) = 0 := by
      split
      · assumption
      · rfl
    rw [xml_default_recurse, xml_default_recurse]
    simp [hc, hf, e]

theorem default_recurse_add_all_children_witness :
    xml_default_recurse ex_env false 3 XML_FLAG_ADD (ex_a_b XML_FLAG_ADD) =
      xml_default_recurse ex_env false 3 0 (ex_a_b XML_FLAG_ADD) ∧
    xml_default_recurse ex_env false 3 0 (ex_a_b XML_FLAG_ADD) =
      some (ex_a_b_filled XML_FLAG_ADD) :=
  ⟨default_recurse_add_all_children ex_env false 3 XML_FLAG_ADD (ex_a_b XML_FLAG_ADD)
    (by decide) (by decide), rfl⟩

/-! ## Defaults: the pass for a leaf -/

theorem xml_default_child_guard_skip (env : DefaultsEnv) (state : Bool) (y : yang_stmt)
    (xt : cxobj) (hg : guard_pass env state y = false) :
    xml_default_child env state y xt = some xt := by
  cases y with
  | mk a k arg cv cvk ycs =>
    unfold xml_default_child
    unfold guard_pass at hg
    by_cases h1 : (!state && !yang_config (.mk a k arg cv cvk ycs)) = true
    · rw [if_pos h1]
    · rw [if_neg h1]
      by_cases h2 : (state && env.yang_config_ancestor (.mk a k arg cv cvk ycs)) = true
      · rw [if_pos h2]
      · simp only [Bool.not_eq_true] at h1 h2
        rw [h1, h2] at hg
        cases hg

/-- The pass of `xml_default` for a leaf statement that passes the guard: the leaf is
created when it has a default, `when` does not suppress it and no element of its name is
there; else `xt` stays as it is. -/
theorem xml_default_child_leaf_cases (env : DefaultsEnv) (state : Bool) (a : Nat)
    (arg : String) (cv : Option cg_var) (cvk : List String) (ycs : List yang_stmt)
    (xt xt1 : cxobj) (hg : guard_pass env state (.mk a .Y_LEAF arg cv cvk ycs) = true)
    (h : xml_default_child env state (.mk a .Y_LEAF arg cv cvk ycs) xt = some xt1) :
    (xt1 = xt ∧ ¬(has_default (.mk a .Y_LEAF arg cv cvk ycs) = true ∧
        when_false env xt (.mk a .Y_LEAF arg cv cvk ycs) = false ∧
        (xml_find_type_elmnt xt arg).isNone = true)) ∨
    (has_default (.mk a .Y_LEAF arg cv cvk ycs) = true ∧
      when_false env xt (.mk a .Y_LEAF arg cv cvk ycs) = false ∧
      (xml_find_type_elmnt xt arg).isNone = true ∧
      ∃ xc, xml_default_create env (.mk a .Y_LEAF arg cv cvk ycs) xt = some xc ∧
        xt1 = xml_childvec_set xt (env.xml_sort (xml_childvec xt ++ [xc]))) := by
  obtain ⟨hg1, hg2⟩ := (guard_pass_iff env state _).1 hg
  unfold xml_default_child at h
  rw [if_neg (by rw [hg1]; simp), if_neg (by rw [hg2]; simp)] at h
  simp only [beq_self_eq_true, if_true] at h
  cases cv with
  | none => cases h
  | some cv1 =>
    simp only at h
    by_cases hu : cv1.v_unset = true
    · simp only [hu, Bool.not_true, Bool.false_eq_true, if_false] at h
      injection h with h
      left
      refine ⟨h.symm, fun hh => ?_⟩
      have := hh.1
      simp [has_default, yang_cv_get, hu] at this
    · have hu1 : cv1.v_unset = false := by simpa using hu
      simp only [hu1, Bool.not_false, if_true] at h
      have hd : has_default (.mk a .Y_LEAF arg (some cv1) cvk ycs) = true := by
        simp [has_default, yang_cv_get, hu1]
      cases hwh : env.yang_check_when_xpath xt (.mk a .Y_LEAF arg (some cv1) cvk ycs) with
      | none => rw [hwh] at h; cases h
      | some p =>
        obtain ⟨hit, nr⟩ := p
        rw [hwh] at h
        simp only at h
        have hwf : when_false env xt (.mk a .Y_LEAF arg (some cv1) cvk ycs) =
            (hit && nr == 0) := by
          unfold when_false
          rw [hwh]
        by_cases hs : (hit && nr == 0) = true
        · rw [if_pos hs] at h
          injection h with h
          left
          refine ⟨h.symm, fun hh => ?_⟩
          rw [hwf, hs] at hh
          exact Bool.noConfusion hh.2.1
        · rw [if_neg hs] at h
          have hs1 : (hit && nr == 0) = false := by simpa using hs
          by_cases hfind : (xml_find_type_elmnt xt arg).isNone = true
          · rw [if_pos hfind] at h
            cases hc : xml_default_create env (.mk a .Y_LEAF arg (some cv1) cvk ycs) xt with
            | none => rw [hc] at h; cases h
            | some xc =>
              rw [hc] at h
              injection h with h
              right
              exact ⟨hd, by rw [hwf, hs1], hfind, xc, rfl, h.symm⟩
          · rw [if_neg hfind] at h
            injection h with h
            left
            exact ⟨h.symm, fun hh => hfind hh.2.2⟩

theorem xml_default_each_split (env : DefaultsEnv) (state : Bool) (pre post : List yang_stmt)
    (y : yang_stmt) (xt xt1 : cxobj)
    (h : xml_default_each env state (pre ++ y :: post) xt = some xt1) :
    ∃ xta xtb, xml_default_each env state pre xt = some xta ∧
      xml_default_child env state y xta = some xtb ∧
      xml_default_each env state post xtb = some xt1 := by
  rw [xml_default_each_append] at h
  cases ha : xml_default_each env state pre xt with
  | none => rw [ha] at h; cases h
  | some xta =>
    rw [ha] at h
    simp only [Option.bind] at h
    rw [xml_default_each] at h
    cases hb : xml_default_child env state y xta with
    | none => rw [hb] at h; cases h
    | some xtb =>
      rw [hb] at h
      exact ⟨xta, xtb, rfl, hb, h⟩

theorem default_ext_imp {P Q : cxobj → Prop} {names : List String} {cs cs1 : List cxobj}
    (hpq : ∀ x, P x → Q x) (h : default_ext P names cs cs1) : default_ext Q names cs cs1 :=
  ⟨h.1, fun x hx => (h.2 x hx).imp id (fun ⟨h1, h2⟩ => ⟨hpq x h1, h2⟩)⟩

theorem default_inv_imp {P Q : cxobj → Prop} {names : List String} {xt xt1 : cxobj}
    (hpq : ∀ x, P x → Q x) (h : default_inv P names xt xt1) : default_inv Q names xt xt1 :=
  ⟨h.1, default_ext_imp hpq h.2⟩

theorem made_of_mono {env : DefaultsEnv} {state : Bool} {s1 s2 : List yang_stmt}
    (hs : ∀ y ∈ s1, y ∈ s2) (x : cxobj) (h : made_of env state s1 x) :
    made_of env state s2 x := by
  obtain ⟨h1, y, hy, h2⟩ := h
  exact ⟨h1, y, hs y hy, h2⟩

theorem made_specs_each_cons (y : yang_stmt) (rest : List yang_stmt) :
    made_specs_each (y :: rest) = made_specs y ++ made_specs_each rest := by
  rw [made_specs_each]

theorem made_specs_cases_cons (c : yang_stmt) (rest : List yang_stmt) :
    made_specs_cases (c :: rest) = made_specs_default c ++ made_specs_cases rest := by
  rw [made_specs_cases]

mutual
/-- `xml_default` only adds children to `xt`: made nodes, bound to the statements of
`made_specs_default`, with new names. -/
theorem xml_default_made (env : DefaultsEnv) (state : Bool)
    (hperm : ∀ l, (env.xml_sort l).Perm l) :
    ∀ (y : yang_stmt) (xt xt1 : cxobj), xml_type xt = .CX_ELMNT →
      xml_default env state y xt = some xt1 →
      default_inv (made_of env state (made_specs_default y)) (made_names_default y) xt xt1
  | .mk a k arg cv cvk ys, xt, xt1, hxt, h => by
    rw [xml_default] at h
    rw [made_names_default, made_specs_default]
    split at h
    · next hk =>
      rw [if_pos hk, if_pos hk]
      exact xml_default_each_made env state hperm ys xt xt1 hxt h
    · injection h with h
      subst h
      exact default_inv_refl _ _ _
theorem xml_default_each_made (env : DefaultsEnv) (state : Bool)
    (hperm : ∀ l, (env.xml_sort l).Perm l) :
    ∀ (ys : List yang_stmt) (xt xt1 : cxobj), xml_type xt = .CX_ELMNT →
      xml_default_each env state ys xt = some xt1 →
      default_inv (made_of env state (made_specs_each ys)) (made_names_each ys) xt xt1
  | [], xt, xt1, _, h => by
    rw [xml_default_each] at h
    injection h with h
    subst h
    exact default_inv_refl _ _ _
  | yc :: rest, xt, xt1, hxt, h => by
    rw [xml_default_each] at h
    rw [made_names_each_cons, made_specs_each_cons]
    cases hc : xml_default_child env state yc xt with
    | none => rw [hc] at h; cases h
    | some xt2 =>
      rw [hc] at h
      have h1 := xml_default_child_made env state hperm yc xt xt2 hxt hc
      have h2 := xml_default_each_made env state hperm rest xt2 xt1
        (by rw [default_inv_type h1]; exact hxt) h
      exact default_inv_trans
        (default_inv_imp (made_of_mono (fun y hy => List.mem_append_left _ hy)) h1)
        (default_inv_imp (made_of_mono (fun y hy => List.mem_append_right _ hy)) h2)
        (fun a ha => List.mem_append_left _ ha) (fun a ha => List.mem_append_right _ ha)
theorem xml_default_child_made (env : DefaultsEnv) (state : Bool)
    (hperm : ∀ l, (env.xml_sort l).Perm l) :
    ∀ (yc : yang_stmt) (xt xt1 : cxobj), xml_type xt = .CX_ELMNT →
      xml_default_child env state yc xt = some xt1 →
      default_inv (made_of env state (made_specs yc)) (made_names yc) xt xt1
  | .mk a k arg cv cvk ycs, xt, xt1, hxt, h => by
    by_cases hg : guard_pass env state (.mk a k arg cv cvk ycs) = true
    case neg =>
      rw [xml_default_child_guard_skip env state _ xt (by simpa using hg)] at h
      injection h with h
      subst h
      exact default_inv_refl _ _ _
    unfold xml_default_child at h
    rw [made_names, made_specs]
    split at h
    · injection h with h; subst h; exact default_inv_refl _ _ _
    split at h
    · injection h with h; subst h; exact default_inv_refl _ _ _
    split at h
    · -- leaf
      next hk =>
      have hk1 : k = .Y_LEAF := by simpa using hk
      subst hk1
      simp only [beq_self_eq_true, Bool.true_or, if_true]
      split at h
      · cases h
      · split at h
        · split at h
          · cases h
          · split at h
            · injection h with h; subst h; exact default_inv_refl _ _ _
            · split at h
              · next hfind =>
                split at h
                · cases h
                · next xc hcr =>
                  injection h with h
                  subst h
                  obtain ⟨he, hn, hs, hf, hne, _⟩ := xml_default_create_spec env _ xt xc hcr
                  exact default_inv_leaf env hperm _ (.mk a .Y_LEAF arg _ cvk ycs) xt xc hxt
                    hfind hn
                    ⟨made.leaf xc _ he hs rfl hg hn hf hne, _, List.mem_singleton.2 rfl, hs⟩
              · injection h with h; subst h; exact default_inv_refl _ _ _
        · injection h with h; subst h; exact default_inv_refl _ _ _
    split at h
    · -- container
      next hnl hk =>
      have hk1 : k = .Y_CONTAINER := by simpa using hk
      subst hk1
      simp only [beq_self_eq_true, Bool.or_true, if_true]
      split at h
      · split at h
        · cases h
        · split at h
          · injection h with h; subst h; exact default_inv_refl _ _ _
          · split at h
            · next hfind =>
              split at h
              · cases h
              · injection h with h; subst h; exact default_inv_refl _ _ _
              · split at h
                · cases h
                · next xc hcr =>
                  split at h
                  · cases h
                  · next xc1 hfill =>
                    injection h with h
                    subst h
                    have hxc := xml_default_create1_spec env _ xt xc hcr
                    have hin := xml_default_each_made env state hperm ycs xc xc1 hxc.1 hfill
                    obtain ⟨he1, hs1, hf1, hn1, hch1⟩ := default_filled_fields env _ xt xc xc1 _
                      hcr hin
                    exact default_inv_container env hperm _ (.mk a .Y_CONTAINER arg cv cvk ycs)
                      xt xc xc1 hxt hfind hcr hn1
                      ⟨made.container xc1 _ he1 hs1 rfl hg hn1
                        (fun ch hch hce => (hch1 ch hch hce).1),
                        _, List.mem_singleton.2 rfl, hs1⟩
            · injection h with h; subst h; exact default_inv_refl _ _ _
      · injection h with h; subst h; exact default_inv_refl _ _ _
    split at h
    · -- choice
      next hnl hnc hk =>
      have hk1 : k = .Y_CHOICE := by simpa using hk
      subst hk1
      simp only [show (rfc_6020.Y_CHOICE == rfc_6020.Y_LEAF ||
        rfc_6020.Y_CHOICE == rfc_6020.Y_CONTAINER) = false from rfl, Bool.false_eq_true,
        if_false, beq_self_eq_true, if_true]
      split at h
      · injection h with h; subst h; exact default_inv_refl _ _ _
      · next yca _ =>
        exact xml_default_case_made env state hperm (yang_addr yca) ycs xt xt1 hxt h
    · injection h with h; subst h; exact default_inv_refl _ _ _
theorem xml_default_case_made (env : DefaultsEnv) (state : Bool)
    (hperm : ∀ l, (env.xml_sort l).Perm l) (addr : Nat) :
    ∀ (ys : List yang_stmt) (xt xt1 : cxobj), xml_type xt = .CX_ELMNT →
      xml_default_case env state addr ys xt = some xt1 →
      default_inv (made_of env state (made_specs_cases ys)) (made_names_cases ys) xt xt1
  | [], xt, xt1, _, h => by
    rw [xml_default_case] at h
    injection h with h
    subst h
    exact default_inv_refl _ _ _
  | y :: rest, xt, xt1, hxt, h => by
    rw [xml_default_case] at h
    rw [made_names_cases_cons, made_specs_cases_cons]
    split at h
    · exact default_inv_mono (default_inv_imp
        (made_of_mono (fun y hy => List.mem_append_left _ hy))
        (xml_default_made env state hperm y xt xt1 hxt h))
        (fun a ha => List.mem_append_left _ ha)
    · exact default_inv_mono (default_inv_imp
        (made_of_mono (fun y hy => List.mem_append_right _ hy))
        (xml_default_case_made env state hperm addr rest xt xt1 hxt h))
        (fun a ha => List.mem_append_right _ ha)
end

/-! ## Defaults: the config/state guard -/

theorem grown_each_iff (P : cxobj → Prop) (cs : List cxobj) :
    ∀ (l : List cxobj), grown_each P l cs ↔ ∀ c1 ∈ l, (P c1 ∨ ∃ c ∈ cs, grown P c1 c)
  | [] => by
    rw [grown_each]
    simp
  | c1 :: rest => by
    rw [grown_each, grown_each_iff P cs rest]
    simp

theorem grown_iff (P : cxobj → Prop) (x1 x : cxobj) :
    grown P x1 x ↔ (x1 = xml_childvec_set x (xml_childvec x1) ∧
      ∀ c1 ∈ xml_childvec x1, (P c1 ∨ ∃ c ∈ xml_childvec x, grown P c1 c)) := by
  cases x1 with
  | mk n t f s v cs1 =>
    rw [grown, grown_each_iff]
    cases x with
    | mk n0 t0 f0 s0 v0 cs0 =>
      simp only [xml_childvec, xml_childvec_set]
      constructor
      · rintro ⟨e, h⟩
        injection e with e1 e2 e3 e4 e5 _
        subst e1 e2 e3 e4 e5
        exact ⟨rfl, h⟩
      · rintro ⟨e, h⟩
        injection e with e1 e2 e3 e4 e5 _
        subst e1 e2 e3 e4 e5
        exact ⟨rfl, h⟩

mutual
theorem grown_refl (P : cxobj → Prop) : ∀ (x : cxobj), grown P x x
  | .mk n t f s v cs => by
    rw [grown]
    exact ⟨rfl, (grown_each_iff P _ _).2 (grown_refl_each P cs)⟩
theorem grown_refl_each (P : cxobj → Prop) :
    ∀ (cs : List cxobj), ∀ c1 ∈ cs, (P c1 ∨ ∃ c ∈ cs, grown P c1 c)
  | [], _, h => by cases h
  | c :: rest, c1, h => by
    rcases List.mem_cons.1 h with h | h
    · subst h
      exact Or.inr ⟨c1, List.mem_cons_self _ _, grown_refl P c1⟩
    · rcases grown_refl_each P rest c1 h with h1 | ⟨c0, h0, h1⟩
      · exact Or.inl h1
      · exact Or.inr ⟨c0, List.mem_cons_of_mem _ h0, h1⟩
end

theorem guard_pass_cases (env : DefaultsEnv) (state : Bool) (y : yang_stmt)
    (hg : guard_pass env state y = true) :
    (state = false → yang_config y = true) ∧
    (state = true → env.yang_config_ancestor y = false) := by
  unfold guard_pass at hg
  cases state <;> cases hc : yang_config y <;> cases ha : env.yang_config_ancestor y <;>
    simp [hc, ha] at hg ⊢

theorem made_guarded (env : DefaultsEnv) (state : Bool) :
    ∀ (x : cxobj), made env state x → guarded env state x := by
  intro x h
  induction h with
  | leaf x y he hs hk hg hn hf hne =>
    exact guarded.mk x y he hs (guard_pass_cases env state y hg).1
      (guard_pass_cases env state y hg).2
      (fun ch hch hce => by rw [hne ch hch] at hce; cases hce)
  | container x y he hs hk hg hn hch ih =>
    exact guarded.mk x y he hs (guard_pass_cases env state y hg).1
      (guard_pass_cases env state y hg).2 ih

theorem guarded_fields {env : DefaultsEnv} {state : Bool} {x : cxobj}
    (h : guarded env state x) :
    is_elmnt x = true ∧
    (∃ y, xml_spec x = some y ∧ (state = false → yang_config y = true) ∧
      (state = true → env.yang_config_ancestor y = false)) ∧
    ∀ ch ∈ xml_childvec x, is_elmnt ch = true → guarded env state ch := by
  cases h with
  | mk _ y he hs h1 h2 hch => exact ⟨he, ⟨y, hs, h1, h2⟩, hch⟩

theorem is_elmnt_childvec_set (x : cxobj) (cs : List cxobj) :
    is_elmnt (xml_childvec_set x cs) = is_elmnt x := by
  cases x; rfl

theorem xml_spec_childvec_set (x : cxobj) (cs : List cxobj) :
    xml_spec (xml_childvec_set x cs) = xml_spec x := by
  cases x; rfl

mutual
/-- A guarded element that grows by guarded elements stays guarded. -/
theorem guarded_grown (env : DefaultsEnv) (state : Bool) :
    ∀ (c1 c : cxobj), guarded env state c → grown (guarded env state) c1 c →
      guarded env state c1
  | .mk n t f s v cs1, c, hg, hgr => by
    obtain ⟨he, ⟨y, hs, h1, h2⟩, hch⟩ := guarded_fields hg
    have hgr1 := hgr
    rw [grown, grown_each_iff] at hgr1
    obtain ⟨e, hall⟩ := hgr1
    refine guarded.mk _ y ?_ ?_ h1 h2 ?_
    · rw [e] at he; exact he
    · rw [e] at hs; exact hs
    · exact guarded_grown_each env state cs1 (xml_childvec c) hch hall
theorem guarded_grown_each (env : DefaultsEnv) (state : Bool) :
    ∀ (cs1 cs : List cxobj), (∀ ch ∈ cs, is_elmnt ch = true → guarded env state ch) →
      (∀ c1 ∈ cs1, (guarded env state c1 ∨ ∃ c ∈ cs, grown (guarded env state) c1 c)) →
      ∀ ch1 ∈ cs1, is_elmnt ch1 = true → guarded env state ch1
  | [], _, _, _, _, h, _ => by cases h
  | c1 :: rest, cs, hch, hall, ch1, hin, he => by
    rcases List.mem_cons.1 hin with h | h
    · subst h
      rcases hall ch1 (List.mem_cons_self _ _) with h1 | ⟨c, hc, hgr⟩
      · exact h1
      · have e := ((grown_iff _ ch1 c).1 hgr).1
        have hce : is_elmnt c = true := by
          rw [e, is_elmnt_childvec_set] at he
          exact he
        exact guarded_grown env state ch1 c (hch c hc hce) hgr
    · exact guarded_grown_each env state rest cs hch
        (fun c hc => hall c (List.mem_cons_of_mem _ hc)) ch1 h he
end

/-- What the loop of `xml_default_recurse` leaves of a child: the child itself, or the child
as the recursive call leaves it. -/
theorem xml_default_recurse_each_mem (call : cxobj → Option cxobj) (state : Bool) :
    ∀ (cs cs1 : List cxobj), xml_default_recurse_each call state cs = some cs1 →
      ∀ c1 ∈ cs1, ∃ c ∈ cs, c1 = c ∨ (is_elmnt c = true ∧ call c = some c1)
  | [], cs1, h, c1, hc1 => by
    rw [xml_default_recurse_each] at h
    injection h with h
    subst h
    cases hc1
  | x :: rest, cs1, h, c1, hc1 => by
    rw [xml_default_recurse_each] at h
    have ih := xml_default_recurse_each_mem call state rest
    have key : ∀ (x1 : cxobj) (r : List cxobj),
        xml_default_recurse_each call state rest = some r → cs1 = x1 :: r →
        (x1 = x ∨ (is_elmnt x = true ∧ call x = some x1)) →
        ∃ c ∈ x :: rest, c1 = c ∨ (is_elmnt c = true ∧ call c = some c1) := by
      intro x1 r hr e hx1
      subst e
      rcases List.mem_cons.1 hc1 with h1 | h1
      · subst h1
        exact ⟨x, List.mem_cons_self _ _, hx1⟩
      · obtain ⟨c, hc, hh⟩ := ih r hr c1 h1
        exact ⟨c, List.mem_cons_of_mem _ hc, hh⟩
    cases hr : xml_default_recurse_each call state rest with
    | none =>
      rw [hr] at h
      split at h
      · cases h
      · split at h
        · cases h
        · split at h
          · cases h
          · cases h
    | some r =>
      rw [hr] at h
      split at h
      · injection h with h
        exact key x r hr h.symm (Or.inl rfl)
      · split at h
        · injection h with h
          exact key x r hr h.symm (Or.inl rfl)
        · next hne _ =>
          split at h
          · cases h
          · next x1 hx1 =>
            injection h with h
            exact key x1 r hr h.symm (Or.inr ⟨by simpa using hne, hx1⟩)

/-- `xml_default_recurse` only grows the tree, by guarded elements. -/
theorem xml_default_recurse_grown (env : DefaultsEnv) (state : Bool)
    (hperm : ∀ l, (env.xml_sort l).Perm l) :
    ∀ (fuel flag : Nat) (xn xn1 : cxobj), xml_type xn = .CX_ELMNT →
      xml_default_recurse env state fuel flag xn = some xn1 →
      grown (guarded env state) xn1 xn
  | 0, _, _, _, _, h => by
    rw [xml_default_recurse] at h
    cases h
  | fuel + 1, flag, xn, xn1, hxn, h => by
    rw [xml_default_recurse] at h
    split at h
    · injection h with h
      subst h
      exact grown_refl _ _
    · -- the children of `xn` after `xml_default`: old ones and made ones
      have hstep : ∀ xna, (match xml_spec xn with
            | some yn => xml_default env state yn xn
            | none => some xn) = some xna →
          xna = xml_childvec_set xn (xml_childvec xna) ∧
          ∀ c ∈ xml_childvec xna, c ∈ xml_childvec xn ∨ guarded env state c := by
        intro xna hx
        split at hx
        · next yn _ =>
          have hinv := xml_default_made env state hperm yn xn xna hxn hx
          refine ⟨hinv.1, fun c hc => ?_⟩
          rcases hinv.2.2 c hc with h1 | ⟨h1, _⟩
          · exact Or.inl h1
          · exact Or.inr (made_guarded env state c h1.1)
        · injection hx with hx
          subst hx
          exact ⟨(xml_childvec_set_self _).symm, fun c hc => Or.inl hc⟩
      split at h
      · cases h
      · next xna hxna =>
        obtain ⟨e, hcs⟩ := hstep xna hxna
        split at h
        · cases h
        · next cs hrec =>
          injection h with h
          subst h
          rw [grown_iff]
          rw [xml_childvec_set_get]
          refine ⟨by rw [e, xml_childvec_set_set], fun c1 hc1 => ?_⟩
          obtain ⟨c, hc, hh⟩ := xml_default_recurse_each_mem _ state _ cs hrec c1 hc1
          have hgr : grown (guarded env state) c1 c := by
            rcases hh with hh | ⟨hce, hh⟩
            · subst hh
              exact grown_refl _ _
            · have hct : xml_type c = .CX_ELMNT := by
                unfold is_elmnt at hce
                simpa using hce
              exact xml_default_recurse_grown env state hperm fuel _ c c1 hct hh
          rcases hcs c hc with hold | hnew
          · exact Or.inr ⟨c, hold, hgr⟩
          · exact Or.inl (guarded_grown env state c1 c hnew hgr)

/-- C25: the defaults code respects the config/state guard. When `xml_default(yt, xt, state)`
returns 0, every child of `xt` is a child that `xt` had or is a new element that, with all
the elements below it, is bound to a statement that is not config false (`yang_config`, the
`config` substatement of the statement itself) when `state` is 0, and to a statement
without config-true config ancestor (`yang_config_ancestor`) when `state` is 1. When
`xml_default_recurse(xn, state, flag)` returns 0, the tree is `xn` grown by such elements,
at any depth. (`xml_sort` is assumed to permute the children.) -/
theorem default_respects_guard (env : DefaultsEnv) (state : Bool)
    (hperm : ∀ l, (env.xml_sort l).Perm l) :
    (∀ (yt : yang_stmt) (xt xt1 : cxobj), xml_type xt = .CX_ELMNT →
      xml_default env state yt xt = some xt1 →
      xt1 = xml_childvec_set xt (xml_childvec xt1) ∧
      ∀ x ∈ xml_childvec xt1, x ∈ xml_childvec xt ∨ guarded env state x) ∧
    (∀ (fuel flag : Nat) (xn xn1 : cxobj), xml_type xn = .CX_ELMNT →
      xml_default_recurse env state fuel flag xn = some xn1 →
      grown (guarded env state) xn1 xn) := by
  refine ⟨fun yt xt xt1 hxt h => ?_, xml_default_recurse_grown env state hperm⟩
  have hinv := xml_default_made env state hperm yt xt xt1 hxt h
  refine ⟨hinv.1, fun x hx => ?_⟩
  rcases hinv.2.2 x hx with h1 | ⟨h1, _⟩
  · exact Or.inl h1
  · exact Or.inr (made_guarded env state x h1.1)

theorem default_respects_guard_witness :
    (xml_default ex_env false ex_root7 ex_root_empty = some ex_root_filled ∧
      ∀ x ∈ xml_childvec ex_root_filled,
        x ∈ xml_childvec ex_root_empty ∨ guarded ex_env false x) ∧
    (xml_default_recurse ex_env false 3 0 (ex_a_b 0) = some (ex_a_b_filled 0) ∧
      grown (guarded ex_env false) (ex_a_b_filled 0) (ex_a_b 0)) :=
  ⟨⟨rfl, ((default_respects_guard ex_env false (fun l => List.Perm.refl l)).1 ex_root7
      ex_root_empty ex_root_filled rfl rfl).2⟩,
    ⟨rfl, (default_respects_guard ex_env false (fun l => List.Perm.refl l)).2 3 0 (ex_a_b 0)
      (ex_a_b_filled 0) rfl rfl⟩⟩

/-! ## Defaults: xml_default_choice -/

theorem xml_default_child_choice (env : DefaultsEnv) (state : Bool) (yc : yang_stmt)
    (xt : cxobj) (hk : yang_keyword_get yc = .Y_CHOICE)
    (hg : guard_pass env state yc = true) :
    xml_default_child env state yc xt = xml_default_choice env state yc xt := by
  cases yc with
  | mk a k arg cv cvk ycs =>
    have hk1 : k = .Y_CHOICE := hk
    subst hk1
    obtain ⟨hg1, hg2⟩ := (guard_pass_iff env state _).1 hg
    unfold xml_default_child xml_default_choice
    rw [if_neg (by rw [hg1]; simp), if_neg (by rw [hg2]; simp)]
    simp only [show (rfc_6020.Y_CHOICE == rfc_6020.Y_LEAF) = false from rfl,
      show (rfc_6020.Y_CHOICE == rfc_6020.Y_CONTAINER) = false from rfl,
      Bool.false_eq_true, if_false, beq_self_eq_true, if_true, yang_children]

theorem xml_default_choice_present_eq (env : DefaultsEnv) (yc : yang_stmt) :
    ∀ (cs : List cxobj),
      xml_default_choice_present env yc cs = cs.findSome? (bound_case env yc)
  | [] => by
    rw [xml_default_choice_present]
    rfl
  | x :: rest => by
    rw [xml_default_choice_present, List.findSome?_cons,
      xml_default_choice_present_eq env yc rest]
    unfold bound_case
    by_cases he : is_elmnt x = true
    · simp only [he, Bool.not_true, Bool.false_eq_true, if_false]
      cases hs : xml_spec x with
      | none => rfl
      | some y =>
        simp only
        cases hc : env.yang_choice_case_get y with
        | none => rfl
        | some p =>
          obtain ⟨yca, ych⟩ := p
          simp only
          by_cases hsame : yang_same ych yc = true
          · rw [if_pos hsame, if_pos hsame]
          · rw [if_neg hsame, if_neg hsame]
    · have he1 : is_elmnt x = false := by simpa using he
      simp [he1]

/-- The lookup of a case by its address that `xml_default_case` makes. -/
theorem xml_default_case_lookup (env : DefaultsEnv) (state : Bool) (addr : Nat) :
    ∀ (ycs : List yang_stmt) (xt : cxobj),
      xml_default_case env state addr ycs xt =
        match ycs.find? (fun c => yang_addr c == addr) with
        | some c => xml_default env state c xt
        | none => some xt
  | [], xt => by
    rw [xml_default_case]
    rfl
  | c :: rest, xt => by
    rw [xml_default_case, List.find?_cons]
    by_cases h : (yang_addr c == addr) = true
    · rw [if_pos h]
      simp only [h]
    · rw [if_neg h]
      have h1 : (yang_addr c == addr) = false := by simpa using h
      simp only [h1]
      exact xml_default_case_lookup env state addr rest xt

theorem bound_case_some (env : DefaultsEnv) (yc : yang_stmt) (x : cxobj) (c : yang_stmt) :
    bound_case env yc x = some c ↔
      (is_elmnt x = true ∧ ∃ y ych, xml_spec x = some y ∧
        env.yang_choice_case_get y = some (c, ych) ∧ yang_same ych yc = true) := by
  unfold bound_case
  by_cases he : is_elmnt x = true
  · simp only [he, Bool.not_true, Bool.false_eq_true, if_false, true_and]
    cases hs : xml_spec x with
    | none => simp
    | some y =>
      simp only
      cases hc : env.yang_choice_case_get y with
      | none => simp [hc]
      | some p =>
        obtain ⟨yca, ych⟩ := p
        simp only
        by_cases hsame : yang_same ych yc = true
        · rw [if_pos hsame]
          constructor
          · intro h
            injection h with h
            subst h
            exact ⟨y, ych, rfl, hc, hsame⟩
          · rintro ⟨y1, ych1, e1, e2, _⟩
            injection e1 with e1
            subst e1
            rw [hc] at e2
            injection e2 with e2
            injection e2 with e2 _
            rw [e2]
        · rw [if_neg hsame]
          constructor
          · intro h; cases h
          · rintro ⟨y1, ych1, e1, e2, e3⟩
            injection e1 with e1
            subst e1
            rw [hc] at e2
            injection e2 with e2
            injection e2 with _ e2
            subst e2
            exact absurd e3 hsame
  · have he1 : is_elmnt x = false := by simpa using he
    simp [he1]

/-- What `xml_default_choice` does with the case `yca` that it takes: `xml_default` on the
child statement of `yc` with the address of `yca`, which only adds made nodes bound to the
statements of that case. -/
theorem xml_default_case_made_specs (env : DefaultsEnv) (state : Bool)
    (hperm : ∀ l, (env.xml_sort l).Perm l) (yc : yang_stmt) (addr : Nat) (xt xt1 : cxobj)
    (hxt : xml_type xt = .CX_ELMNT)
    (h : xml_default_case env state addr (yang_children yc) xt = some xt1) :
    xt1 = xml_childvec_set xt (xml_childvec xt1) ∧
    (∀ x ∈ xml_childvec xt, x ∈ xml_childvec xt1) ∧
    ∀ x ∈ xml_childvec xt1, x ∈ xml_childvec xt ∨
      made_of env state (made_specs_case yc addr) x := by
  rw [xml_default_case_lookup] at h
  unfold made_specs_case
  cases hf : (yang_children yc).find? (fun c => yang_addr c == addr) with
  | none =>
    rw [hf] at h
    injection h with h
    subst h
    exact ⟨(xml_childvec_set_self _).symm, fun x hx => hx, fun x hx => Or.inl hx⟩
  | some c =>
    rw [hf] at h
    have hinv := xml_default_made env state hperm c xt xt1 hxt h
    refine ⟨hinv.1, hinv.2.1, fun x hx => ?_⟩
    rcases hinv.2.2 x hx with h1 | ⟨h1, _⟩
    · exact Or.inl h1
    · exact Or.inr h1

/-- C23 (as stated) fails: with `choice ch { default c1; case c1 { leaf x { default "hi"; } }
case c2 { leaf y; leaf z { default 5; } } }` and `<root><y>1</y></root>`, the child `y` is
bound under the case `c2`; `xml_default_choice` calls `xml_default` on `c2` and the leaf
`z` is created from its default. -/
theorem choice_present_runs_case_counterexample :
    (∃ x ∈ xml_childvec ex_ch_tree_y, bound_case ex_ch_env ex_ch_choice x = some ex_ch_case2) ∧
    xml_default_choice ex_ch_env false ex_ch_choice ex_ch_tree_y = some ex_ch_tree_yz :=
  ⟨⟨_, List.mem_singleton.2 rfl, rfl⟩, rfl⟩

/-- C23 (amended): when `xt` has a child bound under a case of the choice `yc`, with `yca`
the case of the first such child, `xml_default_choice(yc, xt, state)` does what
`xml_default(yca, xt, state)` does (`yca` as it stands among the child statements of `yc`):
when it returns 0, every child that `xt` had is still there and every other child is a made
node bound to a statement of that case. (`xml_sort` is assumed to permute the children.) -/
theorem choice_present_runs_case (env : DefaultsEnv) (state : Bool)
    (hperm : ∀ l, (env.xml_sort l).Perm l) (yc : yang_stmt) (xt : cxobj)
    (hxt : xml_type xt = .CX_ELMNT)
    (hx : ∃ x ∈ xml_childvec xt, (bound_case env yc x).isSome = true) :
    ∃ yca, (∃ x ∈ xml_childvec xt, bound_case env yc x = some yca) ∧
      xml_default_choice_present env yc (xml_childvec xt) = some yca ∧
      xml_default_choice env state yc xt =
        (match (yang_children yc).find? (fun c => yang_addr c == yang_addr yca) with
         | some c => xml_default env state c xt
         | none => some xt) ∧
      ∀ xt1, xml_default_choice env state yc xt = some xt1 →
        (∀ x ∈ xml_childvec xt, x ∈ xml_childvec xt1) ∧
        ∀ x ∈ xml_childvec xt1, x ∈ xml_childvec xt ∨
          made_of env state (made_specs_case yc (yang_addr yca)) x := by
  obtain ⟨x0, hx0, hb0⟩ := hx
  cases hp : xml_default_choice_present env yc (xml_childvec xt) with
  | none =>
    rw [xml_default_choice_present_eq, List.findSome?_eq_none_iff] at hp
    rw [hp x0 hx0] at hb0
    cases hb0
  | some yca =>
    have hp1 := hp
    rw [xml_default_choice_present_eq] at hp1
    obtain ⟨x1, hx1, hb1⟩ := List.exists_of_findSome?_eq_some hp1
    have hch : xml_default_choice env state yc xt =
        xml_default_case env state (yang_addr yca) (yang_children yc) xt := by
      unfold xml_default_choice xml_default_choice_case
      rw [hp]
    refine ⟨yca, ⟨x1, hx1, hb1⟩, rfl, ?_, fun xt1 h1 => ?_⟩
    · rw [hch, xml_default_case_lookup]
    · rw [hch] at h1
      exact (xml_default_case_made_specs env state hperm yc _ xt xt1 hxt h1).2

theorem choice_present_runs_case_witness :
    ∃ yca, (∃ x ∈ xml_childvec ex_ch_tree_y, bound_case ex_ch_env ex_ch_choice x = some yca) ∧
      xml_default_choice_present ex_ch_env ex_ch_choice (xml_childvec ex_ch_tree_y) =
        some yca ∧
      xml_default_choice ex_ch_env false ex_ch_choice ex_ch_tree_y =
        (match (yang_children ex_ch_choice).find?
            (fun c => yang_addr c == yang_addr yca) with
         | some c => xml_default ex_ch_env false c ex_ch_tree_y
         | none => some ex_ch_tree_y) ∧
      ∀ xt1, xml_default_choice ex_ch_env false ex_ch_choice ex_ch_tree_y = some xt1 →
        (∀ x ∈ xml_childvec ex_ch_tree_y, x ∈ xml_childvec xt1) ∧
        ∀ x ∈ xml_childvec xt1, x ∈ xml_childvec ex_ch_tree_y ∨
          made_of ex_ch_env false (made_specs_case ex_ch_choice (yang_addr yca)) x :=
  choice_present_runs_case ex_ch_env false (fun l => List.Perm.refl l) ex_ch_choice ex_ch_tree_y
    rfl ⟨_, List.mem_singleton.2 rfl, rfl⟩

/-! ## Defaults: the default case of a choice -/

theorem when_pass_not_false (env : DefaultsEnv) (y : yang_stmt) (xt : cxobj)
    (hw : when_pass env y) : when_false env xt y = false := by
  unfold when_false
  cases h : env.yang_check_when_xpath xt y with
  | none => rfl
  | some p =>
    obtain ⟨hit, nr⟩ := p
    exact hw xt hit nr h

/-- The loop of `xml_default` over a level that holds the leaf `yl` with a default: when
`yl` passes the guard, is not suppressed by `when`, and no element of its name is there or
is made before it, the loop leaves a new element of that name, flagged `XML_FLAG_DEFAULT`,
with the default as its body. -/
theorem default_each_leaf_created (env : DefaultsEnv) (state : Bool)
    (hperm : ∀ l, (env.xml_sort l).Perm l) (pre post : List yang_stmt) (yl : yang_stmt)
    (xt xt1 : cxobj) (hxt : xml_type xt = .CX_ELMNT)
    (hk : yang_keyword_get yl = .Y_LEAF) (hg : guard_pass env state yl = true)
    (hd : has_default yl = true) (hw : when_pass env yl)
    (hpre : yang_argument_get yl ∉ made_names_each pre)
    (hno : ∀ x ∈ xml_childvec xt, ¬(is_elmnt x = true ∧ xml_name x = yang_argument_get yl))
    (h : xml_default_each env state (pre ++ yl :: post) xt = some xt1) :
    ∃ x ∈ xml_childvec xt1, is_elmnt x = true ∧ xml_name x = yang_argument_get yl ∧
      x ∉ xml_childvec xt ∧ xml_flag x XML_FLAG_DEFAULT = XML_FLAG_DEFAULT ∧
      ∃ cv, yang_cv_get yl = some cv ∧ xml_body x = some cv.var_string := by
  obtain ⟨xta, xtb, ha, hb, hc⟩ := xml_default_each_split env state pre post yl xt xt1 h
  have ipre := xml_default_each_inv env state hperm pre xt xta hxt ha
  have hxta : xml_type xta = .CX_ELMNT := by rw [default_inv_type ipre]; exact hxt
  have imid := xml_default_child_inv env state hperm yl xta xtb hxta hb
  have hxtb : xml_type xtb = .CX_ELMNT := by rw [default_inv_type imid]; exact hxta
  have ipost := xml_default_each_inv env state hperm post xtb xt1 hxtb hc
  have hfind : (xml_find_type_elmnt xta (yang_argument_get yl)).isNone = true := by
    apply xml_find_type_elmnt_isNone
    intro x0 hx0 hx
    rcases ipre.2.2 x0 hx0 with h1 | ⟨_, h2, _⟩
    · exact hno x0 h1 hx
    · rw [hx.2] at h2
      exact hpre h2
  cases yl with
  | mk a k arg cv cvk ycs =>
    have hk1 : k = .Y_LEAF := hk
    subst hk1
    rcases xml_default_child_leaf_cases env state a arg cv cvk ycs xta xtb hg hb with
      ⟨_, hnot⟩ | ⟨_, _, _, xc, hcr, e⟩
    · exact absurd ⟨hd, when_pass_not_false env _ xta hw, hfind⟩ hnot
    · obtain ⟨he, hn, _, hf, _, hbody⟩ := xml_default_create_spec env _ xta xc hcr
      refine ⟨xc, ipost.2.1 xc ?_, he, hn, fun hin => hno xc hin ⟨he, hn⟩, hf, hbody⟩
      rw [e, xml_childvec_set_get]
      exact ((hperm _).mem_iff).2 (by simp)

/-- The pass of `xml_default` for a choice that passes the guard, when no child is bound
under the choice and its `default` names the case `yca`: `xml_default` on `yca`. -/
theorem xml_default_child_choice_default (env : DefaultsEnv) (state : Bool)
    (yc yd yca : yang_stmt) (xt : cxobj) (hk : yang_keyword_get yc = .Y_CHOICE)
    (hg : guard_pass env state yc = true)
    (hd : yang_find yc .Y_DEFAULT none = some yd)
    (hca : yang_find yc .Y_CASE (some (yang_argument_get yd)) = some yca)
    (haddr : ∀ c ∈ yang_children yc, yang_addr c = yang_addr yca → c = yca)
    (hp : xml_default_choice_present env yc (xml_childvec xt) = none) :
    xml_default_child env state yc xt = xml_default_each env state (yang_children yca) xt := by
  rw [xml_default_child_choice env state yc xt hk hg]
  unfold xml_default_choice xml_default_choice_case
  rw [hp, hd]
  simp only [hca]
  rw [xml_default_case_lookup]
  have hmem : yca ∈ yang_children yc := by
    unfold yang_find at hca
    exact List.mem_of_find?_eq_some hca
  have hkc : yang_keyword_get yca = .Y_CASE := by
    unfold yang_find at hca
    have := List.find?_some hca
    simp only [Bool.and_eq_true, beq_iff_eq] at this
    exact this.1
  cases hf : (yang_children yc).find? (fun c => yang_addr c == yang_addr yca) with
  | none =>
    rw [List.find?_eq_none] at hf
    exact absurd (by simp) (hf yca hmem)
  | some c =>
    have h1 := List.find?_some hf
    have h2 := haddr c (List.mem_of_find?_eq_some hf) (by simpa using h1)
    subst h2
    simp only
    cases c with
    | mk a k arg cv cvk ys =>
      have hk1 : k = .Y_CASE := hkc
      subst hk1
      rw [xml_default]
      rfl

/-- C22 (as stated) fails: in `choice ch { default c1; case c1 { leaf x { config false;
default "hi"; } } }` the `default` names the case `c1`, whose leaf `x` has a default value;
on `<root/>`, which has no child at all, `xml_default` with `state` 0 skips the config false
leaf and creates nothing. -/
theorem default_choice_default_case_counterexample :
    yang_find ex_ro_choice .Y_CASE (some "c1") = some ex_ro_case ∧
    has_default ex_ro_leaf = true ∧
    xml_default ex_env false ex_ro_root (.mk "root" .CX_ELMNT 0 (some ex_ro_root) none []) =
      some (.mk "root" .CX_ELMNT 0 (some ex_ro_root) none []) :=
  ⟨rfl, rfl, rfl⟩

/-- C22 (amended): let the choice `yc` be a child statement of `yt` that passes the
config/state guard, with a `default` that names its case `yca`, and let
`xml_default(yt, xt, state)` return 0. (1) If no child is bound under the choice when the
loop reaches it, then for every leaf `yl` of `yca` that has a default value, passes the
guard, is not suppressed by `when` and whose name is not there nor made before, `xt` gets a
new element named as `yl`, flagged `XML_FLAG_DEFAULT`, with the default as its body. (2) If
the first child bound under the choice is bound under another case, every node that the
call adds is bound to a statement of another child statement of `yt` or of that other case:
none is made for the default case. (`xml_sort` is assumed to permute the children;
`yang_choice_case_get` decides what is bound under the choice.) -/
theorem default_choice_default_case (env : DefaultsEnv) (state : Bool)
    (hperm : ∀ l, (env.xml_sort l).Perm l) (yt yc yd yca : yang_stmt)
    (pre post : List yang_stmt) (xt xt1 : cxobj)
    (hkw : xml_default_kw (yang_keyword_get yt) = true)
    (hys : yang_children yt = pre ++ yc :: post)
    (hk : yang_keyword_get yc = .Y_CHOICE)
    (hg : guard_pass env state yc = true)
    (hd : yang_find yc .Y_DEFAULT none = some yd)
    (hca : yang_find yc .Y_CASE (some (yang_argument_get yd)) = some yca)
    (haddr : ∀ c ∈ yang_children yc, yang_addr c = yang_addr yca → c = yca)
    (hxt : xml_type xt = .CX_ELMNT)
    (h : xml_default env state yt xt = some xt1) :
    ((∀ xta, xml_default_each env state pre xt = some xta →
        xml_default_choice_present env yc (xml_childvec xta) = none) →
      ∀ (yl : yang_stmt) (pre2 post2 : List yang_stmt),
        yang_children yca = pre2 ++ yl :: post2 → yang_keyword_get yl = .Y_LEAF →
        guard_pass env state yl = true → has_default yl = true → when_pass env yl →
        yang_argument_get yl ∉ made_names_each pre →
        yang_argument_get yl ∉ made_names_each pre2 →
        (∀ x ∈ xml_childvec xt, ¬(is_elmnt x = true ∧ xml_name x = yang_argument_get yl)) →
        ∃ x ∈ xml_childvec xt1, is_elmnt x = true ∧ xml_name x = yang_argument_get yl ∧
          x ∉ xml_childvec xt ∧ xml_flag x XML_FLAG_DEFAULT = XML_FLAG_DEFAULT ∧
          ∃ cv, yang_cv_get yl = some cv ∧ xml_body x = some cv.var_string) ∧
    (∀ (xta : cxobj) (yca2 : yang_stmt), xml_default_each env state pre xt = some xta →
      xml_default_choice_present env yc (xml_childvec xta) = some yca2 →
      yang_addr yca2 ≠ yang_addr yca →
      ∀ x ∈ xml_childvec xt1, x ∈ xml_childvec xt ∨
        made_of env state (made_specs_each pre ++ made_specs_case yc (yang_addr yca2) ++
          made_specs_each post) x) := by
  cases yt with
  | mk a0 k0 arg0 cv0 cvk0 ys =>
    have hys1 : ys = pre ++ yc :: post := hys
    subst hys1
    rw [xml_default] at h
    have hkw1 : xml_default_kw k0 = true := hkw
    rw [if_pos hkw1] at h
    obtain ⟨xta, xtb, ha, hb, hc⟩ := xml_default_each_split env state pre post yc xt xt1 h
    have ipre := xml_default_each_made env state hperm pre xt xta hxt ha
    have hxta : xml_type xta = .CX_ELMNT := by rw [default_inv_type ipre]; exact hxt
    have imid := xml_default_child_inv env state hperm yc xta xtb hxta hb
    have hxtb : xml_type xtb = .CX_ELMNT := by rw [default_inv_type imid]; exact hxta
    have ipost := xml_default_each_made env state hperm post xtb xt1 hxtb hc
    constructor
    · intro hnone yl pre2 post2 hyl hkl hgl hdl hwl hn1 hn2 hno
      have hp := hnone xta ha
      rw [xml_default_child_choice_default env state yc yd yca xta hk hg hd hca haddr hp,
        hyl] at hb
      have hnoa : ∀ x ∈ xml_childvec xta,
          ¬(is_elmnt x = true ∧ xml_name x = yang_argument_get yl) := by
        intro x0 hx0 hx
        rcases ipre.2.2 x0 hx0 with h1 | ⟨_, h2, _⟩
        · exact hno x0 h1 hx
        · rw [hx.2] at h2
          exact hn1 h2
      obtain ⟨x, hx, he, hn, _, hf, hbody⟩ := default_each_leaf_created env state hperm pre2
        post2 yl xta xtb hxta hkl hgl hdl hwl hn2 hnoa hb
      exact ⟨x, ipost.2.1 x hx, he, hn, fun hin => hno x hin ⟨he, hn⟩, hf, hbody⟩
    · intro xta2 yca2 ha2 hp _ x hx
      rw [ha] at ha2
      injection ha2 with ha2
      subst ha2
      rw [xml_default_child_choice env state yc xta hk hg] at hb
      have hch : xml_default_choice env state yc xta =
          xml_default_case env state (yang_addr yca2) (yang_children yc) xta := by
        unfold xml_default_choice xml_default_choice_case
        rw [hp]
      rw [hch] at hb
      have hmid := (xml_default_case_made_specs env state hperm yc _ xta xtb hxta hb).2.2
      rcases ipost.2.2 x hx with h1 | ⟨h1, _⟩
      · rcases hmid x h1 with h2 | h2
        · rcases ipre.2.2 x h2 with h3 | ⟨h3, _⟩
          · exact Or.inl h3
          · exact Or.inr (made_of_mono (fun y hy =>
              List.mem_append_left _ (List.mem_append_left _ hy)) x h3)
        · exact Or.inr (made_of_mono (fun y hy =>
            List.mem_append_left _ (List.mem_append_right _ hy)) x h2)
      · exact Or.inr (made_of_mono (fun y hy => List.mem_append_right _ hy) x h1)

theorem ex_ch_when (y : yang_stmt) : when_pass ex_ch_env y := by
  intro xt hit nr h
  cases h
  rfl

theorem ex_ch_addr : ∀ c ∈ yang_children ex_ch_choice,
    yang_addr c = yang_addr ex_ch_case1 → c = ex_ch_case1 := by
  intro c hc ha
  have hc1 : c = .mk 236 .Y_DEFAULT "c1" none [] [] ∨ c = ex_ch_case1 ∨ c = ex_ch_case2 := by
    simpa [yang_children, ex_ch_choice] using hc
  rcases hc1 with e | e | e
  · subst e
    exact absurd ha (by decide)
  · exact e
  · subst e
    exact absurd ha (by decide)

theorem default_choice_default_case_witness :
    (xml_default ex_ch_env false ex_ch_root ex_ch_tree_empty = some ex_ch_tree_x ∧
      ∃ x ∈ xml_childvec ex_ch_tree_x, is_elmnt x = true ∧
        xml_name x = yang_argument_get ex_ch_leaf_x ∧ x ∉ xml_childvec ex_ch_tree_empty ∧
        xml_flag x XML_FLAG_DEFAULT = XML_FLAG_DEFAULT ∧
        ∃ cv, yang_cv_get ex_ch_leaf_x = some cv ∧ xml_body x = some cv.var_string) ∧
    (xml_default ex_ch_env false ex_ch_root ex_ch_tree_y = some ex_ch_tree_yz ∧
      ∀ x ∈ xml_childvec ex_ch_tree_yz, x ∈ xml_childvec ex_ch_tree_y ∨
        made_of ex_ch_env false (made_specs_each [] ++
          made_specs_case ex_ch_choice (yang_addr ex_ch_case2) ++ made_specs_each []) x) :=
  ⟨⟨rfl, (default_choice_default_case ex_ch_env false (fun l => List.Perm.refl l) ex_ch_root
      ex_ch_choice (.mk 236 .Y_DEFAULT "c1" none [] []) ex_ch_case1 [] [] ex_ch_tree_empty
      ex_ch_tree_x rfl rfl rfl rfl rfl rfl ex_ch_addr rfl rfl).1
      (fun xta hx => by cases hx; rfl) ex_ch_leaf_x [] [] rfl rfl rfl rfl
      (ex_ch_when _) (by rw [made_names_each]; exact List.not_mem_nil _)
      (by rw [made_names_each]; exact List.not_mem_nil _) (fun _ hx => by cases hx)⟩,
    ⟨rfl, (default_choice_default_case ex_ch_env false (fun l => List.Perm.refl l) ex_ch_root
      ex_ch_choice (.mk 236 .Y_DEFAULT "c1" none [] []) ex_ch_case1 [] [] ex_ch_tree_y
      ex_ch_tree_yz rfl rfl rfl rfl rfl rfl ex_ch_addr rfl rfl).2 ex_ch_tree_y ex_ch_case2
      rfl rfl (by decide)⟩⟩

/-! ## Defaults: choice exclusivity -/

theorem made_of_bound_case {env : DefaultsEnv} {state : Bool} {specs : List yang_stmt}
    {yc c : yang_stmt} {x : cxobj} (hm : made_of env state specs x)
    (hb : bound_case env yc x = some c) :
    ∃ y ∈ specs, ∃ ch, env.yang_choice_case_get y = some (c, ch) ∧ yang_same ch yc = true := by
  obtain ⟨_, y, hy, hs⟩ := hm
  obtain ⟨_, y1, ch, hs1, hc, hsame⟩ := (bound_case_some env yc x c).1 hb
  rw [hs] at hs1
  injection hs1 with hs1
  subst hs1
  exact ⟨y, hy, ch, hc, hsame⟩

/-- C24. Choice exclusivity fails for a choice inside a case. In `choice outer { default
c1; case c1 { leaf x { default "hi"; } } case c2 { choice inner { default i2; case i1 {
leaf y; } case i2 { leaf w { default 5; } } } } }` with `<root><y>1</y></root>`, one case
of each choice is present. `yang_choice_case_get` gives one choice for `y`. When it gives
`inner`, the scan for `outer` finds no child and `x` of the default case `c1` is created
next to `y` of `c2`; when it gives `outer`, the scan for `inner` finds no child and `w` of
the default case `i2` is created next to `y` of `i1`. In both cases a default case is
taken although a child of another case of that choice is there, against rule 1 in the
header of `xml_default_choice`. -/
theorem default_choice_ignores_nested_case :
    xml_default ex_n_env_near false ex_n_root ex_n_tree =
      some (.mk "root" .CX_ELMNT 0 (some ex_n_root) none
        [.mk "y" .CX_ELMNT 0 (some ex_n_leaf_y) none [ex_body "1"],
         .mk "x" .CX_ELMNT XML_FLAG_DEFAULT
           (some (.mk 251 .Y_LEAF "x" (some ⟨false, 0, false, "hi"⟩) [] [])) none
           [ex_body "hi"]]) ∧
    xml_default ex_n_env_far false ex_n_root ex_n_tree =
      some (.mk "root" .CX_ELMNT 0 (some ex_n_root) none
        [.mk "y" .CX_ELMNT 0 (some ex_n_leaf_y) none [ex_body "1"],
         .mk "w" .CX_ELMNT XML_FLAG_DEFAULT
           (some (.mk 255 .Y_LEAF "w" (some ⟨false, 5, false, "5"⟩) [] [])) none
           [ex_body "5"]]) :=
  ⟨rfl, rfl⟩

/-- Choice exclusivity for the children that `yang_choice_case_get` places under the
choice. Let the choice `yc` be a child statement of `yt`, let
`yang_choice_case_get` place no statement of the other child statements of `yt` under `yc`,
and a statement of a case of `yc` under that case only. If the children of `xt` that are
bound under `yc` are all bound under one case, then so are the children of `xt` after
`xml_default(yt, xt, state)` has returned 0. (`xml_sort` is assumed to permute the
children.) -/
theorem default_choice_exclusive (env : DefaultsEnv) (state : Bool)
    (hperm : ∀ l, (env.xml_sort l).Perm l) (yt yc : yang_stmt) (pre post : List yang_stmt)
    (xt xt1 : cxobj)
    (hkw : xml_default_kw (yang_keyword_get yt) = true)
    (hys : yang_children yt = pre ++ yc :: post)
    (hk : yang_keyword_get yc = .Y_CHOICE)
    (hxt : xml_type xt = .CX_ELMNT)
    (hsib : ∀ y ∈ made_specs_each pre ++ made_specs_each post, ∀ c ch,
      env.yang_choice_case_get y = some (c, ch) → yang_same ch yc = false)
    (hcase : ∀ c ∈ yang_children yc, ∀ y ∈ made_specs_default c, ∀ c1 ch,
      env.yang_choice_case_get y = some (c1, ch) → yang_same ch yc = true →
      yang_addr c1 = yang_addr c)
    (hin : ∀ x1 ∈ xml_childvec xt, ∀ x2 ∈ xml_childvec xt, ∀ c1 c2,
      bound_case env yc x1 = some c1 → bound_case env yc x2 = some c2 →
      yang_addr c1 = yang_addr c2)
    (h : xml_default env state yt xt = some xt1) :
    ∀ x1 ∈ xml_childvec xt1, ∀ x2 ∈ xml_childvec xt1, ∀ c1 c2,
      bound_case env yc x1 = some c1 → bound_case env yc x2 = some c2 →
      yang_addr c1 = yang_addr c2 := by
  cases yt with
  | mk a0 k0 arg0 cv0 cvk0 ys =>
    have hys1 : ys = pre ++ yc :: post := hys
    subst hys1
    rw [xml_default] at h
    have hkw1 : xml_default_kw k0 = true := hkw
    rw [if_pos hkw1] at h
    obtain ⟨xta, xtb, ha, hb, hc⟩ := xml_default_each_split env state pre post yc xt xt1 h
    have ipre := xml_default_each_made env state hperm pre xt xta hxt ha
    have hxta : xml_type xta = .CX_ELMNT := by rw [default_inv_type ipre]; exact hxt
    have imid := xml_default_child_inv env state hperm yc xta xtb hxta hb
    have hxtb : xml_type xtb = .CX_ELMNT := by rw [default_inv_type imid]; exact hxta
    have ipost := xml_default_each_made env state hperm post xtb xt1 hxtb hc
    -- a bound child of `xta` was in `xt`
    have hfpre : ∀ x ∈ xml_childvec xta, ∀ c, bound_case env yc x = some c →
        x ∈ xml_childvec xt := by
      intro x hx c hbc
      rcases ipre.2.2 x hx with h1 | ⟨h1, _⟩
      · exact h1
      · obtain ⟨y, hy, ch, hyc, hsame⟩ := made_of_bound_case h1 hbc
        rw [hsib y (List.mem_append_left _ hy) c ch hyc] at hsame
        cases hsame
    -- a bound child of `xt1` was in `xtb`
    have hfpost : ∀ x ∈ xml_childvec xt1, ∀ c, bound_case env yc x = some c →
        x ∈ xml_childvec xtb := by
      intro x hx c hbc
      rcases ipost.2.2 x hx with h1 | ⟨h1, _⟩
      · exact h1
      · obtain ⟨y, hy, ch, hyc, hsame⟩ := made_of_bound_case h1 hbc
        rw [hsib y (List.mem_append_right _ hy) c ch hyc] at hsame
        cases hsame
    -- the bound children of `xtb`: old ones, or made for the case that was taken
    have hclass : ∃ sel : Option yang_stmt,
        (∀ x ∈ xml_childvec xtb, ∀ c, bound_case env yc x = some c →
          x ∈ xml_childvec xt ∨ ∃ yca, sel = some yca ∧ yang_addr c = yang_addr yca) ∧
        (∀ x ∈ xml_childvec xt, ∀ c, bound_case env yc x = some c →
          ∀ yca, sel = some yca → yang_addr c = yang_addr yca) := by
      by_cases hg : guard_pass env state yc = true
      case neg =>
        rw [xml_default_child_guard_skip env state yc xta (by simpa using hg)] at hb
        injection hb with hb
        subst hb
        exact ⟨none, fun x hx c hbc => Or.inl (hfpre x hx c hbc),
          fun _ _ _ _ yca hsel => by cases hsel⟩
      rw [xml_default_child_choice env state yc xta hk hg] at hb
      refine ⟨xml_default_choice_case env yc xta, fun x hx c hbc => ?_,
        fun x hx c hbc yca hsel => ?_⟩
      · unfold xml_default_choice at hb
        cases hsel : xml_default_choice_case env yc xta with
        | none =>
          rw [hsel] at hb
          injection hb with hb
          subst hb
          exact Or.inl (hfpre x hx c hbc)
        | some yca =>
          rw [hsel] at hb
          rcases (xml_default_case_made_specs env state hperm yc _ xta xtb hxta hb).2.2 x hx
            with h1 | h1
          · exact Or.inl (hfpre x h1 c hbc)
          · right
            refine ⟨yca, rfl, ?_⟩
            obtain ⟨y, hy, ch, hyc, hsame⟩ := made_of_bound_case h1 hbc
            unfold made_specs_case at hy
            cases hf : (yang_children yc).find? (fun c => yang_addr c == yang_addr yca) with
            | none => rw [hf] at hy; cases hy
            | some cp =>
              rw [hf] at hy
              have h2 := hcase cp (List.mem_of_find?_eq_some hf) y hy c ch hyc hsame
              have h3 := List.find?_some hf
              rw [h2]
              simpa using h3
      · have hxa := ipre.2.1 x hx
        unfold xml_default_choice_case at hsel
        cases hp : xml_default_choice_present env yc (xml_childvec xta) with
        | none =>
          rw [xml_default_choice_present_eq, List.findSome?_eq_none_iff] at hp
          rw [hp x hxa] at hbc
          cases hbc
        | some yca0 =>
          rw [hp] at hsel
          injection hsel with hsel
          subst hsel
          rw [xml_default_choice_present_eq] at hp
          obtain ⟨x0, hx0, hb0⟩ := List.exists_of_findSome?_eq_some hp
          exact hin x hx x0 (hfpre x0 hx0 _ hb0) c yca0 hbc hb0
    obtain ⟨sel, hnew, hold⟩ := hclass
    intro x1 hx1 x2 hx2 c1 c2 hb1 hb2
    rcases hnew x1 (hfpost x1 hx1 c1 hb1) c1 hb1 with h1 | ⟨y1, hs1, e1⟩
    · rcases hnew x2 (hfpost x2 hx2 c2 hb2) c2 hb2 with h2 | ⟨y2, hs2, e2⟩
      · exact hin x1 h1 x2 h2 c1 c2 hb1 hb2
      · rw [e2]
        exact hold x1 h1 c1 hb1 y2 hs2
    · rcases hnew x2 (hfpost x2 hx2 c2 hb2) c2 hb2 with h2 | ⟨y2, hs2, e2⟩
      · rw [e1]
        exact (hold x2 h2 c2 hb2 y1 hs1).symm
      · rw [hs1] at hs2
        injection hs2 with hs2
        subst hs2
        rw [e1, e2]

theorem ex_ch_sib : ∀ y ∈ made_specs_each [] ++ made_specs_each [], ∀ c ch,
    ex_ch_env.yang_choice_case_get y = some (c, ch) → yang_same ch ex_ch_choice = false := by
  intro y hy
  have e : made_specs_each [] ++ made_specs_each [] = [] := rfl
  rw [e] at hy
  cases hy

theorem ex_ch_cases : ∀ c ∈ yang_children ex_ch_choice, ∀ y ∈ made_specs_default c, ∀ c1 ch,
    ex_ch_env.yang_choice_case_get y = some (c1, ch) → yang_same ch ex_ch_choice = true →
    yang_addr c1 = yang_addr c := by
  intro c hc y hy c1 ch hyc _
  have hc1 : c = .mk 236 .Y_DEFAULT "c1" none [] [] ∨ c = ex_ch_case1 ∨ c = ex_ch_case2 := by
    simpa [yang_children, ex_ch_choice] using hc
  rcases hc1 with e | e | e
  · subst e
    have e1 : made_specs_default (.mk 236 .Y_DEFAULT "c1" none [] []) = [] := rfl
    rw [e1] at hy
    cases hy
  · subst e
    have e1 : made_specs_default ex_ch_case1 = [ex_ch_leaf_x] := rfl
    rw [e1] at hy
    obtain rfl := List.mem_singleton.1 hy
    cases hyc
    rfl
  · subst e
    have e1 : made_specs_default ex_ch_case2 = [ex_ch_leaf_y, ex_ch_leaf_z] := rfl
    rw [e1] at hy
    rcases List.mem_cons.1 hy with e2 | hy
    · subst e2
      cases hyc
      rfl
    · obtain rfl := List.mem_singleton.1 hy
      cases hyc
      rfl

theorem ex_ch_one_case : ∀ x1 ∈ xml_childvec ex_ch_tree_y, ∀ x2 ∈ xml_childvec ex_ch_tree_y,
    ∀ c1 c2, bound_case ex_ch_env ex_ch_choice x1 = some c1 →
      bound_case ex_ch_env ex_ch_choice x2 = some c2 → yang_addr c1 = yang_addr c2 := by
  intro x1 hx1 x2 hx2 c1 c2 hb1 hb2
  obtain rfl := List.mem_singleton.1 hx1
  obtain rfl := List.mem_singleton.1 hx2
  rw [hb1] at hb2
  injection hb2 with hb2
  rw [hb2]

theorem default_choice_exclusive_witness :
    xml_default ex_ch_env false ex_ch_root ex_ch_tree_y = some ex_ch_tree_yz ∧
    ∀ x1 ∈ xml_childvec ex_ch_tree_yz, ∀ x2 ∈ xml_childvec ex_ch_tree_yz, ∀ c1 c2,
      bound_case ex_ch_env ex_ch_choice x1 = some c1 →
      bound_case ex_ch_env ex_ch_choice x2 = some c2 → yang_addr c1 = yang_addr c2 :=
  ⟨rfl, default_choice_exclusive ex_ch_env false (fun l => List.Perm.refl l) ex_ch_root
    ex_ch_choice [] [] ex_ch_tree_y ex_ch_tree_yz rfl rfl rfl rfl ex_ch_sib ex_ch_cases
    ex_ch_one_case rfl⟩

/-! ## Defaults: xml_default_nopresence -/

theorem ex_nopresence_eval :
    xml_default_nopresence ex_env 2 2 0 ex_leaf_junk = some (false, ex_leaf_junk) ∧
    xml_default_nopresence ex_env 2 4 0 ex_root_filled = some (true, ex_root_empty) ∧
    nopresence_pruned ex_env 2 ex_root_filled = ex_root_empty :=
  ⟨rfl, rfl, rfl⟩

/-! ## Defaults: pruned trees -/

theorem nopresence_value_each_cons (mode : Nat) (c : cxobj) (rest : List cxobj) :
    nopresence_value_each mode (c :: rest) =
      ((!is_elmnt c || nopresence_value mode c) && nopresence_value_each mode rest) := by
  rw [nopresence_value_each]

theorem nopresence_value_each_append (mode : Nat) :
    ∀ (l1 l2 : List cxobj), nopresence_value_each mode (l1 ++ l2) =
      (nopresence_value_each mode l1 && nopresence_value_each mode l2)
  | [], l2 => by
    rw [List.nil_append, nopresence_value_each]
    rfl
  | c :: l1, l2 => by
    simp only [List.cons_append]
    rw [nopresence_value_each_cons, nopresence_value_each_cons,
      nopresence_value_each_append mode l1 l2, Bool.and_assoc]

theorem nopresence_pruned_each_append (env : DefaultsEnv) (mode : Nat) (config : Bool) :
    ∀ (l1 l2 : List cxobj), nopresence_pruned_each env mode config (l1 ++ l2) =
      nopresence_pruned_each env mode config l1 ++ nopresence_pruned_each env mode config l2
  | [], l2 => by
    rw [List.nil_append, nopresence_pruned_each]
    rfl
  | c :: l1, l2 => by
    simp only [List.cons_append]
    rw [nopresence_pruned_each, nopresence_pruned_each,
      nopresence_pruned_each_append env mode config l1 l2]
    split
    · rfl
    · split
      · rfl
      · rfl

theorem nopresence_rmx_fields (mode : Nat) (n : String) (t : cxobj_type) (f : Nat)
    (s : Option yang_stmt) (v : Option String) (cs cs1 : List cxobj) :
    xml_default_nopresence_rmx mode (.mk n t f s v cs) =
      xml_default_nopresence_rmx mode (.mk n t f s v cs1) := rfl

theorem nopresence_purge_fields (mode : Nat) (config : Bool) (n : String) (t : cxobj_type)
    (f : Nat) (s : Option yang_stmt) (v : Option String) (cs cs1 : List cxobj) :
    xml_default_nopresence_purge mode config (.mk n t f s v cs) =
      xml_default_nopresence_purge mode config (.mk n t f s v cs1) := rfl

theorem nopresence_pruned_fields (env : DefaultsEnv) (mode : Nat) (x : cxobj) :
    nopresence_pruned env mode x =
      xml_childvec_set x (nopresence_pruned_each env mode
        (xml_default_nopresence_config env x) (xml_childvec x)) := by
  cases x with
  | mk n t f s v cs =>
    rw [nopresence_pruned]
    rfl

theorem is_elmnt_nopresence_pruned (env : DefaultsEnv) (mode : Nat) (x : cxobj) :
    is_elmnt (nopresence_pruned env mode x) = is_elmnt x := by
  rw [nopresence_pruned_fields, is_elmnt_childvec_set]

theorem nopresence_purge_pruned (env : DefaultsEnv) (mode : Nat) (config : Bool) (x : cxobj) :
    xml_default_nopresence_purge mode config (nopresence_pruned env mode x) =
      xml_default_nopresence_purge mode config x := by
  cases x with
  | mk n t f s v cs =>
    rw [nopresence_pruned]
    rfl

mutual
/-- The answer for a node does not change when the node is pruned. -/
theorem nopresence_value_pruned (env : DefaultsEnv) (mode : Nat) :
    ∀ (x : cxobj), nopresence_value mode (nopresence_pruned env mode x) = nopresence_value mode x
  | .mk n t f s v cs => by
    rw [nopresence_pruned, nopresence_value, nopresence_value,
      nopresence_value_pruned_each env mode _ cs]
    rfl
theorem nopresence_value_pruned_each (env : DefaultsEnv) (mode : Nat) (config : Bool) :
    ∀ (cs : List cxobj),
      nopresence_value_each mode (nopresence_pruned_each env mode config cs) =
        nopresence_value_each mode cs
  | [] => by
    rw [nopresence_pruned_each]
  | c :: rest => by
    rw [nopresence_pruned_each, nopresence_value_each_cons]
    have ih := nopresence_value_pruned_each env mode config rest
    by_cases he : is_elmnt c = true
    · simp only [he, Bool.not_true, Bool.false_eq_true, if_false, Bool.false_or]
      by_cases hv : (nopresence_value mode c &&
          xml_default_nopresence_purge mode config c) = true
      · rw [if_pos hv, ih]
        simp only [Bool.and_eq_true] at hv
        rw [hv.1, Bool.true_and]
      · rw [if_neg hv, nopresence_value_each_cons, ih, is_elmnt_nopresence_pruned, he,
          nopresence_value_pruned env mode c]
        rfl
    · have he1 : is_elmnt c = false := by simpa using he
      simp only [he1, Bool.not_false, if_true, Bool.true_or, Bool.true_and]
      rw [nopresence_value_each_cons, ih, he1]
      rfl
end

theorem nopresence_config_pruned (env : DefaultsEnv) (mode : Nat) (x : cxobj) :
    xml_default_nopresence_config env (nopresence_pruned env mode x) =
      xml_default_nopresence_config env x := by
  cases x with
  | mk n t f s v cs =>
    rw [nopresence_pruned]
    rfl

mutual
/-- Pruning a pruned tree changes nothing. -/
theorem nopresence_pruned_idem (env : DefaultsEnv) (mode : Nat) :
    ∀ (x : cxobj), nopresence_pruned env mode (nopresence_pruned env mode x) =
      nopresence_pruned env mode x
  | .mk n t f s v cs => by
    rw [nopresence_pruned, nopresence_pruned,
      nopresence_pruned_idem_each env mode _ cs]
theorem nopresence_pruned_idem_each (env : DefaultsEnv) (mode : Nat) (config : Bool) :
    ∀ (cs : List cxobj),
      nopresence_pruned_each env mode config (nopresence_pruned_each env mode config cs) =
        nopresence_pruned_each env mode config cs
  | [] => by
    rw [nopresence_pruned_each, nopresence_pruned_each]
  | c :: rest => by
    have ih := nopresence_pruned_idem_each env mode config rest
    rw [nopresence_pruned_each]
    by_cases he : is_elmnt c = true
    · simp only [he, Bool.not_true, Bool.false_eq_true, if_false]
      by_cases hv : (nopresence_value mode c &&
          xml_default_nopresence_purge mode config c) = true
      · rw [if_pos hv, ih]
      · rw [if_neg hv, nopresence_pruned_each, is_elmnt_nopresence_pruned, he,
          nopresence_value_pruned, nopresence_purge_pruned, ih,
          nopresence_pruned_idem env mode c]
        simp only [Bool.not_true, Bool.false_eq_true, if_false]
        rw [if_neg hv]
    · have he1 : is_elmnt c = false := by simpa using he
      simp only [he1, Bool.not_false, if_true]
      rw [nopresence_pruned_each, ih]
      simp only [he1, Bool.not_false, if_true]
end

mutual
theorem nopresence_pruned_depth (env : DefaultsEnv) (mode : Nat) :
    ∀ (x : cxobj), xml_depth (nopresence_pruned env mode x) ≤ xml_depth x
  | .mk n t f s v cs => by
    rw [nopresence_pruned, xml_depth, xml_depth]
    exact Nat.succ_le_succ (nopresence_pruned_depth_each env mode _ cs)
theorem nopresence_pruned_depth_each (env : DefaultsEnv) (mode : Nat) (config : Bool) :
    ∀ (cs : List cxobj),
      xml_depth_each (nopresence_pruned_each env mode config cs) ≤ xml_depth_each cs
  | [] => by
    rw [nopresence_pruned_each]
  | c :: rest => by
    have ih := nopresence_pruned_depth_each env mode config rest
    have ihc := nopresence_pruned_depth env mode c
    rw [nopresence_pruned_each]
    split
    · rw [xml_depth_each, xml_depth_each]
      omega
    · split
      · rw [xml_depth_each]
        omega
      · rw [xml_depth_each, xml_depth_each]
        omega
end

/-! ## Defaults: the loop of xml_default_nopresence -/

theorem nopresence_pruned_each_cons_elmnt (env : DefaultsEnv) (mode : Nat) (config : Bool)
    (c : cxobj) (rest : List cxobj) (he : is_elmnt c = true) :
    nopresence_pruned_each env mode config (c :: rest) =
      if nopresence_value mode c && xml_default_nopresence_purge mode config c then
        nopresence_pruned_each env mode config rest
      else nopresence_pruned env mode c :: nopresence_pruned_each env mode config rest := by
  rw [nopresence_pruned_each]
  simp only [he, Bool.not_true, Bool.false_eq_true, if_false]

theorem nopresence_pruned_each_cons_other (env : DefaultsEnv) (mode : Nat) (config : Bool)
    (c : cxobj) (rest : List cxobj) (he : is_elmnt c = false) :
    nopresence_pruned_each env mode config (c :: rest) =
      c :: nopresence_pruned_each env mode config rest := by
  rw [nopresence_pruned_each]
  simp only [he, Bool.not_false, if_true]

/-- One run of the loop of `xml_default_nopresence`, for a recursive call that gives the
answer and the pruned tree on the nodes of depth at most `d`: a run to the end gives the
answer for the children and the pruned children; a run that stops at a purge leaves fewer
children, with the same answer and the same pruned children. -/
theorem xml_default_nopresence_scan_spec (env : DefaultsEnv) (mode : Nat) (config : Bool)
    (call : cxobj → Option (Bool × cxobj)) (d : Nat)
    (hcall : ∀ x, xml_depth x ≤ d →
      call x = some (nopresence_value mode x, nopresence_pruned env mode x)) :
    ∀ (cs : List cxobj) (rmx : Bool) (pre : List cxobj), (∀ x ∈ cs, xml_depth x ≤ d) →
      ∃ r cs1 b, xml_default_nopresence_scan call mode config rmx pre cs = some (r, cs1, b) ∧
        (b = false → r = (rmx && nopresence_value_each mode cs) ∧
          cs1 = pre ++ nopresence_pruned_each env mode config cs) ∧
        (b = true → ∃ X, cs1 = pre ++ X ∧ X.length < cs.length ∧
          (∀ x ∈ X, xml_depth x ≤ d) ∧
          (r && nopresence_value_each mode X) = (rmx && nopresence_value_each mode cs) ∧
          nopresence_pruned_each env mode config X =
            nopresence_pruned_each env mode config cs)
  | [], rmx, pre, _ => by
    refine ⟨rmx, pre, false, by rw [xml_default_nopresence_scan], fun _ => ?_,
      fun h => by cases h⟩
    rw [nopresence_value_each, nopresence_pruned_each]
    simp
  | x :: rest, rmx, pre, hd => by
    have hdr : ∀ y ∈ rest, xml_depth y ≤ d := fun y hy => hd y (List.mem_cons_of_mem _ hy)
    have hdx : xml_depth x ≤ d := hd x (List.mem_cons_self _ _)
    rw [xml_default_nopresence_scan]
    by_cases he : is_elmnt x = true
    · simp only [he, Bool.not_true, Bool.false_eq_true, if_false]
      rw [hcall x hdx]
      have hdp : xml_depth (nopresence_pruned env mode x) ≤ d :=
        Nat.le_trans (nopresence_pruned_depth env mode x) hdx
      cases hv : nopresence_value mode x with
      | true =>
        simp only
        rw [nopresence_purge_pruned]
        by_cases hp : xml_default_nopresence_purge mode config x = true
        · rw [if_pos hp]
          refine ⟨rmx, pre ++ rest, true, rfl, (fun h => by cases h), fun _ => ?_⟩
          refine ⟨rest, rfl, Nat.lt_succ_self _, hdr, ?_, ?_⟩
          · rw [nopresence_value_each_cons, hv]
            simp
          · rw [nopresence_pruned_each_cons_elmnt env mode config x rest he, hv, hp]
            rfl
        · rw [if_neg hp]
          obtain ⟨r, cs1, b, hs, h1, h2⟩ := xml_default_nopresence_scan_spec env mode config
            call d hcall rest rmx (pre ++ [nopresence_pruned env mode x]) hdr
          have hkeep : nopresence_pruned_each env mode config (x :: rest) =
              nopresence_pruned env mode x :: nopresence_pruned_each env mode config rest := by
            rw [nopresence_pruned_each_cons_elmnt env mode config x rest he, hv]
            simp [hp]
          refine ⟨r, cs1, b, hs, fun hb => ?_, fun hb => ?_⟩
          · obtain ⟨e1, e2⟩ := h1 hb
            refine ⟨?_, ?_⟩
            · rw [e1, nopresence_value_each_cons, hv]
              simp
            · rw [e2, hkeep]
              simp
          · obtain ⟨X, e1, e2, e3, e4, e5⟩ := h2 hb
            refine ⟨nopresence_pruned env mode x :: X, by rw [e1]; simp, by simp; omega,
              ?_, ?_, ?_⟩
            · intro y hy
              rcases List.mem_cons.1 hy with hy | hy
              · rw [hy]; exact hdp
              · exact e3 y hy
            · rw [nopresence_value_each_cons, nopresence_value_each_cons,
                nopresence_value_pruned, hv]
              simpa using e4
            · rw [hkeep, nopresence_pruned_each_cons_elmnt env mode config _ X
                (by rw [is_elmnt_nopresence_pruned]; exact he), nopresence_value_pruned,
                nopresence_purge_pruned, hv, nopresence_pruned_idem, e5]
              simp [hp]
      | false =>
        simp only
        obtain ⟨r, cs1, b, hs, h1, h2⟩ := xml_default_nopresence_scan_spec env mode config
          call d hcall rest false (pre ++ [nopresence_pruned env mode x]) hdr
        have hkeep : nopresence_pruned_each env mode config (x :: rest) =
            nopresence_pruned env mode x :: nopresence_pruned_each env mode config rest := by
          rw [nopresence_pruned_each_cons_elmnt env mode config x rest he, hv]
          simp
        refine ⟨r, cs1, b, hs, fun hb => ?_, fun hb => ?_⟩
        · obtain ⟨e1, e2⟩ := h1 hb
          refine ⟨?_, ?_⟩
          · rw [e1, nopresence_value_each_cons, hv, he]
            simp
          · rw [e2, hkeep]
            simp
        · obtain ⟨X, e1, e2, e3, e4, e5⟩ := h2 hb
          refine ⟨nopresence_pruned env mode x :: X, by rw [e1]; simp, by simp; omega,
            ?_, ?_, ?_⟩
          · intro y hy
            rcases List.mem_cons.1 hy with hy | hy
            · rw [hy]; exact hdp
            · exact e3 y hy
          · rw [nopresence_value_each_cons, nopresence_value_each_cons,
              nopresence_value_pruned, hv, is_elmnt_nopresence_pruned, he]
            simp
          · rw [hkeep, nopresence_pruned_each_cons_elmnt env mode config _ X
              (by rw [is_elmnt_nopresence_pruned]; exact he), nopresence_value_pruned,
              nopresence_purge_pruned, hv, nopresence_pruned_idem, e5]
            simp
    · have he1 : is_elmnt x = false := by simpa using he
      simp only [he1, Bool.not_false, if_true]
      obtain ⟨r, cs1, b, hs, h1, h2⟩ := xml_default_nopresence_scan_spec env mode config
        call d hcall rest rmx (pre ++ [x]) hdr
      refine ⟨r, cs1, b, hs, fun hb => ?_, fun hb => ?_⟩
      · obtain ⟨e1, e2⟩ := h1 hb
        refine ⟨?_, ?_⟩
        · rw [e1, nopresence_value_each_cons, he1]
          simp
        · rw [e2, nopresence_pruned_each_cons_other env mode config x rest he1]
          simp
      · obtain ⟨X, e1, e2, e3, e4, e5⟩ := h2 hb
        refine ⟨x :: X, by rw [e1]; simp, by simp; omega, ?_, ?_, ?_⟩
        · intro y hy
          rcases List.mem_cons.1 hy with hy | hy
          · rw [hy]; exact hdx
          · exact e3 y hy
        · rw [nopresence_value_each_cons, nopresence_value_each_cons, he1]
          simpa using e4
        · rw [nopresence_pruned_each_cons_other env mode config x rest he1,
            nopresence_pruned_each_cons_other env mode config x X he1, e5]

/-- The loop of `xml_default_nopresence` ends within as many restarts as there are children,
with the answer for the children and the pruned children. -/
theorem xml_default_nopresence_loop_spec (env : DefaultsEnv) (mode : Nat) (config : Bool)
    (call : cxobj → Option (Bool × cxobj)) (d : Nat)
    (hcall : ∀ x, xml_depth x ≤ d →
      call x = some (nopresence_value mode x, nopresence_pruned env mode x)) :
    ∀ (fuel : Nat) (cs : List cxobj) (rmx : Bool), cs.length ≤ fuel →
      (∀ x ∈ cs, xml_depth x ≤ d) →
      xml_default_nopresence_loop call mode config fuel rmx cs =
        some (rmx && nopresence_value_each mode cs, nopresence_pruned_each env mode config cs)
  | fuel, cs, rmx, hlen, hd => by
    obtain ⟨r, cs1, b, hs, h1, h2⟩ := xml_default_nopresence_scan_spec env mode config call d
      hcall cs rmx [] hd
    unfold xml_default_nopresence_loop
    rw [hs]
    cases b with
    | false =>
      obtain ⟨e1, e2⟩ := h1 rfl
      simp only
      rw [e1, e2, List.nil_append]
    | true =>
      obtain ⟨X, e1, e2, e3, e4, e5⟩ := h2 rfl
      rw [List.nil_append] at e1
      subst e1
      simp only
      cases fuel with
      | zero => omega
      | succ fuel1 =>
        simp only
        rw [xml_default_nopresence_loop_spec env mode config call d hcall fuel1 cs1 r
          (by omega) e3, e4, e5]

/-- On a tree of depth at most `fuel`, `xml_default_nopresence(xn, mode, 0)` returns the
answer for `xn` and leaves the pruned tree. -/
theorem xml_default_nopresence_spec (env : DefaultsEnv) (mode : Nat) :
    ∀ (fuel : Nat) (xn : cxobj), xml_depth xn ≤ fuel →
      xml_default_nopresence env mode fuel 0 xn =
        some (nopresence_value mode xn, nopresence_pruned env mode xn)
  | 0, xn, h => by
    have := xml_depth_pos xn
    omega
  | fuel + 1, xn, h => by
    rw [xml_default_nopresence]
    simp only [bne_self_eq_false, Bool.false_and, Bool.false_eq_true, if_false]
    have hd : ∀ x ∈ xml_childvec xn, xml_depth x ≤ fuel := by
      intro x hx
      have := xml_depth_child xn x hx
      omega
    rw [xml_default_nopresence_loop_spec env mode _ _ fuel
      (fun x hx => xml_default_nopresence_spec env mode fuel x hx) _ _ _ (Nat.le_refl _) hd]
    cases xn with
    | mk n t f s v cs =>
      simp only
      rw [nopresence_value, nopresence_pruned]
      rfl

/-! ## Defaults: the answer of xml_default_nopresence -/

theorem nopresence_rmx_iff (mode : Nat) (xn : cxobj) :
    xml_default_nopresence_rmx mode xn = true ↔ nopresence_kind mode xn := by
  unfold xml_default_nopresence_rmx nopresence_kind
  cases hs : xml_spec xn with
  | none => simp
  | some yn =>
    simp only [Option.some.injEq, exists_eq_left']
    by_cases h1 : (yang_keyword_get yn == .Y_CONTAINER &&
        (yang_find yn .Y_PRESENCE none).isNone) = true
    · rw [if_pos h1]
      simp only [Bool.and_eq_true, beq_iff_eq, Option.isNone_iff_eq_none] at h1
      simp [h1]
    · rw [if_neg h1]
      by_cases h2 : (yang_keyword_get yn == .Y_LEAF && xml_flag xn XML_FLAG_DEFAULT != 0 &&
          mode != 3) = true
      · rw [if_pos h2]
        simp only [Bool.and_eq_true, beq_iff_eq, bne_iff_ne] at h2
        simp [h2]
      · rw [if_neg h2]
        simp only [Bool.and_eq_true, beq_iff_eq, Option.isNone_iff_eq_none, bne_iff_ne,
          not_and] at h1 h2
        simp only [Bool.false_eq_true, false_iff, not_or, not_and]
        exact ⟨h1, fun a b => h2 ⟨a, b⟩⟩

theorem nopresence_value_each_iff (mode : Nat) :
    ∀ (cs : List cxobj), nopresence_value_each mode cs = true ↔
      ∀ x ∈ cs, is_elmnt x = true → nopresence_value mode x = true
  | [] => by
    rw [nopresence_value_each]
    simp
  | c :: rest => by
    rw [nopresence_value_each_cons, Bool.and_eq_true, nopresence_value_each_iff mode rest]
    constructor
    · rintro ⟨h1, h2⟩ x hx he
      rcases List.mem_cons.1 hx with e | hx
      · subst e
        simpa [he] using h1
      · exact h2 x hx he
    · intro h
      refine ⟨?_, fun x hx he => h x (List.mem_cons_of_mem _ hx) he⟩
      cases he : is_elmnt c with
      | false => rfl
      | true => simpa using h c (List.mem_cons_self _ _) he

theorem nopresence_value_fields (mode : Nat) (x : cxobj) :
    nopresence_value mode x =
      (xml_default_nopresence_rmx mode x && nopresence_value_each mode (xml_childvec x)) := by
  cases x with
  | mk n t f s v cs =>
    rw [nopresence_value]
    rfl

/-- Why the leaves are asked to have no element child (`leaf_plain`): the node `x` of
`<x><junk/></x>` is bound to a leaf and carries `XML_FLAG_DEFAULT`, and `mode` is 2; its
element child `junk` is not bound and returns 0, which resets `rmx`:
`xml_default_nopresence(x, 2, 0)` returns 0. Neither a bound tree nor `xml_default_create`
gives a leaf such a child. -/
theorem nopresence_leaf_with_element :
    xml_spec ex_leaf_junk = some ex_leaf_x7 ∧ yang_keyword_get ex_leaf_x7 = .Y_LEAF ∧
    xml_flag ex_leaf_junk XML_FLAG_DEFAULT ≠ 0 ∧
    xml_default_nopresence ex_env 2 2 0 ex_leaf_junk = some (false, ex_leaf_junk) :=
  ⟨rfl, rfl, by decide, rfl⟩

/-- On a tree of depth at most `fuel`, `xml_default_nopresence(xn, mode, 0)`
returns, and it returns 1 if and only if `xn` is bound to a container without `presence`,
or is bound to a leaf, carries `XML_FLAG_DEFAULT` and `mode` is not 3, and the same call
returns 1 for each element child of `xn`; for every other node, an unbound one included, it
returns 0. -/
theorem nopresence_returns (env : DefaultsEnv) (mode fuel : Nat) (xn : cxobj)
    (hfuel : xml_depth xn ≤ fuel) :
    ∃ r xn1, xml_default_nopresence env mode fuel 0 xn = some (r, xn1) ∧
      (r = true ↔
        (nopresence_kind mode xn ∧
          ∀ x ∈ xml_childvec xn, is_elmnt x = true →
            ∃ x1, xml_default_nopresence env mode fuel 0 x = some (true, x1))) := by
  refine ⟨_, _, xml_default_nopresence_spec env mode fuel xn hfuel, ?_⟩
  rw [nopresence_value_fields, Bool.and_eq_true, nopresence_rmx_iff,
    nopresence_value_each_iff]
  have hch : ∀ x ∈ xml_childvec xn,
      ((∃ x1, xml_default_nopresence env mode fuel 0 x = some (true, x1)) ↔
        nopresence_value mode x = true) := by
    intro x hx
    have := xml_depth_child xn x hx
    rw [xml_default_nopresence_spec env mode fuel x (by omega)]
    constructor
    · rintro ⟨x1, h⟩
      injection h with h
      injection h with h _
    · intro h
      exact ⟨_, by rw [h]⟩
  constructor
  · rintro ⟨h1, h2⟩
    exact ⟨h1, fun x hx he => (hch x hx).2 (h2 x hx he)⟩
  · rintro ⟨h1, h2⟩
    exact ⟨h1, fun x hx he => (hch x hx).1 (h2 x hx he)⟩

theorem nopresence_returns_witness :
    ∃ r xn1, xml_default_nopresence ex_env 2 5 0 ex_root_filled = some (r, xn1) ∧
      (r = true ↔
        (nopresence_kind 2 ex_root_filled ∧
          ∀ x ∈ xml_childvec ex_root_filled, is_elmnt x = true →
            ∃ x1, xml_default_nopresence ex_env 2 5 0 x = some (true, x1))) :=
  nopresence_returns ex_env 2 5 ex_root_filled (by decide)

theorem nopresence_purge_two (config : Bool) (x : cxobj) :
    xml_default_nopresence_purge 2 config x = true := rfl

/-- The elements among the pruned children: the pruned forms of the elements that are not
purged. -/
theorem nopresence_pruned_each_mem (env : DefaultsEnv) (mode : Nat) (config : Bool) :
    ∀ (cs : List cxobj) (d : cxobj), d ∈ nopresence_pruned_each env mode config cs →
      is_elmnt d = true →
      ∃ c ∈ cs, is_elmnt c = true ∧ d = nopresence_pruned env mode c ∧
        (nopresence_value mode c && xml_default_nopresence_purge mode config c) = false
  | [], d, h, _ => by
    rw [nopresence_pruned_each] at h
    cases h
  | c :: rest, d, h, hd => by
    have ih := nopresence_pruned_each_mem env mode config rest d
    by_cases he : is_elmnt c = true
    · rw [nopresence_pruned_each_cons_elmnt env mode config c rest he] at h
      by_cases hv : (nopresence_value mode c &&
          xml_default_nopresence_purge mode config c) = true
      · rw [if_pos hv] at h
        obtain ⟨c0, hc0, h0⟩ := ih h hd
        exact ⟨c0, List.mem_cons_of_mem _ hc0, h0⟩
      · rw [if_neg hv] at h
        rcases List.mem_cons.1 h with h | h
        · exact ⟨c, List.mem_cons_self _ _, he, h, by simpa using hv⟩
        · obtain ⟨c0, hc0, h0⟩ := ih h hd
          exact ⟨c0, List.mem_cons_of_mem _ hc0, h0⟩
    · have he1 : is_elmnt c = false := by simpa using he
      rw [nopresence_pruned_each_cons_other env mode config c rest he1] at h
      rcases List.mem_cons.1 h with h | h
      · rw [h, he1] at hd
        cases hd
      · obtain ⟨c0, hc0, h0⟩ := ih h hd
        exact ⟨c0, List.mem_cons_of_mem _ hc0, h0⟩

/-- No element that stays below a tree pruned with mode 2 is one that the call answers 1
for. -/
theorem nopresence_pruned_descendant (env : DefaultsEnv) (d y : cxobj)
    (h : elmnt_descendant d y) :
    ∀ x, y = nopresence_pruned env 2 x → nopresence_value 2 d = false := by
  induction h with
  | child y hd he =>
    intro x e
    rw [e, nopresence_pruned_fields, xml_childvec_set_get] at hd
    obtain ⟨c, _, _, e1, hv⟩ := nopresence_pruned_each_mem env 2 _ _ d hd he
    rw [nopresence_purge_two, Bool.and_true] at hv
    rw [e1, nopresence_value_pruned, hv]
  | deeper c y hc he _ ih =>
    intro x e
    rw [e, nopresence_pruned_fields, xml_childvec_set_get] at hc
    obtain ⟨c0, _, _, e1, _⟩ := nopresence_pruned_each_mem env 2 _ _ c hc he
    exact ih c0 e1

mutual
theorem nopresence_value_default_only : ∀ (x : cxobj),
    nopresence_value 2 x = true → default_only x
  | .mk n t f s v cs, h => by
    rw [nopresence_value, Bool.and_eq_true] at h
    exact default_only.mk _ ((nopresence_rmx_iff 2 _).1 h.1)
      (nopresence_value_default_only_each cs h.2)
theorem nopresence_value_default_only_each : ∀ (cs : List cxobj),
    nopresence_value_each 2 cs = true →
    ∀ ch ∈ cs, is_elmnt ch = true → default_only ch
  | [], _, _, h, _ => by cases h
  | c :: rest, h, ch, hch, he => by
    rw [nopresence_value_each_cons, Bool.and_eq_true] at h
    rcases List.mem_cons.1 hch with e | hch
    · subst e
      exact nopresence_value_default_only ch (by simpa [he] using h.1)
    · exact nopresence_value_default_only_each rest h.2 ch hch he
end

theorem default_only_value : ∀ (x : cxobj), default_only x → nopresence_value 2 x = true := by
  intro x h
  induction h with
  | mk x hk _ ih =>
    rw [nopresence_value_fields, Bool.and_eq_true, nopresence_rmx_iff,
      nopresence_value_each_iff]
    exact ⟨hk, ih⟩

/-- With mode 2 the pruned children are the children without the elements that the call
answers 1 for, each remaining element pruned in turn. -/
theorem nopresence_pruned_each_two (env : DefaultsEnv) (config : Bool) :
    ∀ (cs : List cxobj), nopresence_pruned_each env 2 config cs =
      (cs.filter fun c => !(is_elmnt c && nopresence_value 2 c)).map
        fun c => if is_elmnt c then nopresence_pruned env 2 c else c
  | [] => by
    rw [nopresence_pruned_each]
    rfl
  | c :: rest => by
    have ih := nopresence_pruned_each_two env config rest
    by_cases he : is_elmnt c = true
    · rw [nopresence_pruned_each_cons_elmnt env 2 config c rest he, nopresence_purge_two,
        Bool.and_true, List.filter_cons]
      cases hv : nopresence_value 2 c with
      | true => simp [he, ih]
      | false => simp [he, ih]
    · have he1 : is_elmnt c = false := by simpa using he
      rw [nopresence_pruned_each_cons_other env 2 config c rest he1, List.filter_cons]
      simp [he1, ih]

/-- The same for mode 2: in `<root><x><junk/></x></root>` the node `x` is bound to a leaf
and carries `XML_FLAG_DEFAULT`; its unbound child `junk` returns 0, so `x` returns 0 and is
not purged: after `xml_default_nopresence(root, 2, 0)` the tree still holds `x`. -/
theorem nopresence_mode2_leaf_with_element :
    xml_default_nopresence ex_env 2 3 0 ex_root_junk = some (false, ex_root_junk) ∧
    elmnt_descendant ex_leaf_junk ex_root_junk ∧
    xml_spec ex_leaf_junk = some ex_leaf_x7 ∧ yang_keyword_get ex_leaf_x7 = .Y_LEAF ∧
    xml_flag ex_leaf_junk XML_FLAG_DEFAULT ≠ 0 :=
  ⟨rfl, elmnt_descendant.child _ _ (List.mem_singleton.2 rfl) rfl, rfl, rfl, by decide⟩

/-- On a tree of depth at most `fuel`, `xml_default_nopresence(xn, 2, 0)`
returns and leaves `xn` in place, pruned: from the children of `xn` and of every element
that stays, the elements that are `default_only` (bound to a container without `presence`
or to a leaf with `XML_FLAG_DEFAULT`, with elements of that kind only) are removed, and no
other node is (`nopresence_pruned`). After the call no element below `xn` is bound to a leaf with
`XML_FLAG_DEFAULT` or to a container without `presence` and has no element child. -/
theorem nopresence_mode2 (env : DefaultsEnv) (fuel : Nat) (xn : cxobj)
    (hfuel : xml_depth xn ≤ fuel) :
    ∃ r xn1, xml_default_nopresence env 2 fuel 0 xn = some (r, xn1) ∧
      xn1 = xml_childvec_set xn (xml_childvec xn1) ∧
      xn1 = nopresence_pruned env 2 xn ∧
      (∀ x, xml_childvec (nopresence_pruned env 2 x) =
        ((xml_childvec x).filter fun c => !(is_elmnt c && nopresence_value 2 c)).map
          fun c => if is_elmnt c then nopresence_pruned env 2 c else c) ∧
      (∀ x, nopresence_value 2 x = true ↔ default_only x) ∧
      (∀ d, elmnt_descendant d xn1 → nopresence_kind 2 d →
        ∃ ch ∈ xml_childvec d, is_elmnt ch = true) := by
  refine ⟨_, _, xml_default_nopresence_spec env 2 fuel xn hfuel, ?_, rfl, fun x => ?_,
    fun x => ⟨nopresence_value_default_only x, default_only_value x⟩, fun d hd hk => ?_⟩
  · rw [nopresence_pruned_fields, xml_childvec_set_get]
  · rw [nopresence_pruned_fields, xml_childvec_set_get, nopresence_pruned_each_two]
  · have hv := nopresence_pruned_descendant env d _ hd xn rfl
    rw [nopresence_value_fields, (nopresence_rmx_iff 2 d).2 hk, Bool.true_and] at hv
    by_contra hno
    have : nopresence_value_each 2 (xml_childvec d) = true := by
      rw [nopresence_value_each_iff]
      intro x hx he
      exact absurd ⟨x, hx, he⟩ hno
    rw [this] at hv
    cases hv

theorem nopresence_mode2_witness :
    xml_default_nopresence ex_env 2 5 0 ex_root_filled = some (true, ex_root_empty) ∧
    ∃ r xn1, xml_default_nopresence ex_env 2 5 0 ex_root_filled = some (r, xn1) ∧
      xn1 = xml_childvec_set ex_root_filled (xml_childvec xn1) ∧
      xn1 = nopresence_pruned ex_env 2 ex_root_filled ∧
      (∀ x, xml_childvec (nopresence_pruned ex_env 2 x) =
        ((xml_childvec x).filter fun c => !(is_elmnt c && nopresence_value 2 c)).map
          fun c => if is_elmnt c then nopresence_pruned ex_env 2 c else c) ∧
      (∀ x, nopresence_value 2 x = true ↔ default_only x) ∧
      (∀ d, elmnt_descendant d xn1 → nopresence_kind 2 d →
        ∃ ch ∈ xml_childvec d, is_elmnt ch = true) :=
  ⟨rfl, nopresence_mode2 ex_env 5 ex_root_filled (by decide)⟩

/-! ## Defaults: a second pass -/

theorem xml_find_type_elmnt_found (xt x : cxobj) (name : String)
    (hxt : xml_type xt = .CX_ELMNT) (hx : x ∈ xml_childvec xt) (he : is_elmnt x = true)
    (hn : xml_name x = name) : (xml_find_type_elmnt xt name).isNone = false := by
  cases h : (xml_find_type_elmnt xt name).isNone with
  | false => rfl
  | true => exact absurd ⟨he, hn⟩ (xml_find_type_elmnt_none xt name hxt h x hx)

theorem xml_find_type_elmnt_exists (xt : cxobj) (name : String)
    (h : (xml_find_type_elmnt xt name).isNone = false) :
    ∃ x ∈ xml_childvec xt, is_elmnt x = true ∧ xml_name x = name := by
  by_contra hno
  have := xml_find_type_elmnt_isNone xt name (fun x0 hx0 hx => hno ⟨x0, hx0, hx⟩)
  rw [this] at h
  cases h

/-- The pass of `xml_default` for a leaf with a default leaves `xt` as it is when `when`
suppresses the leaf or an element of its name is there. -/
theorem xml_default_child_leaf_noop (env : DefaultsEnv) (state : Bool) (a : Nat)
    (arg : String) (cv1 : cg_var) (cvk : List String) (ycs : List yang_stmt) (xt : cxobj)
    (hit : Bool) (nr : Nat)
    (hw : env.yang_check_when_xpath xt (.mk a .Y_LEAF arg (some cv1) cvk ycs) = some (hit, nr))
    (h : (hit && nr == 0) = true ∨ (xml_find_type_elmnt xt arg).isNone = false) :
    xml_default_child env state (.mk a .Y_LEAF arg (some cv1) cvk ycs) xt = some xt := by
  unfold xml_default_child
  split
  · rfl
  split
  · rfl
  simp only [beq_self_eq_true, if_true, hw]
  split
  · split
    · rfl
    · next hs =>
      rcases h with h | h
      · exact absurd h hs
      · simp [h]
  · rfl

/-- A pass for a leaf with a default that returns 0 has got an answer from the `when`
check. -/
theorem xml_default_child_leaf_when (env : DefaultsEnv) (state : Bool) (a : Nat)
    (arg : String) (cv1 : cg_var) (cvk : List String) (ycs : List yang_stmt) (xt xt1 : cxobj)
    (hg : guard_pass env state (.mk a .Y_LEAF arg (some cv1) cvk ycs) = true)
    (hu : cv1.v_unset = false)
    (h : xml_default_child env state (.mk a .Y_LEAF arg (some cv1) cvk ycs) xt = some xt1) :
    ∃ hit nr, env.yang_check_when_xpath xt (.mk a .Y_LEAF arg (some cv1) cvk ycs) =
      some (hit, nr) := by
  obtain ⟨hg1, hg2⟩ := (guard_pass_iff env state _).1 hg
  unfold xml_default_child at h
  rw [if_neg (by rw [hg1]; simp), if_neg (by rw [hg2]; simp)] at h
  simp only [beq_self_eq_true, if_true, hu, Bool.not_false] at h
  cases hwh : env.yang_check_when_xpath xt (.mk a .Y_LEAF arg (some cv1) cvk ycs) with
  | none => rw [hwh] at h; cases h
  | some p => exact ⟨p.1, p.2, rfl⟩

/-- The pass of `xml_default` for a container without `presence` leaves `xt` as it is when
`when` suppresses the container, an element of its name is there, or
`xml_nopresence_try` answers 0. -/
theorem xml_default_child_container_noop (env : DefaultsEnv) (state : Bool) (a : Nat)
    (arg : String) (cv : Option cg_var) (cvk : List String) (ycs : List yang_stmt)
    (xt : cxobj) (hit : Bool) (nr : Nat)
    (hw : env.yang_check_when_xpath xt (.mk a .Y_CONTAINER arg cv cvk ycs) = some (hit, nr))
    (h : (hit && nr == 0) = true ∨ (xml_find_type_elmnt xt arg).isNone = false ∨
      xml_nopresence_try env state (.mk a .Y_CONTAINER arg cv cvk ycs) = some false) :
    xml_default_child env state (.mk a .Y_CONTAINER arg cv cvk ycs) xt = some xt := by
  unfold xml_default_child
  split
  · rfl
  split
  · rfl
  simp only [show (rfc_6020.Y_CONTAINER == rfc_6020.Y_LEAF) = false from rfl,
    Bool.false_eq_true, if_false, beq_self_eq_true, if_true, hw]
  split
  · split
    · rfl
    · next hs =>
      rcases h with h | h | h
      · exact absurd h hs
      · simp [h]
      · rw [h]
        split <;> rfl
  · rfl

/-- The pass of `xml_default` for a container without `presence` that passes the guard:
the ways in which it returns 0. -/
theorem xml_default_child_container_cases (env : DefaultsEnv) (state : Bool) (a : Nat)
    (arg : String) (cv : Option cg_var) (cvk : List String) (ycs : List yang_stmt)
    (xt xt1 : cxobj) (hg : guard_pass env state (.mk a .Y_CONTAINER arg cv cvk ycs) = true)
    (hp : (yang_find (.mk a .Y_CONTAINER arg cv cvk ycs) .Y_PRESENCE none).isNone = true)
    (h : xml_default_child env state (.mk a .Y_CONTAINER arg cv cvk ycs) xt = some xt1) :
    ∃ hit nr, env.yang_check_when_xpath xt (.mk a .Y_CONTAINER arg cv cvk ycs) =
        some (hit, nr) ∧
      ((xt1 = xt ∧ ((hit && nr == 0) = true ∨ (xml_find_type_elmnt xt arg).isNone = false ∨
          xml_nopresence_try env state (.mk a .Y_CONTAINER arg cv cvk ycs) = some false)) ∨
       ((hit && nr == 0) = false ∧ (xml_find_type_elmnt xt arg).isNone = true ∧
        xml_nopresence_try env state (.mk a .Y_CONTAINER arg cv cvk ycs) = some true ∧
        ∃ xc xc1, xml_default_create1 env (.mk a .Y_CONTAINER arg cv cvk ycs) xt = some xc ∧
          xml_default_each env state ycs xc = some xc1 ∧
          xt1 = xml_childvec_set xt
            (xml_replace_elmnt arg xc1 (env.xml_sort (xml_childvec xt ++ [xc]))))) := by
  obtain ⟨hg1, hg2⟩ := (guard_pass_iff env state _).1 hg
  unfold xml_default_child at h
  rw [if_neg (by rw [hg1]; simp), if_neg (by rw [hg2]; simp)] at h
  simp only [show (rfc_6020.Y_CONTAINER == rfc_6020.Y_LEAF) = false from rfl,
    Bool.false_eq_true, if_false, beq_self_eq_true, if_true, hp] at h
  cases hwh : env.yang_check_when_xpath xt (.mk a .Y_CONTAINER arg cv cvk ycs) with
  | none => rw [hwh] at h; cases h
  | some p =>
    obtain ⟨hit, nr⟩ := p
    rw [hwh] at h
    simp only at h
    refine ⟨hit, nr, rfl, ?_⟩
    by_cases hs : (hit && nr == 0) = true
    · rw [if_pos hs] at h
      injection h with h
      exact Or.inl ⟨h.symm, Or.inl hs⟩
    · rw [if_neg hs] at h
      have hs1 : (hit && nr == 0) = false := by simpa using hs
      by_cases hfind : (xml_find_type_elmnt xt arg).isNone = true
      · rw [if_pos hfind] at h
        cases ht : xml_nopresence_try env state (.mk a .Y_CONTAINER arg cv cvk ycs) with
        | none => rw [ht] at h; cases h
        | some b =>
          rw [ht] at h
          cases b with
          | false =>
            simp only at h
            injection h with h
            exact Or.inl ⟨h.symm, Or.inr (Or.inr rfl)⟩
          | true =>
            simp only at h
            cases hc : xml_default_create1 env (.mk a .Y_CONTAINER arg cv cvk ycs) xt with
            | none => rw [hc] at h; cases h
            | some xc =>
              rw [hc] at h
              simp only at h
              cases hf : xml_default_each env state ycs xc with
              | none => rw [hf] at h; cases h
              | some xc1 =>
                rw [hf] at h
                injection h with h
                exact Or.inr ⟨hs1, hfind, rfl, xc, xc1, rfl, hf, h.symm⟩
      · rw [if_neg hfind] at h
        injection h with h
        have hq : (xml_find_type_elmnt xt arg).isNone = false := by
          cases hq : (xml_find_type_elmnt xt arg).isNone with
          | true => exact absurd hq hfind
          | false => rfl
        exact Or.inl ⟨h.symm, Or.inr (Or.inl hq)⟩

theorem covers_refl (xt : cxobj) : covers xt xt :=
  fun x hx he => ⟨x, hx, he, rfl⟩

theorem covers_trans {a b c : cxobj} (h1 : covers a b) (h2 : covers b c) : covers a c := by
  intro x hx he
  obtain ⟨x1, hx1, he1, hn1⟩ := h1 x hx he
  obtain ⟨x2, hx2, he2, hn2⟩ := h2 x1 hx1 he1
  exact ⟨x2, hx2, he2, by rw [hn2, hn1]⟩

theorem covers_of_subset {a b : cxobj} (h : ∀ x ∈ xml_childvec a, x ∈ xml_childvec b) :
    covers a b :=
  fun x hx he => ⟨x, h x hx, he, rfl⟩

theorem covers_find {xt xt1 : cxobj} {x : cxobj} {name : String} (hc : covers xt xt1)
    (hxt1 : xml_type xt1 = .CX_ELMNT) (hx : x ∈ xml_childvec xt) (he : is_elmnt x = true)
    (hn : xml_name x = name) : (xml_find_type_elmnt xt1 name).isNone = false := by
  obtain ⟨x1, hx1, he1, hn1⟩ := hc x hx he
  exact xml_find_type_elmnt_found xt1 x1 name hxt1 hx1 he1 (by rw [hn1, hn])

/-- A pass of `xml_default` for a statement that is not a choice, made again on a tree that
holds the elements the first pass left, changes nothing. -/
theorem xml_default_child_again (env : DefaultsEnv) (state : Bool)
    (hperm : ∀ l, (env.xml_sort l).Perm l) (hst : when_stable env) (y : yang_stmt)
    (xt xt2 xt1 : cxobj) (hxt : xml_type xt = .CX_ELMNT) (hxt1 : xml_type xt1 = .CX_ELMNT)
    (hk : yang_keyword_get y ≠ .Y_CHOICE)
    (h : xml_default_child env state y xt = some xt2) (hcov : covers xt2 xt1) :
    xml_default_child env state y xt1 = some xt1 := by
  by_cases hg : guard_pass env state y = true
  case neg => exact xml_default_child_guard_skip env state y xt1 (by simpa using hg)
  cases y with
  | mk a k arg cv cvk ycs =>
    by_cases hk1 : k = .Y_LEAF
    · subst hk1
      cases cv with
      | none =>
        obtain ⟨hg1, hg2⟩ := (guard_pass_iff env state _).1 hg
        unfold xml_default_child at h
        rw [if_neg (by rw [hg1]; simp), if_neg (by rw [hg2]; simp)] at h
        simp only [beq_self_eq_true, if_true] at h
        cases h
      | some cv1 =>
        by_cases hu : cv1.v_unset = true
        · exact xml_default_child_leaf_unset env state a arg cv1 cvk ycs xt1 hu
        · have hu1 : cv1.v_unset = false := by simpa using hu
          obtain ⟨hit, nr, hw⟩ := xml_default_child_leaf_when env state a arg cv1 cvk ycs xt
            xt2 hg hu1 h
          have hw1 := hw
          rw [hst xt xt1] at hw1
          apply xml_default_child_leaf_noop env state a arg cv1 cvk ycs xt1 hit nr hw1
          rcases xml_default_child_leaf_cases env state a arg (some cv1) cvk ycs xt xt2 hg h
            with ⟨e, hnot⟩ | ⟨_, _, _, xc, hcr, e⟩
          · subst e
            by_cases hs : (hit && nr == 0) = true
            · exact Or.inl hs
            · right
              have hs1 : (hit && nr == 0) = false := by simpa using hs
              have hfx : (xml_find_type_elmnt xt2 arg).isNone = false := by
                cases hq : (xml_find_type_elmnt xt2 arg).isNone with
                | false => rfl
                | true =>
                  exfalso
                  apply hnot
                  refine ⟨by simp [has_default, yang_cv_get, hu1], ?_, hq⟩
                  unfold when_false
                  rw [hw]
                  exact hs1
              obtain ⟨x, hx, he, hn⟩ := xml_find_type_elmnt_exists xt2 arg hfx
              exact covers_find hcov hxt1 hx he hn
          · right
            obtain ⟨he, hn, _⟩ := xml_default_create_spec env _ xt xc hcr
            have hin : xc ∈ xml_childvec xt2 := by
              rw [e, xml_childvec_set_get]
              exact ((hperm _).mem_iff).2 (by simp)
            exact covers_find hcov hxt1 hin he hn
    · by_cases hk2 : k = .Y_CONTAINER
      · subst hk2
        by_cases hp : (yang_find (.mk a .Y_CONTAINER arg cv cvk ycs) .Y_PRESENCE none).isNone
            = true
        · obtain ⟨hit, nr, hw, hcases⟩ := xml_default_child_container_cases env state a arg cv
            cvk ycs xt xt2 hg hp h
          have hw1 := hw
          rw [hst xt xt1] at hw1
          apply xml_default_child_container_noop env state a arg cv cvk ycs xt1 hit nr hw1
          rcases hcases with ⟨e, h1 | h1 | h1⟩ | ⟨_, hfind, _, xc, xc1, hcr, hfill, e⟩
          · exact Or.inl h1
          · subst e
            obtain ⟨x, hx, he, hn⟩ := xml_find_type_elmnt_exists xt2 arg h1
            exact Or.inr (Or.inl (covers_find hcov hxt1 hx he hn))
          · exact Or.inr (Or.inr h1)
          · right
            left
            have hxc := xml_default_create1_spec env _ xt xc hcr
            have hxce : is_elmnt xc = true := by unfold is_elmnt; rw [hxc.1]; rfl
            have hin := xml_default_each_inv env state hperm ycs xc xc1 hxc.1 hfill
            obtain ⟨he1, _, _, hn1, _⟩ := default_filled_fields env _ xt xc xc1 _ hcr hin
            have hz : xc1 ∈ xml_childvec xt2 := by
              rw [e, xml_childvec_set_get]
              exact xml_replace_elmnt_mem arg xc xc1 _ (((hperm _).mem_iff).2 (by simp)) hxce
                hxc.2.1
            exact covers_find hcov hxt1 hz he1 hn1
        · have hp1 : (yang_find (.mk a .Y_CONTAINER arg cv cvk ycs) .Y_PRESENCE
              none).isNone = false := by
            cases hq : (yang_find (.mk a .Y_CONTAINER arg cv cvk ycs) .Y_PRESENCE
              none).isNone with
            | true => exact absurd hq hp
            | false => rfl
          exact xml_default_child_presence env state a arg cv cvk ycs xt1 hp1
      · exact xml_default_child_other env state a k arg cv cvk ycs xt1 hk1 hk2 hk

theorem xml_name_childvec_set (x : cxobj) (cs : List cxobj) :
    xml_name (xml_childvec_set x cs) = xml_name x := by
  cases x; rfl

theorem xml_default_recurse_zero (env : DefaultsEnv) (state : Bool) (fuel : Nat) (xn : cxobj) :
    xml_default_recurse env state (fuel + 1) 0 xn =
      (xml_default_bound env state xn).bind fun xn1 =>
        (xml_default_recurse_each (xml_default_recurse env state fuel 0) state
          (xml_childvec xn1)).map fun cs => xml_childvec_set xn1 cs := by
  rw [xml_default_recurse]
  simp only [bne_self_eq_false, Bool.false_and, Bool.false_eq_true, if_false]
  unfold xml_default_bound
  cases hs : xml_spec xn with
  | none =>
    simp only [Option.bind]
    cases xml_default_recurse_each (xml_default_recurse env state fuel 0) state
      (xml_childvec xn) <;> rfl
  | some yn =>
    simp only
    cases xml_default env state yn xn with
    | none => rfl
    | some xna =>
      simp only [Option.bind]
      cases xml_default_recurse_each (xml_default_recurse env state fuel 0) state
        (xml_childvec xna) <;> rfl

/-! ## Defaults: xml_nopresence_try and the order of the child statements -/

/-- C39. `xml_nopresence_try(yt, 0, createp)` on a non-presence container with a choice
whose `default` names an existing case: the answer depends on the order of the children of
`yt`. With the choice first and a non-presence container without defaults after it, the
recursive call for that container writes 0 to `*createp` and the result is 0; with the
container first the result is 1. -/
theorem nopresence_try_choice_order :
    (match yang_find ex_try_choice .Y_DEFAULT none with
      | some ydef => (yang_find ex_try_choice .Y_CASE (some (yang_argument_get ydef))).isSome
      | none => false) = true ∧
    ex_try_choice ∈ yang_children ex_try_choice_first ∧
    yang_children ex_try_choice_last = (yang_children ex_try_choice_first).reverse ∧
    xml_nopresence_try ex_env false ex_try_choice_first = some false ∧
    xml_nopresence_try ex_env false ex_try_choice_last = some true := by
  refine ⟨by decide, ?_, rfl, by decide, by decide⟩
  simp [ex_try_choice_first, yang_children]

/-! ## cli_prompt_get -/

theorem cli_prompt_deref_lt (fmt : List Char) (s : Nat) (h : s < fmt.length) :
    cli_prompt_deref fmt s = some (fmt.getD s CH_NUL) := by
  unfold cli_prompt_deref
  rw [if_pos h]

theorem cli_prompt_deref_end (fmt : List Char) : cli_prompt_deref fmt fmt.length = some CH_NUL := by
  unfold cli_prompt_deref
  simp

/-- The loop copies a run of plain characters and stops at the terminating NUL. -/
theorem cli_prompt_get_loop_plain (e : PromptEnv) :
    ∀ (post pre cb : List Char) (fuel : Nat), (∀ c ∈ post, plain_char c) →
      post.length < fuel →
      cli_prompt_get_loop e (pre ++ post) fuel pre.length cb =
        some (.done (cb ++ post) (pre ++ post).length)
  | [], pre, cb, fuel, _, hf => by
    cases fuel with
    | zero => cases hf
    | succ fuel =>
      rw [cli_prompt_get_loop]
      simp only [List.append_nil]
      rw [cli_prompt_deref_end]
      simp
  | c :: post, pre, cb, fuel, hp, hf => by
    cases fuel with
    | zero => cases hf
    | succ fuel =>
      obtain ⟨h0, h1, h2⟩ := hp c (List.mem_cons_self _ _)
      have hlt : pre.length < (pre ++ c :: post).length := by simp
      have hd : cli_prompt_deref (pre ++ c :: post) pre.length = some c := by
        rw [cli_prompt_deref_lt _ _ hlt]
        have : (pre ++ c :: post)[pre.length]? = some c := by
          rw [List.getElem?_append_right (Nat.le_refl _)]
          simp
        rw [List.getD_eq_getElem?_getD, this]
        rfl
      have ih := cli_prompt_get_loop_plain e post (pre ++ [c]) (cb ++ [c]) fuel
        (fun c hc => hp c (List.mem_cons_of_mem _ hc))
        (by simp only [List.length_cons] at hf; omega)
      rw [cli_prompt_get_loop]
      simp only [hd, if_neg h0, if_neg h1, if_neg h2]
      simp only [beq_iff_eq, h1, h2, false_and, Bool.false_and, if_false, Bool.false_eq_true,
        decide_False]
      simp only [List.append_assoc, List.singleton_append, List.length_append,
        List.length_singleton] at ih
      simpa using ih

/-- A format without `%`, backslash and NUL expands to itself, and the empty format to the
default prompt. -/
theorem cli_prompt_get_plain (e : PromptEnv) (fmt : String) (hp : ∀ c ∈ fmt.data, plain_char c) :
    cli_prompt_get e fmt =
      some (.prompt (if fmt.data.length != 0 then fmt else CLI_DEFAULT_PROMPT)) := by
  have h := cli_prompt_get_loop_plain e fmt.data [] [] (fmt.data.length + 1) hp (by omega)
  simp only [List.nil_append, List.length_nil] at h
  unfold cli_prompt_get
  rw [h]
  simp only
  congr 2
  by_cases hl : fmt.data.length = 0
  · simp only [hl, bne_self_eq_false, Bool.false_eq_true, if_false]
    decide
  · have hl1 : (fmt.data.length != 0) = true := by simpa using hl
    simp only [hl1, if_true]
    have : fmt.data.takeWhile (fun ch => ch != CH_NUL) = fmt.data := by
      rw [List.takeWhile_eq_self_iff]
      intro c hc
      simpa using (hp c hc).1
    rw [this]

/-- C40. `cli_prompt_get` reads outside its format string when the last character is `%`
or a backslash: the position is advanced in `*s == '%' && *++s` (and in the same test for
the backslash), the branch is not taken because the character read is the terminating NUL,
the NUL is printed, and `s++` moves the position past the terminating NUL, where the loop
condition reads `*s`. For the formats `%`, `cli%` and a single backslash the loop condition
reads at position 2, 5 and 2, one past the terminating NUL. -/
theorem cli_prompt_get_reads_outside (e : PromptEnv) :
    cli_prompt_get e "%" = some (.outside 2) ∧
    cli_prompt_get e "cli%" = some (.outside 5) ∧
    cli_prompt_get e (String.mk [CH_BACKSLASH]) = some (.outside 2) ∧
    cli_prompt_get_loop e ['%'] 2 0 [] = some (.outside [CH_NUL] 2) :=
  ⟨rfl, rfl, rfl, rfl⟩

/-! ## With-defaults: xml_flag_default_value -/

theorem xml_flag_reset_flag (x : cxobj) (flag : Nat) :
    xml_flag (xml_flag_reset x flag) flag = 0 := by
  cases x with
  | mk n t f s v cs =>
    show (f ^^^ (f &&& flag)) &&& flag = 0
    apply Nat.eq_of_testBit_eq
    intro i
    simp only [Nat.testBit_and, Nat.testBit_xor, Nat.zero_testBit]
    cases f.testBit i <;> cases flag.testBit i <;> rfl

theorem xml_flag_reset_other (x : cxobj) (flag g : Nat) (hg : g &&& flag = 0) :
    xml_flag (xml_flag_reset x flag) g = xml_flag x g := by
  cases x with
  | mk n t f s v cs =>
    show (f ^^^ (f &&& flag)) &&& g = f &&& g
    apply Nat.eq_of_testBit_eq
    intro i
    have h := congrArg (fun m => m.testBit i) hg
    simp only [Nat.testBit_and, Nat.zero_testBit] at h
    simp only [Nat.testBit_and, Nat.testBit_xor]
    cases hf : f.testBit i <;> cases hl : flag.testBit i <;> cases hgi : g.testBit i <;>
      simp_all

theorem xml_flag_set_flag_self (x : cxobj) (flag : Nat) :
    xml_flag (xml_flag_set x flag) flag = flag := by
  cases x with
  | mk n t f s v cs =>
    show (f ||| flag) &&& flag = flag
    apply Nat.eq_of_testBit_eq
    intro i
    simp only [Nat.testBit_and, Nat.testBit_or]
    cases f.testBit i <;> cases flag.testBit i <;> rfl

theorem xml_flag_set_other (x : cxobj) (flag g : Nat) (hg : g &&& flag = 0) :
    xml_flag (xml_flag_set x flag) g = xml_flag x g := by
  cases x with
  | mk n t f s v cs =>
    show (f ||| flag) &&& g = f &&& g
    apply Nat.eq_of_testBit_eq
    intro i
    have h := congrArg (fun m => m.testBit i) hg
    simp only [Nat.testBit_and, Nat.zero_testBit] at h
    simp only [Nat.testBit_and, Nat.testBit_or]
    cases hf : f.testBit i <;> cases hl : flag.testBit i <;> cases hgi : g.testBit i <;>
      simp_all

/-- What `xml_flag_default_value` does: it returns 0, changes the flags of `x` only, leaves
every flag outside `flag` as it was, and leaves `flag` set exactly when `x` has a body, is
bound to a statement with a named compiled value, and the body is the string form of that
value; whether the value is unset (`V_UNSET`) is not looked at. -/
theorem xml_flag_default_value_spec (cv_name_get : cg_var → Option String) (x : cxobj)
    (flag : Nat) :
    (xml_flag_default_value cv_name_get x flag).1 = 0 ∧
    (∀ g, g &&& flag = 0 →
      xml_flag (xml_flag_default_value cv_name_get x flag).2 g = xml_flag x g) ∧
    ((∃ xv y cv, xml_body x = some xv ∧ xml_spec x = some y ∧ yang_cv_get y = some cv ∧
        (cv_name_get cv).isSome = true ∧ xv = cv.var_string) →
      xml_flag (xml_flag_default_value cv_name_get x flag).2 flag = flag) ∧
    ((¬ ∃ xv y cv, xml_body x = some xv ∧ xml_spec x = some y ∧ yang_cv_get y = some cv ∧
        (cv_name_get cv).isSome = true ∧ xv = cv.var_string) →
      xml_flag (xml_flag_default_value cv_name_get x flag).2 flag = 0) := by
  have hb : xml_body (xml_flag_reset x flag) = xml_body x := by cases x; rfl
  have hs : xml_spec (xml_flag_reset x flag) = xml_spec x := by cases x; rfl
  unfold xml_flag_default_value
  simp only [hb, hs]
  cases hxb : xml_body x with
  | none =>
    simp only
    refine ⟨trivial, fun g hg => xml_flag_reset_other x flag g hg, ?_, fun _ => xml_flag_reset_flag x flag⟩
    rintro ⟨xv, y, cv, h, _⟩
    cases h
  | some xv =>
    cases hxs : xml_spec x with
    | none =>
      simp only
      refine ⟨trivial, fun g hg => xml_flag_reset_other x flag g hg, ?_,
        fun _ => xml_flag_reset_flag x flag⟩
      rintro ⟨xv, y, cv, _, h, _⟩
      cases h
    | some y =>
      simp only
      cases hcv : yang_cv_get y with
      | none =>
        simp only
        refine ⟨trivial, fun g hg => xml_flag_reset_other x flag g hg, ?_,
          fun _ => xml_flag_reset_flag x flag⟩
        rintro ⟨xv1, y1, cv, _, h, h1, _⟩
        cases h
        rw [hcv] at h1
        cases h1
      | some cv =>
        simp only
        cases hn : cv_name_get cv with
        | none =>
          simp only
          refine ⟨trivial, fun g hg => xml_flag_reset_other x flag g hg, ?_,
            fun _ => xml_flag_reset_flag x flag⟩
          rintro ⟨xv1, y1, cv1, _, h, h1, h2, _⟩
          cases h
          rw [hcv] at h1
          cases h1
          rw [hn] at h2
          cases h2
        | some nm =>
          simp only
          by_cases he : xv = cv.var_string
          · have hq : (xv == cv.var_string) = true := by simpa using he
            simp only [hq, if_true]
            refine ⟨trivial, ?_, fun _ => xml_flag_set_flag_self _ flag, ?_⟩
            · intro g hg
              rw [xml_flag_set_other _ flag g hg, xml_flag_reset_other x flag g hg]
            · intro hno
              exact absurd ⟨xv, y, cv, rfl, rfl, hcv, by rw [hn]; rfl, he⟩ hno
          · have hne : (xv == cv.var_string) = false := by simpa using he
            simp only [hne, Bool.false_eq_true, if_false]
            refine ⟨trivial, fun g hg => xml_flag_reset_other x flag g hg, ?_,
              fun _ => xml_flag_reset_flag x flag⟩
            rintro ⟨xv1, y1, cv1, h0, h, h1, _, h3⟩
            cases h0
            cases h
            rw [hcv] at h1
            cases h1
            exact absurd h3 he

/-- C31. `xml_flag_default_value` flags a node whose leaf has no default value: for
`leaf n { type uint8; }`, without a `default` statement (its compiled value carries
`V_UNSET` and has the string form `0`), and the node `<n>0</n>`, the call leaves `flag` set,
here `XML_FLAG_MARK`, on a node without flags and on a node that carried it. -/
theorem flag_default_value_unset_leaf :
    has_default ex_leaf_n_unset = false ∧
    xml_flag_default_value ex_cv_name (ex_n_zero 0) XML_FLAG_MARK =
      (0, ex_n_zero XML_FLAG_MARK) ∧
    xml_flag_default_value ex_cv_name (ex_n_zero XML_FLAG_MARK) XML_FLAG_MARK =
      (0, ex_n_zero XML_FLAG_MARK) ∧
    xml_flag (xml_flag_default_value ex_cv_name (ex_n_zero 0) XML_FLAG_MARK).2 XML_FLAG_MARK =
      XML_FLAG_MARK :=
  ⟨rfl, rfl, rfl, rfl⟩

/-! ## The backward-one duplicate check and entries without key -/

/-- C34. The backward-one check misses a duplicate key behind an entry without key. For
`list x { key "k"; }` and the entries `<x><k>a</k></x><x/><x><k>a</k></x>`, whose entries
with a key are in key order: the row of the entry without key is stored as row 1, and
`check_insert_duplicate` in sorted mode compares row 2 with row 1 only and reports no
duplicate, in pairwise mode it reports row 0. `check_unique_list_direct` returns 1 for the
list (ordered-by system) and 0 with data-not-unique for the same list `ordered-by user`,
and `xml_yang_validate_unique` on the parent returns 1. -/
theorem sorted_check_misses_duplicate :
    key_tuple (ex_entry ex_list_plain (ex_leaf 42 "k") "a") ["k"] = some ["a"] ∧
    key_tuple (ex_entry_nokey ex_list_plain) ["k"] = none ∧
    check_insert_duplicate [[some "a"], [], [some "a"]] 2 1 true = none ∧
    check_insert_duplicate [[some "a"], [], [some "a"]] 2 1 false = some 0 ∧
    direct_sorted ex_list_plain ex_list_plain = true ∧
    direct_sorted ex_list_user ex_list_user = false ∧
    check_unique_list_direct (ex_entry ex_list_plain (ex_leaf 42 "k") "a")
      [ex_entry_nokey ex_list_plain, ex_entry ex_list_plain (ex_leaf 42 "k") "a"]
      ex_list_plain ex_list_plain 0 = .ok ∧
    check_unique_list_direct (ex_entry ex_list_user (ex_leaf 47 "k") "a")
      [ex_entry_nokey ex_list_user, ex_entry ex_list_user (ex_leaf 47 "k") "a"]
      ex_list_user ex_list_user 0 =
        .fail (some (.data_not_unique (ex_entry ex_list_user (ex_leaf 47 "k") "a") ["k"]))
          none ∧
    xml_yang_validate_unique ex_none ex_c_dup_gap = .ok :=
  ⟨rfl, rfl, rfl, rfl, rfl, rfl, rfl, rfl, rfl⟩

/-! ## Unique in XPath mode: the strings that are compared -/

theorem search_loop_collected :
    ∀ (xvec : List cxobj) (svec : List String),
      ((svec ++ collected_bodies_of xvec).Nodup →
        unique_search_xpath_loop xvec svec = some (svec ++ collected_bodies_of xvec)) ∧
      (svec.Nodup → ¬ (svec ++ collected_bodies_of xvec).Nodup →
        unique_search_xpath_loop xvec svec = none)
  | [], svec => by
    simp [collected_bodies_of, unique_search_xpath_loop]
  | xi :: xvec, svec => by
    rw [unique_search_xpath_loop, collected_bodies_of]
    cases hb : xml_body xi with
    | none => simp
    | some bi =>
      simp only
      have ih := search_loop_collected xvec (svec ++ [bi])
      have happ : svec ++ [bi] ++ collected_bodies_of xvec =
          svec ++ bi :: collected_bodies_of xvec := by simp
      rw [happ] at ih
      by_cases hc : svec.contains bi = true
      · rw [if_pos hc]
        have hm : bi ∈ svec := by simpa using hc
        constructor
        · intro hnd
          exfalso
          rw [List.nodup_append] at hnd
          exact hnd.2.2 hm (List.mem_cons_self _ _)
        · intro _ _; rfl
      · rw [if_neg hc]
        have hm : bi ∉ svec := by simpa using hc
        constructor
        · intro hnd
          rw [ih.1 hnd]
        · intro hs hnd
          apply ih.2 _ hnd
          rw [List.nodup_append]
          refine ⟨hs, List.nodup_singleton _, ?_⟩
          intro a ha hb1
          rw [List.mem_singleton.1 hb1] at ha
          exact hm ha

theorem xpath_step_collected (c : Collaborators) (cvk : List String) (xpath1 : String)
    (svec : List String) (x : cxobj) (hx : (c.xpath_vec x xpath1).isSome = true) :
    ((svec ++ collected_bodies c xpath1 x).Nodup →
      check_unique_list_step c cvk xpath1 svec x =
        .next (svec ++ collected_bodies c xpath1 x)) ∧
    (svec.Nodup → ¬ (svec ++ collected_bodies c xpath1 x).Nodup →
      check_unique_list_step c cvk xpath1 svec x =
        .stop (.fail (some (.data_not_unique x cvk)) none)) := by
  unfold check_unique_list_step unique_search_xpath collected_bodies
  cases hv : c.xpath_vec x xpath1 with
  | none => rw [hv] at hx; cases hx
  | some xvec =>
    simp only
    constructor
    · intro hnd
      rw [(search_loop_collected xvec svec).1 hnd]
    · intro hs hnd
      rw [(search_loop_collected xvec svec).2 hs hnd]

/-- The scan of a run in XPath mode returns 1 exactly when the body strings it looks at are
pairwise distinct; else it returns 0 with data-not-unique for an entry of the run. -/
theorem xpath_scan_collected (c : Collaborators) (y : yang_stmt) (cvk : List String)
    (xpath1 : String) :
    ∀ (rest : List cxobj) (svec : List String),
      (∀ x ∈ rest, is_elmnt x = true → xml_spec x = some y) →
      (∀ x ∈ rest, is_elmnt x = true → (c.xpath_vec x xpath1).isSome = true) →
      ((svec ++ run_bodies c xpath1 rest).Nodup →
        check_unique_list_scan c y cvk xpath1 svec rest = .ok) ∧
      (svec.Nodup → ¬ (svec ++ run_bodies c xpath1 rest).Nodup →
        ∃ x ∈ rest, check_unique_list_scan c y cvk xpath1 svec rest =
          .fail (some (.data_not_unique x cvk)) none)
  | [], svec, _, _ => by
    simp only [run_bodies, List.append_nil]
    exact ⟨fun _ => rfl, fun hs hn => absurd hs hn⟩
  | x :: rest, svec, hy, hv => by
    have hy1 : ∀ x ∈ rest, is_elmnt x = true → xml_spec x = some y :=
      fun a ha => hy a (List.mem_cons_of_mem _ ha)
    have hv1 : ∀ x ∈ rest, is_elmnt x = true → (c.xpath_vec x xpath1).isSome = true :=
      fun a ha => hv a (List.mem_cons_of_mem _ ha)
    rw [run_bodies]
    by_cases he : is_elmnt x = true
    · rw [if_pos he, xpath_scan_entry c y cvk xpath1 svec x rest
        ⟨he, hy x (List.mem_cons_self _ _) he⟩]
      have hst := xpath_step_collected c cvk xpath1 svec x (hv x (List.mem_cons_self _ _) he)
      have ih := xpath_scan_collected c y cvk xpath1 rest (svec ++ collected_bodies c xpath1 x)
        hy1 hv1
      rw [List.append_assoc] at ih
      constructor
      · intro hnd
        have h1 : (svec ++ collected_bodies c xpath1 x).Nodup := by
          rw [← List.append_assoc] at hnd
          exact (List.nodup_append.1 hnd).1
        rw [hst.1 h1, Step.andThen_next]
        exact ih.1 hnd
      · intro hs hnd
        by_cases h1 : (svec ++ collected_bodies c xpath1 x).Nodup
        · rw [hst.1 h1, Step.andThen_next]
          obtain ⟨a, ha, hres⟩ := ih.2 h1 hnd
          exact ⟨a, List.mem_cons_of_mem _ ha, hres⟩
        · rw [hst.2 hs h1, Step.andThen_stop]
          exact ⟨x, List.mem_cons_self _ _, rfl⟩
    · rw [if_neg he]
      have he1 : is_elmnt x = false := by simpa using he
      have hsk : check_unique_list_scan c y cvk xpath1 svec (x :: rest) =
          check_unique_list_scan c y cvk xpath1 svec rest := by
        rw [check_unique_list_scan]
        simp [he1]
      rw [hsk]
      have ih := xpath_scan_collected c y cvk xpath1 rest svec hy1 hv1
      constructor
      · exact ih.1
      · intro hs hnd
        obtain ⟨a, ha, hres⟩ := ih.2 hs hnd
        exact ⟨a, List.mem_cons_of_mem _ ha, hres⟩

/-- Counterexample to C35 as stated: a run of one entry, in which the path `a/b` selects
two nodes with the same body `x`. No two entries select equal bodies, and
`check_unique_list` returns 0 with data-not-unique. -/
theorem check_unique_list_xpath_within_entry_counterexample :
    yang_cvec_get (ex_unique_ab 114) = ["a/b"] ∧ has_slash "a/b" = true ∧
    ex_xpath.xpath2canonical (ex_unique_ab 114) ex_list_l_a "a/b" = some (some "a/b") ∧
    selected_bodies ex_xpath "a/b" ex_entry_l_twice = ["x", "x"] ∧
    check_unique_list ex_xpath ex_entry_l_twice [] ex_list_l_a (ex_unique_ab 114) 0 =
      .fail (some (.data_not_unique ex_entry_l_twice ["a/b"])) none :=
  ⟨rfl, by decide, rfl, by decide, rfl⟩

/-- C35 (amended): for every list `y` with a `unique` statement `yu` whose single argument
`xpath0` contains a slash and canonicalises to `xpath1`, and every run of entries of `y`
(`x0` and the children `rest` after it, whose elements are all entries of `y`) on each of
which the evaluation of the path succeeds: `check_unique_list` returns 1 if and only if the
body strings that it collects over the run are pairwise distinct, two strings of one entry
included; otherwise it returns 0 with a data-not-unique error for an entry of the run. -/
theorem check_unique_list_xpath_distinct (c : Collaborators) (y yu : yang_stmt)
    (xpath0 xpath1 : String) (x0 : cxobj) (rest : List cxobj) (mark : Nat)
    (hcvk : yang_cvec_get yu = [xpath0]) (hslash : has_slash xpath0 = true)
    (hcanon : c.xpath2canonical yu y xpath0 = some (some xpath1))
    (hrun : ∀ x ∈ x0 :: rest, is_elmnt x = true → xml_spec x = some y)
    (hx0 : is_elmnt x0 = true)
    (hvec : ∀ x ∈ x0 :: rest, is_elmnt x = true → (c.xpath_vec x xpath1).isSome = true) :
    (check_unique_list c x0 rest y yu mark = .ok ↔
      (run_bodies c xpath1 (x0 :: rest)).Nodup) ∧
    (¬ (run_bodies c xpath1 (x0 :: rest)).Nodup →
      ∃ x ∈ x0 :: rest, check_unique_list c x0 rest y yu mark =
        .fail (some (.data_not_unique x [xpath0])) none) := by
  rw [check_unique_list_xpath_mode c x0 rest y yu mark xpath0 xpath1 hcvk hslash hcanon
    ⟨hx0, hrun x0 (List.mem_cons_self _ _) hx0⟩]
  have h := xpath_scan_collected c y [xpath0] xpath1 (x0 :: rest) [] hrun hvec
  simp only [List.nil_append] at h
  refine ⟨⟨?_, h.1⟩, h.2 List.nodup_nil⟩
  intro hok
  by_contra hnd
  obtain ⟨x, _, hres⟩ := h.2 List.nodup_nil hnd
  rw [hok] at hres
  cases hres

/-- Witness of `check_unique_list_xpath_distinct`: two entries of
`list l { key "k"; unique "a/b"; ... }` with different `a/b`. -/
theorem check_unique_list_xpath_distinct_witness :
    run_bodies ex_xpath "a/b" [ex_entry_ab ex_list_ab "1" "x", ex_entry_ab ex_list_ab "2" "y"] =
      ["x", "y"] ∧
    check_unique_list ex_xpath (ex_entry_ab ex_list_ab "1" "x")
      [ex_entry_ab ex_list_ab "2" "y"] ex_list_ab (ex_unique_ab 91) 0 = .ok :=
  ⟨by decide,
   (check_unique_list_xpath_distinct ex_xpath ex_list_ab (ex_unique_ab 91) "a/b" "a/b"
    (ex_entry_ab ex_list_ab "1" "x") [ex_entry_ab ex_list_ab "2" "y"] 0 rfl (by decide) rfl
    (by
      intro x hx _
      simp only [List.mem_cons, List.mem_singleton, List.not_mem_nil, or_false] at hx
      rcases hx with rfl | rfl <;> rfl)
    rfl
    (by
      intro x hx _
      simp only [List.mem_cons, List.mem_singleton, List.not_mem_nil, or_false] at hx
      rcases hx with rfl | rfl <;> rfl)).1.2 (by decide)⟩

/-! ## The count of the entries of a run -/

theorem bound_to_is_bound (L : yang_stmt) (m : cxobj) (h : bound_to L m = true) :
    is_bound_elmnt m = true := by
  unfold bound_to at h
  unfold is_bound_elmnt
  cases hs : xml_spec m with
  | none => rw [hs] at h; simp [yang_ptr_eq] at h
  | some y => simp only [Bool.and_eq_true] at h; simp [h.1]

theorem bound_to_same (L y : yang_stmt) (m : cxobj) (h1 : bound_to L m = true)
    (h2 : bound_to y m = true) : yang_ptr_eq (some y) (some L) = true := by
  unfold bound_to at h1 h2
  simp only [Bool.and_eq_true] at h1 h2
  exact yang_ptr_eq_trans h2.2 (by rw [yang_ptr_eq_comm]; exact h1.2)

theorem bound_to_spec (y : yang_stmt) (x : cxobj) (he : is_elmnt x = true)
    (hy : xml_spec x = some y) : bound_to y x = true := by
  unfold bound_to
  rw [he, hy, yang_ptr_eq_self]
  rfl

theorem xml_count_bound_zero (L : yang_stmt) (cs : List cxobj)
    (h : ∀ m ∈ cs, bound_to L m = false) : xml_count_bound L cs = 0 := by
  unfold xml_count_bound
  rw [List.length_eq_zero, List.filter_eq_nil_iff]
  intro m hm
  rw [h m hm]
  simp

/-- In a parent with contiguous entries, no child before the first entry of a new run is
bound to the statement of that run. -/
theorem minmax_no_earlier_entry (pre post : List cxobj) (x : cxobj) (y : yang_stmt)
    (st : MinmaxState) (hcont : entries_contiguous (pre ++ x :: post))
    (hinv : minmax_count_inv pre st) (he : is_elmnt x = true) (hy : xml_spec x = some y)
    (hk : is_list_kw (yang_keyword_get y) = true)
    (hp : yang_ptr_eq (some y) st.yprev = false) :
    ∀ a0 ∈ pre, bound_to y a0 = false := by
  intro a0 ha0
  cases hb : bound_to y a0 with
  | false => rfl
  | true =>
    exfalso
    cases hyp : st.yprev with
    | none =>
      have := hinv.1 hyp a0 ha0
      rw [bound_to_is_bound y a0 hb] at this
      cases this
    | some L =>
      obtain ⟨⟨l1, a, l2, hpre, hba, hl2⟩, _⟩ := hinv.2 L hyp
      rw [hyp] at hp
      have hne : bound_to y a = false := by
        cases h : bound_to y a with
        | false => rfl
        | true => rw [bound_to_same L y a hba h] at hp; cases hp
      rw [hpre] at ha0
      rcases List.mem_append.1 ha0 with h1 | h1
      · obtain ⟨u, v, huv⟩ := List.append_of_mem h1
        have hcs : pre ++ x :: post = u ++ a0 :: ((v ++ a :: l2) ++ x :: post) := by
          rw [hpre, huv]; simp
        have := hcont y u a0 (v ++ a :: l2) x post hcs hk hb (bound_to_spec y x he hy) a
          (by simp) (bound_to_is_bound L a hba)
        rw [hne] at this
        cases this
      · rcases List.mem_cons.1 h1 with rfl | h1
        · rw [hne] at hb; cases hb
        · have := hl2 a0 h1
          rw [bound_to_is_bound y a0 hb] at this
          cases this

/-- In a parent with contiguous entries, no child from the first element after a run on is
bound to the statement of the run. -/
theorem minmax_no_later_entry (pre post : List cxobj) (x : cxobj) (y L : yang_stmt)
    (st : MinmaxState) (hcont : entries_contiguous (pre ++ x :: post))
    (hinv : minmax_count_inv pre st) (he : is_elmnt x = true) (hy : xml_spec x = some y)
    (hyp : st.yprev = some L) (hk : is_list_kw (yang_keyword_get L) = true)
    (hp : yang_ptr_eq (some y) st.yprev = false) :
    ∀ m ∈ x :: post, bound_to L m = false := by
  obtain ⟨⟨l1, a, l2, hpre, hba, hl2⟩, _⟩ := hinv.2 L hyp
  rw [hyp] at hp
  have hx : bound_to L x = false := by
    cases h : bound_to L x with
    | false => rfl
    | true => rw [bound_to_same L y x h (bound_to_spec y x he hy)] at hp; cases hp
  intro m hm
  rcases List.mem_cons.1 hm with rfl | hm
  · exact hx
  · cases hb : bound_to L m with
    | false => rfl
    | true =>
      exfalso
      obtain ⟨u, v, huv⟩ := List.append_of_mem hm
      have hcs : pre ++ x :: post = l1 ++ a :: ((l2 ++ x :: u) ++ m :: v) := by
        rw [hpre, huv]; simp
      have := hcont L l1 a (l2 ++ x :: u) m v hcs hk hba hb x (by simp)
        (bound_to_is_bound y x (bound_to_spec y x he hy))
      rw [hx] at this
      cases this

theorem xml_count_bound_snoc (L : yang_stmt) (pre : List cxobj) (x : cxobj) :
    xml_count_bound L (pre ++ [x]) = xml_count_bound L pre + (if bound_to L x then 1 else 0) := by
  rw [xml_count_bound_append, xml_count_bound_cons]
  simp [xml_count_bound]

/-- One pass of the traversal keeps the count invariant. -/
theorem minmax_step_count_inv (c : Collaborators) (presence : Bool) (xt : cxobj)
    (yt : Option yang_stmt) (sub : Res) (st st1 : MinmaxState) (pre post : List cxobj)
    (x : cxobj) (hcont : entries_contiguous (pre ++ x :: post))
    (hinv : minmax_count_inv pre st)
    (h : xml_yang_validate_minmax_step c presence xt yt sub st x post = .next st1) :
    minmax_count_inv (pre ++ [x]) st1 := by
  have hskip : is_bound_elmnt x = false → st1 = st → minmax_count_inv (pre ++ [x]) st1 := by
    intro hx e
    rw [e]
    have hnb : ∀ L, bound_to L x = false := by
      intro L
      cases hb : bound_to L x with
      | false => rfl
      | true => rw [bound_to_is_bound L x hb] at hx; cases hx
    constructor
    · intro hyp m hm
      rcases List.mem_append.1 hm with hm | hm
      · exact hinv.1 hyp m hm
      · rw [List.mem_singleton.1 hm]; exact hx
    · intro L hyp
      obtain ⟨⟨l1, a, l2, hpre, hba, hl2⟩, hcnt⟩ := hinv.2 L hyp
      refine ⟨⟨l1, a, l2 ++ [x], by rw [hpre]; simp, hba, ?_⟩, ?_⟩
      · intro m hm
        rcases List.mem_append.1 hm with hm | hm
        · exact hl2 m hm
        · rw [List.mem_singleton.1 hm]; exact hx
      · intro hk
        rw [xml_count_bound_snoc, hnb L, hcnt hk]
        simp
  by_cases he : is_elmnt x = true
  · cases hy : xml_spec x with
    | none =>
      rw [minmax_step_skip c presence xt yt sub st x post (Or.inr hy)] at h
      cases h
      exact hskip (by simp [is_bound_elmnt, hy]) rfl
    | some y =>
      have hbx : bound_to y x = true := bound_to_spec y x he hy
      have hnew : ∀ nr ye inext, st1 = ⟨some y, ye, nr, inext⟩ →
          yang_ptr_eq (some y) st.yprev = false →
          (is_list_kw (yang_keyword_get y) = true → nr = 1) →
          minmax_count_inv (pre ++ [x]) st1 := by
        intro nr ye inext e hp hnr
        rw [e]
        constructor
        · intro hyp; cases hyp
        · intro L hyp
          simp only [Option.some.injEq] at hyp
          subst hyp
          refine ⟨⟨pre, x, [], rfl, hbx, fun m hm => by cases hm⟩, ?_⟩
          intro hk
          simp only
          rw [hnr hk, xml_count_bound_snoc, hbx,
            xml_count_bound_zero y pre
              (minmax_no_earlier_entry pre post x y st hcont hinv he hy hk hp)]
          rfl
      by_cases hk : is_list_kw (yang_keyword_get y) = true <;>
        by_cases hp : yang_ptr_eq (some y) st.yprev = true
      · rw [minmax_step_list_same c presence xt yt sub st x post y he hy hk hp] at h
        cases h
        constructor
        · intro hyp
          simp only at hyp
          rw [hyp] at hp
          simp [yang_ptr_eq] at hp
        · intro L hyp
          simp only at hyp
          have hbL : bound_to L x = true := by
            rw [hyp] at hp
            unfold bound_to
            rw [he, hy, yang_ptr_eq_comm, hp]
            rfl
          refine ⟨⟨pre, x, [], rfl, hbL, fun m hm => by cases hm⟩, ?_⟩
          intro hkL
          simp only
          rw [xml_count_bound_snoc, hbL, (hinv.2 L hyp).2 hkL]
          rfl
      · have hp1 : yang_ptr_eq (some y) st.yprev = false := by simpa using hp
        rw [minmax_step_list_new c presence xt yt sub st x post y he hy hk hp1] at h
        obtain ⟨_, e⟩ := Res.toStep_next h
        exact hnew _ _ _ e hp1 (fun _ => rfl)
      · rw [minmax_step_other_same c presence xt yt sub st x post y he hy (by simpa using hk) hp]
          at h
        cases h
      · have hp1 : yang_ptr_eq (some y) st.yprev = false := by simpa using hp
        rw [minmax_step_other_new c presence xt yt sub st x post y he hy (by simpa using hk) hp1]
          at h
        obtain ⟨_, e⟩ := Res.toStep_next h
        exact hnew _ _ _ e hp1 (fun hk1 => absurd hk1 hk)
  · have he1 : is_elmnt x = false := by simpa using he
    rw [minmax_step_skip c presence xt yt sub st x post (Or.inl he1)] at h
    cases h
    exact hskip (by simp [is_bound_elmnt, he1]) rfl

/-- The traversal keeps the count invariant. -/
theorem minmax_run_count_inv (c : Collaborators) (presence : Bool) (xt : cxobj)
    (yt : Option yang_stmt) :
    ∀ (l pre post : List cxobj) (st st1 : MinmaxState),
      entries_contiguous (pre ++ l ++ post) → minmax_count_inv pre st →
      xml_yang_validate_minmax_run c presence xt yt st l post = .next st1 →
      minmax_count_inv (pre ++ l) st1
  | [], pre, post, st, st1, _, hinv, h => by
    rw [xml_yang_validate_minmax_run] at h
    cases h
    simpa using hinv
  | x :: l, pre, post, st, st1, hcont, hinv, h => by
    rw [xml_yang_validate_minmax_run] at h
    cases hs : xml_yang_validate_minmax_step c presence xt yt
        (xml_yang_validate_minmax c presence x) st x (l ++ post) with
    | stop r => rw [hs] at h; cases h
    | next st0 =>
      rw [hs] at h
      have hc1 : entries_contiguous (pre ++ x :: (l ++ post)) := by
        simpa using hcont
      have h0 := minmax_step_count_inv c presence xt yt _ st st0 pre (l ++ post) x hc1 hinv hs
      have := minmax_run_count_inv c presence xt yt l (pre ++ [x]) post st0 st1
        (by simpa using hcont) h0 h
      simpa using this

theorem check_minmax_prev_call (c : Collaborators) (xt : cxobj) (yt : Option yang_stmt)
    (st : MinmaxState) (x : cxobj) (y L : yang_stmt) (nr : Nat) (hy : xml_spec x = some y)
    (h : minmax_step_call c xt yt st x = some (L, nr)) :
    is_elmnt x = true ∧ yang_ptr_eq (some y) st.yprev = false ∧ st.yprev = some L ∧
    st.nr = nr ∧ is_list_kw (yang_keyword_get L) = true ∧
    check_minmax_prev xt (xml_yang_minmax_gap_analysis c xt (some y) yt st.inext st.ye).ret
      st.yprev st.nr = check_minmax xt L nr := by
  unfold minmax_step_call at h
  by_cases he : is_elmnt x = true
  · simp only [he, Bool.not_true, Bool.false_eq_true, if_false, hy] at h
    by_cases hp : yang_ptr_eq (some y) st.yprev = true
    · rw [if_pos hp] at h; cases h
    · rw [if_neg hp] at h
      cases hg : (xml_yang_minmax_gap_analysis c xt (some y) yt st.inext st.ye).ret with
      | ok =>
        rw [hg] at h
        cases hyp : st.yprev with
        | none => rw [hyp] at h; cases h
        | some yp =>
          rw [hyp] at h
          simp only at h
          by_cases hl : yprev_is_list (some yp) = true
          · rw [if_pos hl] at h
            simp only [Option.some.injEq, Prod.mk.injEq] at h
            obtain ⟨rfl, rfl⟩ := h
            refine ⟨he, by rw [hyp] at hp; simpa using hp, rfl, rfl, ?_, ?_⟩
            · simpa [yprev_is_list, is_list_kw] using hl
            · unfold check_minmax_prev
              simp only [hl, if_true]
          · rw [if_neg hl] at h; cases h
      | fail e m => rw [hg] at h; cases h
      | error => rw [hg] at h; cases h
  · simp only [he, Bool.not_false, if_true] at h
    cases h

theorem minmax_after_call_spec (xt : cxobj) (st : MinmaxState) (L : yang_stmt) (nr : Nat)
    (h : minmax_after_call xt st = some (L, nr)) :
    st.yprev = some L ∧ st.nr = nr ∧
    xml_yang_validate_minmax_after xt st.yprev st.nr st.inext = check_minmax xt L nr := by
  unfold minmax_after_call at h
  unfold xml_yang_validate_minmax_after
  cases hg : check_empty_list_minmax_iter xt st.inext with
  | ok =>
    rw [hg] at h
    cases hyp : st.yprev with
    | none => rw [hyp] at h; cases h
    | some yp =>
      rw [hyp] at h
      simp only at h ⊢
      by_cases hl : yprev_is_leaf_or_leaf_list (some yp) = true
      · rw [if_pos hl] at h
        simp only [Option.some.injEq, Prod.mk.injEq] at h
        obtain ⟨rfl, rfl⟩ := h
        exact ⟨rfl, rfl, by rw [if_pos hl]⟩
      · rw [if_neg hl] at h; cases h
  | fail e m => rw [hg] at h; cases h
  | error => rw [hg] at h; cases h

theorem minmax_count_inv_init (yt : Option yang_stmt) : minmax_count_inv [] (minmax_init yt) :=
  ⟨(fun _ m hm => by cases hm), (fun L h => by cases h)⟩

theorem minmax_count_inv_pos (pre : List cxobj) (st : MinmaxState) (L : yang_stmt)
    (hinv : minmax_count_inv pre st) (hyp : st.yprev = some L) :
    1 ≤ xml_count_bound L pre := by
  obtain ⟨⟨l1, a, l2, hpre, hba, _⟩, _⟩ := hinv.2 L hyp
  rw [hpre, xml_count_bound_append, xml_count_bound_cons, hba]
  simp only [if_true]
  omega

/-- C36. Walker count invariant. On a parent `xt` whose list and leaf-list entries are
contiguous, in the state `st` with which the traversal of `xml_yang_validate_minmax` arrives
after the children `pre` (the children `post` follow): while `yprev` is a list or leaf-list
`L`, `nr` is the number of elements of `pre` bound to `L`, which is at least 1 (so the count
of a new run starts at 1, and children that are not bound are not counted); every call
`check_minmax(xt, L, nr)` that the pass for the next child makes, and the call made after
the traversal for a leaf-list, has `nr` equal to the number of children of `xt` bound to
`L`. -/
theorem minmax_count_invariant (c : Collaborators) (presence : Bool) (xt : cxobj)
    (hcont : entries_contiguous (xml_childvec xt)) (pre post : List cxobj) (st : MinmaxState)
    (hcs : xml_childvec xt = pre ++ post)
    (hrun : xml_yang_validate_minmax_run c presence xt (xml_spec xt)
      (minmax_init (xml_spec xt)) pre post = .next st) :
    (∀ L, st.yprev = some L → is_list_kw (yang_keyword_get L) = true →
      1 ≤ st.nr ∧ st.nr = xml_count_bound L pre) ∧
    (∀ x rest y L nr, post = x :: rest → xml_spec x = some y →
      minmax_step_call c xt (xml_spec xt) st x = some (L, nr) →
      1 ≤ nr ∧ nr = xml_count_bound L (xml_childvec xt) ∧
      check_minmax_prev xt
        (xml_yang_minmax_gap_analysis c xt (some y) (xml_spec xt) st.inext st.ye).ret
        st.yprev st.nr = check_minmax xt L nr) ∧
    (post = [] → ∀ L nr, minmax_after_call xt st = some (L, nr) →
      is_list_kw (yang_keyword_get L) = true →
      1 ≤ nr ∧ nr = xml_count_bound L (xml_childvec xt) ∧
      xml_yang_validate_minmax_after xt st.yprev st.nr st.inext = check_minmax xt L nr) := by
  have hinv : minmax_count_inv pre st := by
    have := minmax_run_count_inv c presence xt (xml_spec xt) pre [] post _ st
      (by simpa [hcs] using hcont) (minmax_count_inv_init _) hrun
    simpa using this
  have hrunning : ∀ L, st.yprev = some L → is_list_kw (yang_keyword_get L) = true →
      1 ≤ st.nr ∧ st.nr = xml_count_bound L pre := by
    intro L hyp hk
    have h1 := (hinv.2 L hyp).2 hk
    exact ⟨by rw [h1]; exact minmax_count_inv_pos pre st L hinv hyp, h1⟩
  refine ⟨hrunning, ?_, ?_⟩
  · intro x rest y L nr hpost hy hcall
    obtain ⟨he, hp, hyp, hnr, hk, hchk⟩ := check_minmax_prev_call c xt _ st x y L nr hy hcall
    obtain ⟨h1, h2⟩ := hrunning L hyp hk
    rw [hpost] at hcs
    have hz := xml_count_bound_zero L (x :: rest)
      (minmax_no_later_entry pre rest x y L st (by rw [← hcs]; exact hcont) hinv he hy hyp hk hp)
    refine ⟨by rw [← hnr]; exact h1, ?_, hchk⟩
    rw [hcs, xml_count_bound_append, hz, ← hnr, h2]
    rfl
  · intro hpost L nr hcall hk
    obtain ⟨hyp, hnr, hchk⟩ := minmax_after_call_spec xt st L nr hcall
    obtain ⟨h1, h2⟩ := hrunning L hyp hk
    rw [hpost, List.append_nil] at hcs
    exact ⟨by rw [← hnr]; exact h1, by rw [hcs, ← hnr, h2], hchk⟩

theorem ex_c_two_entries_z_contiguous : entries_contiguous (xml_childvec ex_c_two_entries_z) := by
  intro L l1 a l2 b l3 h hk ha hb m hm hbm
  have hcs : xml_childvec ex_c_two_entries_z =
      [ex_entry ex_list_max1 (ex_leaf 32 "k") "a", ex_entry ex_list_max1 (ex_leaf 32 "k") "b",
        ex_elem "z" ex_leaf_z "1"] := rfl
  rw [hcs] at h
  rcases l1 with _ | ⟨e1, _ | ⟨e2, _ | ⟨e3, l1⟩⟩⟩ <;>
    rcases l2 with _ | ⟨f1, _ | ⟨f2, l2⟩⟩ <;>
    simp only [List.nil_append, List.cons_append, List.cons.injEq, List.nil_eq,
      List.append_eq_nil, and_false, false_and, reduceCtorEq] at h
  · cases hm
  · obtain ⟨rfl, rfl, rfl, _⟩ := h
    have h1 : yang_ptr_eq (some L) (some ex_list_max1) = true := by
      simpa [bound_to, ex_entry, xml_spec, is_elmnt, xml_type] using ha
    have h2 : yang_ptr_eq (some L) (some ex_leaf_z) = true := by
      simpa [bound_to, ex_elem, xml_spec, is_elmnt, xml_type] using hb
    have := yang_ptr_eq_trans (by rw [yang_ptr_eq_comm]; exact h1) h2
    exact absurd this (by decide)
  · cases hm

/-- Witness of `minmax_count_invariant`: `<c><x>..</x><x>..</x><z>1</z></c>` with two
entries of the list `x`; the pass for `<z>` calls `check_minmax(xt, x, 2)`. -/
theorem minmax_count_invariant_witness :
    entries_contiguous (xml_childvec ex_c_two_entries_z) ∧
    minmax_step_call ex_none ex_c_two_entries_z (xml_spec ex_c_two_entries_z)
      ⟨some ex_list_max1, some ex_list_max1, 2, [ex_leaf_z]⟩ (ex_elem "z" ex_leaf_z "1") =
      some (ex_list_max1, 2) ∧
    2 = xml_count_bound ex_list_max1 (xml_childvec ex_c_two_entries_z) :=
  ⟨ex_c_two_entries_z_contiguous, rfl,
   ((minmax_count_invariant ex_none false ex_c_two_entries_z ex_c_two_entries_z_contiguous
      [ex_entry ex_list_max1 (ex_leaf 32 "k") "a", ex_entry ex_list_max1 (ex_leaf 32 "k") "b"]
      [ex_elem "z" ex_leaf_z "1"] ⟨some ex_list_max1, some ex_list_max1, 2, [ex_leaf_z]⟩
      rfl rfl).2.1 (ex_elem "z" ex_leaf_z "1") [] ex_leaf_z ex_list_max1 2 rfl rfl rfl).2.1⟩

/-! ## xml_duplicate_remove and the unique statements -/

theorem direct_scan_cases (y : yang_stmt) (cvk : List String) (sorted : Bool) (mark : Nat)
    (hs : ∀ k ∈ cvk, has_slash k = false) :
    ∀ (rest : List cxobj) (vec : TupleVec),
      check_unique_list_direct_scan y cvk sorted mark vec rest = .ok ∨
      ∃ e ∈ rest, ∃ d, check_unique_list_direct_scan y cvk sorted mark vec rest =
        .fail (some (.data_not_unique e cvk)) (marked_of mark d)
  | [], _ => Or.inl rfl
  | x :: rest, vec => by
    rw [check_unique_list_direct_scan]
    by_cases he : (!is_elmnt x) = true
    · rw [if_pos he]
      rcases direct_scan_cases y cvk sorted mark hs rest vec with h | ⟨e, he1, d, h⟩
      · exact Or.inl h
      · exact Or.inr ⟨e, List.mem_cons_of_mem _ he1, d, h⟩
    · rw [if_neg he]
      by_cases hp : (!yang_ptr_eq (some y) (xml_spec x)) = true
      · rw [if_pos hp]; exact Or.inl rfl
      · rw [if_neg hp]
        rcases direct_step_no_slash cvk sorted mark vec x hs with ⟨row, h⟩ | ⟨d, h⟩
        · rw [h]
          simp only
          rcases direct_scan_cases y cvk sorted mark hs rest (vec ++ [row]) with
            h1 | ⟨e, he1, d, h1⟩
          · exact Or.inl h1
          · exact Or.inr ⟨e, List.mem_cons_of_mem _ he1, d, h1⟩
        · rw [h]
          exact Or.inr ⟨x, List.mem_cons_self _ _, d, rfl⟩

/-- The check of a `unique` statement that can be made returns 1, or 0 with a
data-not-unique error for an entry of the run. -/
theorem unique_check_cases (c : Collaborators) (y yu : yang_stmt) (x0 : cxobj)
    (rest : List cxobj) (hes : ∀ x ∈ x0 :: rest, is_entry y x)
    (h : unique_checkable c y yu (x0 :: rest)) :
    check_unique_list c x0 rest y yu 0 = .ok ∨
    ∃ e ∈ x0 :: rest, check_unique_list c x0 rest y yu 0 =
      .fail (some (.data_not_unique e (yang_cvec_get yu))) none := by
  have hx0 := hes x0 (List.mem_cons_self _ _)
  rcases h with ⟨hne, hs⟩ | ⟨xpath0, xpath1, hcvk, hslash, hcanon, hvec⟩
  · rw [check_unique_list_direct_mode c x0 rest y yu 0 hs hne, direct_eq_scan x0 rest y yu 0 hx0 hne]
    rcases direct_scan_cases y _ (direct_sorted y yu) 0 hs (x0 :: rest) [] with h | ⟨e, he, d, h⟩
    · exact Or.inl h
    · exact Or.inr ⟨e, he, by rw [h, marked_of_zero]⟩
  · rw [check_unique_list_xpath_mode c x0 rest y yu 0 xpath0 xpath1 hcvk hslash hcanon hx0, hcvk]
    have h := xpath_scan_collected c y [xpath0] xpath1 (x0 :: rest) []
      (fun x hx _ => (hes x hx).2) (fun x hx _ => hvec x hx)
    simp only [List.nil_append] at h
    by_cases hnd : (run_bodies c xpath1 (x0 :: rest)).Nodup
    · exact Or.inl (h.1 hnd)
    · exact Or.inr (h.2 List.nodup_nil hnd)

/-- The check of a `unique` statement that the entries violate does not return 1. -/
theorem unique_check_violated (c : Collaborators) (y yu : yang_stmt) (x0 : cxobj)
    (rest : List cxobj) (hes : ∀ x ∈ x0 :: rest, is_entry y x)
    (hku : yang_keyword_get yu = .Y_UNIQUE)
    (hck : unique_checkable c y yu (x0 :: rest))
    (h : unique_violated c y yu (x0 :: rest)) :
    check_unique_list c x0 rest y yu 0 ≠ .ok := by
  have hx0 := hes x0 (List.mem_cons_self _ _)
  intro hok
  rcases h with ⟨hs, l1, a, l2, b, l3, t, hcs, hta, htb⟩ |
    ⟨xpath0, xpath1, hcvk, hslash, hcanon, hnd⟩
  · have hne := check_unique_list_ok_ne_nil c x0 rest y yu 0 hok
    rw [check_unique_list_direct_mode c x0 rest y yu 0 hs hne,
      direct_eq_scan x0 rest y yu 0 hx0 hne] at hok
    have hsorted : direct_sorted y yu = false := by
      unfold direct_sorted
      rw [hku]
      rfl
    rw [hsorted] at hok
    have := (direct_scan_unsorted_sound y (yang_cvec_get yu) 0 [] hs (x0 :: rest) [] hes
      (by simpa using hok)).2
    rw [hcs, List.pairwise_append] at this
    have h2 := (List.pairwise_cons.1 this.2.1).1 b (by simp) t hta
    exact h2 htb
  · rw [check_unique_list_xpath_mode c x0 rest y yu 0 xpath0 xpath1 hcvk hslash hcanon hx0] at hok
    rcases hck with ⟨_, hs⟩ | ⟨xp0, xp1, hcvk1, _, hcanon1, hvec⟩
    · have := hs xpath0 (by rw [hcvk]; simp)
      rw [this] at hslash
      cases hslash
    · rw [hcvk] at hcvk1
      simp only [List.cons.injEq, and_true] at hcvk1
      subst hcvk1
      rw [hcanon] at hcanon1
      simp only [Option.some.injEq] at hcanon1
      subst hcanon1
      have h := xpath_scan_collected c y [xpath0] xpath1 (x0 :: rest) []
        (fun x hx _ => (hes x hx).2) (fun x hx _ => hvec x hx)
      simp only [List.nil_append] at h
      obtain ⟨e, _, hres⟩ := h.2 List.nodup_nil hnd
      rw [hok] at hres
      cases hres

/-- The loop over the `unique` statements of a list that can all be checked returns 1, or 0
with the data-not-unique error of one of them. -/
theorem new_list_iter_cases (c : Collaborators) (y : yang_stmt) (x0 : cxobj)
    (rest : List cxobj) (hes : ∀ x ∈ x0 :: rest, is_entry y x) :
    ∀ ys, (∀ yu ∈ ys, yang_keyword_get yu = .Y_UNIQUE → unique_checkable c y yu (x0 :: rest)) →
      xml_yang_minmax_new_list_iter c x0 rest y ys = .ok ∨
      ∃ yu ∈ ys, yang_keyword_get yu = .Y_UNIQUE ∧ ∃ e ∈ x0 :: rest,
        xml_yang_minmax_new_list_iter c x0 rest y ys =
          .fail (some (.data_not_unique e (yang_cvec_get yu))) none
  | [], _ => Or.inl rfl
  | yu :: ys, h => by
    have ih := new_list_iter_cases c y x0 rest hes ys
      (fun yu1 h1 => h yu1 (List.mem_cons_of_mem _ h1))
    have ih1 : xml_yang_minmax_new_list_iter c x0 rest y ys = .ok ∨
        ∃ yu1 ∈ yu :: ys, yang_keyword_get yu1 = .Y_UNIQUE ∧ ∃ e ∈ x0 :: rest,
          xml_yang_minmax_new_list_iter c x0 rest y ys =
            .fail (some (.data_not_unique e (yang_cvec_get yu1))) none := by
      rcases ih with h1 | ⟨yu1, hm, hk, e, he, h1⟩
      · exact Or.inl h1
      · exact Or.inr ⟨yu1, List.mem_cons_of_mem _ hm, hk, e, he, h1⟩
    rw [xml_yang_minmax_new_list_iter]
    by_cases hk : yang_keyword_get yu = .Y_UNIQUE
    · have hne : (yang_keyword_get yu != .Y_UNIQUE) = false := by simp [hk]
      simp only [hne, Bool.false_eq_true, if_false]
      rcases unique_check_cases c y yu x0 rest hes (h yu (List.mem_cons_self _ _) hk) with
        h1 | ⟨e, he, h1⟩
      · rw [h1]
        exact ih1
      · rw [h1]
        exact Or.inr ⟨yu, List.mem_cons_self _ _, hk, e, he, rfl⟩
    · have hne : (yang_keyword_get yu != .Y_UNIQUE) = true := by simp [hk]
      simp only [hne, if_true]
      exact ih1

theorem has_later_dup_not_unique {κ : Type} (key : cxobj → κ) (d : Nat) (cs : List cxobj)
    (h : has_later_dup key d cs) (hu : no_later_dup key cs) : False := by
  obtain ⟨l1, a, l2, b, l3, hcs, ha, hb, _, hk⟩ := h
  unfold no_later_dup at hu
  rw [hcs, List.pairwise_append] at hu
  exact (List.pairwise_cons.1 hu.2.1).1 b (by simp) ha hb hk

/-- The key check of a run of entries that all have their keys, no two of them the same,
returns 1, in sorted and in pairwise mode and with any mark. -/
theorem direct_keys_unique_ok (y : yang_stmt) (x0 : cxobj) (rest : List cxobj) (mark : Nat)
    (hes : ∀ x ∈ x0 :: rest, is_entry y x)
    (hslash : ∀ k ∈ yang_cvec_get y, has_slash k = false)
    (hkey : ∀ x ∈ x0 :: rest, ∃ t, key_tuple x (yang_cvec_get y) = some t)
    (huniq : no_later_dup (fun x => key_tuple x (yang_cvec_get y)) (x0 :: rest)) :
    check_unique_list_direct x0 rest y y mark = .ok := by
  by_cases hne : yang_cvec_get y = []
  · unfold check_unique_list_direct
    simp [hne]
  · rw [direct_eq_scan x0 rest y y mark (hes x0 (List.mem_cons_self _ _)) hne]
    have hrun : list_run y (yang_cvec_get y) ([] ++ (x0 :: rest)) :=
      fun x hx _ => ⟨(hes x hx).2, hkey x hx⟩
    cases hsorted : direct_sorted y y with
    | true =>
      rcases direct_scan_sorted_spec y (yang_cvec_get y) mark hslash (x0 :: rest) [] hrun with
        ⟨hok, _⟩ | ⟨e, d, _, hd⟩
      · exact hok
      · exact (has_later_dup_not_unique _ d _ hd huniq).elim
    | false =>
      rcases direct_scan_unsorted_spec y (yang_cvec_get y) mark hslash (x0 :: rest) [] hrun with
        ⟨hok, _⟩ | ⟨e, d, _, hd⟩
      · exact hok
      · exact (has_later_dup_not_unique _ d _ hd huniq).elim

theorem prune_removed_no_del (cs : List cxobj) (h : no_del cs) :
    xml_tree_prune_removed XML_FLAG_DEL XML_FLAG_DEL cs = false := by
  unfold xml_tree_prune_removed
  rw [List.any_eq_false]
  intro x hx
  by_cases he : is_elmnt x = true
  · have := h x hx he
    simp [he, this]
  · simp [he]

/-- A check that fails without flagging a node ends `xml_duplicate_remove_recurse`: the
call returns 0 with the error of the check and leaves the tree as it is. -/
theorem duplicate_remove_unmarked_fail (c : Collaborators) (xt : cxobj) (x0 : cxobj)
    (rest : List cxobj) (y : yang_stmt) (e : Option ErrXml)
    (hk : yang_keyword_get y = .Y_LIST) (hcs : xml_childvec xt = x0 :: rest)
    (hx0 : is_entry y x0) (hdel : no_del (x0 :: rest))
    (hnew : xml_yang_minmax_new_list c x0 rest y XML_FLAG_DEL = .fail e none) :
    xml_duplicate_remove_recurse c xt = some (.fail e none, xt) := by
  have hstep : xml_duplicate_remove_step c none x0 rest = .stop (.fail e none) := by
    unfold xml_duplicate_remove_step
    simp only [hx0.1, hx0.2, Bool.not_true, Bool.false_eq_true, if_false, is_list_kw, hk,
      beq_self_eq_true, Bool.true_or, if_true, yang_ptr_eq, hnew]
  have hscan : xml_duplicate_remove_scan c none [] (x0 :: rest) =
      some (.fail e none, [], x0 :: rest) := by
    rw [xml_duplicate_remove_scan, hstep]
  have hloop : ∀ fuel, xml_duplicate_remove_loop c fuel (x0 :: rest) =
      some (.fail e none, x0 :: rest) := by
    intro fuel
    unfold xml_duplicate_remove_loop
    rw [hscan]
    simp only [List.nil_append, xml_flag_set_marked, prune_removed_no_del _ hdel,
      Bool.false_eq_true, if_false, prune_no_del _ hdel]
  have hrem : xml_duplicate_remove c xt = some (.fail e none, xt) := by
    unfold xml_duplicate_remove
    rw [hcs, hloop, ← hcs]
    simp only [xml_childvec_set_self]
  unfold xml_duplicate_remove_recurse
  obtain ⟨n, hn⟩ : ∃ n, xml_depth xt = n + 1 := ⟨xml_depth xt - 1, by
    have := xml_depth_pos xt; omega⟩
  rw [hn, xml_duplicate_remove_apply, hrem]

/-- Counterexample to C37 as stated: the two entries of `list x { key "k"; unique "a/b c";
unique "v"; .. }` have the keys `a` and `b` and the same `v`, no child carries a flag, and
`xml_duplicate_remove_recurse` returns -1: the check of `unique "a/b c"`, which comes first,
ends with an error. -/
theorem duplicate_remove_unique_violation_counterexample :
    (∀ x ∈ xml_childvec ex_c_muv_dup, is_entry ex_list_muv x ∧ xml_flags x = 0) ∧
    (xml_childvec ex_c_muv_dup).map (fun x => key_tuple x (yang_cvec_get ex_list_muv)) =
      [some ["a"], some ["b"]] ∧
    (xml_childvec ex_c_muv_dup).map (fun x => key_tuple x (yang_cvec_get (ex_unique_v 86))) =
      [some ["1"], some ["1"]] ∧
    ex_unique_v 86 ∈ yang_children ex_list_muv ∧
    ret_of (xml_duplicate_remove_recurse ex_none ex_c_muv_dup) = some (-1) := by
  refine ⟨?_, by decide, by decide, ?_, by decide⟩
  · intro x hx
    simp only [ex_c_muv_dup, xml_childvec, List.mem_cons, List.mem_singleton, List.not_mem_nil,
      or_false] at hx
    rcases hx with rfl | rfl <;> exact ⟨⟨rfl, rfl⟩, rfl⟩
  · simp [ex_list_muv, yang_children]

/-- C37 (amended): `xml_duplicate_remove_recurse` removes only key duplicates and leaf-list
duplicates. For a parent `xt` whose children are entries of one list `y`, none of them
carrying the DEL flag, with unique keys (every entry has its keys, no two entries the same
key tuple), when every `unique` statement of `y` can be checked (its arguments name direct
children, or it has a single argument with `/` that canonicalises and evaluates on every
entry) and the entries violate a `unique` statement of `y`: the call returns 0 with the
data-not-unique error of a `unique` statement of `y` for an entry of the run, flags no node
and leaves `xt` as it is. -/
theorem duplicate_remove_unique_violation (c : Collaborators) (xt : cxobj) (y yu : yang_stmt)
    (x0 : cxobj) (rest : List cxobj)
    (hk : yang_keyword_get y = .Y_LIST) (hcs : xml_childvec xt = x0 :: rest)
    (hes : ∀ x ∈ x0 :: rest, is_entry y x) (hdel : no_del (x0 :: rest))
    (hslash : ∀ k ∈ yang_cvec_get y, has_slash k = false)
    (hkey : ∀ x ∈ x0 :: rest, ∃ t, key_tuple x (yang_cvec_get y) = some t)
    (huniq : no_later_dup (fun x => key_tuple x (yang_cvec_get y)) (x0 :: rest))
    (hck : ∀ yu1 ∈ yang_children y, yang_keyword_get yu1 = .Y_UNIQUE →
      unique_checkable c y yu1 (x0 :: rest))
    (hyu : yu ∈ yang_children y) (hku : yang_keyword_get yu = .Y_UNIQUE)
    (hviol : unique_violated c y yu (x0 :: rest)) :
    ∃ yu1 ∈ yang_children y, yang_keyword_get yu1 = .Y_UNIQUE ∧ ∃ e ∈ x0 :: rest,
      xml_duplicate_remove_recurse c xt =
        some (.fail (some (.data_not_unique e (yang_cvec_get yu1))) none, xt) := by
  have hkeys := direct_keys_unique_ok y x0 rest XML_FLAG_DEL hes hslash hkey huniq
  have hnew : xml_yang_minmax_new_list c x0 rest y XML_FLAG_DEL =
      xml_yang_minmax_new_list_iter c x0 rest y (yang_children y) := by
    unfold xml_yang_minmax_new_list
    rw [hkeys]
  rcases new_list_iter_cases c y x0 rest hes (yang_children y) hck with
    hok | ⟨yu1, hm, hk1, e, he, hres⟩
  · exact absurd (new_list_iter_eq_ok c x0 rest y _ hok yu hyu hku)
      (unique_check_violated c y yu x0 rest hes hku (hck yu hyu hku) hviol)
  · exact ⟨yu1, hm, hk1, e, he,
      duplicate_remove_unmarked_fail c xt x0 rest y _ hk hcs (hes x0 (List.mem_cons_self _ _))
        hdel (by rw [hnew, hres])⟩

/-- Witness of `duplicate_remove_unique_violation`: the entries `(a, 1)` and `(b, 1)` of
`list x { key "k"; unique "v"; .. }`. -/
theorem duplicate_remove_unique_violation_witness :
    ∃ yu1 ∈ yang_children ex_list_uv, yang_keyword_get yu1 = .Y_UNIQUE ∧
      ∃ e ∈ [ex_entry_kv "a" "1", ex_entry_kv "b" "1"],
        xml_duplicate_remove_recurse ex_none ex_c_kv_dup =
          some (.fail (some (.data_not_unique e (yang_cvec_get yu1))) none, ex_c_kv_dup) :=
  duplicate_remove_unique_violation ex_none ex_c_kv_dup ex_list_uv (ex_unique_v 81)
    (ex_entry_kv "a" "1") [ex_entry_kv "b" "1"] rfl rfl
    (by
      intro x hx
      simp only [List.mem_cons, List.mem_singleton, List.not_mem_nil, or_false] at hx
      rcases hx with rfl | rfl <;> exact ⟨rfl, rfl⟩)
    (by
      intro x hx _
      simp only [List.mem_cons, List.mem_singleton, List.not_mem_nil, or_false] at hx
      rcases hx with rfl | rfl <;> decide)
    (by decide)
    (by
      intro x hx
      simp only [List.mem_cons, List.mem_singleton, List.not_mem_nil, or_false] at hx
      rcases hx with rfl | rfl
      · exact ⟨["a"], rfl⟩
      · exact ⟨["b"], rfl⟩)
    (List.Pairwise.cons
      (by
        intro b hb _ _
        rw [List.mem_singleton.1 hb]
        decide)
      (List.Pairwise.cons (by intro b hb; cases hb) List.Pairwise.nil))
    (by
      intro yu1 hm hk1
      simp only [ex_list_uv, yang_children, List.mem_cons, List.mem_singleton, List.not_mem_nil,
        or_false] at hm
      rcases hm with rfl | rfl | rfl
      · exact Or.inl ⟨by decide, by decide⟩
      · cases hk1
      · cases hk1)
    (by simp [ex_list_uv, yang_children]) rfl
    (Or.inl ⟨by decide, [], ex_entry_kv "a" "1", [], ex_entry_kv "b" "1", [], ["1"], rfl, rfl,
      rfl⟩)

/-! ## Defaults: xml_default_nopresence ends, for every flag -/

theorem nopresence_answer_each_cons (mode flag : Nat) (c : cxobj) (rest : List cxobj) :
    nopresence_answer_each mode flag (c :: rest) =
      ((!is_elmnt c || nopresence_answer mode flag c) && nopresence_answer_each mode flag rest) := by
  rw [nopresence_answer_each]

theorem nopresence_left_each_cons_elmnt (env : DefaultsEnv) (mode : Nat) (config : Bool)
    (flag : Nat) (c : cxobj) (rest : List cxobj) (he : is_elmnt c = true) :
    nopresence_left_each env mode config flag (c :: rest) =
      if nopresence_answer mode flag c && xml_default_nopresence_purge mode config c then
        nopresence_left_each env mode config flag rest
      else nopresence_left env mode flag c :: nopresence_left_each env mode config flag rest := by
  rw [nopresence_left_each]
  simp only [he, Bool.not_true, Bool.false_eq_true, if_false]

theorem nopresence_left_each_cons_other (env : DefaultsEnv) (mode : Nat) (config : Bool)
    (flag : Nat) (c : cxobj) (rest : List cxobj) (he : is_elmnt c = false) :
    nopresence_left_each env mode config flag (c :: rest) =
      c :: nopresence_left_each env mode config flag rest := by
  rw [nopresence_left_each]
  simp only [he, Bool.not_false, if_true]

/-- The node that the call leaves differs from `x` in its children only. -/
theorem nopresence_left_fields (env : DefaultsEnv) (mode flag : Nat) (x : cxobj) :
    nopresence_left env mode flag x = xml_childvec_set x (xml_childvec (nopresence_left env mode flag x)) := by
  cases x with
  | mk n t f s v cs =>
    rw [nopresence_left]
    split <;> rfl

theorem nopresence_skip_set (flag : Nat) (x : cxobj) (cs : List cxobj) :
    xml_default_nopresence_skip flag (xml_childvec_set x cs) =
      xml_default_nopresence_skip flag x := by
  cases x; rfl

theorem nopresence_flag_set (flag : Nat) (x : cxobj) (cs : List cxobj) :
    xml_default_nopresence_flag flag (xml_childvec_set x cs) =
      xml_default_nopresence_flag flag x := by
  cases x; rfl

theorem nopresence_rmx_set (mode : Nat) (x : cxobj) (cs : List cxobj) :
    xml_default_nopresence_rmx mode (xml_childvec_set x cs) =
      xml_default_nopresence_rmx mode x := by
  cases x; rfl

theorem nopresence_config_set (env : DefaultsEnv) (x : cxobj) (cs : List cxobj) :
    xml_default_nopresence_config env (xml_childvec_set x cs) =
      xml_default_nopresence_config env x := by
  cases x; rfl

theorem nopresence_purge_set (mode : Nat) (config : Bool) (x : cxobj) (cs : List cxobj) :
    xml_default_nopresence_purge mode config (xml_childvec_set x cs) =
      xml_default_nopresence_purge mode config x := by
  cases x; rfl

theorem is_elmnt_nopresence_left (env : DefaultsEnv) (mode flag : Nat) (x : cxobj) :
    is_elmnt (nopresence_left env mode flag x) = is_elmnt x := by
  rw [nopresence_left_fields, is_elmnt_childvec_set]

theorem nopresence_purge_left (env : DefaultsEnv) (mode : Nat) (config : Bool) (flag : Nat)
    (x : cxobj) :
    xml_default_nopresence_purge mode config (nopresence_left env mode flag x) =
      xml_default_nopresence_purge mode config x := by
  rw [nopresence_left_fields, nopresence_purge_set]

mutual
/-- The answer for a node does not change when the call has been made on it. -/
theorem nopresence_answer_left (env : DefaultsEnv) (mode : Nat) :
    ∀ (flag : Nat) (x : cxobj),
      nopresence_answer mode flag (nopresence_left env mode flag x) =
        nopresence_answer mode flag x
  | flag, .mk n t f s v cs => by
    rw [nopresence_left]
    by_cases hs : xml_default_nopresence_skip flag (.mk n t f s v []) = true
    · rw [if_pos hs]
    · rw [if_neg hs, nopresence_answer, nopresence_answer,
        nopresence_answer_left_each env mode _ _ cs]
theorem nopresence_answer_left_each (env : DefaultsEnv) (mode : Nat) (config : Bool) :
    ∀ (flag : Nat) (cs : List cxobj),
      nopresence_answer_each mode flag (nopresence_left_each env mode config flag cs) =
        nopresence_answer_each mode flag cs
  | flag, [] => by
    rw [nopresence_left_each]
  | flag, c :: rest => by
    rw [nopresence_left_each, nopresence_answer_each_cons]
    have ih := nopresence_answer_left_each env mode config flag rest
    by_cases he : is_elmnt c = true
    · simp only [he, Bool.not_true, Bool.false_eq_true, if_false, Bool.false_or]
      by_cases hv : (nopresence_answer mode flag c &&
          xml_default_nopresence_purge mode config c) = true
      · rw [if_pos hv, ih]
        simp only [Bool.and_eq_true] at hv
        rw [hv.1, Bool.true_and]
      · rw [if_neg hv, nopresence_answer_each_cons, ih, is_elmnt_nopresence_left, he,
          nopresence_answer_left env mode flag c]
        rfl
    · have he1 : is_elmnt c = false := by simpa using he
      simp only [he1, Bool.not_false, if_true, Bool.true_or, Bool.true_and]
      rw [nopresence_answer_each_cons, ih, he1]
      rfl
end

mutual
/-- A second call on the node changes nothing. -/
theorem nopresence_left_idem (env : DefaultsEnv) (mode : Nat) :
    ∀ (flag : Nat) (x : cxobj),
      nopresence_left env mode flag (nopresence_left env mode flag x) =
        nopresence_left env mode flag x
  | flag, .mk n t f s v cs => by
    rw [nopresence_left]
    by_cases hs : xml_default_nopresence_skip flag (.mk n t f s v []) = true
    · rw [if_pos hs, nopresence_left, if_pos hs]
    · rw [if_neg hs, nopresence_left, if_neg hs,
        nopresence_left_idem_each env mode _ _ cs]
theorem nopresence_left_idem_each (env : DefaultsEnv) (mode : Nat) (config : Bool) :
    ∀ (flag : Nat) (cs : List cxobj),
      nopresence_left_each env mode config flag (nopresence_left_each env mode config flag cs) =
        nopresence_left_each env mode config flag cs
  | flag, [] => by
    rw [nopresence_left_each, nopresence_left_each]
  | flag, c :: rest => by
    have ih := nopresence_left_idem_each env mode config flag rest
    rw [nopresence_left_each]
    by_cases he : is_elmnt c = true
    · simp only [he, Bool.not_true, Bool.false_eq_true, if_false]
      by_cases hv : (nopresence_answer mode flag c &&
          xml_default_nopresence_purge mode config c) = true
      · rw [if_pos hv, ih]
      · rw [if_neg hv, nopresence_left_each, is_elmnt_nopresence_left, he,
          nopresence_answer_left, nopresence_purge_left, ih,
          nopresence_left_idem env mode flag c]
        simp only [Bool.not_true, Bool.false_eq_true, if_false]
        rw [if_neg hv]
    · have he1 : is_elmnt c = false := by simpa using he
      simp only [he1, Bool.not_false, if_true]
      rw [nopresence_left_each, ih]
      simp only [he1, Bool.not_false, if_true]
end

mutual
theorem nopresence_left_depth (env : DefaultsEnv) (mode : Nat) :
    ∀ (flag : Nat) (x : cxobj), xml_depth (nopresence_left env mode flag x) ≤ xml_depth x
  | flag, .mk n t f s v cs => by
    rw [nopresence_left]
    split
    · exact Nat.le_refl _
    · rw [xml_depth, xml_depth]
      exact Nat.succ_le_succ (nopresence_left_depth_each env mode _ _ cs)
theorem nopresence_left_depth_each (env : DefaultsEnv) (mode : Nat) (config : Bool) :
    ∀ (flag : Nat) (cs : List cxobj),
      xml_depth_each (nopresence_left_each env mode config flag cs) ≤ xml_depth_each cs
  | flag, [] => by
    rw [nopresence_left_each]
  | flag, c :: rest => by
    have ih := nopresence_left_depth_each env mode config flag rest
    have ihc := nopresence_left_depth env mode flag c
    rw [nopresence_left_each]
    split
    · rw [xml_depth_each, xml_depth_each]
      omega
    · split
      · rw [xml_depth_each]
        omega
      · rw [xml_depth_each, xml_depth_each]
        omega
end

/-- One run of the loop of `xml_default_nopresence` with restarts, for a recursive call that
gives the answer and the tree left on the nodes of depth at most `d`: a run to the end gives
the answer for the children and the children left; a run that stops at a purge leaves fewer
children, with the same answer and the same children left. -/
theorem nopresence_scan_left (env : DefaultsEnv) (mode : Nat) (config : Bool) (flag : Nat)
    (call : cxobj → Option (Bool × cxobj)) (d : Nat)
    (hcall : ∀ x, xml_depth x ≤ d →
      call x = some (nopresence_answer mode flag x, nopresence_left env mode flag x)) :
    ∀ (cs : List cxobj) (rmx : Bool) (pre : List cxobj), (∀ x ∈ cs, xml_depth x ≤ d) →
      ∃ r cs1 b, xml_default_nopresence_scan call mode config rmx pre cs = some (r, cs1, b) ∧
        (b = false → r = (rmx && nopresence_answer_each mode flag cs) ∧
          cs1 = pre ++ nopresence_left_each env mode config flag cs) ∧
        (b = true → ∃ X, cs1 = pre ++ X ∧ X.length < cs.length ∧
          (∀ x ∈ X, xml_depth x ≤ d) ∧
          (r && nopresence_answer_each mode flag X) =
            (rmx && nopresence_answer_each mode flag cs) ∧
          nopresence_left_each env mode config flag X =
            nopresence_left_each env mode config flag cs)
  | [], rmx, pre, _ => by
    refine ⟨rmx, pre, false, by rw [xml_default_nopresence_scan], fun _ => ?_,
      fun h => by cases h⟩
    rw [nopresence_answer_each, nopresence_left_each]
    simp
  | x :: rest, rmx, pre, hd => by
    have hdr : ∀ y ∈ rest, xml_depth y ≤ d := fun y hy => hd y (List.mem_cons_of_mem _ hy)
    have hdx : xml_depth x ≤ d := hd x (List.mem_cons_self _ _)
    rw [xml_default_nopresence_scan]
    by_cases he : is_elmnt x = true
    · simp only [he, Bool.not_true, Bool.false_eq_true, if_false]
      rw [hcall x hdx]
      have hdp : xml_depth (nopresence_left env mode flag x) ≤ d :=
        Nat.le_trans (nopresence_left_depth env mode flag x) hdx
      cases hv : nopresence_answer mode flag x with
      | true =>
        simp only
        rw [nopresence_purge_left]
        by_cases hp : xml_default_nopresence_purge mode config x = true
        · rw [if_pos hp]
          refine ⟨rmx, pre ++ rest, true, rfl, (fun h => by cases h), fun _ => ?_⟩
          refine ⟨rest, rfl, Nat.lt_succ_self _, hdr, ?_, ?_⟩
          · rw [nopresence_answer_each_cons, hv]
            simp
          · rw [nopresence_left_each_cons_elmnt env mode config flag x rest he, hv, hp]
            rfl
        · rw [if_neg hp]
          obtain ⟨r, cs1, b, hs, h1, h2⟩ := nopresence_scan_left env mode config flag
            call d hcall rest rmx (pre ++ [nopresence_left env mode flag x]) hdr
          have hkeep : nopresence_left_each env mode config flag (x :: rest) =
              nopresence_left env mode flag x ::
                nopresence_left_each env mode config flag rest := by
            rw [nopresence_left_each_cons_elmnt env mode config flag x rest he, hv]
            simp [hp]
          refine ⟨r, cs1, b, hs, fun hb => ?_, fun hb => ?_⟩
          · obtain ⟨e1, e2⟩ := h1 hb
            refine ⟨?_, ?_⟩
            · rw [e1, nopresence_answer_each_cons, hv]
              simp
            · rw [e2, hkeep]
              simp
          · obtain ⟨X, e1, e2, e3, e4, e5⟩ := h2 hb
            refine ⟨nopresence_left env mode flag x :: X, by rw [e1]; simp, by simp; omega,
              ?_, ?_, ?_⟩
            · intro y hy
              rcases List.mem_cons.1 hy with hy | hy
              · rw [hy]; exact hdp
              · exact e3 y hy
            · rw [nopresence_answer_each_cons, nopresence_answer_each_cons,
                nopresence_answer_left, hv]
              simpa using e4
            · rw [hkeep, nopresence_left_each_cons_elmnt env mode config flag _ X
                (by rw [is_elmnt_nopresence_left]; exact he), nopresence_answer_left,
                nopresence_purge_left, hv, nopresence_left_idem, e5]
              simp [hp]
      | false =>
        simp only
        obtain ⟨r, cs1, b, hs, h1, h2⟩ := nopresence_scan_left env mode config flag
          call d hcall rest false (pre ++ [nopresence_left env mode flag x]) hdr
        have hkeep : nopresence_left_each env mode config flag (x :: rest) =
            nopresence_left env mode flag x ::
              nopresence_left_each env mode config flag rest := by
          rw [nopresence_left_each_cons_elmnt env mode config flag x rest he, hv]
          simp
        refine ⟨r, cs1, b, hs, fun hb => ?_, fun hb => ?_⟩
        · obtain ⟨e1, e2⟩ := h1 hb
          refine ⟨?_, ?_⟩
          · rw [e1, nopresence_answer_each_cons, hv, he]
            simp
          · rw [e2, hkeep]
            simp
        · obtain ⟨X, e1, e2, e3, e4, e5⟩ := h2 hb
          refine ⟨nopresence_left env mode flag x :: X, by rw [e1]; simp, by simp; omega,
            ?_, ?_, ?_⟩
          · intro y hy
            rcases List.mem_cons.1 hy with hy | hy
            · rw [hy]; exact hdp
            · exact e3 y hy
          · rw [nopresence_answer_each_cons, nopresence_answer_each_cons,
              nopresence_answer_left, hv, is_elmnt_nopresence_left, he]
            simp
          · rw [hkeep, nopresence_left_each_cons_elmnt env mode config flag _ X
              (by rw [is_elmnt_nopresence_left]; exact he), nopresence_answer_left,
              nopresence_purge_left, hv, nopresence_left_idem, e5]
            simp
    · have he1 : is_elmnt x = false := by simpa using he
      simp only [he1, Bool.not_false, if_true]
      obtain ⟨r, cs1, b, hs, h1, h2⟩ := nopresence_scan_left env mode config flag
        call d hcall rest rmx (pre ++ [x]) hdr
      refine ⟨r, cs1, b, hs, fun hb => ?_, fun hb => ?_⟩
      · obtain ⟨e1, e2⟩ := h1 hb
        refine ⟨?_, ?_⟩
        · rw [e1, nopresence_answer_each_cons, he1]
          simp
        · rw [e2, nopresence_left_each_cons_other env mode config flag x rest he1]
          simp
      · obtain ⟨X, e1, e2, e3, e4, e5⟩ := h2 hb
        refine ⟨x :: X, by rw [e1]; simp, by simp; omega, ?_, ?_, ?_⟩
        · intro y hy
          rcases List.mem_cons.1 hy with hy | hy
          · rw [hy]; exact hdx
          · exact e3 y hy
        · rw [nopresence_answer_each_cons, nopresence_answer_each_cons, he1]
          simpa using e4
        · rw [nopresence_left_each_cons_other env mode config flag x rest he1,
            nopresence_left_each_cons_other env mode config flag x X he1, e5]

/-- The loop of `xml_default_nopresence` ends within as many restarts as there are children:
every restart follows a purge, which leaves fewer children. -/
theorem nopresence_loop_left (env : DefaultsEnv) (mode : Nat) (config : Bool) (flag : Nat)
    (call : cxobj → Option (Bool × cxobj)) (d : Nat)
    (hcall : ∀ x, xml_depth x ≤ d →
      call x = some (nopresence_answer mode flag x, nopresence_left env mode flag x)) :
    ∀ (fuel : Nat) (cs : List cxobj) (rmx : Bool), cs.length ≤ fuel →
      (∀ x ∈ cs, xml_depth x ≤ d) →
      xml_default_nopresence_loop call mode config fuel rmx cs =
        some (rmx && nopresence_answer_each mode flag cs,
          nopresence_left_each env mode config flag cs)
  | fuel, cs, rmx, hlen, hd => by
    obtain ⟨r, cs1, b, hs, h1, h2⟩ := nopresence_scan_left env mode config flag call d
      hcall cs rmx [] hd
    unfold xml_default_nopresence_loop
    rw [hs]
    cases b with
    | false =>
      obtain ⟨e1, e2⟩ := h1 rfl
      simp only
      rw [e1, e2, List.nil_append]
    | true =>
      obtain ⟨X, e1, e2, e3, e4, e5⟩ := h2 rfl
      rw [List.nil_append] at e1
      subst e1
      simp only
      cases fuel with
      | zero => omega
      | succ fuel1 =>
        simp only
        rw [nopresence_loop_left env mode config flag call d hcall fuel1 cs1 r
          (by omega) e3, e4, e5]

/-- The single scan gives the answer for the children and the children left. -/
theorem nopresence_once_scan_left (env : DefaultsEnv) (mode : Nat) (config : Bool) (flag : Nat)
    (call : cxobj → Option (Bool × cxobj)) (d : Nat)
    (hcall : ∀ x, xml_depth x ≤ d →
      call x = some (nopresence_answer mode flag x, nopresence_left env mode flag x)) :
    ∀ (cs : List cxobj) (rmx : Bool), (∀ x ∈ cs, xml_depth x ≤ d) →
      xml_default_nopresence_once_scan call mode config rmx cs =
        some (rmx && nopresence_answer_each mode flag cs,
          nopresence_left_each env mode config flag cs)
  | [], rmx, _ => by
    rw [xml_default_nopresence_once_scan, nopresence_answer_each, nopresence_left_each]
    simp
  | x :: rest, rmx, hd => by
    have hdr : ∀ y ∈ rest, xml_depth y ≤ d := fun y hy => hd y (List.mem_cons_of_mem _ hy)
    have hdx : xml_depth x ≤ d := hd x (List.mem_cons_self _ _)
    rw [xml_default_nopresence_once_scan]
    by_cases he : is_elmnt x = true
    · simp only [he, Bool.not_true, Bool.false_eq_true, if_false]
      rw [hcall x hdx, nopresence_left_each_cons_elmnt env mode config flag x rest he,
        nopresence_answer_each_cons, he]
      cases hv : nopresence_answer mode flag x with
      | true =>
        simp only
        rw [nopresence_purge_left,
          nopresence_once_scan_left env mode config flag call d hcall rest rmx hdr]
        by_cases hp : xml_default_nopresence_purge mode config x = true
        · simp [hp]
        · simp [hp]
      | false =>
        simp only
        rw [nopresence_once_scan_left env mode config flag call d hcall rest false hdr]
        simp
    · have he1 : is_elmnt x = false := by simpa using he
      simp only [he1, Bool.not_false, if_true]
      rw [nopresence_once_scan_left env mode config flag call d hcall rest rmx hdr,
        nopresence_left_each_cons_other env mode config flag x rest he1,
        nopresence_answer_each_cons, he1]
      simp

theorem nopresence_answer_unfold (mode flag : Nat) (xn : cxobj) :
    nopresence_answer mode flag xn =
      if xml_default_nopresence_skip flag xn then false
      else xml_default_nopresence_rmx mode xn &&
        nopresence_answer_each mode (xml_default_nopresence_flag flag xn) (xml_childvec xn) := by
  cases xn with
  | mk n t f s v cs => rw [nopresence_answer]; rfl

theorem nopresence_left_unfold (env : DefaultsEnv) (mode flag : Nat) (xn : cxobj) :
    nopresence_left env mode flag xn =
      if xml_default_nopresence_skip flag xn then xn
      else xml_childvec_set xn
        (nopresence_left_each env mode (xml_default_nopresence_config env xn)
          (xml_default_nopresence_flag flag xn) (xml_childvec xn)) := by
  cases xn with
  | mk n t f s v cs => rw [nopresence_left]; rfl

/-- On a tree of depth at most `fuel`, `xml_default_nopresence(xn, mode, flag)` ends, with
the answer for `xn` and the tree left. -/
theorem xml_default_nopresence_left (env : DefaultsEnv) (mode : Nat) :
    ∀ (fuel flag : Nat) (xn : cxobj), xml_depth xn ≤ fuel →
      xml_default_nopresence env mode fuel flag xn =
        some (nopresence_answer mode flag xn, nopresence_left env mode flag xn)
  | 0, _, xn, h => by
    have := xml_depth_pos xn
    omega
  | fuel + 1, flag, xn, h => by
    rw [xml_default_nopresence, nopresence_answer_unfold, nopresence_left_unfold]
    have hd : ∀ x ∈ xml_childvec xn, xml_depth x ≤ fuel := by
      intro x hx
      have := xml_depth_child xn x hx
      omega
    by_cases hs : xml_default_nopresence_skip flag xn = true
    · have hs1 := hs
      unfold xml_default_nopresence_skip at hs1
      rw [if_pos hs1, if_pos hs, if_pos hs]
    · have hs1 := hs
      unfold xml_default_nopresence_skip at hs1
      rw [if_neg hs1, if_neg hs, if_neg hs]
      have hf : (if (flag != 0 && xml_flag xn XML_FLAG_CHANGE == 0) = true then 0 else flag) =
          xml_default_nopresence_flag flag xn := rfl
      rw [hf, nopresence_loop_left env mode (xml_default_nopresence_config env xn)
        (xml_default_nopresence_flag flag xn)
        (xml_default_nopresence env mode fuel (xml_default_nopresence_flag flag xn)) fuel
        (fun x hx => xml_default_nopresence_left env mode fuel _ x hx) _ _ _ (Nat.le_refl _) hd]

/-- The same for `xml_default_nopresence` with the single scan as its loop. -/
theorem xml_default_nopresence_once_left (env : DefaultsEnv) (mode : Nat) :
    ∀ (fuel flag : Nat) (xn : cxobj), xml_depth xn ≤ fuel →
      xml_default_nopresence_once env mode fuel flag xn =
        some (nopresence_answer mode flag xn, nopresence_left env mode flag xn)
  | 0, _, xn, h => by
    have := xml_depth_pos xn
    omega
  | fuel + 1, flag, xn, h => by
    rw [xml_default_nopresence_once, nopresence_answer_unfold, nopresence_left_unfold]
    have hd : ∀ x ∈ xml_childvec xn, xml_depth x ≤ fuel := by
      intro x hx
      have := xml_depth_child xn x hx
      omega
    by_cases hs : xml_default_nopresence_skip flag xn = true
    · have hs1 := hs
      unfold xml_default_nopresence_skip at hs1
      rw [if_pos hs1, if_pos hs, if_pos hs]
    · have hs1 := hs
      unfold xml_default_nopresence_skip at hs1
      rw [if_neg hs1, if_neg hs, if_neg hs]
      have hf : (if (flag != 0 && xml_flag xn XML_FLAG_CHANGE == 0) = true then 0 else flag) =
          xml_default_nopresence_flag flag xn := rfl
      rw [hf, nopresence_once_scan_left env mode (xml_default_nopresence_config env xn)
        (xml_default_nopresence_flag flag xn)
        (xml_default_nopresence_once env mode fuel (xml_default_nopresence_flag flag xn)) fuel
        (fun x hx => xml_default_nopresence_once_left env mode fuel _ x hx) _ _ hd]

/-- A run of the loop that ends with a restart has removed one child. -/
theorem nopresence_scan_restart (call : cxobj → Option (Bool × cxobj)) (mode : Nat)
    (config : Bool) :
    ∀ (cs : List cxobj) (rmx : Bool) (pre : List cxobj) (r : Bool) (cs1 : List cxobj),
      xml_default_nopresence_scan call mode config rmx pre cs = some (r, cs1, true) →
      cs1.length + 1 = pre.length + cs.length
  | [], rmx, pre, r, cs1, h => by
    rw [xml_default_nopresence_scan] at h
    simp at h
  | x :: rest, rmx, pre, r, cs1, h => by
    rw [xml_default_nopresence_scan] at h
    by_cases he : is_elmnt x = true
    · simp only [he, Bool.not_true, Bool.false_eq_true, if_false] at h
      cases hc : call x with
      | none => rw [hc] at h; cases h
      | some p =>
        obtain ⟨v, x1⟩ := p
        rw [hc] at h
        cases v with
        | true =>
          simp only at h
          by_cases hp : xml_default_nopresence_purge mode config x1 = true
          · rw [if_pos hp] at h
            simp only [Option.some.injEq, Prod.mk.injEq, and_true] at h
            rw [← h.2]
            simp
            omega
          · rw [if_neg hp] at h
            have := nopresence_scan_restart call mode config rest rmx (pre ++ [x1]) r cs1 h
            simp at this ⊢
            omega
        | false =>
          simp only at h
          have := nopresence_scan_restart call mode config rest false (pre ++ [x1]) r cs1 h
          simp at this ⊢
          omega
    · have he1 : is_elmnt x = false := by simpa using he
      simp only [he1, Bool.not_false, if_true] at h
      have := nopresence_scan_restart call mode config rest rmx (pre ++ [x]) r cs1 h
      simp at this ⊢
      omega

/-- C38. `xml_default_nopresence(xn, mode, flag)` ends on every tree, for every mode and
flag: with the depth of the tree as the bound of the recursion (and the number of children
as the bound of the restarts of each loop) the call gives a result. Every run of the loop
that ends with a restart has removed one child; and the return value and the tree left are
those of `xml_default_nopresence` with a single scan from left to right as its loop. -/
theorem nopresence_terminates (env : DefaultsEnv) (mode flag : Nat) (xn : cxobj) :
    (∃ r, ∀ fuel, xml_depth xn ≤ fuel →
      xml_default_nopresence env mode fuel flag xn = some r ∧
      xml_default_nopresence_once env mode fuel flag xn = some r) ∧
    (∀ (call : cxobj → Option (Bool × cxobj)) (config rmx : Bool) (pre cs : List cxobj)
      (r : Bool) (cs1 : List cxobj),
      xml_default_nopresence_scan call mode config rmx pre cs = some (r, cs1, true) →
      cs1.length + 1 = pre.length + cs.length) :=
  ⟨⟨(nopresence_answer mode flag xn, nopresence_left env mode flag xn), fun fuel h =>
      ⟨xml_default_nopresence_left env mode fuel flag xn h,
       xml_default_nopresence_once_left env mode fuel flag xn h⟩⟩,
   fun call config rmx pre cs r cs1 h =>
      nopresence_scan_restart call mode config cs rmx pre r cs1 h⟩

/-- Witness of `nopresence_terminates`: `<root><a><b><x>7</x></b></a></root>` with the
default leaf `x`, mode 2: both loops empty the tree and return 1. -/
theorem nopresence_terminates_witness :
    xml_depth ex_root_filled ≤ 5 ∧
    (∃ r, xml_default_nopresence ex_env 2 5 0 ex_root_filled = some r ∧
      xml_default_nopresence_once ex_env 2 5 0 ex_root_filled = some r) ∧
    xml_default_nopresence ex_env 2 5 0 ex_root_filled = some (true, ex_root_empty) :=
  ⟨by decide,
   match (nopresence_terminates ex_env 2 0 ex_root_filled).1 with
   | ⟨r, h⟩ => ⟨r, h 5 (by decide)⟩,
   rfl⟩

/-! ## Defaults: the cache of the global defaults -/

theorem flag_clear_or (f a m : Nat) (h : a &&& m = a) :
    (f ||| a) ^^^ ((f ||| a) &&& m) = f ^^^ (f &&& m) := by
  apply Nat.eq_of_testBit_eq
  intro i
  have hi : (a.testBit i && m.testBit i) = a.testBit i := by
    rw [← Nat.testBit_and, h]
  simp only [Nat.testBit_and, Nat.testBit_xor, Nat.testBit_or]
  revert hi
  cases f.testBit i <;> cases a.testBit i <;> cases m.testBit i <;> simp

theorem flag_clear_clear (f m : Nat) :
    (f ^^^ (f &&& m)) ^^^ ((f ^^^ (f &&& m)) &&& m) = f ^^^ (f &&& m) := by
  apply Nat.eq_of_testBit_eq
  intro i
  simp only [Nat.testBit_and, Nat.testBit_xor]
  cases f.testBit i <;> cases m.testBit i <;> rfl

theorem xml_clear_marks_flag_set (x : cxobj) (a : Nat)
    (h : a &&& (XML_FLAG_MARK ||| XML_FLAG_CHANGE) = a) :
    xml_clear_marks (xml_flag_set x a) = xml_clear_marks x := by
  cases x with
  | mk n t f s v cs =>
    show xml_clear_marks (cxobj.mk n t (f ||| a) s v cs) = _
    rw [xml_clear_marks, xml_clear_marks, flag_clear_or f a _ h]

theorem xml_clear_marks_flag_reset (x : cxobj) :
    xml_clear_marks (xml_flag_reset x (XML_FLAG_MARK ||| XML_FLAG_CHANGE)) =
      xml_clear_marks x := by
  cases x with
  | mk n t f s v cs =>
    show xml_clear_marks (cxobj.mk n t _ s v cs) = _
    rw [xml_clear_marks, xml_clear_marks, flag_clear_clear]

theorem xml_clear_marks_childvec_set (x : cxobj) (cs : List cxobj) :
    xml_clear_marks (xml_childvec_set x cs) =
      xml_childvec_set (xml_clear_marks x) (xml_clear_marks_each cs) := by
  cases x with
  | mk n t f s v cs0 =>
    show xml_clear_marks (cxobj.mk n t f s v cs) = _
    rw [xml_clear_marks, xml_clear_marks]
    rfl

theorem xml_clear_marks_childvec (x : cxobj) :
    xml_clear_marks x =
      xml_childvec_set (xml_clear_marks x) (xml_clear_marks_each (xml_childvec x)) := by
  cases x with
  | mk n t f s v cs =>
    rw [xml_clear_marks]
    rfl

theorem xml_clear_marks_child_modify (f : cxobj → cxobj)
    (hf : ∀ x, xml_clear_marks (f x) = xml_clear_marks x) (i : Nat) (cs : List cxobj) :
    xml_clear_marks_each (xml_child_modify f i cs) = xml_clear_marks_each cs := by
  induction cs generalizing i with
  | nil => cases i <;> rfl
  | cons c rest ih =>
    cases i with
    | zero =>
      show xml_clear_marks_each (f c :: rest) = _
      rw [xml_clear_marks_each, xml_clear_marks_each, hf]
    | succ j =>
      show xml_clear_marks_each (c :: xml_child_modify f j rest) = _
      rw [xml_clear_marks_each, xml_clear_marks_each, ih]

/-- Marking a node and its ancestors changes `XML_FLAG_MARK` and `XML_FLAG_CHANGE` only. -/
theorem xml_clear_marks_mark_at (path : List Nat) (x : cxobj) :
    xml_clear_marks (xml_mark_at path x) = xml_clear_marks x := by
  induction path generalizing x with
  | nil => exact xml_clear_marks_flag_set x XML_FLAG_MARK (by decide)
  | cons i p ih =>
    show xml_clear_marks (xml_childvec_set (xml_flag_set x XML_FLAG_CHANGE)
      (xml_child_modify (xml_mark_at p) i (xml_childvec x))) = _
    rw [xml_clear_marks_childvec_set, xml_clear_marks_child_modify _ ih,
      xml_clear_marks_flag_set x XML_FLAG_CHANGE (by decide)]
    exact (xml_clear_marks_childvec x).symm

theorem xml_clear_marks_mark_all (xvec : List (List Nat)) (x : cxobj) :
    xml_clear_marks (xvec.foldl (fun x path => xml_mark_at path x) x) = xml_clear_marks x := by
  induction xvec generalizing x with
  | nil => rfl
  | cons p rest ih =>
    rw [List.foldl_cons, ih, xml_clear_marks_mark_at]

mutual
/-- Resetting the two flags below a node changes these two flags only. -/
theorem xml_clear_marks_apply_reset : ∀ x : cxobj,
    xml_clear_marks (xml_apply_flag_reset (XML_FLAG_MARK ||| XML_FLAG_CHANGE) x) =
      xml_clear_marks x
  | .mk n t f s v cs => by
    rw [xml_apply_flag_reset, xml_clear_marks, xml_clear_marks,
      xml_clear_marks_apply_reset_each cs]
theorem xml_clear_marks_apply_reset_each : ∀ cs : List cxobj,
    xml_clear_marks_each
        (xml_apply_flag_reset_each (XML_FLAG_MARK ||| XML_FLAG_CHANGE) cs) =
      xml_clear_marks_each cs
  | [] => rfl
  | c :: rest => by
    rw [xml_apply_flag_reset_each, xml_clear_marks_each, xml_clear_marks_each,
      xml_clear_marks_apply_reset_each rest]
    cases hc : is_elmnt c
    · rfl
    · simp only [if_true]
      rw [xml_clear_marks_flag_reset, xml_clear_marks_apply_reset c]
end

theorem xml_childvec_flag_reset (x : cxobj) (flag : Nat) :
    xml_childvec (xml_flag_reset x flag) = xml_childvec x := by
  cases x; rfl

theorem is_elmnt_flag_reset (x : cxobj) (flag : Nat) :
    is_elmnt (xml_flag_reset x flag) = is_elmnt x := by
  cases x; rfl

theorem elmnt_descendant_flag_reset (d x : cxobj) (flag : Nat)
    (h : elmnt_descendant d (xml_flag_reset x flag)) : elmnt_descendant d x := by
  match h with
  | .child _ _ hm he => exact .child d x (by rwa [xml_childvec_flag_reset] at hm) he
  | .deeper _ c _ hm he hd =>
    exact .deeper d c x (by rwa [xml_childvec_flag_reset] at hm) he hd

mutual
/-- After `xml_apply(x, CX_ELMNT, xml_flag_reset, flags)` no element below `x` carries a bit
of `flags`. -/
theorem apply_flag_reset_clean (flags : Nat) : ∀ (x d : cxobj),
    elmnt_descendant d (xml_apply_flag_reset flags x) → xml_flag d flags = 0
  | .mk n t f s v cs, d, h => by
    rw [xml_apply_flag_reset] at h
    match h with
    | .child _ _ hm he => exact (apply_flag_reset_clean_each flags cs d hm he).1
    | .deeper _ c _ hm he hd => exact (apply_flag_reset_clean_each flags cs c hm he).2 d hd
theorem apply_flag_reset_clean_each (flags : Nat) : ∀ (cs : List cxobj) (c : cxobj),
    c ∈ xml_apply_flag_reset_each flags cs → is_elmnt c = true →
    xml_flag c flags = 0 ∧ ∀ d, elmnt_descendant d c → xml_flag d flags = 0
  | [], c, hm, _ => by
    rw [xml_apply_flag_reset_each] at hm
    cases hm
  | c0 :: rest, c, hm, he => by
    rw [xml_apply_flag_reset_each] at hm
    rcases List.mem_cons.mp hm with rfl | hm
    · cases hc : is_elmnt c0
      · rw [hc] at he
        simp only [Bool.false_eq_true, if_false] at he
        rw [hc] at he
        cases he
      · simp only [hc, if_true]
        exact ⟨xml_flag_reset_flag _ _, fun d hd =>
          apply_flag_reset_clean flags c0 d (elmnt_descendant_flag_reset d _ flags hd)⟩
    · exact apply_flag_reset_clean_each flags rest c hm he
end

theorem clicon_db_elmnt_set_same (h : clixon_handle) (key : String) (x : cxobj) :
    clicon_db_elmnt_set h key x key = some x := by
  simp [clicon_db_elmnt_set]

theorem clicon_db_elmnt_set_other (h : clixon_handle) (key k : String) (x : cxobj)
    (hk : k ≠ key) : clicon_db_elmnt_set h key x k = h k := by
  simp [clicon_db_elmnt_set, hk]

/-- The part after the cache lookup: the handle holds under `key` the tree `xcache` up to
the two flags, the other entries are as before, and after a successful call no element
below the top node of the entry carries one of the two flags. -/
theorem xml_global_defaults_merge_spec (g : GlobalDefaultsEnv) (h : clixon_handle)
    (key : String) (xcache xt : cxobj) (xpath : Option String) (yspec : yang_stmt) :
    (∃ t1, (xml_global_defaults_merge g h key xcache xt xpath yspec).2.1 key = some t1 ∧
      xml_clear_marks t1 = xml_clear_marks xcache ∧
      ((xml_global_defaults_merge g h key xcache xt xpath yspec).1 = 0 →
        ∀ d, elmnt_descendant d t1 →
          xml_flag d (XML_FLAG_MARK ||| XML_FLAG_CHANGE) = 0)) ∧
    (∀ k, k ≠ key →
      (xml_global_defaults_merge g h key xcache xt xpath yspec).2.1 k = h k) := by
  unfold xml_global_defaults_merge
  cases hx : g.xpath_vec xcache (xpath.getD "/") with
  | none =>
    simp only
    exact ⟨⟨xcache, clicon_db_elmnt_set_same _ _ _, rfl, fun h0 => by cases h0⟩,
      fun k hk => clicon_db_elmnt_set_other _ _ _ _ hk⟩
  | some xvec =>
    simp only
    cases hc : g.xml_copy_marked (xvec.foldl (fun x path => xml_mark_at path x) xcache)
        xml_new_top with
    | none =>
      simp only
      exact ⟨⟨_, clicon_db_elmnt_set_same _ _ _, xml_clear_marks_mark_all _ _,
        fun h0 => by cases h0⟩, fun k hk => clicon_db_elmnt_set_other _ _ _ _ hk⟩
    | some xpart =>
      simp only
      refine ⟨⟨_, clicon_db_elmnt_set_same _ _ _, ?_, fun _ d hd =>
        apply_flag_reset_clean _ _ d hd⟩, fun k hk => clicon_db_elmnt_set_other _ _ _ _ hk⟩
      rw [xml_clear_marks_apply_reset, xml_clear_marks_mark_all]

/-- C33, counterexample. The schema `module m { leaf x { default 7; } }`, an empty cache
and the path `/x`: the call succeeds, and the top node of the tree that it leaves in the
cache carries `XML_FLAG_CHANGE`: `xml_apply_ancestor` has set it, and `xml_apply` calls
`xml_flag_reset` on the elements below the top node only. -/
theorem global_defaults_top_keeps_change_counterexample :
    (xml_global_defaults ex_env ex_global_env ex_handle_empty xml_new_top (some "/x")
      ex_yspec false).1 = 0 ∧
    (xml_global_defaults ex_env ex_global_env ex_handle_empty xml_new_top (some "/x")
      ex_yspec false).2.1 (global_defaults_key false) = some (ex_global_tree XML_FLAG_CHANGE) ∧
    xml_flag (ex_global_tree XML_FLAG_CHANGE) XML_FLAG_CHANGE ≠ 0 ∧
    xml_global_defaults_create ex_env xml_new_top ex_yspec false = some (ex_global_tree 0) :=
  ⟨by decide, rfl, by decide, rfl⟩

/-- C33, amended. The cache of the global defaults, `env` and `g` being the collaborators:
* config and state use different keys, and a call leaves the entry of the other mode as it
  is;
* a call that finds no entry and fails to build the tree stores nothing;
* a call that finds no entry and builds the tree `t0` leaves under the key a tree that is
  `t0` up to `XML_FLAG_MARK` and `XML_FLAG_CHANGE`;
* a call that finds the entry `xc` does not build a tree: it is the part of the function
  after the lookup, run on `xc`, and it leaves under the key a tree that is `xc` up to the
  two flags;
* after a successful call no element below the top node of the cached tree carries
  `XML_FLAG_MARK` or `XML_FLAG_CHANGE`. -/
theorem global_defaults_cache (env : DefaultsEnv) (g : GlobalDefaultsEnv) (h : clixon_handle)
    (xt : cxobj) (xpath : Option String) (yspec : yang_stmt) (state : Bool) :
    global_defaults_key true ≠ global_defaults_key false ∧
    (xml_global_defaults env g h xt xpath yspec state).2.1 (global_defaults_key (!state)) =
      h (global_defaults_key (!state)) ∧
    (clicon_db_elmnt_get h (global_defaults_key state) = none →
      xml_global_defaults_create env xml_new_top yspec state = none →
      xml_global_defaults env g h xt xpath yspec state = (-1, h, xt)) ∧
    (clicon_db_elmnt_get h (global_defaults_key state) = none →
      ∀ t0, xml_global_defaults_create env xml_new_top yspec state = some t0 →
      ∃ t1, (xml_global_defaults env g h xt xpath yspec state).2.1
          (global_defaults_key state) = some t1 ∧
        xml_clear_marks t1 = xml_clear_marks t0) ∧
    (∀ xc, clicon_db_elmnt_get h (global_defaults_key state) = some xc →
      xml_global_defaults env g h xt xpath yspec state =
        xml_global_defaults_merge g h (global_defaults_key state) xc xt xpath yspec ∧
      ∃ t1, (xml_global_defaults env g h xt xpath yspec state).2.1
          (global_defaults_key state) = some t1 ∧
        xml_clear_marks t1 = xml_clear_marks xc) ∧
    ((xml_global_defaults env g h xt xpath yspec state).1 = 0 →
      ∃ t1, (xml_global_defaults env g h xt xpath yspec state).2.1
          (global_defaults_key state) = some t1 ∧
        ∀ d, elmnt_descendant d t1 →
          xml_flag d (XML_FLAG_MARK ||| XML_FLAG_CHANGE) = 0) := by
  have hkey : global_defaults_key (!state) ≠ global_defaults_key state := by
    cases state <;> decide
  refine ⟨by decide, ?_, ?_, ?_, ?_, ?_⟩
  · unfold xml_global_defaults
    cases hg : clicon_db_elmnt_get h (global_defaults_key state) with
    | none =>
      simp only
      cases hcr : xml_global_defaults_create env xml_new_top yspec state with
      | none => rfl
      | some xc => exact (xml_global_defaults_merge_spec g h _ xc xt xpath yspec).2 _ hkey
    | some xc => exact (xml_global_defaults_merge_spec g h _ xc xt xpath yspec).2 _ hkey
  · intro hg hcr
    unfold xml_global_defaults
    rw [hg]
    simp only
    rw [hcr]
  · intro hg t0 hcr
    unfold xml_global_defaults
    rw [hg]
    simp only
    rw [hcr]
    obtain ⟨t1, h1, h2, _⟩ := (xml_global_defaults_merge_spec g h
      (global_defaults_key state) t0 xt xpath yspec).1
    exact ⟨t1, h1, h2⟩
  · intro xc hg
    have he : xml_global_defaults env g h xt xpath yspec state =
        xml_global_defaults_merge g h (global_defaults_key state) xc xt xpath yspec := by
      unfold xml_global_defaults
      rw [hg]
    refine ⟨he, ?_⟩
    rw [he]
    obtain ⟨t1, h1, h2, _⟩ := (xml_global_defaults_merge_spec g h
      (global_defaults_key state) xc xt xpath yspec).1
    exact ⟨t1, h1, h2⟩
  · unfold xml_global_defaults
    cases hg : clicon_db_elmnt_get h (global_defaults_key state) with
    | none =>
      simp only
      cases hcr : xml_global_defaults_create env xml_new_top yspec state with
      | none =>
        intro h0
        cases h0
      | some xc =>
        simp only
        intro h0
        obtain ⟨t1, h1, _, h3⟩ := (xml_global_defaults_merge_spec g h
          (global_defaults_key state) xc xt xpath yspec).1
        exact ⟨t1, h1, h3 h0⟩
    | some xc =>
      simp only
      intro h0
      obtain ⟨t1, h1, _, h3⟩ := (xml_global_defaults_merge_spec g h
        (global_defaults_key state) xc xt xpath yspec).1
      exact ⟨t1, h1, h3 h0⟩

/-- C33, the amended statement on the schema `module m { leaf x { default 7; } }`: the
first call builds `<config><x>7</x></config>` and stores it, and a second call on the
handle that the first one leaves finds the entry. -/
theorem global_defaults_cache_witness :
    clicon_db_elmnt_get ex_handle_empty (global_defaults_key false) = none ∧
    xml_global_defaults_create ex_env xml_new_top ex_yspec false = some (ex_global_tree 0) ∧
    (xml_global_defaults ex_env ex_global_env ex_handle_empty xml_new_top (some "/x")
      ex_yspec false).1 = 0 ∧
    (∃ t1, (xml_global_defaults ex_env ex_global_env ex_handle_empty xml_new_top (some "/x")
        ex_yspec false).2.1 (global_defaults_key false) = some t1 ∧
      xml_clear_marks t1 = xml_clear_marks (ex_global_tree 0)) ∧
    (∃ t1, (xml_global_defaults ex_env ex_global_env ex_handle_empty xml_new_top (some "/x")
        ex_yspec false).2.1 (global_defaults_key false) = some t1 ∧
      ∀ d, elmnt_descendant d t1 →
        xml_flag d (XML_FLAG_MARK ||| XML_FLAG_CHANGE) = 0) :=
  ⟨rfl, rfl, by decide,
   (global_defaults_cache ex_env ex_global_env ex_handle_empty xml_new_top (some "/x")
      ex_yspec false).2.2.2.1 rfl _ rfl,
   (global_defaults_cache ex_env ex_global_env ex_handle_empty xml_new_top (some "/x")
      ex_yspec false).2.2.2.2.2 (by decide)⟩

/-! ## Defaults: the steps of xml_default -/

mutual
/-- What the passes of `xml_default` over a schema do is a chain of two kinds of step, the
new leaf and the new container: a relation `I` between the node before and after that
holds for no step, for each of the two steps, and for two passes in a row, holds for every
call. The relation is indexed by the statements that a new element can be bound to. -/
theorem xml_default_rel (env : DefaultsEnv) (state : Bool)
    (I : List yang_stmt → cxobj → cxobj → Prop)
    (hrefl : ∀ s x, I s x x)
    (htrans : ∀ s x y z, I s x y → I s y z → I s x z)
    (hmono : ∀ s1 s2 x y, (∀ a ∈ s1, a ∈ s2) → I s1 x y → I s2 x y)
    (htype : ∀ s x y, I s x y → xml_type y = xml_type x)
    (hleaf : ∀ y xt xc, xml_type xt = .CX_ELMNT → yang_keyword_get y = .Y_LEAF →
      (xml_find_type_elmnt xt (yang_argument_get y)).isNone = true →
      xml_default_create env y xt = some xc →
      I [y] xt (xml_childvec_set xt (env.xml_sort (xml_childvec xt ++ [xc]))))
    (hcont : ∀ y xt xc xc1, xml_type xt = .CX_ELMNT → yang_keyword_get y = .Y_CONTAINER →
      (yang_find y .Y_PRESENCE none).isNone = true →
      (xml_find_type_elmnt xt (yang_argument_get y)).isNone = true →
      xml_default_create1 env y xt = some xc →
      I (made_specs_each (yang_children y)) xc xc1 →
      I [y] xt (xml_childvec_set xt (xml_replace_elmnt (yang_argument_get y) xc1
        (env.xml_sort (xml_childvec xt ++ [xc]))))) :
    ∀ (y : yang_stmt) (xt xt1 : cxobj), xml_type xt = .CX_ELMNT →
      xml_default env state y xt = some xt1 → I (made_specs_default y) xt xt1
  | .mk a k arg cv cvk ys, xt, xt1, hxt, h => by
    rw [xml_default] at h
    rw [made_specs_default]
    split at h
    · next hk =>
      rw [if_pos hk]
      exact xml_default_each_rel env state I hrefl htrans hmono htype hleaf hcont ys xt xt1 hxt h
    · injection h with h
      subst h
      exact hrefl _ _
theorem xml_default_each_rel (env : DefaultsEnv) (state : Bool)
    (I : List yang_stmt → cxobj → cxobj → Prop)
    (hrefl : ∀ s x, I s x x)
    (htrans : ∀ s x y z, I s x y → I s y z → I s x z)
    (hmono : ∀ s1 s2 x y, (∀ a ∈ s1, a ∈ s2) → I s1 x y → I s2 x y)
    (htype : ∀ s x y, I s x y → xml_type y = xml_type x)
    (hleaf : ∀ y xt xc, xml_type xt = .CX_ELMNT → yang_keyword_get y = .Y_LEAF →
      (xml_find_type_elmnt xt (yang_argument_get y)).isNone = true →
      xml_default_create env y xt = some xc →
      I [y] xt (xml_childvec_set xt (env.xml_sort (xml_childvec xt ++ [xc]))))
    (hcont : ∀ y xt xc xc1, xml_type xt = .CX_ELMNT → yang_keyword_get y = .Y_CONTAINER →
      (yang_find y .Y_PRESENCE none).isNone = true →
      (xml_find_type_elmnt xt (yang_argument_get y)).isNone = true →
      xml_default_create1 env y xt = some xc →
      I (made_specs_each (yang_children y)) xc xc1 →
      I [y] xt (xml_childvec_set xt (xml_replace_elmnt (yang_argument_get y) xc1
        (env.xml_sort (xml_childvec xt ++ [xc]))))) :
    ∀ (ys : List yang_stmt) (xt xt1 : cxobj), xml_type xt = .CX_ELMNT →
      xml_default_each env state ys xt = some xt1 → I (made_specs_each ys) xt xt1
  | [], xt, xt1, _, h => by
    rw [xml_default_each] at h
    injection h with h
    subst h
    exact hrefl _ _
  | yc :: rest, xt, xt1, hxt, h => by
    rw [xml_default_each] at h
    rw [made_specs_each_cons]
    cases hc : xml_default_child env state yc xt with
    | none => rw [hc] at h; cases h
    | some xt2 =>
      rw [hc] at h
      have h1 := xml_default_child_rel env state I hrefl htrans hmono htype hleaf hcont
        yc xt xt2 hxt hc
      have h2 := xml_default_each_rel env state I hrefl htrans hmono htype hleaf hcont
        rest xt2 xt1 (by rw [htype _ _ _ h1]; exact hxt) h
      exact htrans _ _ _ _
        (hmono _ _ _ _ (fun y hy => List.mem_append_left _ hy) h1)
        (hmono _ _ _ _ (fun y hy => List.mem_append_right _ hy) h2)
theorem xml_default_child_rel (env : DefaultsEnv) (state : Bool)
    (I : List yang_stmt → cxobj → cxobj → Prop)
    (hrefl : ∀ s x, I s x x)
    (htrans : ∀ s x y z, I s x y → I s y z → I s x z)
    (hmono : ∀ s1 s2 x y, (∀ a ∈ s1, a ∈ s2) → I s1 x y → I s2 x y)
    (htype : ∀ s x y, I s x y → xml_type y = xml_type x)
    (hleaf : ∀ y xt xc, xml_type xt = .CX_ELMNT → yang_keyword_get y = .Y_LEAF →
      (xml_find_type_elmnt xt (yang_argument_get y)).isNone = true →
      xml_default_create env y xt = some xc →
      I [y] xt (xml_childvec_set xt (env.xml_sort (xml_childvec xt ++ [xc]))))
    (hcont : ∀ y xt xc xc1, xml_type xt = .CX_ELMNT → yang_keyword_get y = .Y_CONTAINER →
      (yang_find y .Y_PRESENCE none).isNone = true →
      (xml_find_type_elmnt xt (yang_argument_get y)).isNone = true →
      xml_default_create1 env y xt = some xc →
      I (made_specs_each (yang_children y)) xc xc1 →
      I [y] xt (xml_childvec_set xt (xml_replace_elmnt (yang_argument_get y) xc1
        (env.xml_sort (xml_childvec xt ++ [xc]))))) :
    ∀ (yc : yang_stmt) (xt xt1 : cxobj), xml_type xt = .CX_ELMNT →
      xml_default_child env state yc xt = some xt1 → I (made_specs yc) xt xt1
  | .mk a k arg cv cvk ycs, xt, xt1, hxt, h => by
    unfold xml_default_child at h
    rw [made_specs]
    split at h
    · injection h with h; subst h; exact hrefl _ _
    split at h
    · injection h with h; subst h; exact hrefl _ _
    split at h
    · -- leaf
      next hk =>
      have hk1 : k = .Y_LEAF := by simpa using hk
      subst hk1
      simp only [beq_self_eq_true, Bool.true_or, if_true]
      split at h
      · cases h
      · split at h
        · split at h
          · cases h
          · split at h
            · injection h with h; subst h; exact hrefl _ _
            · split at h
              · next hfind =>
                split at h
                · cases h
                · next xc hcr =>
                  injection h with h
                  subst h
                  exact hleaf (.mk a .Y_LEAF arg _ cvk ycs) xt xc hxt rfl hfind hcr
              · injection h with h; subst h; exact hrefl _ _
        · injection h with h; subst h; exact hrefl _ _
    split at h
    · -- container
      next hnl hk =>
      have hk1 : k = .Y_CONTAINER := by simpa using hk
      subst hk1
      simp only [beq_self_eq_true, Bool.or_true, if_true]
      split at h
      · next hpres =>
        split at h
        · cases h
        · split at h
          · injection h with h; subst h; exact hrefl _ _
          · split at h
            · next hfind =>
              split at h
              · cases h
              · injection h with h; subst h; exact hrefl _ _
              · split at h
                · cases h
                · next xc hcr =>
                  split at h
                  · cases h
                  · next xc1 hfill =>
                    injection h with h
                    subst h
                    have hxc := xml_default_create1_spec env _ xt xc hcr
                    have hin := xml_default_each_rel env state I hrefl htrans hmono htype
                      hleaf hcont ycs xc xc1 hxc.1 hfill
                    exact hcont (.mk a .Y_CONTAINER arg cv cvk ycs) xt xc xc1 hxt rfl hpres
                      hfind hcr hin
            · injection h with h; subst h; exact hrefl _ _
      · injection h with h; subst h; exact hrefl _ _
    split at h
    · -- choice
      next hnl hnc hk =>
      have hk1 : k = .Y_CHOICE := by simpa using hk
      subst hk1
      simp only [show (rfc_6020.Y_CHOICE == rfc_6020.Y_LEAF ||
        rfc_6020.Y_CHOICE == rfc_6020.Y_CONTAINER) = false from rfl, Bool.false_eq_true,
        if_false, beq_self_eq_true, if_true]
      split at h
      · injection h with h; subst h; exact hrefl _ _
      · next yca _ =>
        exact xml_default_case_rel env state I hrefl htrans hmono htype hleaf hcont
          (yang_addr yca) ycs xt xt1 hxt h
    · injection h with h; subst h; exact hrefl _ _
theorem xml_default_case_rel (env : DefaultsEnv) (state : Bool)
    (I : List yang_stmt → cxobj → cxobj → Prop)
    (hrefl : ∀ s x, I s x x)
    (htrans : ∀ s x y z, I s x y → I s y z → I s x z)
    (hmono : ∀ s1 s2 x y, (∀ a ∈ s1, a ∈ s2) → I s1 x y → I s2 x y)
    (htype : ∀ s x y, I s x y → xml_type y = xml_type x)
    (hleaf : ∀ y xt xc, xml_type xt = .CX_ELMNT → yang_keyword_get y = .Y_LEAF →
      (xml_find_type_elmnt xt (yang_argument_get y)).isNone = true →
      xml_default_create env y xt = some xc →
      I [y] xt (xml_childvec_set xt (env.xml_sort (xml_childvec xt ++ [xc]))))
    (hcont : ∀ y xt xc xc1, xml_type xt = .CX_ELMNT → yang_keyword_get y = .Y_CONTAINER →
      (yang_find y .Y_PRESENCE none).isNone = true →
      (xml_find_type_elmnt xt (yang_argument_get y)).isNone = true →
      xml_default_create1 env y xt = some xc →
      I (made_specs_each (yang_children y)) xc xc1 →
      I [y] xt (xml_childvec_set xt (xml_replace_elmnt (yang_argument_get y) xc1
        (env.xml_sort (xml_childvec xt ++ [xc]))))) (addr : Nat) :
    ∀ (ys : List yang_stmt) (xt xt1 : cxobj), xml_type xt = .CX_ELMNT →
      xml_default_case env state addr ys xt = some xt1 → I (made_specs_cases ys) xt xt1
  | [], xt, xt1, _, h => by
    rw [xml_default_case] at h
    injection h with h
    subst h
    exact hrefl _ _
  | y :: rest, xt, xt1, hxt, h => by
    rw [xml_default_case] at h
    rw [made_specs_cases_cons]
    split at h
    · exact hmono _ _ _ _ (fun y hy => List.mem_append_left _ hy)
        (xml_default_rel env state I hrefl htrans hmono htype hleaf hcont y xt xt1 hxt h)
    · exact hmono _ _ _ _ (fun y hy => List.mem_append_right _ hy)
        (xml_default_case_rel env state I hrefl htrans hmono htype hleaf hcont addr rest
          xt xt1 hxt h)
end

/-! ## Defaults: what a pass of xml_default inserts -/

theorem inserted_refl (M : cxobj → Prop) : ∀ cs, inserted M cs cs
  | [] => .nil
  | x :: cs => .keep x cs cs (inserted_refl M cs)

theorem inserted_trans {M : cxobj → Prop} {b c : List cxobj} (h2 : inserted M b c) :
    ∀ {a : List cxobj}, inserted M a b → inserted M a c := by
  induction h2 with
  | nil => intro a h1; exact h1
  | keep x b c _ ih =>
    intro a h1
    match h1 with
    | .keep _ a1 _ h1 => exact .keep x _ _ (ih h1)
    | .add _ _ _ hm h1 => exact .add x _ _ hm (ih h1)
  | add m b c hm _ ih => intro a h1; exact .add m _ _ hm (ih h1)

theorem inserted_mono {M N : cxobj → Prop} (hMN : ∀ x, M x → N x) {a b : List cxobj}
    (h : inserted M a b) : inserted N a b := by
  induction h with
  | nil => exact .nil
  | keep x a b _ ih => exact .keep x _ _ ih
  | add m a b hm _ ih => exact .add m _ _ (hMN m hm) ih

theorem inserted_middle {M : cxobj → Prop} (m : cxobj) (hm : M m) (b : List cxobj) :
    ∀ a : List cxobj, inserted M (a ++ b) (a ++ m :: b)
  | [] => .add m _ _ hm (inserted_refl M b)
  | x :: a => .keep x _ _ (inserted_middle m hm b a)

theorem made_in_mono {s1 s2 : List yang_stmt} (h : ∀ a ∈ s1, a ∈ s2) (c : cxobj)
    (hc : made_in s1 c) : made_in s2 c :=
  ⟨hc.1, by obtain ⟨y, hy, e⟩ := hc.2; exact ⟨y, h y hy, e⟩⟩

theorem default_made_elmnt (x : cxobj) (h : default_made x) : is_elmnt x = true := by
  cases h with
  | leaf _ _ he => exact he
  | container _ _ he => exact he

theorem default_made_only (x : cxobj) (h : default_made x) : default_only x := by
  induction h with
  | leaf x y he hs hk hf hch =>
    exact .mk x ⟨y, hs, Or.inr ⟨hk, hf, by decide⟩⟩
      (fun ch hc hce => by rw [hch ch hc] at hce; cases hce)
  | container x y he hs hk hp _ _ ih =>
    exact .mk x ⟨y, hs, Or.inl ⟨hk, hp⟩⟩ ih

theorem default_made_value (x : cxobj) (h : default_made x) : nopresence_value 2 x = true :=
  default_only_value x (default_made_only x h)

theorem fill_inv_refl (P : List cxobj → Prop) (s : List yang_stmt) (x : cxobj) :
    fill_inv P s x x :=
  ⟨(xml_childvec_set_self x).symm, fun _ hc => Or.inl hc, fun hP => ⟨hP, inserted_refl _ _⟩⟩

theorem fill_inv_trans (P : List cxobj → Prop) (s : List yang_stmt) (x y z : cxobj)
    (h1 : fill_inv P s x y) (h2 : fill_inv P s y z) : fill_inv P s x z := by
  refine ⟨?_, fun c hc => ?_, fun hP => ?_⟩
  · have e1 := h1.1
    have e2 := h2.1
    rw [e2]
    conv_lhs => rw [e1]
    rw [xml_childvec_set_set, xml_childvec_set_get]
  · rcases h2.2.1 c hc with h | h
    · exact h1.2.1 c h
    · exact Or.inr h
  · obtain ⟨hPy, hi1⟩ := h1.2.2 hP
    obtain ⟨hPz, hi2⟩ := h2.2.2 hPy
    exact ⟨hPz, inserted_trans hi2 hi1⟩

theorem fill_inv_mono (P : List cxobj → Prop) (s1 s2 : List yang_stmt) (x y : cxobj)
    (h : ∀ a ∈ s1, a ∈ s2) (h1 : fill_inv P s1 x y) : fill_inv P s2 x y := by
  refine ⟨h1.1, fun c hc => ?_, fun hP => ?_⟩
  · rcases h1.2.1 c hc with hh | hh
    · exact Or.inl hh
    · exact Or.inr (made_in_mono h c hh)
  · obtain ⟨hPy, hi1⟩ := h1.2.2 hP
    exact ⟨hPy, inserted_mono (made_in_mono h) hi1⟩

theorem fill_inv_type (P : List cxobj → Prop) (s : List yang_stmt) (x y : cxobj)
    (h : fill_inv P s x y) : xml_type y = xml_type x := by
  rw [h.1, xml_type_childvec_set]

theorem map_replace_other (name : String) (xc1 : cxobj) :
    ∀ l : List cxobj, (∀ x ∈ l, ¬(is_elmnt x = true ∧ xml_name x = name)) →
      l.map (fun x => if is_elmnt x && xml_name x == name then xc1 else x) = l
  | [], _ => rfl
  | x :: l, h => by
    rw [List.map_cons, map_replace_other name xc1 l (fun y hy => h y (List.mem_cons_of_mem _ hy))]
    have := h x (List.mem_cons_self _ _)
    by_cases hc1 : (is_elmnt x && xml_name x == name) = true
    · simp only [Bool.and_eq_true, beq_iff_eq] at hc1
      exact absurd hc1 this
    · rw [if_neg hc1]

theorem xml_replace_elmnt_middle (name : String) (xc xc1 : cxobj) (a b : List cxobj)
    (hab : ∀ x ∈ a ++ b, ¬(is_elmnt x = true ∧ xml_name x = name))
    (he : is_elmnt xc = true) (hn : xml_name xc = name) :
    xml_replace_elmnt name xc1 (a ++ xc :: b) = a ++ xc1 :: b := by
  unfold xml_replace_elmnt
  rw [List.map_append, List.map_cons,
    map_replace_other name xc1 a (fun x hx => hab x (List.mem_append_left _ hx)),
    map_replace_other name xc1 b (fun x hx => hab x (List.mem_append_right _ hx))]
  simp [he, hn]

/-- The new leaf, sorted into the children. -/
theorem fill_inv_leaf (env : DefaultsEnv) (hperm : ∀ l, (env.xml_sort l).Perm l)
    (P : List cxobj → Prop) (hP : sort_inserts env P) (y : yang_stmt) (xt xc : cxobj)
    (hk : yang_keyword_get y = .Y_LEAF)
    (hcr : xml_default_create env y xt = some xc) :
    fill_inv P [y] xt (xml_childvec_set xt (env.xml_sort (xml_childvec xt ++ [xc]))) := by
  obtain ⟨he, hn, hs, hf, hne, _⟩ := xml_default_create_spec env y xt xc hcr
  have hm : made_in [y] xc :=
    ⟨.leaf xc y he hs hk (by rw [hf]; decide) hne, y, List.mem_singleton.2 rfl, hs⟩
  refine ⟨by rw [xml_childvec_set_get], ?_, ?_⟩
  · rw [xml_childvec_set_get]
    intro c hc
    have hx1 := ((hperm _).mem_iff).1 hc
    rcases List.mem_append.1 hx1 with hx1 | hx1
    · exact Or.inl hx1
    · obtain rfl := List.mem_singleton.1 hx1
      exact Or.inr hm
  · rw [xml_childvec_set_get]
    intro hPx
    obtain ⟨a, b, hab, hsort, hcl⟩ := hP (xml_childvec xt) xc y hPx he hs (Or.inl hk)
    rw [hsort, hab]
    have hcl1 := hcl (xml_childvec xc)
    rw [xml_childvec_set_self] at hcl1
    exact ⟨hcl1, inserted_middle xc hm b a⟩

/-- The new container, sorted into the children and filled. -/
theorem fill_inv_container (env : DefaultsEnv) (hperm : ∀ l, (env.xml_sort l).Perm l)
    (P : List cxobj → Prop) (hP : sort_inserts env P) (y : yang_stmt) (xt xc xc1 : cxobj)
    (hxt : xml_type xt = .CX_ELMNT) (hk : yang_keyword_get y = .Y_CONTAINER)
    (hpres : (yang_find y .Y_PRESENCE none).isNone = true)
    (hfind : (xml_find_type_elmnt xt (yang_argument_get y)).isNone = true)
    (hcr : xml_default_create1 env y xt = some xc)
    (hin : fill_inv P (made_specs_each (yang_children y)) xc xc1) :
    fill_inv P [y] xt (xml_childvec_set xt (xml_replace_elmnt (yang_argument_get y) xc1
      (env.xml_sort (xml_childvec xt ++ [xc])))) := by
  obtain ⟨ht, hn, hs, hf, hch⟩ := xml_default_create1_spec env y xt xc hcr
  have hno := xml_find_type_elmnt_none xt _ hxt hfind
  have hexc : is_elmnt xc = true := by unfold is_elmnt; rw [ht]; rfl
  have e := hin.1
  have he1 : is_elmnt xc1 = true := by rw [e, is_elmnt_childvec_set]; exact hexc
  have hs1 : xml_spec xc1 = some y := by rw [e, xml_spec_childvec_set]; exact hs
  have hn1 : xml_name xc1 = yang_argument_get y := by rw [e, xml_name_childvec_set]; exact hn
  have ht1 : xml_type xc1 = xml_type xc := by rw [e, xml_type_childvec_set]
  have hm : made_in [y] xc1 := by
    refine ⟨.container xc1 y he1 hs1 hk (by simpa using hpres) (fun ch hc hce => ?_)
      (fun ch hc hce => ?_), y, List.mem_singleton.2 rfl, hs1⟩
    · rcases hin.2.1 ch hc with h | h
      · rw [is_elmnt_of_attr ch (hch ch h)] at hce; cases hce
      · exact h.1
    · rcases hin.2.1 ch hc with h | h
      · rw [is_elmnt_of_attr ch (hch ch h)] at hce; cases hce
      · exact h.2
  refine ⟨by rw [xml_childvec_set_get], ?_, ?_⟩
  · rw [xml_childvec_set_get]
    intro c hc
    unfold xml_replace_elmnt at hc
    rw [List.mem_map] at hc
    obtain ⟨a, ha, hfa⟩ := hc
    by_cases hc1 : (is_elmnt a && xml_name a == yang_argument_get y) = true
    · rw [if_pos hc1] at hfa
      subst hfa
      exact Or.inr hm
    · rw [if_neg hc1] at hfa
      subst hfa
      have ha1 := ((hperm _).mem_iff).1 ha
      rcases List.mem_append.1 ha1 with ha1 | ha1
      · exact Or.inl ha1
      · obtain rfl := List.mem_singleton.1 ha1
        exfalso
        apply hc1
        simp [hexc, hn]
  · rw [xml_childvec_set_get]
    intro hPx
    obtain ⟨a, b, hab, hsort, hcl⟩ := hP (xml_childvec xt) xc y hPx hexc hs (Or.inr hk)
    rw [hsort, xml_replace_elmnt_middle _ xc xc1 a b (by rw [← hab]; exact hno) hexc hn, hab]
    have hcl1 := hcl (xml_childvec xc1)
    rw [← e] at hcl1
    exact ⟨hcl1, inserted_middle xc1 hm b a⟩

/-- What `xml_default(y, xt, state)` leaves of an element `xt`. -/
theorem xml_default_fill_inv (env : DefaultsEnv) (state : Bool)
    (hperm : ∀ l, (env.xml_sort l).Perm l) (P : List cxobj → Prop) (hP : sort_inserts env P)
    (y : yang_stmt) (xt xt1 : cxobj) (hxt : xml_type xt = .CX_ELMNT)
    (h : xml_default env state y xt = some xt1) : fill_inv P (made_specs_default y) xt xt1 :=
  xml_default_rel env state (fill_inv P) (fill_inv_refl P) (fill_inv_trans P)
    (fill_inv_mono P) (fill_inv_type P)
    (fun y xt xc _ hk _ hcr => fill_inv_leaf env hperm P hP y xt xc hk hcr)
    (fun y xt xc xc1 hxt hk hpres hfind hcr hin =>
      fill_inv_container env hperm P hP y xt xc xc1 hxt hk hpres hfind hcr hin)
    y xt xt1 hxt h

/-! ## Defaults: filling and pruning -/

theorem no_default_leaf_fields (n : String) (t : cxobj_type) (f : Nat) (s : Option yang_stmt)
    (v : Option String) (cs : List cxobj) :
    no_default_leaf (.mk n t f s v cs) =
      (!(is_elmnt (.mk n t f s v cs) &&
        (match s with
         | some y => yang_keyword_get y == .Y_LEAF
         | none => false) &&
        xml_flag (.mk n t f s v cs) XML_FLAG_DEFAULT != 0) &&
      no_default_leaf_each cs) := by
  conv_lhs => unfold no_default_leaf

theorem recursively_empty_fields (n : String) (t : cxobj_type) (f : Nat) (s : Option yang_stmt)
    (v : Option String) (cs : List cxobj) :
    recursively_empty (.mk n t f s v cs) =
      ((match s with
        | some y => yang_keyword_get y == .Y_CONTAINER && (yang_find y .Y_PRESENCE none).isNone
        | none => false) &&
      recursively_empty_each cs) := by
  conv_lhs => unfold recursively_empty

theorem no_empty_nopresence_fields (n : String) (t : cxobj_type) (f : Nat)
    (s : Option yang_stmt) (v : Option String) (cs : List cxobj) :
    no_empty_nopresence (.mk n t f s v cs) =
      (!recursively_empty (.mk n t f s v cs) && no_empty_nopresence_each cs) := by
  conv_lhs => unfold no_empty_nopresence

theorem no_default_leaf_each_cons (c : cxobj) (rest : List cxobj) :
    no_default_leaf_each (c :: rest) =
      ((!is_elmnt c || no_default_leaf c) && no_default_leaf_each rest) := by
  rw [no_default_leaf_each]

theorem recursively_empty_each_cons (c : cxobj) (rest : List cxobj) :
    recursively_empty_each (c :: rest) =
      ((!is_elmnt c || recursively_empty c) && recursively_empty_each rest) := by
  rw [recursively_empty_each]

theorem no_empty_nopresence_each_cons (c : cxobj) (rest : List cxobj) :
    no_empty_nopresence_each (c :: rest) =
      ((!is_elmnt c || no_empty_nopresence c) && no_empty_nopresence_each rest) := by
  rw [no_empty_nopresence_each]

theorem no_default_leaf_each_mem : ∀ (cs : List cxobj), no_default_leaf_each cs = true →
    ∀ c ∈ cs, is_elmnt c = true → no_default_leaf c = true
  | [], _, _, hc, _ => by cases hc
  | x :: rest, h, c, hc, he => by
    rw [no_default_leaf_each_cons, Bool.and_eq_true] at h
    rcases List.mem_cons.1 hc with e | hc
    · subst e
      simpa [he] using h.1
    · exact no_default_leaf_each_mem rest h.2 c hc he

theorem no_empty_nopresence_each_mem : ∀ (cs : List cxobj),
    no_empty_nopresence_each cs = true →
    ∀ c ∈ cs, is_elmnt c = true → no_empty_nopresence c = true
  | [], _, _, hc, _ => by cases hc
  | x :: rest, h, c, hc, he => by
    rw [no_empty_nopresence_each_cons, Bool.and_eq_true] at h
    rcases List.mem_cons.1 hc with e | hc
    · subst e
      simpa [he] using h.1
    · exact no_empty_nopresence_each_mem rest h.2 c hc he

theorem no_default_leaf_child (x c : cxobj) (h : no_default_leaf x = true)
    (hc : c ∈ xml_childvec x) (he : is_elmnt c = true) : no_default_leaf c = true := by
  cases x with
  | mk n t f s v cs =>
    rw [no_default_leaf_fields, Bool.and_eq_true] at h
    exact no_default_leaf_each_mem cs h.2 c hc he

theorem no_empty_nopresence_child (x c : cxobj) (h : no_empty_nopresence x = true)
    (hc : c ∈ xml_childvec x) (he : is_elmnt c = true) : no_empty_nopresence c = true := by
  cases x with
  | mk n t f s v cs =>
    rw [no_empty_nopresence_fields, Bool.and_eq_true] at h
    exact no_empty_nopresence_each_mem cs h.2 c hc he

theorem children_ordered_child (P : List cxobj → Prop) (x c : cxobj)
    (h : children_ordered P x) (hc : c ∈ xml_childvec x) (he : is_elmnt c = true) :
    children_ordered P c :=
  ⟨h.2 c (.child c x hc he), fun d hd => h.2 d (.deeper d c x hc he hd)⟩

mutual
/-- A node that `xml_default_nopresence` with mode 2 answers 1 for is a (recursively)
empty non-presence container, or holds a leaf that carries the DEFAULT flag. -/
theorem nopresence_value_empty_or_default : ∀ (x : cxobj), is_elmnt x = true →
    nopresence_value 2 x = true → recursively_empty x = true ∨ no_default_leaf x = false
  | .mk n t f s v cs, he, h => by
    rw [nopresence_value, Bool.and_eq_true] at h
    obtain ⟨hr, hv⟩ := h
    have hcs := nopresence_value_empty_or_default_each cs hv
    rw [recursively_empty_fields, no_default_leaf_fields]
    cases s with
    | none =>
      unfold xml_default_nopresence_rmx at hr
      simp [xml_spec] at hr
    | some y =>
      unfold xml_default_nopresence_rmx at hr
      simp only [xml_spec] at hr
      by_cases hc : (yang_keyword_get y == .Y_CONTAINER &&
          (yang_find y .Y_PRESENCE none).isNone) = true
      · rcases hcs with hcs | hcs
        · left
          simp only [hc, hcs, Bool.and_self]
        · right
          simp only [hcs, Bool.and_false]
      · rw [if_neg hc] at hr
        right
        by_cases hl : (yang_keyword_get y == .Y_LEAF &&
            xml_flag (.mk n t f (some y) v cs) XML_FLAG_DEFAULT != 0 && (2 : Nat) != 3) = true
        · simp only [Bool.and_eq_true] at hl
          simp only [he, hl.1.1, hl.1.2, Bool.and_self, Bool.not_true, Bool.false_and]
        · rw [if_neg hl] at hr
          cases hr
theorem nopresence_value_empty_or_default_each : ∀ (cs : List cxobj),
    nopresence_value_each 2 cs = true →
    recursively_empty_each cs = true ∨ no_default_leaf_each cs = false
  | [], _ => Or.inl (by rw [recursively_empty_each])
  | c :: rest, h => by
    rw [nopresence_value_each_cons, Bool.and_eq_true] at h
    rw [recursively_empty_each_cons, no_default_leaf_each_cons]
    rcases nopresence_value_empty_or_default_each rest h.2 with h2 | h2
    · cases he : is_elmnt c with
      | false => left; simp [h2]
      | true =>
        have hv : nopresence_value 2 c = true := by simpa [he] using h.1
        rcases nopresence_value_empty_or_default c he hv with h1 | h1
        · left; simp [h1, h2]
        · right; simp [h1]
    · right
      simp [h2]
end

/-- In a tree without DEFAULT leaves and without empty non-presence containers,
`xml_default_nopresence` with mode 2 answers 0 for every element. -/
theorem clean_value (x : cxobj) (he : is_elmnt x = true) (h1 : no_default_leaf x = true)
    (h2 : no_empty_nopresence x = true) : nopresence_value 2 x = false := by
  cases hv : nopresence_value 2 x with
  | false => rfl
  | true =>
    exfalso
    rcases nopresence_value_empty_or_default x he hv with h | h
    · cases x with
      | mk n t f s v cs =>
        rw [no_empty_nopresence_fields, h] at h2
        cases h2
    · rw [h] at h1
      cases h1

mutual
/-- Such a tree is left as it is by the pruning of mode 2. -/
theorem clean_pruned (env : DefaultsEnv) : ∀ (x : cxobj),
    no_default_leaf x = true → no_empty_nopresence x = true → nopresence_pruned env 2 x = x
  | .mk n t f s v cs, h1, h2 => by
    rw [no_default_leaf_fields, Bool.and_eq_true] at h1
    rw [no_empty_nopresence_fields, Bool.and_eq_true] at h2
    rw [nopresence_pruned, clean_pruned_each env _ cs h1.2 h2.2]
theorem clean_pruned_each (env : DefaultsEnv) (config : Bool) : ∀ (cs : List cxobj),
    no_default_leaf_each cs = true → no_empty_nopresence_each cs = true →
    nopresence_pruned_each env 2 config cs = cs
  | [], _, _ => by rw [nopresence_pruned_each]
  | c :: rest, h1, h2 => by
    rw [no_default_leaf_each_cons, Bool.and_eq_true] at h1
    rw [no_empty_nopresence_each_cons, Bool.and_eq_true] at h2
    have ih := clean_pruned_each env config rest h1.2 h2.2
    cases he : is_elmnt c with
    | false => rw [nopresence_pruned_each_cons_other env 2 config c rest he, ih]
    | true =>
      have hc1 : no_default_leaf c = true := by simpa [he] using h1.1
      have hc2 : no_empty_nopresence c = true := by simpa [he] using h2.1
      rw [nopresence_pruned_each_cons_elmnt env 2 config c rest he,
        clean_value c he hc1 hc2, clean_pruned env c hc1 hc2, ih]
      rfl
end

theorem xml_default_recurse_each_cons_other (call : cxobj → Option cxobj) (state : Bool)
    (x : cxobj) (rest : List cxobj) (he : is_elmnt x = false) :
    xml_default_recurse_each call state (x :: rest) =
      (xml_default_recurse_each call state rest).map fun r => x :: r := by
  rw [xml_default_recurse_each]
  simp [he]

/-- The loop of `xml_default_recurse` at an element: the child is passed over, or the
recursive call is made on it. -/
theorem xml_default_recurse_each_cons_elmnt (call : cxobj → Option cxobj) (state : Bool)
    (x : cxobj) (rest cs2 : List cxobj) (he : is_elmnt x = true)
    (h : xml_default_recurse_each call state (x :: rest) = some cs2) :
    ∃ x1 r, cs2 = x1 :: r ∧ xml_default_recurse_each call state rest = some r ∧
      (x1 = x ∨ call x = some x1) := by
  rw [xml_default_recurse_each] at h
  simp only [he, Bool.not_true, Bool.false_eq_true, if_false] at h
  cases hr : xml_default_recurse_each call state rest with
  | none =>
    rw [hr] at h
    split at h
    · cases h
    · split at h
      · cases h
      · cases h
  | some r =>
    rw [hr] at h
    split at h
    · injection h with h
      exact ⟨x, r, h.symm, rfl, Or.inl rfl⟩
    · split at h
      · cases h
      · next x1 hx1 =>
        injection h with h
        exact ⟨x1, r, h.symm, rfl, Or.inr hx1⟩

theorem xml_default_recurse_each_no_elmnt (call : cxobj → Option cxobj) (state : Bool) :
    ∀ (cs : List cxobj), (∀ ch ∈ cs, is_elmnt ch = false) →
      xml_default_recurse_each call state cs = some cs
  | [], _ => by rw [xml_default_recurse_each]
  | x :: rest, h => by
    rw [xml_default_recurse_each_cons_other call state x rest (h x (List.mem_cons_self _ _)),
      xml_default_recurse_each_no_elmnt call state rest
        (fun ch hc => h ch (List.mem_cons_of_mem _ hc))]
    rfl

theorem made_specs_default_container (y : yang_stmt)
    (hk : yang_keyword_get y = .Y_CONTAINER) :
    made_specs_default y = made_specs_each (yang_children y) := by
  cases y with
  | mk a k arg cv cvk ys =>
    have hk1 : k = .Y_CONTAINER := hk
    subst hk1
    rw [made_specs_default]
    rfl

theorem xml_default_leaf_kw (env : DefaultsEnv) (state : Bool) (y : yang_stmt) (xt : cxobj)
    (hk : yang_keyword_get y = .Y_LEAF) : xml_default env state y xt = some xt := by
  cases y with
  | mk a k arg cv cvk ys =>
    have hk1 : k = .Y_LEAF := hk
    subst hk1
    rw [xml_default]
    rfl

theorem is_elmnt_type (x : cxobj) (he : is_elmnt x = true) : xml_type x = .CX_ELMNT := by
  unfold is_elmnt at he
  simpa using he

/-- A made node stays a made node, bound to the same statement, under
`xml_default_recurse`. -/
theorem default_made_recurse (env : DefaultsEnv) (state : Bool)
    (hperm : ∀ l, (env.xml_sort l).Perm l) :
    ∀ (fuel : Nat) (m m1 : cxobj), default_made m →
      xml_default_recurse env state fuel 0 m = some m1 →
      default_made m1 ∧ xml_spec m1 = xml_spec m
  | 0, _, _, _, h => by
    rw [xml_default_recurse] at h
    cases h
  | fuel + 1, m, m1, hm, h => by
    rw [xml_default_recurse_zero] at h
    unfold xml_default_bound at h
    cases hm with
    | leaf _ y he hs hk hf hch =>
      rw [hs] at h
      simp only [xml_default_leaf_kw env state y m hk, Option.bind] at h
      rw [xml_default_recurse_each_no_elmnt _ _ _ hch] at h
      simp only [Option.map, xml_childvec_set_self] at h
      injection h with h
      subst h
      exact ⟨.leaf m y he hs hk hf hch, rfl⟩
    | container _ y he hs hk hp hch hsp =>
      rw [hs] at h
      simp only at h
      cases hd : xml_default env state y m with
      | none => rw [hd] at h; cases h
      | some xn1 =>
        rw [hd] at h
        simp only [Option.bind] at h
        cases hr : xml_default_recurse_each (xml_default_recurse env state fuel 0) state
            (xml_childvec xn1) with
        | none => rw [hr] at h; cases h
        | some cs2 =>
          rw [hr] at h
          simp only [Option.map] at h
          injection h with h
          subst h
          have hinv := xml_default_fill_inv env state hperm (fun _ => False)
            (fun _ _ _ hF => hF.elim) y m xn1 (is_elmnt_type m he) hd
          rw [made_specs_default_container y hk] at hinv
          have e := hinv.1
          have hchild : ∀ c ∈ xml_childvec xn1, is_elmnt c = true →
              default_made c ∧ ∃ y1 ∈ made_specs_each (yang_children y),
                xml_spec c = some y1 := by
            intro c hc hce
            rcases hinv.2.1 c hc with h1 | h1
            · exact ⟨hch c h1 hce, hsp c h1 hce⟩
            · exact h1
          have hres : ∀ c1 ∈ cs2, is_elmnt c1 = true →
              default_made c1 ∧ ∃ y1 ∈ made_specs_each (yang_children y),
                xml_spec c1 = some y1 := by
            intro c1 hc1 hce
            obtain ⟨c, hc, hh⟩ := xml_default_recurse_each_mem _ _ _ _ hr c1 hc1
            rcases hh with hh | ⟨hce0, hcall⟩
            · subst hh
              exact hchild c1 hc hce
            · obtain ⟨hdm, hsp0⟩ := hchild c hc hce0
              obtain ⟨h1, h2⟩ := default_made_recurse env state hperm fuel c c1 hdm hcall
              exact ⟨h1, by rw [h2]; exact hsp0⟩
          have hs1 : xml_spec (xml_childvec_set xn1 cs2) = some y := by
            rw [xml_spec_childvec_set, e, xml_spec_childvec_set]; exact hs
          refine ⟨.container _ y ?_ hs1 hk hp ?_ ?_, by rw [hs1, hs]⟩
          · rw [is_elmnt_childvec_set, e, is_elmnt_childvec_set]; exact he
          · intro ch hc hce
            rw [xml_childvec_set_get] at hc
            exact (hres ch hc hce).1
          · intro ch hc hce
            rw [xml_childvec_set_get] at hc
            exact (hres ch hc hce).2

/-- The loop of `xml_default_recurse` over children that are the children `cs` with made
nodes in between, and the pruning of mode 2 after it: the made nodes go, the other
children come back. -/
theorem fill_trim_each (env : DefaultsEnv) (config : Bool) (M Q : cxobj → Prop)
    (call : cxobj → Option cxobj)
    (horig : ∀ c c1, is_elmnt c = true → no_default_leaf c = true →
      no_empty_nopresence c = true → Q c → call c = some c1 →
      nopresence_pruned env 2 c1 = c ∧ nopresence_value 2 c1 = false ∧ is_elmnt c1 = true)
    (hmade : ∀ m m1, M m → call m = some m1 →
      is_elmnt m1 = true ∧ nopresence_value 2 m1 = true)
    (hM : ∀ m, M m → is_elmnt m = true ∧ nopresence_value 2 m = true)
    {cs cs1 : List cxobj} (hi : inserted M cs cs1) :
    ∀ cs2, (∀ c ∈ cs, is_elmnt c = true →
        no_default_leaf c = true ∧ no_empty_nopresence c = true ∧ Q c) →
      xml_default_recurse_each call false cs1 = some cs2 →
      nopresence_pruned_each env 2 config cs2 = cs ∧
      nopresence_value_each 2 cs2 = nopresence_value_each 2 cs := by
  induction hi with
  | nil =>
    intro cs2 _ h
    rw [xml_default_recurse_each] at h
    injection h with h
    subst h
    exact ⟨by rw [nopresence_pruned_each], rfl⟩
  | keep x cs cs1 _ ih =>
    intro cs2 hcl h
    have hcl1 : ∀ c ∈ cs, is_elmnt c = true →
        no_default_leaf c = true ∧ no_empty_nopresence c = true ∧ Q c :=
      fun c hc => hcl c (List.mem_cons_of_mem _ hc)
    cases he : is_elmnt x with
    | false =>
      rw [xml_default_recurse_each_cons_other call false x cs1 he] at h
      cases hr : xml_default_recurse_each call false cs1 with
      | none => rw [hr] at h; cases h
      | some r =>
        rw [hr] at h
        simp only [Option.map] at h
        injection h with h
        subst h
        obtain ⟨i1, i2⟩ := ih r hcl1 hr
        rw [nopresence_pruned_each_cons_other env 2 config x r he, i1,
          nopresence_value_each_cons, nopresence_value_each_cons, i2]
        exact ⟨rfl, rfl⟩
    | true =>
      obtain ⟨x1, r, e, hr, hx1⟩ := xml_default_recurse_each_cons_elmnt call false x cs1 cs2 he h
      subst e
      obtain ⟨i1, i2⟩ := ih r hcl1 hr
      obtain ⟨c1, c2, c3⟩ := hcl x (List.mem_cons_self _ _) he
      have hx : nopresence_pruned env 2 x1 = x ∧ nopresence_value 2 x1 = false ∧
          is_elmnt x1 = true := by
        rcases hx1 with hx1 | hx1
        · subst hx1
          exact ⟨clean_pruned env x1 c1 c2, clean_value x1 he c1 c2, he⟩
        · exact horig x x1 he c1 c2 c3 hx1
      rw [nopresence_pruned_each_cons_elmnt env 2 config x1 r hx.2.2, hx.2.1, hx.1, i1,
        nopresence_value_each_cons, nopresence_value_each_cons, i2, hx.2.1,
        clean_value x he c1 c2, hx.2.2, he]
      exact ⟨rfl, rfl⟩
  | add m cs cs1 hm _ ih =>
    intro cs2 hcl h
    obtain ⟨he, hv⟩ := hM m hm
    obtain ⟨x1, r, e, hr, hx1⟩ := xml_default_recurse_each_cons_elmnt call false m cs1 cs2 he h
    subst e
    obtain ⟨i1, i2⟩ := ih r hcl hr
    have hx : is_elmnt x1 = true ∧ nopresence_value 2 x1 = true := by
      rcases hx1 with hx1 | hx1
      · subst hx1
        exact ⟨he, hv⟩
      · exact hmade m x1 hm hx1
    rw [nopresence_pruned_each_cons_elmnt env 2 config x1 r hx.1, hx.2, nopresence_purge_two,
      nopresence_value_each_cons, hx.2, hx.1, i2]
    exact ⟨i1, rfl⟩

/-- What the step for the statement of `xn` in `xml_default_recurse` leaves of `xn`. -/
theorem xml_default_bound_fill_inv (env : DefaultsEnv) (state : Bool)
    (hperm : ∀ l, (env.xml_sort l).Perm l) (P : List cxobj → Prop) (hP : sort_inserts env P)
    (xn xn1 : cxobj) (he : is_elmnt xn = true)
    (h : xml_default_bound env state xn = some xn1) :
    fill_inv P (match xml_spec xn with
      | some y => made_specs_default y
      | none => []) xn xn1 := by
  unfold xml_default_bound at h
  cases hs : xml_spec xn with
  | none =>
    rw [hs] at h
    injection h with h
    subst h
    exact fill_inv_refl P _ _
  | some y =>
    rw [hs] at h
    exact xml_default_fill_inv env state hperm P hP y xn xn1 (is_elmnt_type xn he) h

/-- Filling the defaults of a tree without DEFAULT leaves and without empty non-presence
containers, whose children are in order, gives a tree that the pruning of mode 2 takes
back to the tree, and for which `xml_default_nopresence` answers 0. -/
theorem fill_trim (env : DefaultsEnv) (hperm : ∀ l, (env.xml_sort l).Perm l)
    (P : List cxobj → Prop) (hP : sort_inserts env P) :
    ∀ (fuel : Nat) (t t1 : cxobj), is_elmnt t = true → no_default_leaf t = true →
      no_empty_nopresence t = true → children_ordered P t →
      xml_default_recurse env false fuel 0 t = some t1 →
      nopresence_pruned env 2 t1 = t ∧ nopresence_value 2 t1 = false ∧ is_elmnt t1 = true
  | 0, _, _, _, _, _, _, h => by
    rw [xml_default_recurse] at h
    cases h
  | fuel + 1, t, t1, he, h1, h2, hord, h => by
    rw [xml_default_recurse_zero] at h
    cases hd : xml_default_bound env false t with
    | none => rw [hd] at h; cases h
    | some xn1 =>
      rw [hd] at h
      simp only [Option.bind] at h
      cases hr : xml_default_recurse_each (xml_default_recurse env false fuel 0) false
          (xml_childvec xn1) with
      | none => rw [hr] at h; cases h
      | some cs2 =>
        rw [hr] at h
        simp only [Option.map] at h
        injection h with h
        subst h
        have hinv := xml_default_bound_fill_inv env false hperm P hP t xn1 he hd
        have e := hinv.1
        obtain ⟨_, hins⟩ := hinv.2.2 hord.1
        have key := fill_trim_each env (xml_default_nopresence_config env t) _
          (children_ordered P) (xml_default_recurse env false fuel 0)
          (fun c c1 hce hc1 hc2 hc3 hcall =>
            fill_trim env hperm P hP fuel c c1 hce hc1 hc2 hc3 hcall)
          (fun m m1 hm hcall => by
            have := (default_made_recurse env false hperm fuel m m1 hm.1 hcall).1
            exact ⟨default_made_elmnt m1 this, default_made_value m1 this⟩)
          (fun m hm => ⟨default_made_elmnt m hm.1, default_made_value m hm.1⟩)
          hins cs2
          (fun c hc hce => ⟨no_default_leaf_child t c h1 hc hce,
            no_empty_nopresence_child t c h2 hc hce, children_ordered_child P t c hord hc hce⟩)
          hr
        have et : xml_childvec_set xn1 cs2 = xml_childvec_set t cs2 := by
          rw [e, xml_childvec_set_set]
        rw [et]
        refine ⟨?_, ?_, by rw [is_elmnt_childvec_set]; exact he⟩
        · rw [nopresence_pruned_fields, xml_childvec_set_get, nopresence_config_set, key.1,
            xml_childvec_set_set, xml_childvec_set_self]
        · rw [nopresence_value_fields, xml_childvec_set_get, nopresence_rmx_set, key.2,
            ← nopresence_value_fields]
          exact clean_value t he h1 h2

/-! ## Defaults: xml_default_recurse returns -/

theorem yang_depth_fields (y : yang_stmt) :
    yang_depth y = yang_depth_each (yang_children y) + 1 := by
  cases y with
  | mk a k arg cv cvk ys =>
    conv_lhs => unfold yang_depth
    rfl

theorem yang_depth_each_cons (y : yang_stmt) (rest : List yang_stmt) :
    yang_depth_each (y :: rest) = max (yang_depth y) (yang_depth_each rest) := by
  rw [yang_depth_each]

theorem yang_depth_each_append : ∀ (a b : List yang_stmt),
    yang_depth_each (a ++ b) = max (yang_depth_each a) (yang_depth_each b)
  | [], b => by
    rw [List.nil_append, yang_depth_each]
    exact (Nat.zero_max _).symm
  | y :: a, b => by
    rw [List.cons_append, yang_depth_each_cons, yang_depth_each_cons,
      yang_depth_each_append a b, Nat.max_assoc]

theorem yang_populated_fields (a : Nat) (k : rfc_6020) (arg : String) (cv : Option cg_var)
    (cvk : List String) (ys : List yang_stmt) :
    yang_populated (.mk a k arg cv cvk ys) =
      ((k != .Y_LEAF || cv.isSome) && yang_populated_each ys) := by
  conv_lhs => unfold yang_populated

theorem yang_populated_each_cons (y : yang_stmt) (rest : List yang_stmt) :
    yang_populated_each (y :: rest) = (yang_populated y && yang_populated_each rest) := by
  rw [yang_populated_each]

theorem fill_need_fields (x : cxobj) :
    fill_need x = max (match xml_spec x with
      | some y => yang_depth y
      | none => 0) (fill_need_each (xml_childvec x)) + 1 := by
  cases x with
  | mk n t f s v cs =>
    conv_lhs => unfold fill_need
    rfl

theorem fill_need_each_cons (c : cxobj) (rest : List cxobj) :
    fill_need_each (c :: rest) =
      max (if is_elmnt c then fill_need c else 0) (fill_need_each rest) := by
  rw [fill_need_each]

theorem xml_populated_fields (x : cxobj) :
    xml_populated x = ((match xml_spec x with
      | some y => yang_populated y
      | none => true) && xml_populated_each (xml_childvec x)) := by
  cases x with
  | mk n t f s v cs =>
    conv_lhs => unfold xml_populated
    rfl

theorem xml_populated_each_cons (c : cxobj) (rest : List cxobj) :
    xml_populated_each (c :: rest) =
      ((!is_elmnt c || xml_populated c) && xml_populated_each rest) := by
  rw [xml_populated_each]

theorem fill_need_each_le (N : Nat) : ∀ (cs : List cxobj),
    (∀ ch ∈ cs, is_elmnt ch = true → fill_need ch ≤ N) → fill_need_each cs ≤ N
  | [], _ => by rw [fill_need_each]; exact Nat.zero_le _
  | c :: rest, h => by
    rw [fill_need_each_cons]
    have ih := fill_need_each_le N rest (fun ch hc => h ch (List.mem_cons_of_mem _ hc))
    cases he : is_elmnt c with
    | false =>
      simp only [Bool.false_eq_true, if_false]
      exact Nat.max_le.2 ⟨Nat.zero_le _, ih⟩
    | true =>
      simp only [if_true]
      exact Nat.max_le.2 ⟨h c (List.mem_cons_self _ _) he, ih⟩

theorem fill_need_each_mem : ∀ (cs : List cxobj) (c : cxobj), c ∈ cs → is_elmnt c = true →
    fill_need c ≤ fill_need_each cs
  | [], _, hc, _ => by cases hc
  | x :: rest, c, hc, he => by
    rw [fill_need_each_cons]
    rcases List.mem_cons.1 hc with e | hc
    · subst e
      rw [he]
      exact Nat.le_max_left _ _
    · exact Nat.le_trans (fill_need_each_mem rest c hc he) (Nat.le_max_right _ _)

theorem xml_populated_each_of : ∀ (cs : List cxobj),
    (∀ ch ∈ cs, is_elmnt ch = true → xml_populated ch = true) → xml_populated_each cs = true
  | [], _ => by rw [xml_populated_each]
  | c :: rest, h => by
    rw [xml_populated_each_cons,
      xml_populated_each_of rest (fun ch hc => h ch (List.mem_cons_of_mem _ hc))]
    cases he : is_elmnt c with
    | false => rfl
    | true =>
      rw [h c (List.mem_cons_self _ _) he]
      rfl

theorem xml_populated_each_mem : ∀ (cs : List cxobj), xml_populated_each cs = true →
    ∀ c ∈ cs, is_elmnt c = true → xml_populated c = true
  | [], _, _, hc, _ => by cases hc
  | x :: rest, h, c, hc, he => by
    rw [xml_populated_each_cons, Bool.and_eq_true] at h
    rcases List.mem_cons.1 hc with e | hc
    · subst e
      simpa [he] using h.1
    · exact xml_populated_each_mem rest h.2 c hc he

mutual
/-- The statements that a pass of `xml_default` can bind a new element to are at or below
the statement of the pass, and populated when it is. -/
theorem made_specs_below : ∀ (y y1 : yang_stmt), y1 ∈ made_specs y →
    yang_depth y1 ≤ yang_depth y ∧ (yang_populated y = true → yang_populated y1 = true)
  | .mk a k arg cv cvk ys, y1, h => by
    rw [made_specs] at h
    split at h
    · obtain rfl := List.mem_singleton.1 h
      exact ⟨Nat.le_refl _, fun hp => hp⟩
    · split at h
      · have := made_specs_cases_below ys y1 h
        rw [yang_depth_fields (.mk a k arg cv cvk ys), yang_populated_fields]
        refine ⟨Nat.le_trans this.1 (Nat.le_succ _), fun hp => ?_⟩
        rw [Bool.and_eq_true] at hp
        exact this.2 hp.2
      · cases h
theorem made_specs_cases_below : ∀ (ys : List yang_stmt) (y1 : yang_stmt),
    y1 ∈ made_specs_cases ys →
    yang_depth y1 ≤ yang_depth_each ys ∧
      (yang_populated_each ys = true → yang_populated y1 = true)
  | [], _, h => by
    rw [made_specs_cases] at h
    cases h
  | c :: rest, y1, h => by
    rw [made_specs_cases_cons] at h
    rw [yang_depth_each_cons, yang_populated_each_cons]
    rcases List.mem_append.1 h with h | h
    · have := made_specs_default_below c y1 h
      refine ⟨Nat.le_trans (Nat.le_of_lt this.1) (Nat.le_max_left _ _), fun hp => ?_⟩
      rw [Bool.and_eq_true] at hp
      exact this.2 hp.1
    · have := made_specs_cases_below rest y1 h
      refine ⟨Nat.le_trans this.1 (Nat.le_max_right _ _), fun hp => ?_⟩
      rw [Bool.and_eq_true] at hp
      exact this.2 hp.2
theorem made_specs_default_below : ∀ (y y1 : yang_stmt), y1 ∈ made_specs_default y →
    yang_depth y1 < yang_depth y ∧ (yang_populated y = true → yang_populated y1 = true)
  | .mk a k arg cv cvk ys, y1, h => by
    rw [made_specs_default] at h
    split at h
    · have := made_specs_each_below ys y1 h
      rw [yang_depth_fields (.mk a k arg cv cvk ys), yang_populated_fields]
      refine ⟨Nat.lt_succ_of_le this.1, fun hp => ?_⟩
      rw [Bool.and_eq_true] at hp
      exact this.2 hp.2
    · cases h
theorem made_specs_each_below : ∀ (ys : List yang_stmt) (y1 : yang_stmt),
    y1 ∈ made_specs_each ys →
    yang_depth y1 ≤ yang_depth_each ys ∧
      (yang_populated_each ys = true → yang_populated y1 = true)
  | [], _, h => by
    rw [made_specs_each] at h
    cases h
  | y :: rest, y1, h => by
    rw [made_specs_each_cons] at h
    rw [yang_depth_each_cons, yang_populated_each_cons]
    rcases List.mem_append.1 h with h | h
    · have := made_specs_below y y1 h
      refine ⟨Nat.le_trans this.1 (Nat.le_max_left _ _), fun hp => ?_⟩
      rw [Bool.and_eq_true] at hp
      exact this.2 hp.1
    · have := made_specs_each_below rest y1 h
      refine ⟨Nat.le_trans this.1 (Nat.le_max_right _ _), fun hp => ?_⟩
      rw [Bool.and_eq_true] at hp
      exact this.2 hp.2
end

theorem yang_populated_children (y : yang_stmt) (h : yang_populated y = true) :
    yang_populated_each (yang_children y) = true := by
  cases y with
  | mk a k arg cv cvk ys =>
    rw [yang_populated_fields, Bool.and_eq_true] at h
    exact h.2

/-- A made node needs no more depth than its statement, and its statements are populated
when the statement of the node is. -/
theorem default_made_need (c : cxobj) (h : default_made c) :
    ∀ y1, xml_spec c = some y1 →
      fill_need c ≤ yang_depth y1 + 1 ∧ (yang_populated y1 = true → xml_populated c = true) := by
  induction h with
  | leaf x y he hs hk hf hch =>
    intro y1 hs1
    rw [hs] at hs1
    injection hs1 with hs1
    subst hs1
    rw [fill_need_fields, xml_populated_fields, hs]
    simp only
    refine ⟨?_, fun hp => ?_⟩
    · have := fill_need_each_le 0 (xml_childvec x)
        (fun ch hc hce => by rw [hch ch hc] at hce; cases hce)
      omega
    · rw [hp, xml_populated_each_of _
        (fun ch hc hce => by rw [hch ch hc] at hce; cases hce)]
      rfl
  | container x y he hs hk hp hch hsp ih =>
    intro y1 hs1
    rw [hs] at hs1
    injection hs1 with hs1
    subst hs1
    rw [fill_need_fields, xml_populated_fields, hs]
    simp only
    refine ⟨?_, fun hpop => ?_⟩
    · have := fill_need_each_le (yang_depth_each (yang_children y) + 1) (xml_childvec x)
        (fun ch hc hce => by
          obtain ⟨y2, hy2, hs2⟩ := hsp ch hc hce
          have h1 := (ih ch hc hce y2 hs2).1
          have h2 := (made_specs_each_below _ y2 hy2).1
          omega)
      rw [yang_depth_fields y]
      omega
    · rw [hpop, xml_populated_each_of _ (fun ch hc hce => by
        obtain ⟨y2, hy2, hs2⟩ := hsp ch hc hce
        exact (ih ch hc hce y2 hs2).2
          ((made_specs_each_below _ y2 hy2).2 (yang_populated_children y hpop)))]
      rfl

theorem xml_default_create1_some (env : DefaultsEnv)
    (hpfx : ∀ xt ns, env.xml2prefix xt ns ≠ none) (y : yang_stmt) (xt : cxobj) :
    ∃ xc, xml_default_create1 env y xt = some xc := by
  unfold xml_default_create1
  split
  · exact ⟨_, rfl⟩
  · next ns _ =>
    split
    · next hx => exact absurd hx (hpfx xt ns)
    · exact ⟨_, rfl⟩
    · exact ⟨_, rfl⟩

theorem xml_default_create_some (env : DefaultsEnv)
    (hpfx : ∀ xt ns, env.xml2prefix xt ns ≠ none) (y : yang_stmt) (xt : cxobj) (cv : cg_var)
    (hcv : yang_cv_get y = some cv) : ∃ xc, xml_default_create env y xt = some xc := by
  unfold xml_default_create
  obtain ⟨xc, hxc⟩ := xml_default_create1_some env hpfx y xt
  rw [hxc, hcv]
  exact ⟨_, rfl⟩

mutual
/-- `xml_default` returns 0 when the `when` check and the lookup of the prefix return
without error and the leaf statements are populated. -/
theorem xml_default_some (env : DefaultsEnv) (state : Bool)
    (hwhen : ∀ xt y, env.yang_check_when_xpath xt y ≠ none)
    (hpfx : ∀ xt ns, env.xml2prefix xt ns ≠ none) :
    ∀ (y : yang_stmt) (xt : cxobj), yang_populated y = true →
      ∃ xt1, xml_default env state y xt = some xt1
  | .mk a k arg cv cvk ys, xt, hp => by
    rw [yang_populated_fields, Bool.and_eq_true] at hp
    rw [xml_default]
    split
    · exact xml_default_each_some env state hwhen hpfx ys xt hp.2
    · exact ⟨_, rfl⟩
theorem xml_default_each_some (env : DefaultsEnv) (state : Bool)
    (hwhen : ∀ xt y, env.yang_check_when_xpath xt y ≠ none)
    (hpfx : ∀ xt ns, env.xml2prefix xt ns ≠ none) :
    ∀ (ys : List yang_stmt) (xt : cxobj), yang_populated_each ys = true →
      ∃ xt1, xml_default_each env state ys xt = some xt1
  | [], xt, _ => by
    rw [xml_default_each]
    exact ⟨_, rfl⟩
  | yc :: rest, xt, hp => by
    rw [yang_populated_each_cons, Bool.and_eq_true] at hp
    rw [xml_default_each]
    obtain ⟨xt2, h2⟩ := xml_default_child_some env state hwhen hpfx yc xt hp.1
    rw [h2]
    exact xml_default_each_some env state hwhen hpfx rest xt2 hp.2
theorem xml_default_child_some (env : DefaultsEnv) (state : Bool)
    (hwhen : ∀ xt y, env.yang_check_when_xpath xt y ≠ none)
    (hpfx : ∀ xt ns, env.xml2prefix xt ns ≠ none) :
    ∀ (yc : yang_stmt) (xt : cxobj), yang_populated yc = true →
      ∃ xt1, xml_default_child env state yc xt = some xt1
  | .mk a k arg cv cvk ycs, xt, hp => by
    rw [yang_populated_fields, Bool.and_eq_true] at hp
    unfold xml_default_child
    split
    · exact ⟨_, rfl⟩
    split
    · exact ⟨_, rfl⟩
    split
    · next hk =>
      cases cv with
      | none =>
        have hk1 : k = .Y_LEAF := by simpa using hk
        subst hk1
        have := hp.1
        simp at this
      | some cv1 =>
        simp only
        split
        · cases hw : env.yang_check_when_xpath xt (.mk a k arg (some cv1) cvk ycs) with
          | none => exact absurd hw (hwhen _ _)
          | some r =>
            obtain ⟨hit, nr⟩ := r
            simp only
            split
            · exact ⟨_, rfl⟩
            · split
              · obtain ⟨xc, hxc⟩ := xml_default_create_some env hpfx
                  (.mk a k arg (some cv1) cvk ycs) xt cv1 rfl
                rw [hxc]
                exact ⟨_, rfl⟩
              · exact ⟨_, rfl⟩
        · exact ⟨_, rfl⟩
    split
    · next hk =>
      have hk1 : k = .Y_CONTAINER := by simpa using hk
      subst hk1
      split
      · cases hw : env.yang_check_when_xpath xt (.mk a .Y_CONTAINER arg cv cvk ycs) with
        | none => exact absurd hw (hwhen _ _)
        | some r =>
          obtain ⟨hit, nr⟩ := r
          simp only
          split
          · exact ⟨_, rfl⟩
          · split
            · obtain ⟨b, hb⟩ := xml_nopresence_try_some env state
                (.mk a .Y_CONTAINER arg cv cvk ycs) rfl
              rw [hb]
              cases b with
              | false => exact ⟨_, rfl⟩
              | true =>
                simp only
                obtain ⟨xc, hxc⟩ := xml_default_create1_some env hpfx
                  (.mk a .Y_CONTAINER arg cv cvk ycs) xt
                rw [hxc]
                simp only
                obtain ⟨xc1, hxc1⟩ := xml_default_each_some env state hwhen hpfx ycs xc hp.2
                rw [hxc1]
                exact ⟨_, rfl⟩
            · exact ⟨_, rfl⟩
      · exact ⟨_, rfl⟩
    split
    · split
      · exact ⟨_, rfl⟩
      · next yca _ =>
        exact xml_default_case_some env state hwhen hpfx (yang_addr yca) ycs xt hp.2
    · exact ⟨_, rfl⟩
theorem xml_default_case_some (env : DefaultsEnv) (state : Bool)
    (hwhen : ∀ xt y, env.yang_check_when_xpath xt y ≠ none)
    (hpfx : ∀ xt ns, env.xml2prefix xt ns ≠ none) (addr : Nat) :
    ∀ (ys : List yang_stmt) (xt : cxobj), yang_populated_each ys = true →
      ∃ xt1, xml_default_case env state addr ys xt = some xt1
  | [], xt, _ => by
    rw [xml_default_case]
    exact ⟨_, rfl⟩
  | y :: rest, xt, hp => by
    rw [yang_populated_each_cons, Bool.and_eq_true] at hp
    rw [xml_default_case]
    split
    · exact xml_default_some env state hwhen hpfx y xt hp.1
    · exact xml_default_case_some env state hwhen hpfx addr rest xt hp.2
end

theorem xml_default_recurse_each_some (call : cxobj → Option cxobj) (state : Bool) :
    ∀ (cs : List cxobj), (∀ c ∈ cs, is_elmnt c = true → ∃ c1, call c = some c1) →
      ∃ r, xml_default_recurse_each call state cs = some r
  | [], _ => ⟨[], by rw [xml_default_recurse_each]⟩
  | x :: rest, h => by
    obtain ⟨r, hr⟩ := xml_default_recurse_each_some call state rest
      (fun c hc => h c (List.mem_cons_of_mem _ hc))
    rw [xml_default_recurse_each, hr]
    split
    · exact ⟨_, rfl⟩
    · next hne =>
      split
      · exact ⟨_, rfl⟩
      · obtain ⟨c1, hc1⟩ := h x (List.mem_cons_self _ _) (by simpa using hne)
        rw [hc1]
        exact ⟨_, rfl⟩

/-- `xml_default_recurse(xn, state, 0)` returns 0 within the depth `fill_need xn`, when
the `when` check and the lookup of the prefix return without error and the leaf
statements are populated. -/
theorem xml_default_recurse_some (env : DefaultsEnv) (state : Bool)
    (hperm : ∀ l, (env.xml_sort l).Perm l)
    (hwhen : ∀ xt y, env.yang_check_when_xpath xt y ≠ none)
    (hpfx : ∀ xt ns, env.xml2prefix xt ns ≠ none) :
    ∀ (fuel : Nat) (x : cxobj), is_elmnt x = true → xml_populated x = true →
      fill_need x ≤ fuel → ∃ x1, xml_default_recurse env state fuel 0 x = some x1
  | 0, x, _, _, hn => by
    rw [fill_need_fields] at hn
    omega
  | fuel + 1, x, he, hp, hn => by
    rw [xml_default_recurse_zero]
    rw [fill_need_fields] at hn
    rw [xml_populated_fields, Bool.and_eq_true] at hp
    have hchild : ∀ xn1, xml_default_bound env state x = some xn1 →
        ∀ c ∈ xml_childvec xn1, is_elmnt c = true →
          ∃ c1, xml_default_recurse env state fuel 0 c = some c1 := by
      intro xn1 hd c hc hce
      have hinv := xml_default_bound_fill_inv env state hperm (fun _ => False)
        (fun _ _ _ hF => hF.elim) x xn1 he hd
      rcases hinv.2.1 c hc with h1 | h1
      · refine xml_default_recurse_some env state hperm hwhen hpfx fuel c hce
          (xml_populated_each_mem _ hp.2 c h1 hce) ?_
        have := fill_need_each_mem _ c h1 hce
        omega
      · obtain ⟨hdm, y1, hy1, hs1⟩ := h1
        cases hs : xml_spec x with
        | none =>
          rw [hs] at hy1
          cases hy1
        | some y =>
          rw [hs] at hy1 hn hp
          simp only at hy1 hn hp
          have hb := made_specs_default_below y y1 hy1
          have hnd := default_made_need c hdm y1 hs1
          refine xml_default_recurse_some env state hperm hwhen hpfx fuel c hce
            (hnd.2 (hb.2 hp.1)) ?_
          have := hb.1
          have := hnd.1
          omega
    have hb : ∃ xn1, xml_default_bound env state x = some xn1 := by
      unfold xml_default_bound
      cases hs : xml_spec x with
      | none => exact ⟨_, rfl⟩
      | some y =>
        rw [hs] at hp
        exact xml_default_some env state hwhen hpfx y x hp.1
    obtain ⟨xn1, hd⟩ := hb
    obtain ⟨r, hr⟩ := xml_default_recurse_each_some (xml_default_recurse env state fuel 0)
      state (xml_childvec xn1) (hchild xn1 hd)
    rw [hd]
    simp only [Option.bind]
    rw [hr]
    exact ⟨_, rfl⟩

/-! ## Defaults: fill and trim -/

/-- C32, counterexample. The bound config tree `<root><b>1</b><a>1</a></root>` has no
DEFAULT leaf and no empty container. `xml_default_recurse` adds the default leaf `x` and
`xml_sort` puts the children in the order of the schema; `xml_default_nopresence` with mode
2 removes `x`, and the tree that is left has `a` before `b`: it is not the tree at the
start. -/
theorem fill_trim_inverse_counterexample :
    xml_bound_config ex_o_tree_ba = true ∧
    no_default_leaf ex_o_tree_ba = true ∧
    no_empty_nopresence ex_o_tree_ba = true ∧
    xml_default_recurse ex_sort_env false 3 0 ex_o_tree_ba = some ex_o_tree_abx ∧
    xml_default_nopresence ex_sort_env 2 3 0 ex_o_tree_abx = some (false, ex_o_tree_ab) ∧
    ex_o_tree_ab ≠ ex_o_tree_ba := by
  refine ⟨by decide, by decide, by decide, rfl, rfl, ?_⟩
  intro h
  have := congrArg (fun x => (xml_childvec x).map xml_name) h
  revert this
  decide

/-- C32, amended. Let `t` be an element without a leaf that carries the DEFAULT flag and
without a (recursively) empty non-presence container, whose children, at every level, are
in the order of `xml_sort`: an order `P` in which `xml_sort` puts a new leaf or container
in its place without moving the other children (`sort_inserts`; the entries of lists and
leaf-lists may be ordered by their keys and values). Then
`xml_default_nopresence(t1, 2, 0)` gives back `t`, and answers 0, for the tree `t1` that
`xml_default_recurse(t, 0, 0)` leaves; and
`xml_default_recurse(t, 0, 0)` returns 0 when the `when` check and the lookup of the prefix
return without error and the leaf statements are populated. `fill_need t` bounds the depth
of the recursion of the first call, the depth of `t1` that of the second. -/
theorem fill_trim_inverse (env : DefaultsEnv) (P : List cxobj → Prop) (t : cxobj)
    (hperm : ∀ l, (env.xml_sort l).Perm l) (hP : sort_inserts env P)
    (he : is_elmnt t = true) (h1 : no_default_leaf t = true)
    (h2 : no_empty_nopresence t = true) (hord : children_ordered P t) :
    (∀ fuel t1, xml_default_recurse env false fuel 0 t = some t1 →
      ∀ fuel2, xml_depth t1 ≤ fuel2 →
        xml_default_nopresence env 2 fuel2 0 t1 = some (false, t)) ∧
    ((∀ xt y, env.yang_check_when_xpath xt y ≠ none) →
      (∀ xt ns, env.xml2prefix xt ns ≠ none) → xml_populated t = true →
      ∀ fuel, fill_need t ≤ fuel → ∃ t1, xml_default_recurse env false fuel 0 t = some t1) := by
  refine ⟨fun fuel t1 h fuel2 hf => ?_, fun hwhen hpfx hpop fuel hf =>
    xml_default_recurse_some env false hperm hwhen hpfx fuel t he hpop hf⟩
  obtain ⟨k1, k2, _⟩ := fill_trim env hperm P hP fuel t t1 he h1 h2 hord h
  rw [xml_default_nopresence_spec env 2 fuel2 t1 hf, k1, k2]

/-! ## Defaults: fill and trim on sorted children -/

theorem ordered_insert_first (c : cxobj) : ∀ (l : List cxobj),
    (∀ d ∈ l, ex_sort_key c ≤ ex_sort_key d) →
    l.orderedInsert (fun a b => ex_sort_key a ≤ ex_sort_key b) c = c :: l
  | [], _ => rfl
  | d :: l, h => by
    rw [List.orderedInsert, if_pos (h d (List.mem_cons_self _ _))]

/-- The sort of `ex_sort_env`, on children in order and a new last child. -/
theorem ex_sort_inserts_sorted : ∀ (cs : List cxobj) (x : cxobj), ex_sorted cs →
    ∃ a b, cs = a ++ b ∧
      (cs ++ [x]).insertionSort (fun a b => ex_sort_key a ≤ ex_sort_key b) = a ++ x :: b ∧
      ex_sorted (a ++ x :: b)
  | [], x, _ => ⟨[], [], rfl, rfl, List.pairwise_singleton _ _⟩
  | c :: cs, x, h => by
    have hc := List.pairwise_cons.1 h
    obtain ⟨a, b, hab, hsort, hs⟩ := ex_sort_inserts_sorted cs x hc.2
    rw [List.cons_append, List.insertionSort, hsort]
    cases a with
    | nil =>
      rw [List.nil_append] at hab hs ⊢
      subst hab
      have hs1 := List.pairwise_cons.1 hs
      by_cases hcx : ex_sort_key c ≤ ex_sort_key x
      · refine ⟨[c], cs, rfl, ?_, ?_⟩
        · rw [List.orderedInsert, if_pos hcx]
          rfl
        · exact List.pairwise_cons.2 ⟨fun d hd => by
            rcases List.mem_cons.1 hd with e | hd
            · subst e; exact hcx
            · exact hc.1 d hd, hs⟩
      · refine ⟨[], c :: cs, rfl, ?_, ?_⟩
        · rw [List.orderedInsert, if_neg hcx, ordered_insert_first c cs hc.1]
          rfl
        · exact List.pairwise_cons.2 ⟨fun d hd => by
            rcases List.mem_cons.1 hd with e | hd
            · subst e; omega
            · exact hs1.1 d hd, h⟩
    | cons d a =>
      subst hab
      have hcd : ex_sort_key c ≤ ex_sort_key d := hc.1 d (List.mem_cons_self _ _)
      refine ⟨c :: d :: a, b, rfl, ?_, ?_⟩
      · rw [List.cons_append, List.orderedInsert, if_pos hcd]
        rfl
      · refine List.pairwise_cons.2 ⟨fun e he => ?_, hs⟩
        have hs1 := List.pairwise_cons.1 hs
        rcases List.mem_cons.1 he with e1 | he
        · subst e1; exact hcd
        · exact Nat.le_trans hcd (hs1.1 e he)

theorem ex_sorted_same_key (a b : List cxobj) (x x1 : cxobj)
    (hk : ex_sort_key x1 = ex_sort_key x) (h : ex_sorted (a ++ x :: b)) :
    ex_sorted (a ++ x1 :: b) := by
  unfold ex_sorted at h ⊢
  have e : (a ++ x1 :: b).map ex_sort_key = (a ++ x :: b).map ex_sort_key := by
    simp [hk]
  have h1 : ((a ++ x :: b).map ex_sort_key).Pairwise (fun m n => m ≤ n) :=
    List.pairwise_map.2 h
  rw [← e] at h1
  exact List.pairwise_map.1 h1

/-- The sort of `ex_sort_env` is one that puts a new leaf or container in its place. -/
theorem ex_sort_env_inserts : sort_inserts ex_sort_env ex_sorted := by
  intro cs x y hcs _ hsp hk
  obtain ⟨a, b, hab, hsort, hs⟩ := ex_sort_inserts_sorted cs x hcs
  refine ⟨a, b, hab, hsort, fun cs1 => ex_sorted_same_key a b x _ ?_ hs⟩
  have hll : (yang_keyword_get y == rfc_6020.Y_LEAF_LIST) = false := by
    rcases hk with hk | hk <;> rw [hk] <;> rfl
  unfold ex_sort_key
  rw [xml_spec_childvec_set, hsp]
  simp only [hll, Bool.false_eq_true, if_false]

theorem ex_o_tree_l_ordered : children_ordered ex_sorted ex_o_tree_l := by
  have hch : ∀ c ∈ [ex_o_a, ex_o_l "2", ex_o_l "10"], ∃ v, xml_childvec c = [ex_body v] := by
    intro c hc
    simp only [List.mem_cons, List.mem_singleton, List.not_mem_nil, or_false] at hc
    rcases hc with rfl | rfl | rfl
    · exact ⟨"1", rfl⟩
    · exact ⟨"2", rfl⟩
    · exact ⟨"10", rfl⟩
  have hleaf : ∀ (c d : cxobj), c ∈ [ex_o_a, ex_o_l "2", ex_o_l "10"] →
      ¬ elmnt_descendant d c := by
    intro c d hc hd
    obtain ⟨v, hv⟩ := hch c hc
    match hd with
    | .child _ _ hm he =>
      rw [hv] at hm
      obtain rfl := List.mem_singleton.1 hm
      cases he
    | .deeper _ e _ hm he _ =>
      rw [hv] at hm
      obtain rfl := List.mem_singleton.1 hm
      cases he
  refine ⟨?_, fun d hd => ?_⟩
  · show ex_sorted [ex_o_a, ex_o_l "2", ex_o_l "10"]
    unfold ex_sorted
    decide
  · match hd with
    | .child _ _ hm _ =>
      obtain ⟨v, hv⟩ := hch d hm
      rw [hv]
      exact List.pairwise_singleton _ _
    | .deeper _ c _ hm _ hdc => exact absurd hdc (hleaf c d hm)

/-- C32, the amended statement on `<root><a>1</a><l>2</l><l>10</l></root>` and the schema
`container root { leaf a; leaf b; leaf-list l; leaf x { default 7; } }`, for a sort by the
order of the schema and, within the leaf-list, by value: the first call adds `<x>7</x>`,
the second call gives back the tree. -/
theorem fill_trim_inverse_witness :
    is_elmnt ex_o_tree_l = true ∧ no_default_leaf ex_o_tree_l = true ∧
    no_empty_nopresence ex_o_tree_l = true ∧
    xml_default_recurse ex_sort_env false 3 0 ex_o_tree_l = some ex_o_tree_lx ∧
    xml_default_nopresence ex_sort_env 2 3 0 ex_o_tree_lx = some (false, ex_o_tree_l) ∧
    ∃ t1, xml_default_recurse ex_sort_env false (fill_need ex_o_tree_l) 0 ex_o_tree_l =
      some t1 :=
  ⟨rfl, by decide, by decide, rfl,
   (fill_trim_inverse ex_sort_env ex_sorted ex_o_tree_l
      (fun l => List.perm_insertionSort _ l) ex_sort_env_inserts rfl (by decide) (by decide)
      ex_o_tree_l_ordered).1 3 ex_o_tree_lx rfl 3 (by decide),
   (fill_trim_inverse ex_sort_env ex_sorted ex_o_tree_l
      (fun l => List.perm_insertionSort _ l) ex_sort_env_inserts rfl (by decide) (by decide)
      ex_o_tree_l_ordered).2 (fun _ _ h => by cases h) (fun _ _ h => by cases h) (by decide)
      _ (Nat.le_refl _)⟩

/-! ## Unique soundness and unbound elements -/

theorem ex_c_kv_dup_unbound_contiguous :
    entries_contiguous (xml_childvec ex_c_kv_dup_unbound) := by
  intro L l1 a l2 b l3 h hk ha hb m hm hbm
  have hcs : xml_childvec ex_c_kv_dup_unbound =
      [ex_entry_kv "a" "1", ex_unbound, ex_entry_kv "b" "1"] := rfl
  rw [hcs] at h
  have hmem : ∀ z, z ∈ l1 ++ a :: (l2 ++ b :: l3) →
      z = ex_entry_kv "a" "1" ∨ z = ex_unbound ∨ z = ex_entry_kv "b" "1" := by
    intro z hz
    rw [← h] at hz
    simpa using hz
  have hL : ∀ z, z = ex_entry_kv "a" "1" ∨ z = ex_unbound ∨ z = ex_entry_kv "b" "1" →
      bound_to L z = true → yang_same L ex_list_uv = true := by
    intro z hz hbz
    rcases hz with rfl | rfl | rfl
    · simpa [bound_to, ex_entry_kv, xml_spec, is_elmnt, xml_type, yang_ptr_eq] using hbz
    · simp [bound_to, ex_unbound, xml_spec, is_elmnt, xml_type, yang_ptr_eq] at hbz
    · simpa [bound_to, ex_entry_kv, xml_spec, is_elmnt, xml_type, yang_ptr_eq] using hbz
  have hLa := hL a (hmem a (by simp)) ha
  rcases hmem m (by simp [hm]) with rfl | rfl | rfl
  · simpa [bound_to, ex_entry_kv, xml_spec, is_elmnt, xml_type, yang_ptr_eq] using hLa
  · simp [is_bound_elmnt, ex_unbound, xml_spec, is_elmnt, xml_type] at hbm
  · simpa [bound_to, ex_entry_kv, xml_spec, is_elmnt, xml_type, yang_ptr_eq] using hLa

/-- C5. Unique soundness fails for a run with an unbound element inside. In
`<c><x><k>a</k><v>1</v></x><u/><x><k>b</k><v>1</v></x></c>` the entries of
`list x { key "k"; unique "v"; .. }` are contiguous (`<u/>` is not bound) and both have the
tuple `1` over `v`, and `xml_yang_validate_unique` returns 1: the scans of the run stop at
`<u/>`, while the traversal passes over it and goes on with the same run. Without `<u/>`
the same entries are rejected with data-not-unique. -/
theorem validate_unique_unbound_inside :
    entries_contiguous (xml_childvec ex_c_kv_dup_unbound) ∧
    ex_unique_v 81 ∈ yang_children ex_list_uv ∧
    key_tuple (ex_entry_kv "a" "1") (yang_cvec_get (ex_unique_v 81)) = some ["1"] ∧
    key_tuple (ex_entry_kv "b" "1") (yang_cvec_get (ex_unique_v 81)) = some ["1"] ∧
    xml_yang_validate_unique ex_none ex_c_kv_dup_unbound = .ok ∧
    xml_yang_validate_unique ex_none ex_c_kv_dup =
      .fail (some (.data_not_unique (ex_entry_kv "b" "1") ["v"])) none :=
  ⟨ex_c_kv_dup_unbound_contiguous, List.Mem.head _, rfl, rfl, rfl, rfl⟩

/-! ## Defaults: xml_default_nopresence on plain leaves -/

theorem leaves_plain_fields (x : cxobj) :
    leaves_plain x = (leaf_plain x && leaves_plain_each (xml_childvec x)) := by
  cases x with
  | mk n t f s v cs =>
    conv_lhs => unfold leaves_plain
    rfl

theorem leaves_plain_each_cons (c : cxobj) (rest : List cxobj) :
    leaves_plain_each (c :: rest) =
      ((!is_elmnt c || leaves_plain c) && leaves_plain_each rest) := by
  rw [leaves_plain_each]

theorem leaves_plain_each_mem : ∀ (cs : List cxobj), leaves_plain_each cs = true →
    ∀ c ∈ cs, is_elmnt c = true → leaves_plain c = true
  | [], _, _, hc, _ => by cases hc
  | x :: rest, h, c, hc, he => by
    rw [leaves_plain_each_cons, Bool.and_eq_true] at h
    rcases List.mem_cons.1 hc with e | hc
    · subst e
      simpa [he] using h.1
    · exact leaves_plain_each_mem rest h.2 c hc he

theorem leaves_plain_descendant (d x : cxobj) (h : elmnt_descendant d x) :
    leaves_plain x = true → leaves_plain d = true := by
  induction h with
  | child y hd he =>
    intro hp
    rw [leaves_plain_fields, Bool.and_eq_true] at hp
    exact leaves_plain_each_mem _ hp.2 d hd he
  | deeper c y hc he _ ih =>
    intro hp
    rw [leaves_plain_fields, Bool.and_eq_true] at hp
    exact ih (leaves_plain_each_mem _ hp.2 c hc he)

theorem xml_flag_childvec_set (x : cxobj) (cs : List cxobj) (flag : Nat) :
    xml_flag (xml_childvec_set x cs) flag = xml_flag x flag := by
  cases x; rfl

/-- A `leaf_plain` element bound to a leaf, with `XML_FLAG_DEFAULT`, has no element
child. -/
theorem leaf_plain_no_elmnt (x : cxobj) (y : yang_stmt) (hp : leaf_plain x = true)
    (hs : xml_spec x = some y) (hk : yang_keyword_get y = .Y_LEAF)
    (hf : xml_flag x XML_FLAG_DEFAULT ≠ 0) :
    ∀ ch ∈ xml_childvec x, is_elmnt ch = false := by
  unfold leaf_plain at hp
  rw [hs] at hp
  have hf1 : (xml_flag x XML_FLAG_DEFAULT == 0) = false := by simpa using hf
  simp only [hk, bne_self_eq_false, Bool.false_or, hf1, List.all_eq_true] at hp
  intro ch hc
  simpa using hp ch hc

/-- An element that stays below a tree pruned with mode 2 is the pruned form of an element
of the tree. -/
theorem nopresence_pruned_origin (env : DefaultsEnv) (d y : cxobj)
    (h : elmnt_descendant d y) :
    ∀ x, y = nopresence_pruned env 2 x →
      ∃ d0, elmnt_descendant d0 x ∧ d = nopresence_pruned env 2 d0 := by
  induction h with
  | child y hd he =>
    intro x e
    rw [e, nopresence_pruned_fields, xml_childvec_set_get] at hd
    obtain ⟨c, hc, hce, e1, _⟩ := nopresence_pruned_each_mem env 2 _ _ d hd he
    exact ⟨c, .child c x hc hce, e1⟩
  | deeper c y hc he _ ih =>
    intro x e
    rw [e, nopresence_pruned_fields, xml_childvec_set_get] at hc
    obtain ⟨c0, hc0, hce0, e1, _⟩ := nopresence_pruned_each_mem env 2 _ _ c hc he
    obtain ⟨d0, hd0, ed⟩ := ih c0 e1
    exact ⟨d0, .deeper d0 c0 x hc0 hce0 hd0, ed⟩

/-- C29. On a tree of depth at most `fuel`, and for a node `xn` that, if it is bound to a
leaf and carries `XML_FLAG_DEFAULT`, has no element child, `xml_default_nopresence(xn, mode, 0)` returns, and it returns
1 if and only if `xn` is bound to a container without `presence` for each of whose element
children the same call returns 1, or `xn` is bound to a leaf, carries `XML_FLAG_DEFAULT` and
`mode` is not 3; for every other node, an unbound one included, it returns 0. -/
theorem nopresence_returns_iff (env : DefaultsEnv) (mode fuel : Nat) (xn : cxobj)
    (hfuel : xml_depth xn ≤ fuel) (hleaf : leaf_plain xn = true) :
    ∃ r xn1, xml_default_nopresence env mode fuel 0 xn = some (r, xn1) ∧
      (r = true ↔
        ((∃ yn, xml_spec xn = some yn ∧ yang_keyword_get yn = .Y_CONTAINER ∧
            yang_find yn .Y_PRESENCE none = none ∧
            ∀ x ∈ xml_childvec xn, is_elmnt x = true →
              ∃ x1, xml_default_nopresence env mode fuel 0 x = some (true, x1)) ∨
         (∃ yn, xml_spec xn = some yn ∧ yang_keyword_get yn = .Y_LEAF ∧
            xml_flag xn XML_FLAG_DEFAULT ≠ 0 ∧ mode ≠ 3))) := by
  obtain ⟨r, xn1, hcall, hiff⟩ := nopresence_returns env mode fuel xn hfuel
  refine ⟨r, xn1, hcall, ?_⟩
  rw [hiff]
  constructor
  · rintro ⟨⟨yn, hs, hk | hk⟩, hch⟩
    · exact Or.inl ⟨yn, hs, hk.1, hk.2, hch⟩
    · exact Or.inr ⟨yn, hs, hk.1, hk.2.1, hk.2.2⟩
  · rintro (⟨yn, hs, hk, hp, hch⟩ | ⟨yn, hs, hk, hf, hm⟩)
    · exact ⟨⟨yn, hs, Or.inl ⟨hk, hp⟩⟩, hch⟩
    · refine ⟨⟨yn, hs, Or.inr ⟨hk, hf, hm⟩⟩, fun x hx he => ?_⟩
      rw [leaf_plain_no_elmnt xn yn hleaf hs hk hf x hx] at he
      cases he

/-- C29 on `<x>7</x>`, a leaf made from its default, with mode 2 and with mode 3, and on
the container `<b><x>7</x></b>`. -/
theorem nopresence_returns_iff_witness :
    xml_default_nopresence ex_env 2 3 0
      (.mk "x" .CX_ELMNT XML_FLAG_DEFAULT (some ex_leaf_x7) none [ex_body "7"]) =
      some (true, .mk "x" .CX_ELMNT XML_FLAG_DEFAULT (some ex_leaf_x7) none [ex_body "7"]) ∧
    xml_default_nopresence ex_env 3 3 0
      (.mk "x" .CX_ELMNT XML_FLAG_DEFAULT (some ex_leaf_x7) none [ex_body "7"]) =
      some (false, .mk "x" .CX_ELMNT XML_FLAG_DEFAULT (some ex_leaf_x7) none [ex_body "7"]) ∧
    ∃ r xn1, xml_default_nopresence ex_env 2 5 0 ex_root_filled = some (r, xn1) ∧
      (r = true ↔
        ((∃ yn, xml_spec ex_root_filled = some yn ∧ yang_keyword_get yn = .Y_CONTAINER ∧
            yang_find yn .Y_PRESENCE none = none ∧
            ∀ x ∈ xml_childvec ex_root_filled, is_elmnt x = true →
              ∃ x1, xml_default_nopresence ex_env 2 5 0 x = some (true, x1)) ∨
         (∃ yn, xml_spec ex_root_filled = some yn ∧ yang_keyword_get yn = .Y_LEAF ∧
            xml_flag ex_root_filled XML_FLAG_DEFAULT ≠ 0 ∧ 2 ≠ 3))) :=
  ⟨rfl, rfl, nopresence_returns_iff ex_env 2 5 ex_root_filled (by decide) (by decide)⟩

/-- C30. On a tree of depth at most `fuel` in which no element that is bound to a leaf
and carries `XML_FLAG_DEFAULT` has an element child, `xml_default_nopresence(xn, 2, 0)` returns and leaves `xn` in place, with
other children. After the call no element below `xn` is bound to a leaf and carries
`XML_FLAG_DEFAULT`, and none is bound to a container without `presence` and has no element
child. The tree left is the pruned tree: from the children of `xn` and of every element
that stays, the elements that are `default_only` (bound to a leaf with `XML_FLAG_DEFAULT`
or to a container without `presence`, with elements of that kind only below them) are
removed, and no other node is. -/
theorem nopresence_mode2_removes (env : DefaultsEnv) (fuel : Nat) (xn : cxobj)
    (hfuel : xml_depth xn ≤ fuel) (hpl : leaves_plain xn = true) :
    ∃ r xn1, xml_default_nopresence env 2 fuel 0 xn = some (r, xn1) ∧
      xn1 = xml_childvec_set xn (xml_childvec xn1) ∧
      (∀ d, elmnt_descendant d xn1 → ∀ y, xml_spec d = some y →
        ¬(yang_keyword_get y = .Y_LEAF ∧ xml_flag d XML_FLAG_DEFAULT ≠ 0) ∧
        ¬(yang_keyword_get y = .Y_CONTAINER ∧ yang_find y .Y_PRESENCE none = none ∧
          ∀ ch ∈ xml_childvec d, is_elmnt ch = false)) ∧
      xn1 = nopresence_pruned env 2 xn ∧
      (∀ x, xml_childvec (nopresence_pruned env 2 x) =
        ((xml_childvec x).filter fun c => !(is_elmnt c && nopresence_value 2 c)).map
          fun c => if is_elmnt c then nopresence_pruned env 2 c else c) ∧
      (∀ x, nopresence_value 2 x = true ↔ default_only x) := by
  refine ⟨_, _, xml_default_nopresence_spec env 2 fuel xn hfuel, ?_, fun d hd y hs => ?_, rfl,
    fun x => ?_, fun x => ⟨nopresence_value_default_only x, default_only_value x⟩⟩
  · rw [nopresence_pruned_fields, xml_childvec_set_get]
  · have hchild : nopresence_kind 2 d → ∃ ch ∈ xml_childvec d, is_elmnt ch = true := by
      intro hk
      have hv := nopresence_pruned_descendant env d _ hd xn rfl
      rw [nopresence_value_fields, (nopresence_rmx_iff 2 d).2 hk, Bool.true_and] at hv
      by_contra hno
      have : nopresence_value_each 2 (xml_childvec d) = true := by
        rw [nopresence_value_each_iff]
        intro x hx he
        exact absurd ⟨x, hx, he⟩ hno
      rw [this] at hv
      cases hv
    constructor
    · rintro ⟨hk, hf⟩
      obtain ⟨ch, hch, hce⟩ := hchild ⟨y, hs, Or.inr ⟨hk, hf, by decide⟩⟩
      obtain ⟨d0, hd0, ed⟩ := nopresence_pruned_origin env d _ hd xn rfl
      have hp0 := leaves_plain_descendant d0 xn hd0 hpl
      rw [leaves_plain_fields, Bool.and_eq_true] at hp0
      have hs0 : xml_spec d0 = some y := by
        rw [ed, nopresence_pruned_fields, xml_spec_childvec_set] at hs
        exact hs
      have hf0 : xml_flag d0 XML_FLAG_DEFAULT ≠ 0 := by
        rw [ed, nopresence_pruned_fields, xml_flag_childvec_set] at hf
        exact hf
      rw [ed, nopresence_pruned_fields, xml_childvec_set_get] at hch
      obtain ⟨c, hc, hcc, _, _⟩ := nopresence_pruned_each_mem env 2 _ _ ch hch hce
      rw [leaf_plain_no_elmnt d0 y hp0.1 hs0 hk hf0 c hc] at hcc
      cases hcc
    · rintro ⟨hk, hp, hno⟩
      obtain ⟨ch, hch, hce⟩ := hchild ⟨y, hs, Or.inl ⟨hk, hp⟩⟩
      rw [hno ch hch] at hce
      cases hce
  · rw [nopresence_pruned_fields, xml_childvec_set_get, nopresence_pruned_each_two]

/-- C30 on `<root><a><b><x>7</x></b></a></root>` with the default leaf `x`: the call
empties `root`. -/
theorem nopresence_mode2_removes_witness :
    leaves_plain ex_root_filled = true ∧
    xml_default_nopresence ex_env 2 5 0 ex_root_filled = some (true, ex_root_empty) ∧
    ∃ r xn1, xml_default_nopresence ex_env 2 5 0 ex_root_filled = some (r, xn1) ∧
      xn1 = xml_childvec_set ex_root_filled (xml_childvec xn1) ∧
      (∀ d, elmnt_descendant d xn1 → ∀ y, xml_spec d = some y →
        ¬(yang_keyword_get y = .Y_LEAF ∧ xml_flag d XML_FLAG_DEFAULT ≠ 0) ∧
        ¬(yang_keyword_get y = .Y_CONTAINER ∧ yang_find y .Y_PRESENCE none = none ∧
          ∀ ch ∈ xml_childvec d, is_elmnt ch = false)) ∧
      xn1 = nopresence_pruned ex_env 2 ex_root_filled ∧
      (∀ x, xml_childvec (nopresence_pruned ex_env 2 x) =
        ((xml_childvec x).filter fun c => !(is_elmnt c && nopresence_value 2 c)).map
          fun c => if is_elmnt c then nopresence_pruned ex_env 2 c else c) ∧
      (∀ x, nopresence_value 2 x = true ↔ default_only x) :=
  ⟨by decide, rfl, nopresence_mode2_removes ex_env 5 ex_root_filled (by decide) (by decide)⟩

/-! ## Defaults: a second pass with choices -/

theorem bound_case_congr (env : DefaultsEnv) (yc : yang_stmt) (x x1 : cxobj)
    (he : is_elmnt x1 = is_elmnt x) (hs : xml_spec x1 = xml_spec x) :
    bound_case env yc x1 = bound_case env yc x := by
  unfold bound_case
  rw [he, hs]

theorem bound_case_elmnt (env : DefaultsEnv) (yc : yang_stmt) (x : cxobj) (c : yang_stmt)
    (h : bound_case env yc x = some c) : is_elmnt x = true :=
  ((bound_case_some env yc x c).1 h).1

theorem covers_spec_covers {xt xt1 : cxobj} (h : covers_spec xt xt1) : covers xt xt1 := by
  intro x hx he
  obtain ⟨x1, hx1, he1, hn1, _⟩ := h x hx he
  exact ⟨x1, hx1, he1, hn1⟩

theorem covers_spec_of_subset {a b c : cxobj}
    (h : ∀ x ∈ xml_childvec a, x ∈ xml_childvec b) (h2 : covers_spec b c) :
    covers_spec a c :=
  fun x hx he => h2 x (h x hx) he

/-- A child bound under a choice has a counterpart bound under the same case. -/
theorem covers_spec_bound {env : DefaultsEnv} {yc c : yang_stmt} {xt xt1 x : cxobj}
    (h : covers_spec xt xt1) (hx : x ∈ xml_childvec xt) (hb : bound_case env yc x = some c) :
    ∃ x1 ∈ xml_childvec xt1, bound_case env yc x1 = some c := by
  obtain ⟨x1, hx1, he1, _, hs1⟩ := h x hx (bound_case_elmnt env yc x c hb)
  refine ⟨x1, hx1, ?_⟩
  rw [bound_case_congr env yc x x1 (by rw [he1, bound_case_elmnt env yc x c hb]) hs1]
  exact hb

theorem settled_mono {env : DefaultsEnv} {s1 s2 : List yang_stmt} {xt xt1 : cxobj}
    (h : settled env s2 xt xt1) (hs : ∀ y ∈ s1, y ∈ s2) : settled env s1 xt xt1 :=
  fun yc hyc => h yc (hs yc hyc)

theorem met_choices_each_cons (y : yang_stmt) (rest : List yang_stmt) :
    met_choices_each (y :: rest) = met_choices y ++ met_choices_each rest := by
  rw [met_choices_each]

theorem met_choices_cases_cons (c : yang_stmt) (rest : List yang_stmt) :
    met_choices_cases (c :: rest) = met_choices_default c ++ met_choices_cases rest := by
  rw [met_choices_cases]

theorem met_choices_choice (a : Nat) (arg : String) (cv : Option cg_var) (cvk : List String)
    (ys : List yang_stmt) :
    met_choices (.mk a .Y_CHOICE arg cv cvk ys) =
      .mk a .Y_CHOICE arg cv cvk ys :: met_choices_cases ys := by
  rw [met_choices]
  rfl

theorem case_get_sound_each_cons (env : DefaultsEnv) (y : yang_stmt) (rest : List yang_stmt) :
    case_get_sound_each env (y :: rest) =
      (case_get_sound env y ∧ case_get_sound_each env rest ∧
        ∀ yc ∈ met_choices y, ∀ s ∈ made_specs_each rest, ∀ c ch,
          env.yang_choice_case_get s = some (c, ch) → yang_same ch yc = false) := by
  rw [case_get_sound_each]

theorem case_get_sound_cases_cons (env : DefaultsEnv) (c : yang_stmt) (rest : List yang_stmt) :
    case_get_sound_cases env (c :: rest) =
      (case_get_sound_default env c ∧ case_get_sound_cases env rest) := by
  rw [case_get_sound_cases]

theorem present_none_iff (env : DefaultsEnv) (yc : yang_stmt) (cs : List cxobj) :
    xml_default_choice_present env yc cs = none ↔ ∀ x ∈ cs, bound_case env yc x = none := by
  rw [xml_default_choice_present_eq, List.findSome?_eq_none_iff]

theorem present_some (env : DefaultsEnv) (yc yca : yang_stmt) (cs : List cxobj)
    (h : xml_default_choice_present env yc cs = some yca) :
    ∃ x ∈ cs, bound_case env yc x = some yca := by
  rw [xml_default_choice_present_eq] at h
  exact List.exists_of_findSome?_eq_some h

/-- The case that the second pass takes for a choice is the case that the first pass
took. -/
theorem xml_default_choice_case_again (env : DefaultsEnv) (state : Bool)
    (hperm : ∀ l, (env.xml_sort l).Perm l) (yc : yang_stmt) (xt xt2 xt1 : cxobj)
    (hxt : xml_type xt = .CX_ELMNT)
    (hcase : ∀ c ∈ yang_children yc, ∀ s ∈ made_specs_default c, ∀ c1 ch,
      env.yang_choice_case_get s = some (c1, ch) → yang_same ch yc = true →
      yang_addr c1 = yang_addr c)
    (hone : one_case env yc xt1) (hsub : ∀ x ∈ xml_childvec xt, x ∈ xml_childvec xt2)
    (hcov : covers_spec xt2 xt1) (hset : settled env [yc] xt2 xt1)
    (h : xml_default_choice env state yc xt = some xt2) :
    ∀ yca2, xml_default_choice_case env yc xt1 = some yca2 →
      ∃ yca1, xml_default_choice_case env yc xt = some yca1 ∧
        yang_addr yca2 = yang_addr yca1 := by
  intro yca2 h2
  unfold xml_default_choice_case at h2
  cases hp2 : xml_default_choice_present env yc (xml_childvec xt1) with
  | some y2 =>
    rw [hp2] at h2
    injection h2 with h2
    subst h2
    obtain ⟨x2, hx2, hb2⟩ := present_some env yc y2 _ hp2
    cases hp1 : xml_default_choice_present env yc (xml_childvec xt) with
    | some y1 =>
      refine ⟨y1, by unfold xml_default_choice_case; rw [hp1], ?_⟩
      obtain ⟨x0, hx0, hb0⟩ := present_some env yc y1 _ hp1
      obtain ⟨x0a, hx0a, hb0a⟩ := covers_spec_bound hcov (hsub x0 hx0) hb0
      exact hone x2 hx2 x0a hx0a y2 y1 hb2 hb0a
    | none =>
      have hnone := (present_none_iff env yc _).1 hp1
      obtain ⟨xb, hxb, cb, hbb⟩ := hset yc (List.mem_singleton.2 rfl) x2 hx2 y2 hb2
      obtain ⟨xba, hxba, hbba⟩ := covers_spec_bound hcov hxb hbb
      have e1 : yang_addr y2 = yang_addr cb := hone x2 hx2 xba hxba y2 cb hb2 hbba
      unfold xml_default_choice at h
      cases hsel : xml_default_choice_case env yc xt with
      | none =>
        rw [hsel] at h
        injection h with h
        subst h
        rw [hnone xb hxb] at hbb
        cases hbb
      | some y1 =>
        rw [hsel] at h
        refine ⟨y1, rfl, ?_⟩
        rcases (xml_default_case_made_specs env state hperm yc _ xt xt2 hxt h).2.2 xb hxb
          with h1 | h1
        · rw [hnone xb h1] at hbb
          cases hbb
        · obtain ⟨s, hs, ch, hget, hsame⟩ := made_of_bound_case h1 hbb
          unfold made_specs_case at hs
          cases hf : (yang_children yc).find? (fun c => yang_addr c == yang_addr y1) with
          | none => rw [hf] at hs; cases hs
          | some cp =>
            rw [hf] at hs
            have h2 := hcase cp (List.mem_of_find?_eq_some hf) s hs cb ch hget hsame
            have h3 := List.find?_some hf
            rw [e1, h2]
            simpa using h3
  | none =>
    rw [hp2] at h2
    have hnone2 := (present_none_iff env yc _).1 hp2
    have hp1 : xml_default_choice_present env yc (xml_childvec xt) = none := by
      rw [present_none_iff]
      intro x hx
      cases hb : bound_case env yc x with
      | none => rfl
      | some c =>
        obtain ⟨xa, hxa, hba⟩ := covers_spec_bound hcov (hsub x hx) hb
        rw [hnone2 xa hxa] at hba
        cases hba
    refine ⟨yca2, ?_, rfl⟩
    unfold xml_default_choice_case
    rw [hp1]
    exact h2

mutual
/-- `xml_default`, made again on a tree that holds the elements the first call left, with
children bound under one case of every choice met, changes nothing. -/
theorem xml_default_anew (env : DefaultsEnv) (state : Bool)
    (hperm : ∀ l, (env.xml_sort l).Perm l) (hst : when_stable env) :
    ∀ (y : yang_stmt) (xt xt2 xt1 : cxobj), xml_type xt = .CX_ELMNT →
      xml_type xt1 = .CX_ELMNT → case_get_sound_default env y →
      (∀ yc ∈ met_choices_default y, one_case env yc xt1) →
      xml_default env state y xt = some xt2 → covers_spec xt2 xt1 →
      settled env (met_choices_default y) xt2 xt1 →
      xml_default env state y xt1 = some xt1
  | .mk a k arg cv cvk ys, xt, xt2, xt1, hxt, hxt1, hs, hone, h, hcov, hset => by
    rw [xml_default] at h ⊢
    rw [case_get_sound_default] at hs
    rw [met_choices_default] at hone hset
    split
    · next hkw =>
      rw [if_pos hkw] at h hone hset
      exact xml_default_each_anew env state hperm hst ys xt xt2 xt1 hxt hxt1 (hs hkw) hone h
        hcov hset
    · rfl
/-- The loop of `xml_default`, made again. -/
theorem xml_default_each_anew (env : DefaultsEnv) (state : Bool)
    (hperm : ∀ l, (env.xml_sort l).Perm l) (hst : when_stable env) :
    ∀ (ys : List yang_stmt) (xt xt2 xt1 : cxobj), xml_type xt = .CX_ELMNT →
      xml_type xt1 = .CX_ELMNT → case_get_sound_each env ys →
      (∀ yc ∈ met_choices_each ys, one_case env yc xt1) →
      xml_default_each env state ys xt = some xt2 → covers_spec xt2 xt1 →
      settled env (met_choices_each ys) xt2 xt1 →
      xml_default_each env state ys xt1 = some xt1
  | [], xt, xt2, xt1, _, _, _, _, _, _, _ => by
    rw [xml_default_each]
  | y :: rest, xt, xt2, xt1, hxt, hxt1, hs, hone, h, hcov, hset => by
    rw [xml_default_each] at h
    rw [case_get_sound_each_cons] at hs
    rw [met_choices_each_cons] at hone hset
    obtain ⟨hs1, hs2, hsib⟩ := hs
    cases hc : xml_default_child env state y xt with
    | none => rw [hc] at h; cases h
    | some xta =>
      rw [hc] at h
      have i1 := xml_default_child_inv env state hperm y xt xta hxt hc
      have hxta : xml_type xta = .CX_ELMNT := by rw [default_inv_type i1]; exact hxt
      have i2 := xml_default_each_made env state hperm rest xta xt2 hxta h
      have hset1 : settled env (met_choices y) xta xt1 := by
        intro yc hyc x1 hx1 c hb
        obtain ⟨x2, hx2, c2, hb2⟩ := hset yc (List.mem_append_left _ hyc) x1 hx1 c hb
        rcases i2.2.2 x2 hx2 with h1 | ⟨h1, _⟩
        · exact ⟨x2, h1, c2, hb2⟩
        · obtain ⟨s, hsm, ch, hget, hsame⟩ := made_of_bound_case h1 hb2
          rw [hsib yc hyc s hsm c2 ch hget] at hsame
          cases hsame
      rw [xml_default_each, xml_default_child_anew env state hperm hst y xt xta xt1 hxt hxt1
        hs1 (fun yc hyc => hone yc (List.mem_append_left _ hyc)) hc
        (covers_spec_of_subset i2.2.1 hcov) hset1]
      exact xml_default_each_anew env state hperm hst rest xta xt2 xt1 hxta hxt1 hs2
        (fun yc hyc => hone yc (List.mem_append_right _ hyc)) h hcov
        (settled_mono hset (fun yc hyc => List.mem_append_right _ hyc))
/-- The pass of `xml_default` for one child statement, made again. -/
theorem xml_default_child_anew (env : DefaultsEnv) (state : Bool)
    (hperm : ∀ l, (env.xml_sort l).Perm l) (hst : when_stable env) :
    ∀ (y : yang_stmt) (xt xt2 xt1 : cxobj), xml_type xt = .CX_ELMNT →
      xml_type xt1 = .CX_ELMNT → case_get_sound env y →
      (∀ yc ∈ met_choices y, one_case env yc xt1) →
      xml_default_child env state y xt = some xt2 → covers_spec xt2 xt1 →
      settled env (met_choices y) xt2 xt1 →
      xml_default_child env state y xt1 = some xt1
  | .mk a k arg cv cvk ycs, xt, xt2, xt1, hxt, hxt1, hs, hone, h, hcov, hset => by
    by_cases hk : k = .Y_CHOICE
    case neg =>
      exact xml_default_child_again env state hperm hst _ xt xt2 xt1 hxt hxt1 hk h
        (covers_spec_covers hcov)
    subst hk
    by_cases hg : guard_pass env state (.mk a .Y_CHOICE arg cv cvk ycs) = true
    case neg => exact xml_default_child_guard_skip env state _ xt1 (by simpa using hg)
    have i1 := xml_default_child_inv env state hperm _ xt xt2 hxt h
    rw [xml_default_child_choice env state (.mk a .Y_CHOICE arg cv cvk ycs) _ rfl hg] at h ⊢
    rw [case_get_sound] at hs
    obtain ⟨hcase, hscases⟩ := hs rfl
    rw [met_choices_choice] at hone hset
    have hagain := xml_default_choice_case_again env state hperm
      (.mk a .Y_CHOICE arg cv cvk ycs) xt xt2 xt1 hxt hcase
      (hone _ (List.mem_cons_self _ _)) i1.2.1 hcov
      (settled_mono hset (fun yc hyc => by
        rw [List.mem_singleton.1 hyc]
        exact List.mem_cons_self _ _)) h
    unfold xml_default_choice at h ⊢
    cases hsel2 : xml_default_choice_case env (.mk a .Y_CHOICE arg cv cvk ycs) xt1 with
    | none => rfl
    | some yca2 =>
      obtain ⟨yca1, hsel1, e⟩ := hagain yca2 hsel2
      rw [hsel1] at h
      simp only at h ⊢
      rw [e]
      exact xml_default_case_anew env state hperm hst (yang_addr yca1) ycs xt xt2 xt1 hxt hxt1
        hscases (fun yc hyc => hone yc (List.mem_cons_of_mem _ hyc)) h hcov
        (settled_mono hset (fun yc hyc => List.mem_cons_of_mem _ hyc))
/-- The call of `xml_default` for the case of a choice, made again. -/
theorem xml_default_case_anew (env : DefaultsEnv) (state : Bool)
    (hperm : ∀ l, (env.xml_sort l).Perm l) (hst : when_stable env) (addr : Nat) :
    ∀ (ys : List yang_stmt) (xt xt2 xt1 : cxobj), xml_type xt = .CX_ELMNT →
      xml_type xt1 = .CX_ELMNT → case_get_sound_cases env ys →
      (∀ yc ∈ met_choices_cases ys, one_case env yc xt1) →
      xml_default_case env state addr ys xt = some xt2 → covers_spec xt2 xt1 →
      settled env (met_choices_cases ys) xt2 xt1 →
      xml_default_case env state addr ys xt1 = some xt1
  | [], xt, xt2, xt1, _, _, _, _, _, _, _ => by
    rw [xml_default_case]
  | c :: rest, xt, xt2, xt1, hxt, hxt1, hs, hone, h, hcov, hset => by
    rw [xml_default_case] at h ⊢
    rw [case_get_sound_cases_cons] at hs
    rw [met_choices_cases_cons] at hone hset
    split
    · next ha =>
      rw [if_pos ha] at h
      exact xml_default_anew env state hperm hst c xt xt2 xt1 hxt hxt1 hs.1
        (fun yc hyc => hone yc (List.mem_append_left _ hyc)) h hcov
        (settled_mono hset (fun yc hyc => List.mem_append_left _ hyc))
    · next ha =>
      rw [if_neg ha] at h
      exact xml_default_case_anew env state hperm hst addr rest xt xt2 xt1 hxt hxt1 hs.2
        (fun yc hyc => hone yc (List.mem_append_right _ hyc)) h hcov
        (settled_mono hset (fun yc hyc => List.mem_append_right _ hyc))
end

end Clixon
